import Mathlib

/-!
# Fossil: epoch, super-block and snapshot code of `fs.c`

A shallow embedding of `sys/src/cmd/fossil/fs.c` (with the declarations of
`dat.h`).  The functions of `fs.c` are translated one for one.  Every call that
leaves `fs.c` (cache, disk, file tree, venti session, locks) is recorded as an
`Event` in the trace of the `World`, and what such a call returns is read from
an `Env`, a record of functions of the trace so far: the theorems hold for
every `Env`, that is for every behaviour of the code outside `fs.c`.

Machine integers are naturals (or integers) reduced explicitly: `u32`, `u64`.
Diagnostic output (`fprint(2, ...)`) is not modelled.
-/

namespace Fossil

/-! ## Machine arithmetic -/

/-- Value of an expression of type `u32int`. -/
def u32 (n : Nat) : Nat := n % 2 ^ 32

/-- Value of an expression of type `u64int`. -/
def u64 (n : Nat) : Nat := n % 2 ^ 64

/-- Value of an expression of type `uchar`. -/
def u8 (n : Nat) : Nat := n % 2 ^ 8

/-- Value of an expression of type `int` (32 bits, two's complement). -/
def i32 (x : Int) : Int := (x + 2 ^ 31) % 2 ^ 32 - 2 ^ 31

/-! ## Constants of `dat.h` -/

/-- From `dat.h`: `RootTag = 1`. -/
def RootTag : Nat := 1

/-- From `dat.h`: `BtDir = 1<<3`. -/
def BtDir : Nat := 1 <<< 3

/-- From `dat.h`: `PartSuper` is the second member of the partition enum. -/
def PartSuper : Nat := 1

/-- From `dat.h`: io state `BioClean`. -/
def BioClean : Nat := 2

/-- From `dat.h`: io state `BioDirty`. -/
def BioDirty : Nat := 3

/-- From `dat.h`: io state `BioWriting`. -/
def BioWriting : Nat := 5

/-- From `dat.h`: `BsClosed = 1<<3`. -/
def BsClosed : Nat := 1 <<< 3

/-- From `dat.h`: `BsFree = 0`. -/
def BsFree : Nat := 0

/-- From `dat.h`: `BsBad = 0xFF`. -/
def BsBad : Nat := 0xFF

/-- From `dat.h`: `BsAlloc = 1<<0`. -/
def BsAlloc : Nat := 1 <<< 0

/-- From `dat.h`: `BsCopied = 1<<1`. -/
def BsCopied : Nat := 1 <<< 1

/-- From `dat.h`: `BsVenti = 1<<2`. -/
def BsVenti : Nat := 1 <<< 2

/-- From `dat.h`: `BsMask = BsAlloc|BsCopied|BsVenti|BsClosed`. -/
def BsMask : Nat := BsAlloc ||| BsCopied ||| BsVenti ||| BsClosed

/-- From `dat.h`: `NilBlock = (~0UL)`, with `ulong` of 32 bits. -/
def NilBlock : Nat := 2 ^ 32 - 1

/-! ## Data model (`dat.h`) -/

/-- A venti score, `uchar[VtScoreSize]`. -/
abbrev Score := List Nat

/-- The record `struct Super` of `dat.h`. -/
structure Super where
  version : Nat
  epochLow : Nat
  epochHigh : Nat
  qid : Nat
  active : Nat
  next : Nat
  current : Nat
  last : Score
  name : List Nat
  deriving DecidableEq, Repr

/-- The record `struct Label` of `dat.h`. -/
structure Label where
  type : Nat
  state : Nat
  tag : Nat
  epoch : Nat
  epochClose : Nat
  deriving DecidableEq, Repr

/-- The record `struct Entry` of `dat.h`. -/
structure Entry where
  gen : Nat
  psize : Nat
  dsize : Nat
  depth : Nat
  flags : Nat
  size : Nat
  score : Score
  tag : Nat
  snap : Nat
  archive : Nat
  deriving DecidableEq, Repr

/-- The fields of `struct Block` that `fs.c` reads: `part`, `addr`, `score`
and the label `l`.  (`iostate`, which the disk thread changes, is read through
`Env.iostate`; `data` is written through `entryPack` and `superPack`.) -/
structure Block where
  part : Nat
  addr : Nat
  score : Score
  l : Label
  deriving DecidableEq, Repr

/-- The fields of `struct Source` that `fs.c` touches. -/
structure Source where
  epoch : Nat
  score : Score
  deriving DecidableEq, Repr

/-- A `File*` reference handed out by the file tree. -/
abbrev File := Nat

/-- The record `struct Snap` of `fs.c` (without its pointers). -/
structure Snap where
  snapMinutes : Nat
  archMinute : Nat
  lastSnap : Nat
  lastArch : Nat
  ignore : Nat
  deriving DecidableEq, Repr

/-- The record `struct Fs` of `dat.h`.  Pointer fields that `fs.c` only tests
against nil are booleans (`true` = non-nil). -/
structure Fs where
  arch : Bool
  mode : Int
  blockSize : Int
  snap : Option Snap
  metaFlush : Bool
  ehi : Nat
  elo : Nat
  source : Option Source
  file : Option File
  deriving DecidableEq, Repr

/-- The fields of `Tm` that `fs.c` reads. -/
structure Tm where
  year : Int
  mon : Int
  mday : Int
  hour : Int
  min : Int
  deriving DecidableEq, Repr

/-- A `DirEntry`, of which `fs.c` reads only `elem`; `body` stands for its
other fields. -/
structure DirEntry where
  elem : String
  body : List Nat
  deriving DecidableEq, Repr

/-- The record `VtRoot` that `mkVac` fills. -/
structure VtRoot where
  version : Nat
  name : String
  type : String
  score : Score
  blockSize : Nat
  prev : Score
  deriving DecidableEq, Repr

/-- What has been packed into the local `uchar buf[8192]` of `mkVac`. -/
inductive BufOp where
  | mbPack (de : DirEntry) (size : Nat) (index : Int)
  | entryPack (e : Entry) (index : Nat)
  | vtRootPack (root : VtRoot)
  deriving DecidableEq, Repr

/-- The contents of `buf`: the packings made since `memset(buf, 0, sizeof buf)`,
oldest first. -/
abbrev Buf := List BufOp

/-- The two locks `fs.c` takes: `fs->elk` and `s->lk`. -/
inductive Lk where
  | elk
  | snapLk
  deriving DecidableEq, Repr

/-- A call that `fsVac`, `vtWriteBlock` or `mkVac` makes outside `fs.c`, other
than those of `Event`. -/
inductive VacEvent where
  | fileGetSources (f : File)
  | fileGetDir (f : File)
  | mbInit (size : Nat) (nindex : Nat)
  | mbAlloc (n : Nat)
  | mbSearch (elem : String)
  | dePack (de : DirEntry)
  | mbInsert (index : Int)
  | mbPack
  | entryPack (e : Entry) (index : Nat)
  | vtRootPack (root : VtRoot)
  | vtWrite (type : Nat) (buf : Buf) (n : Nat)
  | vtSha1Check (score : Score) (buf : Buf) (n : Nat)
  | sysAbort
  deriving DecidableEq, Repr

/-- A call that `snapEvent` makes on the clock: `time(0)` and `localtime(t)`. -/
inductive ClockEvent where
  | time
  | localtime (t : Int)
  deriving DecidableEq, Repr

set_option maxHeartbeats 800000 in
/-- A call that leaves `fs.c`, with its arguments. -/
inductive Event where
  | vtSetError (msg : String)
  | vtOSError
  | sysOpen (file : String) (m : Int)
  | sysClose (fd : Int)
  | bwatchInit
  | diskAlloc (fd : Int)
  | diskBlockSize
  | vtLockAlloc
  | vtLockFree
  | cacheAlloc (ncache : Int) (mode : Int)
  | cacheFree
  | archInit
  | archFree
  | archKick
  | cacheLocal (part addr : Nat) (mode : Int)
  | cacheLocalData (addr type tag : Nat) (mode : Int) (epoch : Nat)
  | cacheGlobal (score : Score) (type tag : Nat) (mode : Int)
  | cacheFlush (wait : Int)
  | superUnpack (b : Block)
  | superPack (super : Super) (b : Block)
  | entryPack (e : Entry) (b : Block) (index : Nat)
  | blockPut (b : Block)
  | blockCopy (b : Block) (tag ehi elo : Nat)
  | blockDirty (b : Block)
  | blockDependency (dst src : Block) (index : Int) (oscore : Score)
  | blockWrite (b : Block)
  | sleep (ms : Nat)
  | vtSleep (b : Block)
  | sourceRoot (addr : Nat) (mode : Int)
  | sourceClose
  | fileRoot
  | vtLock (l : Lk)
  | vtUnlock (l : Lk)
  | vtRLock (l : Lk)
  | vtRUnlock (l : Lk)
  | periodicAlloc (msec : Nat)
  | periodicKill
  | vtMemFree
  | localtime
  | fileOpen (path : String)
  | fileWalk (dir : File) (elem : String)
  | fileCreate (dir : File) (elem : String) (mode : Nat) (uid : String)
  | fileDecRef (f : File)
  | fileWalkSources (f : File)
  | fileSnapshot (dst src : File) (epoch : Nat) (archive : Int)
  | fileSetQidSpace (f : Option File) (forwards : Int) (qidMax : Nat)
  | fileMetaFlush (f : Option File) (rec : Int)
  | vtFatal (msg : String)
  | vac (e : VacEvent)
  | clock (e : ClockEvent)
  deriving DecidableEq, Repr

/-- The state the code of `fs.c` runs in. -/
structure World where
  /-- The `Fs` record. -/
  fs : Fs
  /-- Modelled from the spec: the cache slot of the super-block.  `cacheLocal`,
  `superPack` and `superUnpack` (cache.c, pack.c) are not in the sources; the
  record last packed into the data of the super-block is the one `superUnpack`
  reads back ("blocks in the hash are served from memory"). -/
  super : Super
  /-- The per-thread last-error slot (`vtSetError` / `vtGetError`). -/
  err : Option String
  /-- The calls made so far, oldest first. -/
  trace : List Event
  deriving DecidableEq, Repr

/-- Record a call. -/
def World.log (w : World) (e : Event) : World :=
  { w with trace := w.trace ++ [e] }

/-- What the code outside `fs.c` returns, as functions of the calls made so
far, and the constants of headers that are not in the sources. -/
structure Env where
  OReadOnly : Int
  OReadWrite : Int
  OREAD : Int
  ORDWR : Int
  EBadMode : String
  EBadRoot : String
  VtEntryActive : Nat
  VtEntryDir : Nat
  VtEntryLocal : Nat
  ModeDir : Nat
  ModeSnapshot : Nat
  localToGlobal : Nat → Score
  sysOpen : List Event → String → Int → Int
  diskAlloc : List Event → Int → Bool
  diskBlockSize : List Event → Int
  archInit : List Event → Bool
  cacheLocal : List Event → Nat → Nat → Int → Option Block
  cacheLocalData : List Event → Nat → Nat → Nat → Int → Nat → Option Block
  cacheGlobal : List Event → Score → Nat → Nat → Int → Option Block
  superUnpack : List Event → Block → Bool
  blockCopy : List Event → Block → Nat → Nat → Nat → Option Block
  blockWrite : List Event → Block → Bool
  iostate : List Event → Block → Nat
  sourceRoot : List Event → Nat → Int → Except String Source
  fileRoot : List Event → Option File
  localtime : List Event → Tm
  fileOpen : List Event → String → Option File
  fileWalk : List Event → File → String → Option File
  fileCreate : List Event → File → String → Nat → String → Option File
  fileDecRef : List Event → File → Bool
  fileWalkSources : List Event → File → Bool
  fileSnapshot : List Event → File → File → Nat → Int → Bool
  fileSetQidSpace : List Event → Option File → Int → Nat → Bool

/-- How a call of a function of `fs.c` ends: it returns `v`, it is still in a
loop when the fuel runs out, or the process stops (failed `assert`, nil
dereference, `vtFatal`). -/
inductive Outcome (α : Type) where
  | done (v : α) (w : World)
  | hang (w : World)
  | abort (w : World)

/-- The state at the end. -/
def Outcome.world {α : Type} : Outcome α → World
  | .done _ w => w
  | .hang w => w
  | .abort w => w

/-- The value returned, when the call returns. -/
def Outcome.ret {α : Type} : Outcome α → Option α
  | .done v _ => some v
  | .hang _ => none
  | .abort _ => none

/-! ## `superGet` and `superPut` -/

/-- The function `superGet` of `fs.c`: the super-block, locked, and its
unpacked record; `none` for nil. -/
def superGet (env : Env) (w : World) : Option (Block × Super) × World :=
  let r := env.cacheLocal w.trace PartSuper 0 env.OReadWrite
  let w := w.log (.cacheLocal PartSuper 0 env.OReadWrite)
  match r with
  | none => (none, w)
  | some b =>
    let ok := env.superUnpack w.trace b
    let w := w.log (.superUnpack b)
    if ok then (some (b, w.super), w)
    else (none, w.log (.blockPut b))

/-- The first loop of `superPut`: `while(!blockWrite(b)){ ...; sleep(10*000); }`.
The literal `000` is octal zero, so the argument of `sleep` is `10*0`. -/
def superPutWrite (env : Env) (b : Block) : Nat → World → Outcome Unit
  | 0, w => .hang w
  | fuel + 1, w =>
    let ok := env.blockWrite w.trace b
    let w := w.log (.blockWrite b)
    if ok then .done () w
    else superPutWrite env b fuel (w.log (.sleep (10 * 0)))

/-- The second loop of `superPut`:
`while(b->iostate != BioClean && b->iostate != BioDirty){ assert(b->iostate == BioWriting); vtSleep(b->ioready); }`. -/
def superPutWait (env : Env) (b : Block) : Nat → World → Outcome Unit
  | 0, w => .hang w
  | fuel + 1, w =>
    let st := env.iostate w.trace b
    if st ≠ BioClean ∧ st ≠ BioDirty then
      if st = BioWriting then superPutWait env b fuel (w.log (.vtSleep b))
      else .abort w
    else .done () w

/-- The function `superPut` of `fs.c`. -/
def superPut (env : Env) (fuel : Nat) (w : World) (b : Block) (super : Super)
    (forceWrite : Int) : Outcome Unit :=
  let w := { w with super := super }.log (.superPack super b)
  let w := w.log (.blockDirty b)
  if forceWrite ≠ 0 then
    match superPutWrite env b fuel w with
    | .done _ w =>
      match superPutWait env b fuel w with
      | .done _ w => .done () (w.log (.blockPut b))
      | .hang w => .hang w
      | .abort w => .abort w
    | .hang w => .hang w
    | .abort w => .abort w
  else .done () (w.log (.blockPut b))

/-! ## `fsEpochLow` -/

/-- The message of `vtSetError("bad low epoch (must be <= %ud)", fs->ehi)`. -/
def badLowEpoch (ehi : Nat) : String :=
  "bad low epoch (must be <= " ++ toString ehi ++ ")"

/-- The function `fsEpochLow` of `fs.c`. -/
def fsEpochLow (env : Env) (fuel : Nat) (w : World) (low : Nat) : Outcome Int :=
  let w := w.log (.vtLock .elk)
  if low > w.fs.ehi then
    let w := { w with err := some (badLowEpoch w.fs.ehi) }.log
      (.vtSetError (badLowEpoch w.fs.ehi))
    .done 0 (w.log (.vtUnlock .elk))
  else
    match superGet env w with
    | (none, w) => .done 0 (w.log (.vtUnlock .elk))
    | (some (bs, super), w) =>
      let super := { super with epochLow := low }
      let w := { w with fs := { w.fs with elo := low } }
      match superPut env fuel w bs super 1 with
      | .done _ w => .done 1 (w.log (.vtUnlock .elk))
      | .hang w => .hang w
      | .abort w => .abort w

/-! ## `bumpEpoch` -/

/-- The entry `e` that `bumpEpoch` builds from the old root block `b`:
`memset(&e, 0, sizeof e)` and then flags, score, tag and snap. -/
def bumpEntry (env : Env) (b : Block) : Entry :=
  { gen := 0, psize := 0, dsize := 0, depth := 0,
    flags := u8 (env.VtEntryActive ||| env.VtEntryLocal ||| env.VtEntryDir),
    size := 0, score := b.score, tag := RootTag, snap := b.l.epoch, archive := 0 }

/-- The function `bumpEpoch` of `fs.c`. -/
def bumpEpoch (env : Env) (fuel : Nat) (w : World) (doarchive : Int) : Outcome Int :=
  match w.fs.source with
  | none => .abort w
  | some r =>
    let rb := env.cacheGlobal w.trace r.score BtDir RootTag env.OReadOnly
    let w := w.log (.cacheGlobal r.score BtDir RootTag env.OReadOnly)
    match rb with
    | none => .done 0 w
    | some b0 =>
      let e := bumpEntry env b0
      let rc := env.blockCopy w.trace b0 RootTag (u32 (w.fs.ehi + 1)) w.fs.elo
      let w := w.log (.blockCopy b0 RootTag (u32 (w.fs.ehi + 1)) w.fs.elo)
      match rc with
      | none => .done 0 w
      | some b =>
        let w := w.log (.entryPack e b 1)
        let w := w.log (.blockDirty b)
        match superGet env w with
        | (none, w) => .done 0 w
        | (some (bs, super), w) =>
          let ehi := u32 (w.fs.ehi + 1)
          let w := { w with fs := { w.fs with
            ehi := ehi, source := some { r with score := b.score, epoch := ehi } } }
          let super := { super with epochHigh := ehi }
          let oldaddr := super.active
          let super := { super with active := b.addr }
          let super := if doarchive ≠ 0 then { super with next := oldaddr } else super
          let oscore := env.localToGlobal oldaddr
          let w := w.log (.blockDependency bs b 0 oscore)
          let w := w.log (.blockPut b)
          match superPut env fuel w bs super 1 with
          | .done _ w => .done 1 w
          | .hang w => .hang w
          | .abort w => .abort w

/-! ## `saveQid` -/

/-- The function `saveQid` of `fs.c`. -/
def saveQid (env : Env) (w : World) : Int × World :=
  match superGet env w with
  | (none, w) => (0, w)
  | (some (b, super), w) =>
    let qidMax := super.qid
    let w := w.log (.blockPut b)
    let ok := env.fileSetQidSpace w.trace w.fs.file 0 qidMax
    let w := w.log (.fileSetQidSpace w.fs.file 0 qidMax)
    if ok then (1, w) else (0, w)

/-! ## `fileOpenSnapshot` -/

/-- Output of the verb `%02d`. -/
def fmt02d (i : Int) : String :=
  if (toString i).length < 2 then "0" ++ toString i else toString i

/-- What `snprint(buf, sizeof(buf), ...)` leaves in `char buf[30]`: at most 29
characters. -/
def snprint30 (s : String) : String := s.take 29

/-- The two statements `f = fileWalk(dir, buf); if(f == nil) f = fileCreate(dir, buf, ModeDir|0555, "adm");`. -/
def walkOrCreate (env : Env) (w : World) (dir : File) (buf : String) : Option File × World :=
  let f := env.fileWalk w.trace dir buf
  let w := w.log (.fileWalk dir buf)
  match f with
  | some f => (some f, w)
  | none =>
    let f := env.fileCreate w.trace dir buf (env.ModeDir ||| 0o555) "adm"
    (f, w.log (.fileCreate dir buf (env.ModeDir ||| 0o555) "adm"))

/-- The loop `for(n=0;; n++){ if(n) seprint(s, buf+sizeof(buf), ".%d", n); ... }`
of `fileOpenSnapshot`, where `s` points to the end of `base` in `buf`. -/
def snapNameLoop (env : Env) (dir : File) (base : String) :
    Nat → Int → String → World → Outcome (Option File)
  | 0, _, _, w => .hang w
  | fuel + 1, n, buf, w =>
    let buf := if n ≠ 0 then snprint30 (base ++ "." ++ toString n) else buf
    let f := env.fileWalk w.trace dir buf
    let w := w.log (.fileWalk dir buf)
    match f with
    | some f => snapNameLoop env dir base fuel (i32 (n + 1)) buf (w.log (.fileDecRef f))
    | none =>
      let f := env.fileCreate w.trace dir buf
        (env.ModeDir ||| env.ModeSnapshot ||| 0o555) "adm"
      .done f (w.log (.fileCreate dir buf (env.ModeDir ||| env.ModeSnapshot ||| 0o555) "adm"))

/-- The function `fileOpenSnapshot` of `fs.c`. -/
def fileOpenSnapshot (env : Env) (fuel : Nat) (w : World) (doarchive : Int) :
    Outcome (Option File) :=
  if doarchive ≠ 0 then
    let dir := env.fileOpen w.trace "/archive"
    let w := w.log (.fileOpen "/archive")
    match dir with
    | none => .done none w
    | some dir =>
      let now := env.localtime w.trace
      let w := w.log .localtime
      match walkOrCreate env w dir (snprint30 (toString (i32 (now.year + 1900)))) with
      | (f, w) =>
        let w := w.log (.fileDecRef dir)
        match f with
        | none => .done none w
        | some dir =>
          let base := snprint30 (fmt02d (i32 (now.mon + 1)) ++ fmt02d now.mday)
          match snapNameLoop env dir base fuel 0 base w with
          | .done f w => .done f (w.log (.fileDecRef dir))
          | .hang w => .hang w
          | .abort w => .abort w
  else
    let dir := env.fileOpen w.trace "/snapshot"
    let w := w.log (.fileOpen "/snapshot")
    match dir with
    | none => .done none w
    | some dir =>
      let now := env.localtime w.trace
      let w := w.log .localtime
      match walkOrCreate env w dir (snprint30 (toString (i32 (now.year + 1900)))) with
      | (f, w) =>
        let w := w.log (.fileDecRef dir)
        match f with
        | none => .done none w
        | some dir =>
          match walkOrCreate env w dir
            (snprint30 (fmt02d (i32 (now.mon + 1)) ++ fmt02d now.mday)) with
          | (f, w) =>
            let w := w.log (.fileDecRef dir)
            match f with
            | none => .done none w
            | some dir =>
              let base := snprint30 (fmt02d now.hour ++ fmt02d now.min)
              match snapNameLoop env dir base fuel 0 base w with
              | .done f w => .done f (w.log (.fileDecRef dir))
              | .hang w => .hang w
              | .abort w => .abort w

/-! ## `fsSnapshot` -/

/-- The code at the label `Err:` of `fsSnapshot`. -/
def fsSnapshotErr (w : World) (src dst : Option File) : Outcome Int :=
  let w := match src with
    | some f => w.log (.fileDecRef f)
    | none => w
  let w := match dst with
    | some f => w.log (.fileDecRef f)
    | none => w
  .done 0 (w.log (.vtUnlock .elk))

/-- The end of `fsSnapshot`, from `vtUnlock(fs->elk)` to `return 1`. -/
def fsSnapshotEnd (w : World) (doarchive : Int) : Outcome Int :=
  let w := w.log (.vtUnlock .elk)
  let w := if doarchive ≠ 0 ∧ w.fs.arch = true then w.log .archKick else w
  .done 1 w

/-- The function `fsSnapshot` of `fs.c`. -/
def fsSnapshot (env : Env) (fuel : Nat) (w : World) (doarchive : Int) : Outcome Int :=
  if w.fs.mode ≠ env.OReadWrite then .abort w
  else
    let w := w.log (.vtLock .elk)
    let src := env.fileOpen w.trace "/active"
    let w := w.log (.fileOpen "/active")
    match src with
    | none => fsSnapshotErr w none none
    | some src =>
      match bumpEpoch env fuel w 0 with
      | .hang w => .hang w
      | .abort w => .abort w
      | .done r w =>
        if r = 0 then fsSnapshotErr w (some src) none
        else
          let ok := env.fileWalkSources w.trace src
          let w := w.log (.fileWalkSources src)
          if ok = false then fsSnapshotErr w (some src) none
          else
            let w := w.log (.cacheFlush 1)
            match fileOpenSnapshot env fuel w doarchive with
            | .hang w => .hang w
            | .abort w => .abort w
            | .done none w => fsSnapshotErr w (some src) none
            | .done (some dst) w =>
              let ok := env.fileSnapshot w.trace dst src (u32 (w.fs.ehi + 2 ^ 32 - 1)) doarchive
              let w := w.log (.fileSnapshot dst src (u32 (w.fs.ehi + 2 ^ 32 - 1)) doarchive)
              if ok = false then fsSnapshotErr w (some src) (some dst)
              else
                let w := w.log (.fileDecRef src)
                let w := w.log (.fileDecRef dst)
                if doarchive ≠ 0 then
                  match saveQid env w with
                  | (r, w) =>
                    if r = 0 then fsSnapshotErr w (some src) (some dst)
                    else
                      match bumpEpoch env fuel w 1 with
                      | .hang w => .hang w
                      | .abort w => .abort w
                      | .done r w =>
                        if r = 0 then fsSnapshotErr w (some src) (some dst)
                        else fsSnapshotEnd w doarchive
                else fsSnapshotEnd w doarchive

/-! ## `fsSync` and `fsNextQid` -/

/-- The function `fsSync` of `fs.c`. -/
def fsSync (w : World) : Outcome Int :=
  let w := w.log (.vtLock .elk)
  let w := w.log (.cacheFlush 1)
  .done 1 (w.log (.vtUnlock .elk))

/-- The function `fsNextQid` of `fs.c`; the second component is the value
stored in `*qid`, if any. -/
def fsNextQid (env : Env) (fuel : Nat) (w : World) : Outcome (Int × Option Nat) :=
  match superGet env w with
  | (none, w) => .done (0, none) w
  | (some (b, super), w) =>
    let qid := super.qid
    let super := { super with qid := u64 (super.qid + 1) }
    match superPut env fuel w b super 0 with
    | .done _ w => .done (1, some qid) w
    | .hang w => .hang w
    | .abort w => .abort w

/-! ## `fsVac`, `vtWriteBlock`, `mkVac` and `fsMetaFlush` -/

/-- What the venti session, the meta-block code and the file tree return to
`fsVac` and `mkVac`, as functions of the calls made so far, and the constants
of headers that are not in the sources. -/
structure VacEnv where
  VtEntryActive : Nat
  VtEntrySize : Nat
  VtRootSize : Nat
  VtRootVersion : Nat
  VtDataType : Nat
  VtDirType : Nat
  VtRootType : Nat
  MetaHeaderSize : Nat
  MetaIndexSize : Nat
  /-- The size `sizeof root.name` of the field `name` of `VtRoot`. -/
  RootNameSize : Nat
  /-- The contents of the local `Entry eee` of `mkVac` before its fields are
  assigned (it is not initialised). -/
  stackEntry : Entry
  globalToLocal : Score → Nat
  deSize : DirEntry → Nat
  fileGetSources : List Event → File → Option (Entry × Entry)
  fileGetDir : List Event → File → Option DirEntry
  mbAlloc : List Event → Nat → Bool
  mbSearch : List Event → String → Int × Bool
  vtWrite : List Event → Nat → Buf → Nat → Option Score
  vtSha1Check : List Event → Score → Buf → Nat → Bool

/-- The function `vtWriteBlock` of `fs.c`; the second component is what has
been stored in `score`, if anything. -/
def vtWriteBlock (venv : VacEnv) (w : World) (buf : Buf) (n : Nat) (type : Nat) :
    (Int × Option Score) × World :=
  let r := venv.vtWrite w.trace type buf n
  let w := w.log (.vac (.vtWrite type buf n))
  match r with
  | none => ((0, none), w)
  | some score =>
    let ok := venv.vtSha1Check w.trace score buf n
    let w := w.log (.vac (.vtSha1Check score buf n))
    if ok = false then ((0, some score), w)
    else ((1, some score), w)

/-- The message of the first rejection of `mkVac`. -/
def EVacLocal : String := "can only vac paths already stored on venti"

/-- The message of the second rejection of `mkVac`. -/
def EVacBig : String := "DirEntry too big"

/-- The end of `mkVac`, from the comment "Save root." on: `root` has been
cleared and holds the score of the directory block. -/
def mkVacRoot (venv : VacEnv) (w : World) (blockSize : Nat) (de : DirEntry) (buf : Buf)
    (dirScore : Score) : (Int × Option Score) × World :=
  let root : VtRoot :=
    { version := venv.VtRootVersion, name := de.elem.take (venv.RootNameSize - 1), type := "vac",
      score := dirScore, blockSize := blockSize, prev := [] }
  let buf := buf ++ [.vtRootPack root]
  let w := w.log (.vac (.vtRootPack root))
  match vtWriteBlock venv w buf venv.VtRootSize venv.VtRootType with
  | ((r, score), w) => if r = 0 then ((0, score), w) else ((1, score), w)

/-- The middle of `mkVac`, from `eee.size = n+MetaHeaderSize+MetaIndexSize` to
the write of the directory block; `buf` holds the packed meta block. -/
def mkVacDir (venv : VacEnv) (w : World) (blockSize : Nat) (e ee : Entry) (de : DirEntry)
    (buf : Buf) (n : Nat) : (Int × Option Score) × World :=
  let size := u32 (n + venv.MetaHeaderSize + venv.MetaIndexSize)
  match vtWriteBlock venv w buf size venv.VtDataType with
  | ((r, mscore), w) =>
    if r = 0 then ((0, none), w)
    else
      let eee : Entry :=
        { venv.stackEntry with
          size := size, score := mscore.getD venv.stackEntry.score,
          psize := 8192, dsize := 8192, depth := 0, flags := u8 venv.VtEntryActive }
      let buf := buf ++ [.entryPack e 0]
      let w := w.log (.vac (.entryPack e 0))
      let buf := buf ++ [.entryPack ee 1]
      let w := w.log (.vac (.entryPack ee 1))
      let buf := buf ++ [.entryPack eee 2]
      let w := w.log (.vac (.entryPack eee 2))
      match vtWriteBlock venv w buf (u32 (venv.VtEntrySize * 3)) venv.VtDirType with
      | ((r, dscore), w) =>
        if r = 0 then ((0, none), w)
        else mkVacRoot venv w blockSize de buf (dscore.getD [])

/-- The function `mkVac` of `fs.c` (continued in `mkVacDir` and `mkVacRoot`).
The arguments `pe`, `pee` and `pde` are only read (`e = *pe` ...), so they are
passed by value; the second component of the result is what has been stored
in `score`, if anything. -/
def mkVac (venv : VacEnv) (w : World) (blockSize : Nat) (e ee : Entry) (de : DirEntry) :
    Outcome (Int × Option Score) :=
  if venv.globalToLocal e.score ≠ NilBlock
      ∨ (ee.flags &&& venv.VtEntryActive ≠ 0 ∧ venv.globalToLocal ee.score ≠ NilBlock) then
    .done (0, none) ({ w with err := some EVacLocal }.log (.vtSetError EVacLocal))
  else
    let n := u32 (venv.deSize de)
    if u32 (n + venv.MetaHeaderSize + venv.MetaIndexSize) > 8192 then
      .done (0, none) ({ w with err := some EVacBig }.log (.vtSetError EVacBig))
    else
      let w := w.log (.vac (.mbInit (u32 (n + venv.MetaHeaderSize + venv.MetaIndexSize)) 1))
      let p := venv.mbAlloc w.trace n
      let w := w.log (.vac (.mbAlloc n))
      if p = false then .abort (w.log (.vac .sysAbort))
      else
        let found := venv.mbSearch w.trace de.elem
        let w := w.log (.vac (.mbSearch de.elem))
        if found.2 = true then .abort w
        else
          let w := w.log (.vac (.dePack de))
          let w := w.log (.vac (.mbInsert found.1))
          let w := w.log (.vac .mbPack)
          let buf : Buf := [.mbPack de n found.1]
          match mkVacDir venv w blockSize e ee de buf n with
          | (r, w) => .done r w

/-- The function `fsVac` of `fs.c`; the second component of the result is
what has been stored in `score`, if anything. -/
def fsVac (env : Env) (venv : VacEnv) (w : World) (name : String) :
    Outcome (Int × Option Score) :=
  let w := w.log (.vtRLock .elk)
  let f := env.fileOpen w.trace name
  let w := w.log (.fileOpen name)
  match f with
  | none => .done (0, none) (w.log (.vtRUnlock .elk))
  | some f =>
    let es := venv.fileGetSources w.trace f
    let w := w.log (.vac (.fileGetSources f))
    match es with
    | none => .done (0, none) ((w.log (.fileDecRef f)).log (.vtRUnlock .elk))
    | some (e, ee) =>
      let de := venv.fileGetDir w.trace f
      let w := w.log (.vac (.fileGetDir f))
      match de with
      | none => .done (0, none) ((w.log (.fileDecRef f)).log (.vtRUnlock .elk))
      | some de =>
        let w := w.log (.fileDecRef f)
        match mkVac venv w (u32 (w.fs.blockSize % 2 ^ 32).toNat) e ee de with
        | .done r w => .done r (w.log (.vtRUnlock .elk))
        | .hang w => .hang w
        | .abort w => .abort w

/-- The function `fsMetaFlush` of `fs.c`. -/
def fsMetaFlush (w : World) : Outcome Unit :=
  let w := w.log (.vtRLock .elk)
  let w := w.log (.fileMetaFlush w.fs.file 1)
  let w := w.log (.vtRUnlock .elk)
  .done () (w.log (.cacheFlush 0))

/-! ## `fsOpen` and `fsClose` -/

/-- The function `snapInit` of `fs.c`: `snapMinutes` and `archMinute` are the
`uint` value of `-1`. -/
def snapInit (w : World) : Snap × World :=
  let w := w.log (.periodicAlloc (10 * 1000))
  let w := w.log .vtLockAlloc
  ({ snapMinutes := u32 (2 ^ 32 - 1), archMinute := u32 (2 ^ 32 - 1),
     lastSnap := 0, lastArch := 0, ignore := 5 * 2 }, w)

/-- The function `snapClose` of `fs.c`. -/
def snapClose (w : World) (s : Option Snap) : World :=
  match s with
  | none => w
  | some _ => (w.log .periodicKill).log .vtMemFree

/-- The function `fsClose` of `fs.c`, applied to the record `fs`. -/
def fsClose (env : Env) (fs : Fs) (w : World) : Outcome Unit :=
  let w := w.log (.vtRLock .elk)
  let w := w.log .periodicKill
  let w := snapClose w fs.snap
  let rest : World → Outcome Unit := fun w =>
    let w := w.log .sourceClose
    let w := w.log .cacheFree
    let w := if fs.arch = true then w.log .archFree else w
    let w := w.log (.vtRUnlock .elk)
    let w := w.log .vtLockFree
    .done () (w.log .vtMemFree)
  match fs.file with
  | some f =>
    let w := w.log (.fileMetaFlush (some f) 0)
    let ok := env.fileDecRef w.trace f
    let w := w.log (.fileDecRef f)
    if ok = false then .abort (w.log (.vtFatal "fsClose: files still in use: %r\n"))
    else rest w
  | none => rest w

/-- The code at the label `Err:` of `fsOpen`. -/
def fsOpenErr (env : Env) (fs : Fs) (w : World) : Outcome (Option Fs) :=
  match fsClose env fs w with
  | .done _ w => .done none w
  | .hang w => .hang w
  | .abort w => .abort w

/-- The end of `fsOpen`, from `vtRLock(fs->elk)` on. -/
def fsOpenFinish (env : Env) (fs : Fs) (w : World) (mode : Int) : Outcome (Option Fs) :=
  let w := w.log (.vtRLock .elk)
  let file := env.fileRoot w.trace
  let w := w.log .fileRoot
  let fs := { fs with file := file }
  let w := w.log (.vtRUnlock .elk)
  match file with
  | none => fsOpenErr env fs w
  | some _ =>
    if mode = env.OReadWrite then
      let w := w.log (.periodicAlloc 1000)
      match snapInit w with
      | (s, w) =>
        let fs := { fs with metaFlush := true, snap := some s }
        .done (some fs) { w with fs := fs }
    else .done (some fs) { w with fs := fs }

/-- The copy-on-write of the root in `fsOpen` (the body of
`if(fs->source == nil)` after the test of the mode and of the error), with the
second call of `sourceRoot`. -/
def fsOpenRecover (env : Env) (fs : Fs) (w : World) (super : Super) (mode : Int) :
    Outcome (Option Fs) :=
  let b := env.cacheLocalData w.trace super.active BtDir RootTag env.OReadWrite 0
  let w := w.log (.cacheLocalData super.active BtDir RootTag env.OReadWrite 0)
  match b with
  | none => fsOpenErr env fs w
  | some b =>
    if b.l.state &&& BsClosed = 0 ∧ b.l.epoch = fs.ehi then
      fsOpenErr env fs (w.log (.blockPut b))
    else
      let c := env.blockCopy w.trace b RootTag fs.ehi fs.elo
      let w := w.log (.blockCopy b RootTag fs.ehi fs.elo)
      match c with
      | none => fsOpenErr env fs w
      | some b =>
        let oscore := env.localToGlobal super.active
        let super := { super with active := b.addr }
        let bs := env.cacheLocal w.trace PartSuper 0 env.OReadWrite
        let w := w.log (.cacheLocal PartSuper 0 env.OReadWrite)
        match bs with
        | none => fsOpenErr env fs (w.log (.blockPut b))
        | some bs =>
          let w := { w with super := super }.log (.superPack super bs)
          let w := w.log (.blockDependency bs b 0 oscore)
          let w := w.log (.blockDirty bs)
          let w := w.log (.blockPut bs)
          let w := w.log (.blockPut b)
          let r := env.sourceRoot w.trace super.active mode
          let w := w.log (.sourceRoot super.active mode)
          match r with
          | .error msg => fsOpenErr env fs { w with err := some msg }
          | .ok src => fsOpenFinish env { fs with source := some src } w mode

/-- The part of `fsOpen` that reads the super-block and opens the root source
(from `b = cacheLocal(fs->cache, PartSuper, 0, mode)` to the end of
`if(fs->source == nil)`). -/
def fsOpenSuper (env : Env) (fs : Fs) (w : World) (mode : Int) : Outcome (Option Fs) :=
  let b := env.cacheLocal w.trace PartSuper 0 mode
  let w := w.log (.cacheLocal PartSuper 0 mode)
  match b with
  | none => fsOpenErr env fs w
  | some b =>
    let ok := env.superUnpack w.trace b
    let w := w.log (.superUnpack b)
    let w := w.log (.blockPut b)
    if ok = false then fsOpenErr env fs w
    else
      let super := w.super
      let fs := { fs with ehi := super.epochHigh, elo := super.epochLow }
      let r := env.sourceRoot w.trace super.active mode
      let w := w.log (.sourceRoot super.active mode)
      match r with
      | .ok src => fsOpenFinish env { fs with source := some src } w mode
      | .error msg =>
        let w := { w with err := some msg }
        if mode = env.OReadOnly ∨ msg ≠ env.EBadRoot then fsOpenErr env fs w
        else fsOpenRecover env fs w super mode

/-- The function `fsOpen` of `fs.c` (continued in `fsOpenSuper`,
`fsOpenRecover` and `fsOpenFinish`).  On success the new record is returned
and becomes the `fs` of the world. -/
def fsOpen (env : Env) (w : World) (file : String) (ncache : Int) (mode : Int) :
    Outcome (Option Fs) :=
  if mode ≠ env.OReadOnly ∧ mode ≠ env.OReadWrite then
    .done none ({ w with err := some env.EBadMode }.log (.vtSetError env.EBadMode))
  else
    let m := if mode = env.OReadOnly then env.OREAD else env.ORDWR
    let fd := env.sysOpen w.trace file m
    let w := w.log (.sysOpen file m)
    if fd < 0 then .done none (w.log .vtOSError)
    else
      let w := w.log .bwatchInit
      let disk := env.diskAlloc w.trace fd
      let w := w.log (.diskAlloc fd)
      if disk = false then .done none (w.log (.sysClose fd))
      else
        let bsz := env.diskBlockSize w.trace
        let w := w.log .diskBlockSize
        let w := w.log .vtLockAlloc
        let w := w.log (.cacheAlloc ncache mode)
        let arch := if mode = env.OReadWrite then env.archInit w.trace else false
        let w := if mode = env.OReadWrite then w.log .archInit else w
        let fs : Fs :=
          { arch := arch, mode := mode, blockSize := bsz, snap := none, metaFlush := false,
            ehi := 0, elo := 0, source := none, file := none }
        fsOpenSuper env fs w mode

/-! ## Classification of events -/

/-- Events of the forced write at the end of `superPut`. -/
def Event.isWriteIO : Event → Bool
  | .blockWrite _ => true
  | .sleep _ => true
  | .vtSleep _ => true
  | .blockPut _ => true
  | _ => false

/-- Events that the callees of `fsSnapshot` inside `fs.c` (`superGet`,
`superPut`, `bumpEpoch`, `saveQid`, `fileOpenSnapshot`) can record. -/
def Event.isInner : Event → Bool
  | .cacheGlobal _ _ _ _ => true
  | .blockCopy _ _ _ _ => true
  | .entryPack _ _ _ => true
  | .blockDirty _ => true
  | .cacheLocal _ _ _ => true
  | .superUnpack _ => true
  | .blockDependency _ _ _ _ => true
  | .blockPut _ => true
  | .superPack _ _ => true
  | .blockWrite _ => true
  | .sleep _ => true
  | .vtSleep _ => true
  | .fileOpen _ => true
  | .localtime => true
  | .fileWalk _ _ => true
  | .fileCreate _ _ _ _ => true
  | .fileDecRef _ => true
  | .fileSetQidSpace _ _ _ => true
  | _ => false

/-- Inner events other than `superPack`. -/
def Event.isPlain : Event → Bool
  | .superPack _ _ => false
  | e => e.isInner

/-- The record `bumpEpoch` hands to `superPut`, from the record `super` read by
`superGet`: new `epochHigh`, new `active`, and `next` when archiving. -/
def bumpSuper (super : Super) (ehi addr : Nat) (doarchive : Int) : Super :=
  { super with epochHigh := ehi, active := addr,
               next := if doarchive ≠ 0 then super.active else super.next }

/-- The calls `bumpEpoch` makes up to and including `superPut`: its `superPack`
and `blockDirty`. -/
def bumpTrace (env : Env) (w : World) (r : Source) (b0 b bs : Block) (doarchive : Int) :
    List Event :=
  [.cacheGlobal r.score BtDir RootTag env.OReadOnly,
   .blockCopy b0 RootTag (u32 (w.fs.ehi + 1)) w.fs.elo,
   .entryPack (bumpEntry env b0) b 1,
   .blockDirty b,
   .cacheLocal PartSuper 0 env.OReadWrite,
   .superUnpack bs,
   .blockDependency bs b 0 (env.localToGlobal w.super.active),
   .blockPut b,
   .superPack (bumpSuper w.super (u32 (w.fs.ehi + 1)) b.addr doarchive) bs,
   .blockDirty bs]

/-- Plain events, `fileWalkSources` and `cacheFlush`: what `fsSnapshot` records
between its first bump and the call of `fileSnapshot`. -/
def Event.isBody : Event → Bool
  | .fileWalkSources _ => true
  | .cacheFlush _ => true
  | e => e.isPlain

/-- Body events and the calls on locks: all of `fsSnapshot` other than
`superPack`, `fileSnapshot` and `archKick`. -/
def Event.isCalm : Event → Bool
  | .vtLock _ => true
  | .vtUnlock _ => true
  | e => e.isBody

/-- The world `w2` is `w1` after more calls, all of kind `K`, with the same
`Fs` record, super-block and error slot. -/
def Quiet (K : Event → Bool) (w1 w2 : World) : Prop :=
  w2.fs = w1.fs ∧ w2.super = w1.super ∧ w2.err = w1.err ∧
    ∃ new, w2.trace = w1.trace ++ new ∧ ∀ e ∈ new, K e = true

/-- A successful run of `bumpEpoch` on `w` ending in `w2`: the blocks it got,
the new `Fs` record and super-block, and the calls it made. -/
def Bumped (env : Env) (w w2 : World) (doarchive : Int) : Prop :=
  ∃ (r : Source) (b0 b bs : Block) (rest : List Event),
    w.fs.source = some r ∧
    env.cacheGlobal w.trace r.score BtDir RootTag env.OReadOnly = some b0 ∧
    env.blockCopy (w.trace ++ [.cacheGlobal r.score BtDir RootTag env.OReadOnly])
      b0 RootTag (u32 (w.fs.ehi + 1)) w.fs.elo = some b ∧
    env.cacheLocal (w.trace ++ [.cacheGlobal r.score BtDir RootTag env.OReadOnly,
      .blockCopy b0 RootTag (u32 (w.fs.ehi + 1)) w.fs.elo,
      .entryPack (bumpEntry env b0) b 1, .blockDirty b]) PartSuper 0 env.OReadWrite = some bs ∧
    w2.fs = { w.fs with ehi := u32 (w.fs.ehi + 1),
                        source := some { r with score := b.score, epoch := u32 (w.fs.ehi + 1) } } ∧
    w2.super = bumpSuper w.super (u32 (w.fs.ehi + 1)) b.addr doarchive ∧
    w2.err = w.err ∧
    w2.trace = w.trace ++ bumpTrace env w r b0 b bs doarchive ++ rest ∧
    ∀ e ∈ rest, e.isWriteIO = true

/-- The paths through `fsSnapshot`, by how far the call gets: it fails before
the first bump has succeeded; the first bump succeeds (`wb`) and the call
stops in its forced write, or fails before `fileSnapshot` is called; or
`fileSnapshot` is called in `w3` and then the call fails, or succeeds without
archiving, or makes the second bump (`w6` to `w7`) and stops in its forced
write or succeeds. -/
def SnapShape (env : Env) (w : World) (doarchive : Int) (o : Outcome Int) : Prop :=
  (Quiet Event.isCalm w o.world ∧ o.ret ≠ some 1) ∨
  ∃ wb, Bumped env ((w.log (.vtLock .elk)).log (.fileOpen "/active")) wb 0 ∧
    ((o.world = wb ∧ o.ret = none) ∨
     (Quiet Event.isCalm wb o.world ∧ o.ret ≠ some 1) ∨
     ∃ (w3 : World) (dst src : File), Quiet Event.isBody wb w3 ∧
       ((Quiet Event.isCalm
            (w3.log (.fileSnapshot dst src (u32 (wb.fs.ehi + 2 ^ 32 - 1)) doarchive)) o.world ∧
          o.ret ≠ some 1) ∨
        (doarchive = 0 ∧
          o = .done 1 ((((w3.log (.fileSnapshot dst src (u32 (wb.fs.ehi + 2 ^ 32 - 1)) doarchive)).log
            (.fileDecRef src)).log (.fileDecRef dst)).log (.vtUnlock .elk))) ∨
        (doarchive ≠ 0 ∧ ∃ w6 w7 : World,
          Quiet Event.isPlain
            (w3.log (.fileSnapshot dst src (u32 (wb.fs.ehi + 2 ^ 32 - 1)) doarchive)) w6 ∧
          Bumped env w6 w7 1 ∧
          ((o.world = w7 ∧ o.ret = none) ∨
            o = .done 1 (if w7.fs.arch = true then (w7.log (.vtUnlock .elk)).log .archKick
                         else w7.log (.vtUnlock .elk))))))

/-- Calls of `blockDependency`. -/
def Event.isDependency : Event → Bool
  | .blockDependency _ _ _ _ => true
  | _ => false

/-- Calls that hand the super-block to the disk or pack it: `superPack` and
`blockWrite`. -/
def Event.isPackOrWrite : Event → Bool
  | .superPack _ _ => true
  | .blockWrite _ => true
  | _ => false

/-- The world `w2` has the trace of `w1` followed by calls that all satisfy
`P`. -/
def Grows (P : Event → Prop) (w1 w2 : World) : Prop :=
  ∃ new, w2.trace = w1.trace ++ new ∧ ∀ e ∈ new, P e

/-- The forced write of `superPut` on the block `b`, started in the world `w`,
ends within `n` rounds of each of its two loops. -/
def WriteEnds (env : Env) (b : Block) (n : Nat) (w : World) : Prop :=
  (superPutWrite env b n w).ret = some () ∧
    (superPutWait env b n (superPutWrite env b n w).world).ret = some ()

/-- The world in which `fsEpochLow(fs, low)` starts the forced write of the
super-block `bs`: `fs->elo` and the packed `epochLow` are `low`. -/
def lowWorld (env : Env) (w : World) (low : Nat) (bs : Block) : World :=
  { fs := { w.fs with elo := low },
    super := { w.super with epochLow := low },
    err := w.err,
    trace := w.trace ++ [.vtLock .elk, .cacheLocal PartSuper 0 env.OReadWrite, .superUnpack bs,
      .superPack { w.super with epochLow := low } bs, .blockDirty bs] }

/-! ## Sequences of calls -/

/-- What `fsOpen` establishes: `fs->ehi = super.epochHigh` and
`fs->elo = super.epochLow`. -/
def Opened (w : World) : Prop :=
  w.super.epochHigh = w.fs.ehi ∧ w.super.epochLow = w.fs.elo

/-- A call of one of the operations on the epochs and the super-block, with
the fuel for its loops. -/
inductive Call where
  | epochLow (fuel : Nat) (low : Nat)
  | snapshot (fuel : Nat) (doarchive : Int)
  | nextQid (fuel : Nat)
  | sync

/-- The state after the call (whether it returned or not). -/
def Call.run (env : Env) (w : World) : Call → World
  | .epochLow fuel low => (fsEpochLow env fuel w low).world
  | .snapshot fuel doarchive => (fsSnapshot env fuel w doarchive).world
  | .nextQid fuel => (fsNextQid env fuel w).world
  | .sync => (fsSync w).world

/-- The state after a sequence of calls. -/
def runCalls (env : Env) (w : World) : List Call → World
  | [] => w
  | c :: cs => runCalls env (c.run env w) cs

/-- How many times the call can run `fs->ehi++`: `fsSnapshot` bumps the epoch
once, and once more when archiving. -/
def Call.bumps : Call → Nat
  | .snapshot _ doarchive => if doarchive ≠ 0 then 2 else 1
  | _ => 0

/-- The super-block records packed by the calls of a trace. -/
def packed : List Event → List Super
  | [] => []
  | .superPack s _ :: t => s :: packed t
  | _ :: t => packed t

/-- From an opened state `w` with `elo <= ehi` in which `n` more bumps do not
wrap the `u32int` epoch, the state `w2` is opened with `elo <= ehi`, its epoch
is at most `n` above, and every record packed on the way has
`epochLow <= epochHigh`. -/
def Safe (n : Nat) (w w2 : World) : Prop :=
  Opened w → w.fs.elo ≤ w.fs.ehi → w.fs.ehi + n < 2 ^ 32 →
    Opened w2 ∧ w2.fs.elo ≤ w2.fs.ehi ∧ w2.fs.ehi ≤ w.fs.ehi + n ∧
      ∃ new, w2.trace = w.trace ++ new ∧ ∀ s ∈ packed new, s.epochLow ≤ s.epochHigh

/-! ## A concrete environment and state -/

/-- An environment in which every call outside `fs.c` succeeds: blocks are
allocated at fresh addresses, no snapshot directory exists yet, the disk
writes at the first attempt. -/
def okEnv : Env where
  OReadOnly := 0
  OReadWrite := 1
  OREAD := 0
  ORDWR := 2
  EBadMode := "bad mode"
  EBadRoot := "root block is bad"
  VtEntryActive := 1
  VtEntryDir := 2
  VtEntryLocal := 32
  ModeDir := 2 ^ 31
  ModeSnapshot := 2 ^ 23
  localToGlobal := fun a => List.replicate 16 0 ++
    [a / 2 ^ 24 % 256, a / 2 ^ 16 % 256, a / 2 ^ 8 % 256, a % 256]
  sysOpen := fun _ _ _ => 3
  diskAlloc := fun _ _ => true
  diskBlockSize := fun _ => 8192
  archInit := fun _ => true
  cacheLocal := fun _ part addr _ =>
    some { part := part, addr := addr, score := [], l := ⟨0, 0, 0, 0, 0⟩ }
  cacheLocalData := fun _ addr type tag _ epoch =>
    some { part := 3, addr := addr, score := [], l := ⟨type, 1, tag, epoch, 0⟩ }
  cacheGlobal := fun _ score type tag _ =>
    some { part := 3, addr := 7, score := score, l := ⟨type, 1, tag, 5, 0⟩ }
  superUnpack := fun _ _ => true
  blockCopy := fun t b tag ehi _ =>
    some { part := 3, addr := 100 + t.length, score := [100 + t.length],
           l := ⟨b.l.type, 1, tag, ehi, 0⟩ }
  blockWrite := fun _ _ => true
  iostate := fun _ _ => BioClean
  sourceRoot := fun _ addr _ => .ok { epoch := 5, score := [addr] }
  fileRoot := fun _ => some 1
  localtime := fun _ => { year := 126, mon := 10, mday := 1, hour := 18, min := 58 }
  fileOpen := fun _ _ => some 2
  fileWalk := fun _ _ _ => none
  fileCreate := fun t _ _ _ _ => some (10 + t.length)
  fileDecRef := fun _ _ => true
  fileWalkSources := fun _ _ => true
  fileSnapshot := fun _ _ _ _ _ => true
  fileSetQidSpace := fun _ _ _ _ => true

/-- A super-block at epoch 5 with low epoch 2. -/
def okSuper : Super :=
  { version := 1, epochLow := 2, epochHigh := 5, qid := 100, active := 7,
    next := 2 ^ 32 - 1, current := 2 ^ 32 - 1, last := [], name := [] }

/-- An open read-write file system on `okSuper`. -/
def okWorld : World :=
  { fs := { arch := true, mode := 1, blockSize := 8192, snap := none, metaFlush := true,
            ehi := 5, elo := 2, source := some { epoch := 5, score := [7] }, file := some 1 },
    super := okSuper, err := none, trace := [] }

/-- A disk whose super-block has the largest `u32int` as `epochHigh`, before
`fsOpen`. -/
def lastEpochDisk : World :=
  { fs := { arch := false, mode := 0, blockSize := 0, snap := none, metaFlush := false,
            ehi := 0, elo := 0, source := none, file := none },
    super := { okSuper with epochLow := 1, epochHigh := 2 ^ 32 - 1 }, err := none, trace := [] }

/-- A disk with the super-block `okSuper`, before `fsOpen`. -/
def okDisk : World := { lastEpochDisk with super := okSuper }

/-- The file system opened read-write on `lastEpochDisk`: `fs->ehi = 2^32 - 1`
and `fs->elo = 1`. -/
def lastEpochWorld : World := (fsOpen okEnv lastEpochDisk "fossil" 1000 1).world

/-! ## Definitions for the claims on the super-block writes and on `mkVac` -/

/-- The C operator `~` on a 32-bit `int` or `uint` operand. -/
def not32 (n : Nat) : Nat := u32 (2 ^ 32 - 1 - u32 n)

/-- The calls made by `k` failed rounds of the first loop of `superPut` on the
block `b`: `blockWrite(b)` and then `sleep(10*000)`. -/
def retries (b : Block) : Nat → List Event
  | 0 => []
  | k + 1 => .blockWrite b :: .sleep (10 * 0) :: retries b k

/-- Calls of `blockWrite`. -/
def Event.isBlockWrite : Event → Bool
  | .blockWrite _ => true
  | _ => false

/-- Calls of `sleep`. -/
def Event.isSleep : Event → Bool
  | .sleep _ => true
  | _ => false

/-- The environment `okEnv` with a disk that fails the first `blockWrite` and
accepts the later ones. -/
def flakyEnv : Env :=
  { okEnv with blockWrite := fun t _ => t.any Event.isBlockWrite }

/-- The super-block as `okEnv.cacheLocal` returns it. -/
def okBlock : Block := { part := 1, addr := 0, score := [], l := ⟨0, 0, 0, 0, 0⟩ }

/-- The world in which `superPut(b, super, forceWrite)` reaches
`if(forceWrite)`: the record has been packed and the block marked dirty. -/
def packedWorld (w : World) (b : Block) (super : Super) : World :=
  ({ w with super := super }.log (.superPack super b)).log (.blockDirty b)

/-! ## A concrete external store -/

/-- An entry whose score is a venti score (not the image of a local address). -/
def ventiEntry : Entry :=
  { gen := 0, psize := 8192, dsize := 8192, depth := 0, flags := 1, size := 0,
    score := List.replicate 20 171, tag := 0, snap := 0, archive := 0 }

/-- An entry whose score is the image of the local address 7. -/
def localEntry : Entry := { ventiEntry with score := okEnv.localToGlobal 7 }

/-- A directory entry named `active`. -/
def okDir : DirEntry := { elem := "active", body := [] }

/-- A store in which every call succeeds: scores whose first 16 bytes are zero
are local addresses, `vtWrite` stores any block and `vtSha1Check` accepts its
score. -/
def okVac : VacEnv where
  VtEntryActive := 1
  VtEntrySize := 40
  VtRootSize := 300
  VtRootVersion := 2
  VtDataType := 13
  VtDirType := 2
  VtRootType := 1
  MetaHeaderSize := 12
  MetaIndexSize := 4
  RootNameSize := 128
  stackEntry := { ventiEntry with score := [], flags := 0 }
  globalToLocal := fun s =>
    if s.take 16 = List.replicate 16 0 then u32 ((s.drop 16).foldl (fun a x => a * 256 + x) 0)
    else NilBlock
  deSize := fun de => 40 + de.elem.length + de.body.sum
  fileGetSources := fun _ _ => some (ventiEntry, ventiEntry)
  fileGetDir := fun _ _ => some okDir
  mbAlloc := fun _ _ => true
  mbSearch := fun _ _ => (0, false)
  vtWrite := fun t _ _ _ => some (List.replicate 20 (t.length % 256))
  vtSha1Check := fun _ _ _ _ => true

/-! ## Definitions for the claim on the root recovery of `fsOpen` -/

/-- Calls on the root block and the super-block that only the root recovery of
`fsOpen` makes, and `sourceRoot`. -/
def Event.isRootWork : Event → Bool
  | .cacheLocalData _ _ _ _ _ => true
  | .blockCopy _ _ _ _ => true
  | .blockDirty _ => true
  | .superPack _ _ => true
  | .blockDependency _ _ _ _ => true
  | .sourceRoot _ _ => true
  | _ => false

/-- Calls of `blockCopy` and `blockDirty`. -/
def Event.isCopyOrDirty : Event → Bool
  | .blockCopy _ _ _ _ => true
  | .blockDirty _ => true
  | _ => false

/-- The world of `fsOpen` after its first call of `sourceRoot` has failed with
the error `msg`: the super-block `b1` has been read and released. -/
def badRootWorld (w : World) (mode : Int) (b1 : Block) (msg : String) : World :=
  { w with err := some msg,
           trace := w.trace ++ [.cacheLocal PartSuper 0 mode, .superUnpack b1, .blockPut b1,
             .sourceRoot w.super.active mode] }

/-- The world of `fsOpen` after the second call of `sourceRoot`, started in
`w`: the root block `b` has been copied into `c`, and the super-block `bs`
packed with `active = c->addr`. -/
def recoveredWorld (env : Env) (w : World) (fs : Fs) (super : Super) (mode : Int)
    (b c bs : Block) : World :=
  { w with super := { super with active := c.addr },
           trace := w.trace ++ [.cacheLocalData super.active BtDir RootTag env.OReadWrite 0,
             .blockCopy b RootTag fs.ehi fs.elo, .cacheLocal PartSuper 0 env.OReadWrite,
             .superPack { super with active := c.addr } bs,
             .blockDependency bs c 0 (env.localToGlobal super.active),
             .blockDirty bs, .blockPut bs, .blockPut c, .sourceRoot c.addr mode] }

/-- The environment `okEnv` with a root that `sourceRoot` refuses with
`EBadRoot` until it has been copied. -/
def badRootEnv : Env :=
  { okEnv with
    sourceRoot := fun t addr _ =>
      if t.any Event.isCopyOrDirty then .ok { epoch := 5, score := [addr] }
      else .error "root block is bad" }

/-- The record `fsOpen` has built when it reads the super-block, in mode
`OReadWrite` of `okEnv`. -/
def newFs : Fs :=
  { arch := true, mode := 1, blockSize := 8192, snap := none, metaFlush := false,
    ehi := 0, elo := 0, source := none, file := none }

/-- The world in which `fsOpen(file, z, 1000, OReadWrite)` reads the
super-block, from `okDisk`. -/
def newWorld : World :=
  { okDisk with
    trace := [.sysOpen "fossil" 2, .bwatchInit, .diskAlloc 3, .diskBlockSize, .vtLockAlloc,
      .cacheAlloc 1000 1, .archInit] }

/-! ## Definitions for the claims on the lock `elk` -/

/-- Calls that take or release a lock. -/
def Event.isLock : Event → Bool
  | .vtLock _ => true
  | .vtUnlock _ => true
  | .vtRLock _ => true
  | .vtRUnlock _ => true
  | _ => false

/-- Whether every `superPack` of the calls `t` is made while `fs->elk` is held
exclusively (between `vtLock(fs->elk)` and `vtUnlock(fs->elk)`); `held` says
whether it is held before the first call. -/
def packsUnderLock : Bool → List Event → Bool
  | _, [] => true
  | held, e :: t =>
    match e with
    | .vtLock .elk => packsUnderLock true t
    | .vtUnlock .elk => packsUnderLock false t
    | .superPack _ _ => held && packsUnderLock held t
    | _ => packsUnderLock held t

/-- The run from `w` that ends as `o` first takes a lock with the call `acq`,
then makes calls `body` that are not calls on a lock, and then either does not
return, or releases the lock with the call `rel`, makes calls `post` that are
neither calls on a lock nor `superPack`, and returns. -/
def Locked {α : Type} (acq rel : Event) (w : World) (o : Outcome α) : Prop :=
  ∃ body tail, o.world.trace = w.trace ++ acq :: body ++ tail ∧
    (∀ e ∈ body, e.isLock = false) ∧
    ((o.ret = none ∧ tail = []) ∨
     (o.ret ≠ none ∧ ∃ post, tail = rel :: post ∧
        ∀ e ∈ post, e.isLock = false ∧ ∀ s b, e ≠ .superPack s b))

/-! ## Definitions for the claim on the names of `fileOpenSnapshot` -/

/-- The name number `k` of the sequence `base`, `base.1`, `base.2`, ... -/
def snapName (base : String) (k : Nat) : String :=
  if k = 0 then base else base ++ "." ++ toString k

/-- The calls made by `k` rounds of the loop of `fileOpenSnapshot` that each
find their name in `dir`: `fileWalk(dir, name)` and `fileDecRef` of the file
found, for the names number 0 to `k-1`; `t` is the trace before the loop. -/
def snapRounds (env : Env) (dir : File) (base : String) (t : List Event) : Nat → List Event
  | 0 => []
  | k + 1 =>
    match env.fileWalk (t ++ snapRounds env dir base t k) dir (snapName base k) with
    | some f => snapRounds env dir base t k ++ [.fileWalk dir (snapName base k), .fileDecRef f]
    | none => snapRounds env dir base t k

/-- The name number `k` is the first of the sequence that `fileWalk` does not
find in `dir`, in a loop that starts after the calls `t`. -/
def FirstFree (env : Env) (dir : File) (base : String) (t : List Event) (k : Nat) : Prop :=
  (∀ i, i < k →
    (env.fileWalk (t ++ snapRounds env dir base t i) dir (snapName base i)).isSome = true) ∧
  env.fileWalk (t ++ snapRounds env dir base t k) dir (snapName base k) = none

/-- The fields of `now` are those of a date: a year from 1900 on that fits
an `int`, a month 0 to 11, a day 1 to 31, an hour 0 to 23, a minute 0 to 59. -/
def Tm.valid (now : Tm) : Prop :=
  0 ≤ now.year ∧ now.year + 1900 < 2 ^ 31 ∧ 0 ≤ now.mon ∧ now.mon ≤ 11 ∧
    1 ≤ now.mday ∧ now.mday ≤ 31 ∧ 0 ≤ now.hour ∧ now.hour ≤ 23 ∧
    0 ≤ now.min ∧ now.min ≤ 59

/-- The environment `okEnv` with a directory that already holds the names
`1858` and `1858.1`. -/
def busyEnv : Env :=
  { okEnv with fileWalk := fun _ _ name => if name = "1858" ∨ name = "1858.1" then some 9 else none }

/-- The name `yyyy` of a date: the year, `tm.year+1900`, in decimal. -/
def yearName (now : Tm) : String := toString (now.year + 1900)

/-- The name `mmdd` of a date: the month `tm.mon+1` and the day, two digits
each. -/
def dayName (now : Tm) : String := fmt02d (now.mon + 1) ++ fmt02d now.mday

/-- The name `hhmm` of a date: the hour and the minute, two digits each. -/
def minuteName (now : Tm) : String := fmt02d now.hour ++ fmt02d now.min

/-! ## Definitions for the claims on the paths of `bumpEpoch` and `fsSnapshot` -/

/-- Calls of `blockPut`. -/
def Event.isBlockPut : Event → Bool
  | .blockPut _ => true
  | _ => false

/-- Calls on blocks and on the disk: what `bumpEpoch`, `superGet` and
`superPut` record. -/
def Event.isBlockCall : Event → Bool
  | .cacheGlobal _ _ _ _ => true
  | .blockCopy _ _ _ _ => true
  | .entryPack _ _ _ => true
  | .blockDirty _ => true
  | .cacheLocal _ _ _ => true
  | .superUnpack _ => true
  | .blockDependency _ _ _ _ => true
  | .blockPut _ => true
  | .superPack _ _ => true
  | .blockWrite _ => true
  | .sleep _ => true
  | .vtSleep _ => true
  | _ => false

/-- The three phases of `fsSnapshot` that are one call each:
`fileWalkSources`, `cacheFlush` and `fileSnapshot`. -/
def Event.isStep : Event → Bool
  | .fileWalkSources _ => true
  | .cacheFlush _ => true
  | .fileSnapshot _ _ _ _ => true
  | _ => false

/-- Calls of `fileCreate`. -/
def Event.isCreate : Event → Bool
  | .fileCreate _ _ _ _ => true
  | _ => false

/-- The environment `okEnv` with a cache that cannot give the super-block. -/
def noSuperEnv : Env := { okEnv with cacheLocal := fun _ _ _ _ => none }

/-- The environment `okEnv` with a file tree that hands out a new reference
at each `fileOpen` and refuses `fileSetQidSpace`. -/
def failQidEnv : Env :=
  { okEnv with
    fileOpen := fun t _ => some (50 + t.length)
    fileSetQidSpace := fun _ _ _ _ => false }

/-- The end of `fsSnapshot`, from the call of `fileSnapshot` on: `src` is the
reference to `/active` and `dst` the directory that `fileOpenSnapshot` has
returned. -/
def fsSnapshotPublish (env : Env) (fuel : Nat) (w : World) (src dst : File)
    (doarchive : Int) : Outcome Int :=
  let ok := env.fileSnapshot w.trace dst src (u32 (w.fs.ehi + 2 ^ 32 - 1)) doarchive
  let w := w.log (.fileSnapshot dst src (u32 (w.fs.ehi + 2 ^ 32 - 1)) doarchive)
  if ok = false then fsSnapshotErr w (some src) (some dst)
  else
    let w := w.log (.fileDecRef src)
    let w := w.log (.fileDecRef dst)
    if doarchive ≠ 0 then
      match saveQid env w with
      | (r, w) =>
        if r = 0 then fsSnapshotErr w (some src) (some dst)
        else
          match bumpEpoch env fuel w 1 with
          | .hang w => .hang w
          | .abort w => .abort w
          | .done r w =>
            if r = 0 then fsSnapshotErr w (some src) (some dst)
            else fsSnapshotEnd w doarchive
    else fsSnapshotEnd w doarchive

/-! ## Definitions for the claim on the three writes of `mkVac` -/

/-- Calls of `vtWrite`. -/
def Event.isVtWrite : Event → Bool
  | .vac (.vtWrite _ _ _) => true
  | _ => false

/-- A store like `okVac` whose `vtWrite` refuses blocks of type `VtDirType`. -/
def noDirVac : VacEnv :=
  { okVac with vtWrite := fun t type _ _ =>
      if type = 2 then none else some (List.replicate 20 (t.length % 256)) }

/-! ## `snapEvent`, `snapGetTimes` and `snapSetTimes` -/

/-- What the clock returns to `snapEvent`, as functions of the calls made so
far: `time(0)` (a `long`) and `*localtime(t)`. -/
structure ClockEnv where
  time : List Event → Int
  localtime : List Event → Int → Tm

/-- Value of an expression converted to `u32int` or `uint`. -/
def u32i (x : Int) : Nat := (x % 2 ^ 32).toNat

/-- The operator `%` on unsigned operands: a zero divisor traps (`none`). -/
def umod (a b : Nat) : Option Nat := if b = 0 then none else some (a % b)

/-- The second half of `snapEvent`, from `tm = *localtime(now*60)` on. -/
def snapEventArch (env : Env) (cenv : ClockEnv) (fuel : Nat) (w : World) (s : Snap)
    (now : Nat) : Outcome Snap :=
  let t := i32 (u32 (now * 60))
  let tm := cenv.localtime w.trace t
  let w := w.log (.clock (.localtime t))
  let min := u32i (tm.hour * 60 + tm.min)
  if s.archMinute ≠ not32 0 ∧ min = s.archMinute ∧ now ≠ s.lastArch then
    match fsSnapshot env fuel w 1 with
    | .done _ w => .done { s with lastArch := now } (w.log (.vtUnlock .snapLk))
    | .hang w => .hang w
    | .abort w => .abort w
  else .done s (w.log (.vtUnlock .snapLk))

/-- The function `snapEvent` of `fs.c` (continued in `snapEventArch`).  The
argument `s` is the record `v` points to, and the result of a run that
returns is its new contents; the file system `s->fs` is the one of the world.
The result is `none` when `now % s->snapMinutes` is evaluated with a zero
divisor.  The messages printed with `fprint` are not recorded. -/
def snapEvent (env : Env) (cenv : ClockEnv) (fuel : Nat) (w : World) (s : Snap) :
    Option (Outcome Snap) :=
  let now := u32i (Int.tdiv (cenv.time w.trace) 60)
  let w := w.log (.clock .time)
  let w := w.log (.vtLock .snapLk)
  if s.snapMinutes ≠ not32 0 ∧ s.snapMinutes ≠ 0 then
    match umod now s.snapMinutes with
    | none => none
    | some m =>
      if m = 0 ∧ now ≠ s.lastSnap then
        match fsSnapshot env fuel w 0 with
        | .done _ w => some (snapEventArch env cenv fuel w { s with lastSnap := now } now)
        | .hang w => some (.hang w)
        | .abort w => some (.abort w)
      else some (snapEventArch env cenv fuel w s now)
  else some (snapEventArch env cenv fuel w s now)

/-- The function `snapGetTimes` of `fs.c`; the result is `(*arch, *snap)`. -/
def snapGetTimes (w : World) (s : Snap) : (Nat × Nat) × World :=
  let w := w.log (.vtLock .snapLk)
  let snap := u32 s.snapMinutes
  let arch := u32 s.archMinute
  ((arch, snap), w.log (.vtUnlock .snapLk))

/-- The function `snapSetTimes` of `fs.c`. -/
def snapSetTimes (w : World) (s : Snap) (arch snap : Nat) : Snap × World :=
  let w := w.log (.vtLock .snapLk)
  let s := { s with snapMinutes := u32 snap }
  let s := { s with archMinute := u32 arch }
  (s, w.log (.vtUnlock .snapLk))

/-- A clock that stands at 7200 seconds (minute 120, 02:00 local time). -/
def okClock : ClockEnv where
  time := fun _ => 7200
  localtime := fun _ t =>
    { year := 70, mon := 0, mday := 1, hour := t / 3600 % 24, min := t / 60 % 60 }

/-- The record `snapInit` returns, after `snapSetTimes(s, ~0, 60)`: a
temporary snapshot every hour and no archival snapshot. -/
def hourlySnap : Snap := (snapSetTimes okWorld (snapInit okWorld).1 (not32 0) 60).1

/-- The record `snapInit` returns, after `snapSetTimes(s, 120, 60)`: a
temporary snapshot every hour and an archival snapshot at 02:00. -/
def bothSnap : Snap := (snapSetTimes okWorld (snapInit okWorld).1 120 60).1

end Fossil

/-! # The register allocator of `7c/txt.c` -/

namespace SevenC

open Fossil (i32)

/-- The constants of `gc.h` that the register routines and `gmove` read, the
conversion made by a store into an element of `reg[]`, and `sizeof(reg)`;
`gc.h` is not in the sources. -/
structure Machine where
  NREG : Int
  REGRET : Int
  FREGRET : Int
  conv : Int → Int
  regBytes : Int
  FREGZERO : Int
  FREGHALF : Int
  FREGONE : Int
  FREGTWO : Int
  SZ_VLONG : Int
  REGZERO : Int

/-- The values of `etype` that `regalloc` tells apart; `other` stands for the
remaining ones. -/
inductive Etype where
  | TCHAR | TUCHAR | TSHORT | TUSHORT | TINT | TUINT | TLONG | TULONG | TIND
  | TVLONG | TUVLONG | TFLOAT | TDOUBLE
  | other (code : Nat)
  deriving DecidableEq, Repr

/-- The values of `op` that `txt.c` tests in its register routines, in `gmove`
and in `gopcode`; `other` stands for the remaining ones. -/
inductive Op where
  | OREGISTER | OINDREG
  | OCONST | ONAME | OIND
  | OAS | OASADD | OADD | OASSUB | OSUB | OASOR | OOR | OASAND | OAND | OASXOR | OXOR
  | OASLSHR | OLSHR | OASASHR | OASHR | OASASHL | OASHL | OFUNC
  | OASLMUL | OLMUL | OASMUL | OMUL | OASDIV | ODIV | OASMOD | OMOD
  | OASLMOD | OLMOD | OASLDIV | OLDIV
  | OEQ | ONE | OLT | OGE | OLE | OGT | OLO | OHS | OLS | OHI
  | other (code : Nat)
  deriving DecidableEq, Repr

/-- The fields of `Node` that `nodreg`, `regalloc`, `gmove` and `sconst` read
or write; `etype` is `type->etype`, and `rest` stands for the fields copied as
a whole by `*n = regnode`.  The value of `fconst` is a rational: `gmove` only
compares it with ten constants, and a `double` that is not a number or not
finite differs from all of them, as any other rational does. -/
structure Node where
  op : Op
  reg : Int
  etype : Etype
  lineno : Int
  rest : Nat
  vconst : Int := 0
  fconst : Rat := 0
  deriving DecidableEq, Repr

/-- The globals of the register routines: the use counts `reg[]`, the static
`lasti` of `regalloc`, the template `regnode`, and the messages given to
`diag`, oldest first. -/
structure Regs where
  reg : Int → Int
  lasti : Int
  regnode : Node
  diags : List String

/-- The function `nodreg` of `txt.c`. -/
def nodreg (st : Regs) (nn : Node) (reg : Int) : Node :=
  let n := st.regnode
  let n := { n with reg := reg }
  let n := { n with etype := nn.etype }
  { n with lineno := nn.lineno }

/-- The loops `for(i=lo; i<hi; i++)` of `regalloc`, entered with the values
`i` and `j`: `some (some j)` when the loop leaves by `goto out` with `i = j`,
`some none` when it runs to its end, `none` when `fuel` rounds do not end
it. -/
def regScan (reg : Int → Int) (lo hi : Int) : Nat → Int → Int → Option (Option Int)
  | 0, _, _ => none
  | fuel + 1, i, j =>
    if i < hi then
      let j := if j ≥ hi then lo else j
      if reg j = 0 then some (some j)
      else regScan reg lo hi fuel (i32 (i + 1)) (i32 (j + 1))
    else some none

/-- The code of `regalloc` from the label `out` on, entered with `i`. -/
def regallocOut (M : Machine) (st : Regs) (tn : Node) (i : Int) : Node × Regs :=
  let st := if i ≥ 0 then { st with reg := Function.update st.reg i (M.conv (st.reg i + 1)) }
    else st
  let st := { st with lasti := i32 (st.lasti + 1) }
  let st := if st.lasti ≥ 5 then { st with lasti := 0 } else st
  (nodreg st tn i, st)

/-- The code of `regalloc` at the label `err`, after `diag(tn, msg)`. -/
def regallocErr (M : Machine) (st : Regs) (tn : Node) (msg : String) : Node × Regs :=
  regallocOut M { st with diags := st.diags ++ [msg] } tn (-1)

/-- The function `regalloc` of `txt.c`; `o` is `none` for `Z`.  The result is
the node written to `*n` and the new globals, or `none` when `fuel` rounds do
not end a loop. -/
def regalloc (M : Machine) (fuel : Nat) (st : Regs) (tn : Node) (o : Option Node) :
    Option (Node × Regs) :=
  match tn.etype with
  | .TCHAR | .TUCHAR | .TSHORT | .TUSHORT | .TINT | .TUINT | .TLONG | .TULONG | .TIND
  | .TVLONG | .TUVLONG =>
    let scan : Option (Node × Regs) :=
      match regScan st.reg (i32 (M.REGRET + 1)) M.NREG fuel (i32 (M.REGRET + 1))
          (i32 (i32 (st.lasti + M.REGRET) + 1)) with
      | none => none
      | some (some i) => some (regallocOut M st tn i)
      | some none => some (regallocErr M st tn "out of fixed registers")
    match o with
    | some h =>
      if h.op = .OREGISTER then
        if h.reg ≥ 0 ∧ h.reg < i32 (M.NREG - 1) then some (regallocOut M st tn h.reg)
        else scan
      else scan
    | none => scan
  | .TFLOAT | .TDOUBLE =>
    let scan : Option (Node × Regs) :=
      match regScan st.reg M.NREG (i32 (M.NREG + M.NREG)) fuel M.NREG
          (i32 (i32 (M.NREG + 12) + st.lasti)) with
      | none => none
      | some (some i) => some (regallocOut M st tn i)
      | some none => some (regallocErr M st tn "out of float registers")
    match o with
    | some h =>
      if h.op = .OREGISTER then
        if h.reg ≥ M.NREG ∧ h.reg < i32 (M.NREG + M.NREG) then some (regallocOut M st tn h.reg)
        else scan
      else scan
    | none => scan
  | .other _ => some (regallocErr M st tn "unknown type in regalloc: %T")

/-- The types of the first `case` list of `regalloc`: integers and pointers. -/
def Etype.isFixed : Etype → Bool
  | .TCHAR | .TUCHAR | .TSHORT | .TUSHORT | .TINT | .TUINT | .TLONG | .TULONG | .TIND
  | .TVLONG | .TUVLONG => true
  | _ => false

/-- The types of the second `case` list of `regalloc`: `float` and `double`. -/
def Etype.isFloat : Etype → Bool
  | .TFLOAT | .TDOUBLE => true
  | _ => false

/-- The hint `o` is a register node (`o != Z && o->op == OREGISTER`) whose
register lies in `lo <= reg < hi`. -/
def usableHint (o : Option Node) (lo hi : Int) : Prop :=
  ∃ h, o = some h ∧ h.op = .OREGISTER ∧ lo ≤ h.reg ∧ h.reg < hi

/-- Constants like those of the Alpha: 32 registers of each kind, results in
R0 and F0, the zero register R31, the floating constants in F28 to F31; the
elements of `reg[]` are taken to be bytes. -/
def alpha : Machine :=
  { NREG := 32, REGRET := 0, FREGRET := 0, conv := fun x => (x + 128) % 256 - 128,
    regBytes := 64, FREGZERO := 31, FREGHALF := 28, FREGONE := 29, FREGTWO := 30,
    SZ_VLONG := 8, REGZERO := 31 }

/-- A register template as `ginit` leaves it. -/
def okRegnode : Node := { op := .OREGISTER, reg := 28, etype := .TLONG, lineno := 0, rest := 11 }

/-- Globals in which the fixed registers 1 to 5 and 31 are in use, and
`lasti` is 3. -/
def busyRegs : Regs :=
  { reg := fun r => if (1 ≤ r ∧ r ≤ 5) ∨ r = 31 then 1 else 0, lasti := 3,
    regnode := okRegnode, diags := [] }

/-- Globals in which every register is in use. -/
def fullRegs : Regs := { reg := fun _ => 1, lasti := 4, regnode := okRegnode, diags := [] }

/-- A node of type `long` at line 7. -/
def longNode : Node := { op := .other 0, reg := 0, etype := .TLONG, lineno := 7, rest := 0 }

/-! ## `regfree`, `gins`, `samaddr`, `fop`, `gmove` and `gopcode` -/

/-- What `cc.h` and the portable part of the compiler give to `txt.c`: the
type tables `typefd`, `typechlp`, `typeilp` and the function `vconst`; they
are not in the sources. -/
structure Cc where
  typefd : Etype → Bool
  typechlp : Etype → Bool
  typeilp : Etype → Bool
  vconst : Option Node → Int

/-- The code of `regfree` at the label `err`. -/
def regfreeErr (st : Regs) : Regs :=
  { st with diags := st.diags ++ ["error in regfree: %d op %O"] }

/-- The function `regfree` of `txt.c`. -/
def regfree (M : Machine) (st : Regs) (n : Node) : Regs :=
  if n.op ≠ .OREGISTER ∧ n.op ≠ .OINDREG then regfreeErr st
  else
    let i := n.reg
    if i < 0 ∨ i ≥ M.regBytes then regfreeErr st
    else if st.reg i ≤ 0 then regfreeErr st
    else { st with reg := Function.update st.reg i (M.conv (st.reg i - 1)) }

/-- The instruction codes that `gmove` and `gopcode` emit (names of `7.out.h`,
which is not in the sources). -/
inductive As where
  | AGOK | AMOVL | AMOVQ | AMOVS | AMOVT | AMOVB | AMOVBU | AMOVW | AMOVWU | AMOVLU
  | ACVTTS | ACVTTQ | ACVTQT | ACVTQS
  | AADDL | AADDS | AADDT | AADDQ | ASUBL | ASUBS | ASUBT | ASUBQ
  | AOR | AAND | AXOR | ASRLL | ASRLQ | ASRAL | ASRAQ | ASLLL | ASLLQ | AJSR
  | AMULL | AMULS | AMULT | AMULQ | ADIVL | ADIVS | ADIVT | ADIVQ
  | AMODL | AMODQ | AMODLU | AMODQU | ADIVLU | ADIVQU
  | ACMPEQ | ACMPTEQ | ACMPGT | ACMPTGT | ACMPGE | ACMPTGE | ACMPUGT | ACMPUGE
  | ABEQ | ABNE | ABLT | ABGE | ABLE | ABGT | AFBNE | AFBEQ
  deriving DecidableEq, Repr

/-- An instruction given to `nextpc`, with the nodes its operands are made
from: `src` for `p->from`, `mid` for `p->reg`, `dst` for `p->to`.  The
encoding of the operands by `naddr` and `raddr` is not computed: it reads the
nodes and writes the instruction only. -/
structure Ins where
  opc : As
  src : Option Node
  mid : Option Node
  dst : Option Node
  deriving DecidableEq, Repr

/-- The globals that `gmove`, `fop` and `gopcode` read or write: those of the
register routines, the instructions emitted so far (oldest first), `nrathole`
and the node `nodrat`. -/
structure Gen where
  regs : Regs
  prog : List Ins
  nrathole : Int
  nodrat : Node

/-- The function `gins` of `txt.c`. -/
def gins (g : Gen) (a : As) (f t : Option Node) : Gen :=
  { g with prog := g.prog ++ [Ins.mk a f none t] }

/-- The function `samaddr` of `txt.c`. -/
def samaddr (f t : Node) : Int :=
  if f.op ≠ t.op then 0
  else match f.op with
    | .OREGISTER => if f.reg ≠ t.reg then 0 else 1
    | _ => 0

/-- The instruction of a load in `gmove`: the first `switch(ft)`. -/
def loadAs : Etype → As
  | .TVLONG | .TUVLONG => .AMOVQ
  | .TFLOAT => .AMOVS
  | .TDOUBLE => .AMOVT
  | .TCHAR => .AMOVB
  | .TUCHAR => .AMOVBU
  | .TSHORT => .AMOVW
  | .TUSHORT => .AMOVWU
  | _ => .AMOVL

/-- The instruction of a store in `gmove`: the `switch(tt)`. -/
def storeAs : Etype → As
  | .TUCHAR | .TCHAR => .AMOVB
  | .TUSHORT | .TSHORT => .AMOVW
  | .TFLOAT => .AMOVS
  | .TDOUBLE => .AMOVT
  | .TVLONG | .TUVLONG => .AMOVQ
  | _ => .AMOVL

/-- Where the "type x type cross table" of `gmove` leads: to the end of the
function with the instruction `a`, to the code "float to fix", or to the
label `fxtofl`. -/
inductive Cross where
  | ins (a : As)
  | floatToFix
  | fixToFloat
  deriving DecidableEq, Repr

/-- The "type x type cross table" of `gmove`. -/
def cross (ft tt : Etype) : Cross :=
  match ft with
  | .TDOUBLE | .TFLOAT =>
    match tt with
    | .TDOUBLE => .ins .AMOVT
    | .TFLOAT => .ins (if ft = .TFLOAT then .AMOVT else .ACVTTS)
    | .TINT | .TUINT | .TLONG | .TULONG | .TUVLONG | .TVLONG | .TIND | .TSHORT | .TUSHORT
    | .TCHAR | .TUCHAR => .floatToFix
    | _ => .ins .AGOK
  | .TVLONG | .TUVLONG =>
    match tt with
    | .TDOUBLE | .TFLOAT => .fixToFloat
    | .TINT | .TUINT | .TLONG | .TULONG | .TIND | .TSHORT | .TUSHORT | .TCHAR | .TUCHAR =>
      .ins .AMOVL
    | .TVLONG | .TUVLONG => .ins .AMOVQ
    | _ => .ins .AGOK
  | .TINT | .TUINT | .TULONG | .TLONG | .TIND =>
    match tt with
    | .TDOUBLE | .TFLOAT => .fixToFloat
    | .TVLONG | .TUVLONG => .ins (if ft = .TULONG ∨ ft = .TUINT then .AMOVLU else .AMOVQ)
    | .TINT | .TUINT | .TLONG | .TULONG | .TIND | .TSHORT | .TUSHORT | .TCHAR | .TUCHAR =>
      .ins .AMOVQ
    | _ => .ins .AGOK
  | .TSHORT =>
    match tt with
    | .TDOUBLE | .TFLOAT => .fixToFloat
    | .TINT | .TUINT | .TULONG | .TLONG | .TVLONG | .TUVLONG | .TIND => .ins .AMOVW
    | .TSHORT | .TUSHORT | .TCHAR | .TUCHAR => .ins .AMOVQ
    | _ => .ins .AGOK
  | .TUSHORT =>
    match tt with
    | .TDOUBLE | .TFLOAT => .fixToFloat
    | .TINT | .TUINT | .TLONG | .TULONG | .TVLONG | .TUVLONG | .TIND => .ins .AMOVWU
    | .TSHORT | .TUSHORT | .TCHAR | .TUCHAR => .ins .AMOVQ
    | _ => .ins .AGOK
  | .TCHAR =>
    match tt with
    | .TDOUBLE | .TFLOAT => .fixToFloat
    | .TINT | .TUINT | .TLONG | .TULONG | .TVLONG | .TUVLONG | .TIND | .TSHORT | .TUSHORT =>
      .ins .AMOVB
    | .TCHAR | .TUCHAR => .ins .AMOVQ
    | _ => .ins .AGOK
  | .TUCHAR =>
    match tt with
    | .TDOUBLE | .TFLOAT => .fixToFloat
    | .TINT | .TUINT | .TLONG | .TULONG | .TVLONG | .TUVLONG | .TIND | .TSHORT | .TUSHORT =>
      .ins .AMOVBU
    | .TCHAR | .TUCHAR => .ins .AMOVQ
    | _ => .ins .AGOK
  | .other _ => .ins .AGOK

/-- The constants 0.5, -0.5, 1.5 and 2.5 that `gmove` compares `fconst`
with. -/
def dHalf : Rat := Rat.mk' 1 2 (by decide) (by decide)

/-- The constant -0.5. -/
def dMinusHalf : Rat := Rat.mk' (-1) 2 (by decide) (by decide)

/-- The constant 1.5. -/
def dOneHalf : Rat := Rat.mk' 3 2 (by decide) (by decide)

/-- The constant 2.5. -/
def dTwoHalf : Rat := Rat.mk' 5 2 (by decide) (by decide)

/-- What the tests of `gmove` on a floating constant source lead to: the
label `ffreg` with the register `a`, a call `fop(o, f1, f2, t)`, or the rest of
the function. -/
inductive Special where
  | ffreg (a : Int)
  | fop (o : Op) (f1 f2 : Int)
  | no
  deriving DecidableEq, Repr

/-- The second test of `gmove`: `ft == TFLOAT && f->op == OCONST`. -/
def gmoveSpecialFloat (M : Machine) (f : Node) : Special :=
  if f.etype = .TFLOAT ∧ f.op = .OCONST then
    if f.fconst = 0 then .ffreg M.FREGZERO else .no
  else .no

/-- The two tests of `gmove` on a constant source of floating type. -/
def gmoveSpecial (M : Machine) (f : Node) : Special :=
  if f.etype = .TDOUBLE ∧ f.op = .OCONST then
    if f.fconst = 0 then .ffreg M.FREGZERO
    else if f.fconst = dHalf then .ffreg M.FREGHALF
    else if f.fconst = 1 then .ffreg M.FREGONE
    else if f.fconst = 2 then .ffreg M.FREGTWO
    else if f.fconst = dMinusHalf then .fop .OSUB M.FREGHALF M.FREGZERO
    else if f.fconst = -1 then .fop .OSUB M.FREGONE M.FREGZERO
    else if f.fconst = -2 then .fop .OSUB M.FREGTWO M.FREGZERO
    else if f.fconst = dOneHalf then .fop .OADD M.FREGONE M.FREGHALF
    else if f.fconst = dTwoHalf then .fop .OADD M.FREGTWO M.FREGHALF
    else if f.fconst = 3 then .fop .OADD M.FREGTWO M.FREGONE
    else gmoveSpecialFloat M f
  else gmoveSpecialFloat M f

/-- The choice `a = l; if(et == TFLOAT) a = s; else if(et == TDOUBLE) a = t;
else if(et == TVLONG || et == TUVLONG) a = q` of `gopcode`. -/
def arithAs (et : Etype) (l s t q : As) : As :=
  if et = .TFLOAT then s
  else if et = .TDOUBLE then t
  else if et = .TVLONG ∨ et = .TUVLONG then q
  else l

/-- The choice `a = l; if(et == TVLONG || et == TUVLONG) a = q` of
`gopcode`. -/
def wideAs (et : Etype) (l q : As) : As :=
  if et = .TVLONG ∨ et = .TUVLONG then q else l

/-- Where the `switch(o)` of `gopcode` leads: to `gmove(f1, t)`, to the end of
the function with the instruction `a` and the destination `t` (which the
comparisons with zero set to `Z`), or to the label `cmp` with `a`. -/
inductive Sel where
  | move
  | plain (a : As) (t : Option Node)
  | cmp (a : As)
  deriving DecidableEq, Repr

/-- The `switch(o)` of `gopcode`. -/
def gopcodeSel (C : Cc) (o : Op) (et : Etype) (t : Option Node) : Sel :=
  match o with
  | .OAS => .move
  | .OASADD | .OADD => .plain (arithAs et .AADDL .AADDS .AADDT .AADDQ) t
  | .OASSUB | .OSUB => .plain (arithAs et .ASUBL .ASUBS .ASUBT .ASUBQ) t
  | .OASOR | .OOR => .plain .AOR t
  | .OASAND | .OAND => .plain .AAND t
  | .OASXOR | .OXOR => .plain .AXOR t
  | .OASLSHR | .OLSHR => .plain (wideAs et .ASRLL .ASRLQ) t
  | .OASASHR | .OASHR => .plain (wideAs et .ASRAL .ASRAQ) t
  | .OASASHL | .OASHL => .plain (wideAs et .ASLLL .ASLLQ) t
  | .OFUNC => .plain .AJSR t
  | .OASLMUL | .OLMUL | .OASMUL | .OMUL => .plain (arithAs et .AMULL .AMULS .AMULT .AMULQ) t
  | .OASDIV | .ODIV => .plain (arithAs et .ADIVL .ADIVS .ADIVT .ADIVQ) t
  | .OASMOD | .OMOD => .plain (wideAs et .AMODL .AMODQ) t
  | .OASLMOD | .OLMOD => .plain (wideAs et .AMODLU .AMODQU) t
  | .OASLDIV | .OLDIV => .plain (wideAs et .ADIVLU .ADIVQU) t
  | .OEQ | .ONE =>
    if C.typefd et = true then .cmp .ACMPTEQ
    else if C.vconst t = 0 then .plain (if o = .OEQ then .ABEQ else .ABNE) none
    else .cmp .ACMPEQ
  | .OLT | .OGE =>
    if C.typefd et = true then .cmp .ACMPTGT
    else if C.vconst t = 0 then .plain (if o = .OLT then .ABLT else .ABGE) none
    else .cmp .ACMPGT
  | .OLE | .OGT =>
    if C.typefd et = true then .cmp .ACMPTGE
    else if C.vconst t = 0 then .plain (if o = .OLE then .ABLE else .ABGT) none
    else .cmp .ACMPGE
  | .OLO | .OHS => .cmp .ACMPUGT
  | .OLS | .OHI => .cmp .ACMPUGE
  | _ => .plain .AGOK t

/-- The type `et` that `gopcode` computes first; the nodes of the model have
a type (`type != T`). -/
def gopcodeEt (f1 t : Option Node) : Etype :=
  match f1 with
  | none => .TLONG
  | some n =>
    if n.op = .OCONST then
      match t with
      | some tn => tn.etype
      | none => n.etype
    else n.etype

/-- The code of `gopcode` at the label `cmp`, with `t` the node that `t`
points to. -/
def gopcodeCmp (M : Machine) (C : Cc) (sf : Nat) (g : Gen) (o : Op) (et : Etype) (a : As)
    (f1 : Option Node) (t : Node) : Option Gen :=
  match regalloc M sf g.regs t none with
  | none => none
  | some (nod, st) =>
    let g := { g with regs := st }
    let g := { g with prog := g.prog ++ [Ins.mk a (some t) f1 (some nod)] }
    let a :=
      if o = .OEQ ∨ o = .OLT ∨ o = .OLE ∨ o = .OLO ∨ o = .OLS then
        (if C.typefd et = true then As.AFBNE else As.ABNE)
      else (if C.typefd et = true then As.AFBEQ else As.ABEQ)
    let g := { g with prog := g.prog ++ [Ins.mk a (some nod) none none] }
    some { g with regs := regfree M g.regs nod }

/-- The function `gopcode` of `txt.c`, with `rec` for the function `gmove` it
calls; `none` for `Z`.  The result is `none` when `rec` or a loop of
`regalloc` gives none, and where the code reads through a nil pointer (`OAS`
with `f1` or `t` nil, `cmp` with `t` nil). -/
def gopcodeWith (M : Machine) (C : Cc) (sf : Nat) (rec : Gen → Node → Node → Option Gen)
    (g : Gen) (o : Op) (f1 f2 t : Option Node) : Option Gen :=
  let et := gopcodeEt f1 t
  match gopcodeSel C o et t with
  | .move =>
    match f1, t with
    | some f, some t => rec g f t
    | _, _ => none
  | .cmp a =>
    match t with
    | some t => gopcodeCmp M C sf g o et a f1 t
    | none => none
  | .plain a t =>
    let g := if a = .AGOK then
        { g with regs := { g.regs with diags := g.regs.diags ++ ["bad in gopcode %O"] } }
      else g
    some { g with prog := g.prog ++ [Ins.mk a f1 f2 t] }

/-- The function `fop` of `txt.c`, with `rec` for the function `gmove` it
calls. -/
def fopWith (M : Machine) (C : Cc) (sf : Nat) (rec : Gen → Node → Node → Option Gen)
    (g : Gen) (o : Op) (f1 f2 : Int) (t : Node) : Option Gen :=
  let nod1 := nodreg g.regs t (i32 (M.NREG + f1))
  let nod2 := nodreg g.regs t (i32 (M.NREG + f2))
  match regalloc M sf g.regs t (some t) with
  | none => none
  | some (nod3, st) =>
    let g := { g with regs := st }
    match gopcodeWith M C sf rec g o (some nod1) (some nod2) (some nod3) with
    | none => none
    | some g =>
      match rec g nod3 t with
      | none => none
      | some g => some { g with regs := regfree M g.regs nod3 }

/-- The statement `if(nrathole < SZ_VLONG) nrathole = SZ_VLONG` of `gmove`. -/
def ratHole (M : Machine) (g : Gen) : Gen :=
  if g.nrathole < M.SZ_VLONG then { g with nrathole := M.SZ_VLONG } else g

/-- The code "a load" of `gmove`. -/
def gmoveLoad (M : Machine) (C : Cc) (sf : Nat) (rec : Gen → Node → Node → Option Gen)
    (g : Gen) (f t : Node) : Option Gen :=
  let a := loadAs f.etype
  let r :=
    if C.typechlp f.etype = true ∧ C.typeilp t.etype = true then
      regalloc M sf g.regs t (some t)
    else regalloc M sf g.regs f (some t)
  match r with
  | none => none
  | some (nod, st) =>
    let g := { g with regs := st }
    let g := gins g a (some f) (some nod)
    match rec g nod t with
    | none => none
    | some g => some { g with regs := regfree M g.regs nod }

/-- The code "a store" of `gmove`. -/
def gmoveStore (M : Machine) (C : Cc) (sf : Nat) (rec : Gen → Node → Node → Option Gen)
    (g : Gen) (f t : Node) : Option Gen :=
  let a := storeAs t.etype
  if C.typefd f.etype = false ∧ C.vconst (some f) = 0 then some (gins g a (some f) (some t))
  else
    let r :=
      if f.etype = t.etype then regalloc M sf g.regs t (some f)
      else regalloc M sf g.regs t none
    match r with
    | none => none
    | some (nod, st) =>
      let g := { g with regs := st }
      match rec g f nod with
      | none => none
      | some g =>
        let g := gins g a (some nod) (some t)
        some { g with regs := regfree M g.regs nod }

/-- The code "float to fix" of `gmove`. -/
def gmoveFloatToFix (M : Machine) (sf : Nat) (rec : Gen → Node → Node → Option Gen)
    (g : Gen) (f t : Node) : Option Gen :=
  match regalloc M sf g.regs f none with
  | none => none
  | some (nod, st) =>
    let g := { g with regs := st }
    let g := gins g .ACVTTQ (some f) (some nod)
    let g := gins g .AMOVT (some nod) (some g.nodrat)
    let g := { g with regs := regfree M g.regs nod }
    let g := gins g .AMOVQ (some g.nodrat) (some t)
    match rec g t t with
    | none => none
    | some g => some (ratHole M g)

/-- The code of `gmove` at the label `fxtofl`. -/
def gmoveFixToFloat (M : Machine) (sf : Nat) (g : Gen) (f t : Node) : Option Gen :=
  match regalloc M sf g.regs t none with
  | none => none
  | some (nod, st) =>
    let g := { g with regs := st }
    let g := gins g .AMOVQ (some f) (some g.nodrat)
    let g := gins g .AMOVT (some g.nodrat) (some nod)
    let a := if t.etype = .TFLOAT then As.ACVTQS else As.ACVTQT
    let g := gins g a (some nod) (some t)
    let g := { g with regs := regfree M g.regs nod }
    some (ratHole M g)

/-- The end of `gmove`: `if(a == AMOVQ || a == AMOVS || a == AMOVT)
if(samaddr(f, t)) return; gins(a, f, t)`. -/
def gmoveEnd (g : Gen) (a : As) (f t : Node) : Gen :=
  if (a = .AMOVQ ∨ a = .AMOVS ∨ a = .AMOVT) ∧ samaddr f t ≠ 0 then g
  else gins g a (some f) (some t)

/-- The body of `gmove`, with `rec` for the function `gmove` it calls. -/
def gmoveBody (M : Machine) (C : Cc) (sf : Nat) (rec : Gen → Node → Node → Option Gen)
    (g : Gen) (f t : Node) : Option Gen :=
  match gmoveSpecial M f with
  | .ffreg a => rec g (nodreg g.regs f (i32 (M.NREG + a))) t
  | .fop o f1 f2 => fopWith M C sf rec g o f1 f2 t
  | .no =>
    if f.op = .ONAME ∨ f.op = .OINDREG ∨ f.op = .OIND then gmoveLoad M C sf rec g f t
    else if t.op = .ONAME ∨ t.op = .OINDREG ∨ t.op = .OIND then gmoveStore M C sf rec g f t
    else
      match cross f.etype t.etype with
      | .floatToFix => gmoveFloatToFix M sf rec g f t
      | .fixToFloat => gmoveFixToFloat M sf g f t
      | .ins a => some (gmoveEnd g a f t)

/-- The function `gmove` of `txt.c`: `depth` bounds the nesting of its calls
of itself and `sf` the rounds of a loop of `regalloc`; the result is `none`
when one of them is used up. -/
def gmove (M : Machine) (C : Cc) (sf : Nat) : Nat → Gen → Node → Node → Option Gen
  | 0, _, _, _ => none
  | depth + 1, g, f, t => gmoveBody M C sf (gmove M C sf depth) g f t

/-- The function `fop` of `txt.c`, its calls of `gmove` nested at most `depth`
deep. -/
def fop (M : Machine) (C : Cc) (sf depth : Nat) (g : Gen) (o : Op) (f1 f2 : Int) (t : Node) :
    Option Gen :=
  fopWith M C sf (gmove M C sf depth) g o f1 f2 t

/-- The function `gopcode` of `txt.c`, its calls of `gmove` nested at most
`depth` deep. -/
def gopcode (M : Machine) (C : Cc) (sf depth : Nat) (g : Gen) (o : Op) (f1 f2 t : Option Node) :
    Option Gen :=
  gopcodeWith M C sf (gmove M C sf depth) g o f1 f2 t

/-! ## `sval`, `bval`, `sconst` and `bconst` -/

/-- The function `sval` of `txt.c`, on the value of its `long` argument. -/
def sval (v : Int) : Int :=
  if v ≥ -32766 ∧ v < 32766 then 1 else 0

/-- The function `bval` of `txt.c`, on the value of its `vlong` argument. -/
def bval (v : Int) : Int :=
  if v ≥ 0 ∧ v < 256 then 1 else 0

/-- The function `sconst` of `txt.c`. -/
def sconst (C : Cc) (n : Node) : Int :=
  if n.op = .OCONST then
    if C.typefd n.etype = false then
      if n.vconst ≥ -32766 ∧ n.vconst < 32766 then 1 else 0
    else 0
  else 0

/-- The function `bconst` of `txt.c`. -/
def bconst (C : Cc) (n : Node) : Int :=
  if n.op = .OCONST then
    if C.typefd n.etype = false then
      if n.vconst ≥ 0 ∧ n.vconst < 256 then 1 else 0
    else 0
  else 0

/-! ## Definitions for the claims on `gmove` -/

/-- The node is a memory operand for `gmove`: `ONAME`, `OINDREG` or `OIND`. -/
def Node.isMem (n : Node) : Bool :=
  decide (n.op = .ONAME ∨ n.op = .OINDREG ∨ n.op = .OIND)

/-- A bound on the nesting of the calls of `gmove(f, t)`: 4 for a source that
is a floating constant treated apart or a memory operand, 3 for a memory
destination, 2 for a conversion from floating to fixed, 1 otherwise. -/
def gmoveDepth (M : Machine) (f t : Node) : Nat :=
  if gmoveSpecial M f ≠ .no ∨ f.isMem = true then 4
  else if t.isMem = true then 3
  else if cross f.etype t.etype = .floatToFix then 2
  else 1

/-- The globals are as `ginit` and `regalloc` leave them: `regnode` is a
register node and `lasti` is in 0..4. -/
def Regs.ok (st : Regs) : Prop :=
  st.regnode.op = .OREGISTER ∧ 0 ≤ st.lasti ∧ st.lasti ≤ 4

/-- Every count of `reg[]` is at least 0 and can go up by `k` without passing
`B`. -/
def Regs.room (st : Regs) (B : Int) (k : Nat) : Prop :=
  ∀ r, 0 ≤ st.reg r ∧ st.reg r + k ≤ B

/-- The array `reg[]` has room for the `NREG+NREG` registers
(`NREG+NREG <= sizeof(reg)`), and a count from 0 to `B` is stored unchanged in
one of its elements. -/
def Machine.ok (M : Machine) (B : Int) : Prop :=
  M.NREG + M.NREG ≤ M.regBytes ∧ ∀ x, 0 ≤ x → x ≤ B → M.conv x = x

/-- The type tables of the portable compiler, and its `vconst` on integer
constants (-159 stands for "not a constant"). -/
def okCc : Cc :=
  { typefd := fun e => e.isFloat
    typechlp := fun e => decide (e.isFixed = true ∧ e ≠ .TVLONG ∧ e ≠ .TUVLONG)
    typeilp := fun e =>
      decide (e = .TINT ∨ e = .TUINT ∨ e = .TLONG ∨ e = .TULONG ∨ e = .TIND)
    vconst := fun n =>
      match n with
      | some n => if n.op = .OCONST ∧ n.etype.isFixed = true then n.vconst else -159
      | none => -159 }

/-- Globals with the registers of `busyRegs`, no instruction emitted yet and
a node `nodrat`. -/
def okGen : Gen :=
  { regs := busyRegs, prog := [], nrathole := 0,
    nodrat := { op := .ONAME, reg := 0, etype := .TIND, lineno := 0, rest := 0 } }

/-- A variable of type `double` in memory. -/
def doubleVar : Node := { op := .ONAME, reg := 0, etype := .TDOUBLE, lineno := 9, rest := 0 }

/-- A variable of type `long` in memory. -/
def longVar : Node := { op := .ONAME, reg := 0, etype := .TLONG, lineno := 9, rest := 0 }

/-- The constant -0.5 of type `double`. -/
def minusHalf : Node :=
  { op := .OCONST, reg := 0, etype := .TDOUBLE, lineno := 9, rest := 0, fconst := dMinusHalf }

/-- The constants are those of a machine: `0 <= REGRET` and `0 <= NREG`, both
below 2^30. -/
def Machine.sane (M : Machine) : Prop :=
  (0 ≤ M.REGRET ∧ M.REGRET < 2 ^ 30) ∧ (0 ≤ M.NREG ∧ M.NREG < 2 ^ 30)

/-- A run of `rec` from globals that are in order and whose counts have room
for `k` more uses returns with the counts of `reg[]` it started with. -/
def Balanced (B : Int) (k : Nat) (rec : Gen → Node → Node → Option Gen) : Prop :=
  ∀ g f t g1, g.regs.ok → g.regs.room B k → rec g f t = some g1 →
    g1.regs.reg = g.regs.reg ∧ g1.regs.ok

/-- The function `rec` returns on the operands whose nesting bound is at most
`k`, and leaves the globals in order. -/
def Returns (M : Machine) (k : Nat) (rec : Gen → Node → Node → Option Gen) : Prop :=
  ∀ g f t, g.regs.ok → gmoveDepth M f t ≤ k → ∃ g1, rec g f t = some g1 ∧ g1.regs.ok

/-! ## The loops of `gclean` over `reg[]` -/

/-- The first loop of `gclean`, entered with `i`: the messages it gives to
`diag`, or `none` when `fuel` rounds do not end it. -/
def gcleanFixed (M : Machine) (reg : Int → Int) : Nat → Int → Option (List String)
  | 0, _ => none
  | fuel + 1, i =>
    if i < M.NREG then
      match gcleanFixed M reg fuel (i32 (i + 1)) with
      | none => none
      | some l =>
        if i ≠ M.REGZERO ∧ reg i ≠ 0 then
          some (("reg " ++ toString i ++ " left allocated") :: l)
        else some l
    else some []

/-- The second loop of `gclean`, entered with `i`. -/
def gcleanFloat (M : Machine) (reg : Int → Int) : Nat → Int → Option (List String)
  | 0, _ => none
  | fuel + 1, i =>
    if i < i32 (M.NREG + M.NREG) then
      match gcleanFloat M reg fuel (i32 (i + 2)) with
      | none => none
      | some l =>
        if reg i ≠ 0 then
          some (("freg " ++ toString (i32 (i - M.NREG)) ++ " left allocated") :: l)
        else some l
    else some []

/-- The messages of the two loops of `gclean` over `reg[]`, in order. -/
def gcleanDiags (M : Machine) (fuel : Nat) (reg : Int → Int) : Option (List String) :=
  match gcleanFixed M reg fuel 0 with
  | none => none
  | some l1 =>
    match gcleanFloat M reg fuel M.NREG with
    | none => none
    | some l2 => some (l1 ++ l2)

/-- The start of `gclean`: its two loops over `reg[]` (what follows writes out
the strings and the symbols, and does not read `reg[]`). -/
def gcleanRegs (M : Machine) (fuel : Nat) (st : Regs) : Option Regs :=
  match gcleanDiags M fuel st.reg with
  | none => none
  | some l => some { st with diags := st.diags ++ l }

/-- Globals in which no register is in use but the zero register. -/
def freeRegs : Regs :=
  { reg := fun r => if r = 31 then 1 else 0, lasti := 0, regnode := okRegnode, diags := [] }

end SevenC

namespace Fossil

/-! ## Definitions for the claim on the accepted calls of `fsEpochLow` -/

/-- From `dat.h`: io state `BioReadError`, the member after `BioWriting`. -/
def BioReadError : Nat := 6

/-- After the calls `t`, the first loop of `superPut` on the block `b` makes
`k` failed rounds and then a `blockWrite(b)` that succeeds. -/
def WritesAt (env : Env) (b : Block) (t : List Event) (k : Nat) : Prop :=
  (∀ i, i < k → env.blockWrite (t ++ retries b i) b = false) ∧
    env.blockWrite (t ++ retries b k) b = true

/-- After the calls `t`, the second loop of `superPut` on the block `b` finds
`b->iostate == BioWriting` in each of its first `m` rounds. -/
def StaysWriting (env : Env) (b : Block) (t : List Event) (m : Nat) : Prop :=
  ∀ j, j < m → env.iostate (t ++ List.replicate j (.vtSleep b)) b = BioWriting

/-- The calls of `fsEpochLow` up to the `blockWrite(bs)` that succeeds after
`k` failed rounds. -/
def lowWritten (env : Env) (w : World) (low : Nat) (bs : Block) (k : Nat) : List Event :=
  (lowWorld env w low bs).trace ++ retries bs k ++ [.blockWrite bs]

/-- The environment `okEnv` with a disk that refuses every `blockWrite`. -/
def deadDiskEnv : Env := { okEnv with blockWrite := fun _ _ => false }

/-- The environment `okEnv` with a super-block that is in the state
`BioReadError` after its write. -/
def ioErrorEnv : Env := { okEnv with iostate := fun _ _ => BioReadError }

/-- The environment `flakyEnv` with a super-block that is still `BioWriting`
at the first test after its write and `BioClean` after one `vtSleep`. -/
def slowEnv : Env :=
  { flakyEnv with
    iostate := fun t _ => if t.any (fun e => decide (e = .vtSleep okBlock)) then BioClean
      else BioWriting }

/-- The environment `okEnv` with a file tree in which `fileWalkSources` fails. -/
def noWalkEnv : Env := { okEnv with fileWalkSources := fun _ _ => false }

/-- The environment `okEnv` with a file tree in which `fileOpen` fails. -/
def noFileEnv : Env := { okEnv with fileOpen := fun _ _ => none }

/-! ## Lemmas on `superGet` and `superPut` -/

theorem Quiet.qrefl (K : Event → Bool) (w : World) : Quiet K w w :=
  ⟨rfl, rfl, rfl, [], by simp, by simp⟩

theorem Quiet.qtrans {K : Event → Bool} {w1 w2 w3 : World}
    (h12 : Quiet K w1 w2) (h23 : Quiet K w2 w3) : Quiet K w1 w3 := by
  obtain ⟨a1, a2, a3, n1, a4, a5⟩ := h12
  obtain ⟨b1, b2, b3, n2, b4, b5⟩ := h23
  refine ⟨Eq.trans b1 a1, Eq.trans b2 a2, Eq.trans b3 a3, n1 ++ n2, ?_, ?_⟩
  · rw [b4, a4, List.append_assoc]
  · intro e he
    rcases List.mem_append.1 he with h | h
    · exact a5 e h
    · exact b5 e h

theorem Quiet.qmono {K K2 : Event → Bool} {w1 w2 : World}
    (hK : ∀ e, K e = true → K2 e = true) (h : Quiet K w1 w2) : Quiet K2 w1 w2 := by
  obtain ⟨a1, a2, a3, n1, a4, a5⟩ := h
  exact ⟨a1, a2, a3, n1, a4, fun e he => hK e (a5 e he)⟩

theorem Quiet.qlog {K : Event → Bool} (w : World) (e : Event) (he : K e = true) :
    Quiet K w (w.log e) :=
  ⟨rfl, rfl, rfl, [e], rfl, by simpa using he⟩

theorem Quiet.log_right {K : Event → Bool} {w1 w2 : World} (h : Quiet K w1 w2)
    (e : Event) (he : K e = true) : Quiet K w1 (w2.log e) :=
  h.qtrans (Quiet.qlog w2 e he)

theorem isWriteIO_isInner (e : Event) (h : e.isWriteIO = true) : e.isInner = true := by
  cases e <;> simp_all [Event.isWriteIO, Event.isInner]

theorem superPutWrite_quiet (env : Env) (b : Block) (fuel : Nat) (w : World) :
    Quiet Event.isWriteIO w (superPutWrite env b fuel w).world := by
  induction fuel generalizing w with
  | zero => exact Quiet.qrefl _ _
  | succ n ih =>
    unfold superPutWrite
    by_cases hok : env.blockWrite w.trace b = true
    · simp only [hok, if_true, Outcome.world]
      exact Quiet.qlog _ _ rfl
    · simp only [hok, Outcome.world]
      exact ((Quiet.qlog w (.blockWrite b) rfl).log_right (.sleep (10 * 0)) rfl).qtrans (ih _)

theorem superPutWait_quiet (env : Env) (b : Block) (fuel : Nat) (w : World) :
    Quiet Event.isWriteIO w (superPutWait env b fuel w).world := by
  induction fuel generalizing w with
  | zero => exact Quiet.qrefl _ _
  | succ n ih =>
    unfold superPutWait
    simp only
    split
    · split
      · exact (Quiet.qlog w (.vtSleep b) rfl).qtrans (ih _)
      · exact Quiet.qrefl _ _
    · exact Quiet.qrefl _ _

theorem superPut_quiet (env : Env) (fuel : Nat) (w : World) (b : Block) (super : Super)
    (forceWrite : Int) :
    Quiet Event.isWriteIO
      (({ w with super := super }.log (.superPack super b)).log (.blockDirty b))
      (superPut env fuel w b super forceWrite).world := by
  unfold superPut
  simp only
  split
  · have h1 := superPutWrite_quiet env b fuel
      (({ w with super := super }.log (.superPack super b)).log (.blockDirty b))
    split
    · next u w1 hw =>
      rw [hw] at h1
      have h2 := superPutWait_quiet env b fuel w1
      split
      · next u2 w2 hw2 =>
        rw [hw2] at h2
        exact (h1.qtrans h2).log_right _ rfl
      · next w2 hw2 =>
        rw [hw2] at h2
        exact h1.qtrans h2
      · next w2 hw2 =>
        rw [hw2] at h2
        exact h1.qtrans h2
    · next w1 hw =>
      rw [hw] at h1
      exact h1
    · next w1 hw =>
      rw [hw] at h1
      exact h1
  · exact Quiet.qlog _ _ rfl

theorem superGet_some (env : Env) (w w1 : World) (bs : Block) (s : Super)
    (h : superGet env w = (some (bs, s), w1)) :
    env.cacheLocal w.trace PartSuper 0 env.OReadWrite = some bs ∧ s = w.super ∧
      w1 = (w.log (.cacheLocal PartSuper 0 env.OReadWrite)).log (.superUnpack bs) := by
  unfold superGet at h
  cases hc : env.cacheLocal w.trace PartSuper 0 env.OReadWrite with
  | none => simp [hc] at h
  | some b =>
    simp only [hc] at h
    split at h
    · simp only [Prod.mk.injEq, Option.some.injEq] at h
      obtain ⟨⟨hb, hs⟩, hw⟩ := h
      subst hb
      exact ⟨rfl, hs.symm, hw.symm⟩
    · simp at h

theorem isPlain_isInner (e : Event) (h : e.isPlain = true) : e.isInner = true := by
  cases e <;> simp_all [Event.isPlain, Event.isInner]

theorem superGet_quiet (env : Env) (w : World) :
    Quiet Event.isPlain w (superGet env w).2 := by
  unfold superGet
  cases hc : env.cacheLocal w.trace PartSuper 0 env.OReadWrite with
  | none => exact Quiet.qlog _ _ rfl
  | some b =>
    simp only
    split
    · exact (Quiet.qlog _ _ rfl).log_right _ rfl
    · exact ((Quiet.qlog _ _ rfl).log_right _ rfl).log_right _ rfl

theorem superPut_quiet_of_eq {env : Env} {fuel : Nat} {w : World} {b : Block} {super : Super}
    {forceWrite : Int} {o : Outcome Unit} (h : superPut env fuel w b super forceWrite = o) :
    Quiet Event.isWriteIO
      (({ w with super := super }.log (.superPack super b)).log (.blockDirty b)) o.world :=
  h ▸ superPut_quiet env fuel w b super forceWrite

theorem superGet_quiet_of_eq {env : Env} {w w1 : World} {r : Option (Block × Super)}
    (h : superGet env w = (r, w1)) : Quiet Event.isPlain w w1 := by
  have h1 := superGet_quiet env w
  rw [h] at h1
  exact h1

@[simp]
theorem World.log_fs (w : World) (e : Event) : (w.log e).fs = w.fs := rfl

@[simp]
theorem World.log_super (w : World) (e : Event) : (w.log e).super = w.super := rfl

@[simp]
theorem World.log_err (w : World) (e : Event) : (w.log e).err = w.err := rfl

@[simp]
theorem World.log_trace (w : World) (e : Event) :
    (w.log e).trace = w.trace ++ [e] := rfl

theorem bumpSuper_eq (super : Super) (ehi addr : Nat) (doarchive : Int) :
    (if doarchive ≠ 0 then
      { ({ ({ super with epochHigh := ehi } : Super) with active := addr } : Super) with
        next := super.active }
    else ({ ({ super with epochHigh := ehi } : Super) with active := addr } : Super)) =
      bumpSuper super ehi addr doarchive := by
  unfold bumpSuper
  split <;> rfl

theorem bumpEpoch_cases (env : Env) (fuel : Nat) (w : World) (doarchive : Int) :
    (Quiet Event.isPlain w (bumpEpoch env fuel w doarchive).world ∧
      ((bumpEpoch env fuel w doarchive).ret = some 0 ∨
        (bumpEpoch env fuel w doarchive).ret = none)) ∨
    (Bumped env w (bumpEpoch env fuel w doarchive).world doarchive ∧
      ((bumpEpoch env fuel w doarchive).ret = some 1 ∨
        (bumpEpoch env fuel w doarchive).ret = none)) := by
  generalize ho : bumpEpoch env fuel w doarchive = o
  unfold bumpEpoch at ho
  split at ho
  · subst ho
    exact Or.inl ⟨Quiet.qrefl _ _, by simp [Outcome.ret]⟩
  · next r hsrc =>
    simp only [World.log_fs, World.log_trace] at ho
    split at ho
    · subst ho
      exact Or.inl ⟨Quiet.qlog _ _ rfl, by simp [Outcome.ret]⟩
    · next b0 hcg =>
      split at ho
      · subst ho
        exact Or.inl ⟨(Quiet.qlog _ _ rfl).log_right _ rfl, by simp [Outcome.ret]⟩
      · next b hbc =>
        have hq0 : Quiet Event.isPlain w
            ((((w.log (.cacheGlobal r.score BtDir RootTag env.OReadOnly)).log
              (.blockCopy b0 RootTag (u32 (w.fs.ehi + 1)) w.fs.elo)).log
              (.entryPack (bumpEntry env b0) b 1)).log (.blockDirty b)) :=
          (((Quiet.qlog _ _ rfl).log_right _ rfl).log_right _ rfl).log_right _ rfl
        split at ho
        · next w1 hsg =>
          subst ho
          exact Or.inl ⟨hq0.qtrans (superGet_quiet_of_eq hsg), by simp [Outcome.ret]⟩
        · next bs sup w1 hsg =>
          obtain ⟨hcl, hsup, hw1⟩ := superGet_some _ _ _ _ _ hsg
          subst hw1
          subst hsup
          right
          have hS : (if doarchive ≠ 0 then
              ({ version := w.super.version, epochLow := w.super.epochLow,
                 epochHigh := u32 (w.fs.ehi + 1), qid := w.super.qid, active := b.addr,
                 next := w.super.active, current := w.super.current, last := w.super.last,
                 name := w.super.name } : Super)
            else
              { version := w.super.version, epochLow := w.super.epochLow,
                epochHigh := u32 (w.fs.ehi + 1), qid := w.super.qid, active := b.addr,
                next := w.super.next, current := w.super.current, last := w.super.last,
                name := w.super.name }) =
              bumpSuper w.super (u32 (w.fs.ehi + 1)) b.addr doarchive := by
            unfold bumpSuper
            split <;> rfl
          simp only [World.log_fs, World.log_trace, World.log_super, World.log_err, hS] at ho
          have key : ∀ (W : World) (ou : Outcome Unit),
              W.fs = { w.fs with ehi := u32 (w.fs.ehi + 1),
                                 source := some { r with score := b.score,
                                                         epoch := u32 (w.fs.ehi + 1) } } →
              W.super = w.super → W.err = w.err →
              W.trace = w.trace ++ [.cacheGlobal r.score BtDir RootTag env.OReadOnly,
                .blockCopy b0 RootTag (u32 (w.fs.ehi + 1)) w.fs.elo,
                .entryPack (bumpEntry env b0) b 1, .blockDirty b,
                .cacheLocal PartSuper 0 env.OReadWrite, .superUnpack bs,
                .blockDependency bs b 0 (env.localToGlobal w.super.active), .blockPut b] →
              superPut env fuel W bs (bumpSuper w.super (u32 (w.fs.ehi + 1)) b.addr doarchive) 1
                = ou →
              Bumped env w ou.world doarchive := by
            intro W ou hW1 hW2 hW3 hW4 hou
            obtain ⟨h1, h2, h3, new, h4, h5⟩ := superPut_quiet_of_eq hou
            refine ⟨r, b0, b, bs, new, hsrc, hcg, hbc, ?_, ?_, ?_, ?_, ?_, h5⟩
            · simpa using hcl
            · rw [h1]; exact hW1
            · rw [h2]; rfl
            · rw [h3]; exact hW3
            · rw [h4]; simp [bumpTrace, hW4]
          split at ho
          · next u w2 hsp =>
            subst ho
            refine ⟨key _ _ ?_ ?_ ?_ ?_ hsp, Or.inl rfl⟩ <;> first | rfl | simp
          · next w2 hsp =>
            subst ho
            refine ⟨key _ _ ?_ ?_ ?_ ?_ hsp, Or.inr rfl⟩ <;> first | rfl | simp
          · next w2 hsp =>
            subst ho
            refine ⟨key _ _ ?_ ?_ ?_ ?_ hsp, Or.inr rfl⟩ <;> first | rfl | simp

theorem bumpEpoch_cases_of_eq {env : Env} {fuel : Nat} {w : World} {doarchive : Int}
    {o : Outcome Int} (h : bumpEpoch env fuel w doarchive = o) :
    (Quiet Event.isPlain w o.world ∧ (o.ret = some 0 ∨ o.ret = none)) ∨
      (Bumped env w o.world doarchive ∧ (o.ret = some 1 ∨ o.ret = none)) :=
  h ▸ bumpEpoch_cases env fuel w doarchive

/-! ## Lemmas on `fileOpenSnapshot` and `saveQid` -/

theorem walkOrCreate_quiet (env : Env) (w : World) (dir : File) (buf : String) :
    Quiet Event.isPlain w (walkOrCreate env w dir buf).2 := by
  unfold walkOrCreate
  simp only
  split
  · exact Quiet.qlog _ _ rfl
  · exact (Quiet.qlog _ _ rfl).log_right _ rfl

theorem walkOrCreate_quiet_of_eq {env : Env} {w w1 : World} {dir : File} {buf : String}
    {f : Option File} (h : walkOrCreate env w dir buf = (f, w1)) :
    Quiet Event.isPlain w w1 := by
  have h1 := walkOrCreate_quiet env w dir buf
  rw [h] at h1
  exact h1

theorem snapNameLoop_quiet (env : Env) (dir : File) (base : String) (fuel : Nat) (n : Int)
    (buf : String) (w : World) :
    Quiet Event.isPlain w (snapNameLoop env dir base fuel n buf w).world := by
  induction fuel generalizing n buf w with
  | zero => exact Quiet.qrefl _ _
  | succ k ih =>
    unfold snapNameLoop
    simp only
    split
    · exact ((Quiet.qlog _ _ rfl).log_right _ rfl).qtrans (ih _ _ _)
    · exact (Quiet.qlog _ _ rfl).log_right _ rfl

theorem snapNameLoop_quiet_of_eq {env : Env} {dir : File} {base : String} {fuel : Nat}
    {n : Int} {buf : String} {w : World} {o : Outcome (Option File)}
    (h : snapNameLoop env dir base fuel n buf w = o) : Quiet Event.isPlain w o.world :=
  h ▸ snapNameLoop_quiet env dir base fuel n buf w

theorem walkOrCreate_step {w0 : World} (env : Env) (w : World) (dir : File) (buf : String)
    (q : Quiet Event.isPlain w0 w) :
    Quiet Event.isPlain w0 ((walkOrCreate env w dir buf).2.log (.fileDecRef dir)) :=
  (q.qtrans (walkOrCreate_quiet env w dir buf)).log_right _ rfl

theorem snapNameLoop_step {w0 : World} {env : Env} {dir : File} {base : String} {fuel : Nat}
    {n : Int} {buf : String} {w : World} {o : Outcome (Option File)}
    (q : Quiet Event.isPlain w0 w)
    (ho : (match snapNameLoop env dir base fuel n buf w with
      | .done f w => Outcome.done f (w.log (.fileDecRef dir))
      | .hang w => .hang w
      | .abort w => .abort w) = o) :
    Quiet Event.isPlain w0 o.world := by
  split at ho
  · next f2 w2 hl =>
    subst ho
    exact (q.qtrans (snapNameLoop_quiet_of_eq hl)).log_right _ rfl
  · next w2 hl =>
    subst ho
    exact q.qtrans (snapNameLoop_quiet_of_eq hl)
  · next w2 hl =>
    subst ho
    exact q.qtrans (snapNameLoop_quiet_of_eq hl)

theorem fileOpenSnapshot_quiet (env : Env) (fuel : Nat) (w : World) (doarchive : Int) :
    Quiet Event.isPlain w (fileOpenSnapshot env fuel w doarchive).world := by
  generalize ho : fileOpenSnapshot env fuel w doarchive = o
  unfold fileOpenSnapshot at ho
  split at ho
  · dsimp only at ho
    split at ho
    · subst ho
      exact Quiet.qlog _ _ rfl
    · next dir hdir =>
      have q1 : Quiet Event.isPlain w ((w.log (.fileOpen "/archive")).log .localtime) :=
        (Quiet.qlog _ _ rfl).log_right _ rfl
      split at ho
      · subst ho
        exact walkOrCreate_step env _ _ _ q1
      · next dir2 hd2 =>
        exact snapNameLoop_step (walkOrCreate_step env _ _ _ q1) ho
  · dsimp only at ho
    split at ho
    · subst ho
      exact Quiet.qlog _ _ rfl
    · next dir hdir =>
      have q1 : Quiet Event.isPlain w ((w.log (.fileOpen "/snapshot")).log .localtime) :=
        (Quiet.qlog _ _ rfl).log_right _ rfl
      split at ho
      · subst ho
        exact walkOrCreate_step env _ _ _ q1
      · next dir2 hd2 =>
        split at ho
        · subst ho
          exact walkOrCreate_step env _ _ _ (walkOrCreate_step env _ _ _ q1)
        · next dir3 hd3 =>
          exact snapNameLoop_step (walkOrCreate_step env _ _ _ (walkOrCreate_step env _ _ _ q1)) ho

theorem fileOpenSnapshot_quiet_of_eq {env : Env} {fuel : Nat} {w : World} {doarchive : Int}
    {o : Outcome (Option File)} (h : fileOpenSnapshot env fuel w doarchive = o) :
    Quiet Event.isPlain w o.world :=
  h ▸ fileOpenSnapshot_quiet env fuel w doarchive

theorem saveQid_quiet (env : Env) (w : World) : Quiet Event.isPlain w (saveQid env w).2 := by
  generalize ho : saveQid env w = o
  unfold saveQid at ho
  split at ho
  · next w1 hsg =>
    subst ho
    exact superGet_quiet_of_eq hsg
  · next b sup w1 hsg =>
    have q : Quiet Event.isPlain w
        ((w1.log (.blockPut b)).log (.fileSetQidSpace w1.fs.file 0 sup.qid)) :=
      ((superGet_quiet_of_eq hsg).log_right (.blockPut b) rfl).log_right _ rfl
    dsimp only at ho
    split at ho
    · subst ho
      exact q
    · subst ho
      exact q

theorem saveQid_quiet_of_eq {env : Env} {w w1 : World} {r : Int}
    (h : saveQid env w = (r, w1)) : Quiet Event.isPlain w w1 := by
  have h1 := saveQid_quiet env w
  rw [h] at h1
  exact h1

/-! ## Lemmas on `fsSnapshot` -/

theorem isPlain_isBody (e : Event) (h : e.isPlain = true) : e.isBody = true := by
  cases e <;> simp_all [Event.isPlain, Event.isBody]

theorem isBody_isCalm (e : Event) (h : e.isBody = true) : e.isCalm = true := by
  cases e <;> simp_all [Event.isBody, Event.isCalm]

theorem isPlain_isCalm (e : Event) (h : e.isPlain = true) : e.isCalm = true :=
  isBody_isCalm e (isPlain_isBody e h)

theorem fsSnapshotErr_quiet (w : World) (src dst : Option File) :
    Quiet Event.isCalm w (fsSnapshotErr w src dst).world ∧
      (fsSnapshotErr w src dst).ret = some 0 := by
  unfold fsSnapshotErr
  cases src <;> cases dst
  · exact ⟨Quiet.qlog _ _ rfl, rfl⟩
  · exact ⟨(Quiet.qlog _ _ rfl).log_right _ rfl, rfl⟩
  · exact ⟨(Quiet.qlog _ _ rfl).log_right _ rfl, rfl⟩
  · exact ⟨((Quiet.qlog _ _ rfl).log_right _ rfl).log_right _ rfl, rfl⟩

theorem fsSnapshotErr_fail {w0 : World} (w : World) (src dst : Option File)
    (q : Quiet Event.isCalm w0 w) :
    Quiet Event.isCalm w0 (fsSnapshotErr w src dst).world ∧
      (fsSnapshotErr w src dst).ret ≠ some 1 := by
  obtain ⟨h1, h2⟩ := fsSnapshotErr_quiet w src dst
  refine ⟨q.qtrans h1, ?_⟩
  rw [h2]
  simp

theorem afterSnap (env : Env) (w4 : World) (src dst : File) :
    Quiet Event.isPlain w4 (saveQid env ((w4.log (.fileDecRef src)).log (.fileDecRef dst))).2 :=
  ((Quiet.qlog w4 (.fileDecRef src) rfl).log_right (.fileDecRef dst) rfl).qtrans
    (saveQid_quiet env _)

theorem fsSnapshot_shape (env : Env) (fuel : Nat) (w : World) (doarchive : Int) :
    SnapShape env w doarchive (fsSnapshot env fuel w doarchive) := by
  generalize ho : fsSnapshot env fuel w doarchive = o
  unfold fsSnapshot at ho
  split at ho
  · subst ho
    exact Or.inl ⟨Quiet.qrefl _ _, by simp [Outcome.ret]⟩
  · dsimp only at ho
    have q1 : Quiet Event.isCalm w ((w.log (.vtLock .elk)).log (.fileOpen "/active")) :=
      (Quiet.qlog _ _ rfl).log_right _ rfl
    split at ho
    · subst ho
      exact Or.inl (fsSnapshotErr_fail _ _ _ q1)
    · next src hsrc =>
      split at ho
      · next wh hb =>
        subst ho
        rcases bumpEpoch_cases_of_eq hb with ⟨q, _⟩ | ⟨hB, _⟩
        · exact Or.inl ⟨q1.qtrans (q.qmono isPlain_isCalm), by simp [Outcome.ret]⟩
        · exact Or.inr ⟨wh, hB, Or.inl ⟨rfl, rfl⟩⟩
      · next wh hb =>
        subst ho
        rcases bumpEpoch_cases_of_eq hb with ⟨q, _⟩ | ⟨hB, _⟩
        · exact Or.inl ⟨q1.qtrans (q.qmono isPlain_isCalm), by simp [Outcome.ret]⟩
        · exact Or.inr ⟨wh, hB, Or.inl ⟨rfl, rfl⟩⟩
      · next r wb hb =>
        rcases bumpEpoch_cases_of_eq hb with ⟨q, hr⟩ | ⟨hB, hr⟩
        · have hr0 : r = 0 := by simpa [Outcome.ret] using hr
          subst hr0
          simp only [if_true] at ho
          subst ho
          exact Or.inl (fsSnapshotErr_fail _ _ _ (q1.qtrans (q.qmono isPlain_isCalm)))
        · have hr1 : r = 1 := by simpa [Outcome.ret] using hr
          subst hr1
          simp only [one_ne_zero, if_false] at ho
          refine Or.inr ⟨wb, hB, ?_⟩
          split at ho
          · subst ho
            exact Or.inr (Or.inl (fsSnapshotErr_fail _ _ _ (Quiet.qlog _ _ rfl)))
          · have q2b : Quiet Event.isBody wb
                ((wb.log (.fileWalkSources src)).log (.cacheFlush 1)) :=
              (Quiet.qlog _ _ rfl).log_right _ rfl
            have q2 := q2b.qmono isBody_isCalm
            split at ho
            · next wh hf =>
              subst ho
              exact Or.inr (Or.inl ⟨q2.qtrans ((fileOpenSnapshot_quiet_of_eq hf).qmono
                isPlain_isCalm), by simp [Outcome.ret]⟩)
            · next wh hf =>
              subst ho
              exact Or.inr (Or.inl ⟨q2.qtrans ((fileOpenSnapshot_quiet_of_eq hf).qmono
                isPlain_isCalm), by simp [Outcome.ret]⟩)
            · next w3 hf =>
              subst ho
              exact Or.inr (Or.inl (fsSnapshotErr_fail _ _ _
                (q2.qtrans ((fileOpenSnapshot_quiet_of_eq hf).qmono isPlain_isCalm))))
            · next dst w3 hf =>
              have q3 : Quiet Event.isBody wb w3 :=
                q2b.qtrans ((fileOpenSnapshot_quiet_of_eq hf).qmono isPlain_isBody)
              have hfs : w3.fs = wb.fs := q3.1
              rw [hfs] at ho
              refine Or.inr (Or.inr ⟨w3, dst, src, q3, ?_⟩)
              split at ho
              · subst ho
                exact Or.inl (fsSnapshotErr_fail _ _ _ (Quiet.qrefl _ _))
              · split at ho
                · next hd =>
                  have q5 := afterSnap env
                    (w3.log (.fileSnapshot dst src (u32 (wb.fs.ehi + 2 ^ 32 - 1)) doarchive))
                    src dst
                  split at ho
                  · subst ho
                    exact Or.inl (fsSnapshotErr_fail _ _ _ (q5.qmono isPlain_isCalm))
                  · split at ho
                    · next wh hb2 =>
                      subst ho
                      rcases bumpEpoch_cases_of_eq hb2 with ⟨q, _⟩ | ⟨hB2, _⟩
                      · exact Or.inl ⟨(q5.qtrans q).qmono isPlain_isCalm, by simp [Outcome.ret]⟩
                      · exact Or.inr (Or.inr ⟨hd, _, wh, q5, hB2, Or.inl ⟨rfl, rfl⟩⟩)
                    · next wh hb2 =>
                      subst ho
                      rcases bumpEpoch_cases_of_eq hb2 with ⟨q, _⟩ | ⟨hB2, _⟩
                      · exact Or.inl ⟨(q5.qtrans q).qmono isPlain_isCalm, by simp [Outcome.ret]⟩
                      · exact Or.inr (Or.inr ⟨hd, _, wh, q5, hB2, Or.inl ⟨rfl, rfl⟩⟩)
                    · next r2 w7 hb2 =>
                      rcases bumpEpoch_cases_of_eq hb2 with ⟨q, hr2⟩ | ⟨hB2, hr2⟩
                      · have hr0 : r2 = 0 := by simpa [Outcome.ret] using hr2
                        subst hr0
                        simp only [if_true] at ho
                        subst ho
                        exact Or.inl (fsSnapshotErr_fail _ _ _
                          ((q5.qtrans q).qmono isPlain_isCalm))
                      · have hr1 : r2 = 1 := by simpa [Outcome.ret] using hr2
                        subst hr1
                        simp only [one_ne_zero, if_false] at ho
                        subst ho
                        refine Or.inr (Or.inr ⟨hd, _, w7, q5, hB2, Or.inr ?_⟩)
                        unfold fsSnapshotEnd
                        simp only [World.log_fs, hd, ne_eq, not_false_eq_true, true_and]
                · next hd =>
                  have hd0 : doarchive = 0 := by simpa using hd
                  subst ho
                  refine Or.inr (Or.inl ⟨hd0, ?_⟩)
                  unfold fsSnapshotEnd
                  simp [hd0]

/-! ## Packed records and dependencies in a trace -/

theorem packed_append (t1 t2 : List Event) : packed (t1 ++ t2) = packed t1 ++ packed t2 := by
  induction t1 with
  | nil => rfl
  | cons e t ih =>
    cases e <;> simp [packed, ih]

theorem packed_of_ne (t : List Event) (h : ∀ e ∈ t, ∀ s b, e ≠ .superPack s b) :
    packed t = [] := by
  induction t with
  | nil => rfl
  | cons e t ih =>
    have ht : packed t = [] := ih (fun e he => h e (List.mem_cons_of_mem _ he))
    cases e <;> simp_all [packed]

theorem packed_writeIO (t : List Event) (h : ∀ e ∈ t, e.isWriteIO = true) : packed t = [] := by
  apply packed_of_ne
  intro e he s b hs
  have := h e he
  rw [hs] at this
  simp [Event.isWriteIO] at this

theorem packed_calm (t : List Event) (h : ∀ e ∈ t, e.isCalm = true) : packed t = [] := by
  apply packed_of_ne
  intro e he s b hs
  have := h e he
  rw [hs] at this
  simp [Event.isCalm, Event.isBody, Event.isPlain] at this

theorem filter_writeIO_dependency (t : List Event) (h : ∀ e ∈ t, e.isWriteIO = true) :
    t.filter Event.isDependency = [] := by
  rw [List.filter_eq_nil_iff]
  intro e he
  have := h e he
  cases e <;> simp_all [Event.isWriteIO, Event.isDependency]

/-! ## Claims on `bumpEpoch` -/

/-- C1: when `bumpEpoch(fs, doarchive)` returns 1 on a file system with
`fs->ehi = h`, the root block `b0` (from `cacheGlobal`) has been copied by
`blockCopy(b0, RootTag, h+1, fs->elo)` into a new block `b`, `fs->ehi` is `h+1`,
the root source has epoch `h+1` and the score of `b`, and the one record packed
into the super-block by `superPut` has `epochHigh = h+1` and `active = b->addr`.
Here `h+1` is the `u32int` value of `fs->ehi+1`, which is `h+1` whenever
`h+1 < 2^32`. -/
theorem bumpEpoch_returns_one (env : Env) (fuel : Nat) (w : World) (doarchive : Int)
    (h : (bumpEpoch env fuel w doarchive).ret = some 1) :
    ∃ (r : Source) (b0 b bs : Block) (rest : List Event),
      w.fs.source = some r ∧
      env.cacheGlobal w.trace r.score BtDir RootTag env.OReadOnly = some b0 ∧
      env.blockCopy (w.trace ++ [.cacheGlobal r.score BtDir RootTag env.OReadOnly])
        b0 RootTag (u32 (w.fs.ehi + 1)) w.fs.elo = some b ∧
      (bumpEpoch env fuel w doarchive).world.trace =
        w.trace ++ bumpTrace env w r b0 b bs doarchive ++ rest ∧
      Event.blockCopy b0 RootTag (u32 (w.fs.ehi + 1)) w.fs.elo ∈
        bumpTrace env w r b0 b bs doarchive ∧
      (bumpEpoch env fuel w doarchive).world.fs.ehi = u32 (w.fs.ehi + 1) ∧
      (bumpEpoch env fuel w doarchive).world.fs.source =
        some { epoch := u32 (w.fs.ehi + 1), score := b.score } ∧
      packed (bumpTrace env w r b0 b bs doarchive ++ rest) =
        [bumpSuper w.super (u32 (w.fs.ehi + 1)) b.addr doarchive] ∧
      (bumpSuper w.super (u32 (w.fs.ehi + 1)) b.addr doarchive).epochHigh = u32 (w.fs.ehi + 1) ∧
      (bumpSuper w.super (u32 (w.fs.ehi + 1)) b.addr doarchive).active = b.addr ∧
      (bumpEpoch env fuel w doarchive).world.super =
        bumpSuper w.super (u32 (w.fs.ehi + 1)) b.addr doarchive ∧
      (w.fs.ehi + 1 < 2 ^ 32 → u32 (w.fs.ehi + 1) = w.fs.ehi + 1) := by
  rcases bumpEpoch_cases env fuel w doarchive with ⟨_, hr⟩ | ⟨hB, _⟩
  · rw [h] at hr
    simp at hr
  · obtain ⟨r, b0, b, bs, rest, h1, h2, h3, _, h4, h5, _, h7, h8⟩ := hB
    refine ⟨r, b0, b, bs, rest, h1, h2, h3, h7, ?_, ?_, ?_, ?_, rfl, rfl, h5, ?_⟩
    · simp [bumpTrace]
    · rw [h4]
    · rw [h4]
    · rw [packed_append, packed_writeIO rest h8]
      simp [bumpTrace, packed]
    · intro hlt
      exact Nat.mod_eq_of_lt hlt

/-- Witness for C1: in `okWorld` (`fs->ehi = 5`) `bumpEpoch` returns 1 and
leaves `fs->ehi = 6`. -/
theorem bumpEpoch_returns_one_witness :
    (bumpEpoch okEnv 1 okWorld 0).ret = some 1 ∧
      (bumpEpoch okEnv 1 okWorld 0).world.fs.ehi = 6 := by
  refine ⟨by decide, ?_⟩
  obtain ⟨_, _, _, _, _, _, _, _, _, _, h, _⟩ :=
    bumpEpoch_returns_one okEnv 1 okWorld 0 (by decide)
  rw [h]
  decide

/-- C8: a successful `bumpEpoch` records exactly one dependency,
`blockDependency(bs, b, 0, oscore, nil)`, from the super-block `bs` (returned
by `superGet`) to the new root block `b` (returned by `blockCopy`), where
`oscore` is `localToGlobal` of the `super.active` read by `superGet`; every
call before it is neither a `superPack` nor a `blockWrite`, so the record
naming `b` as `active` is packed, and the super-block force-written, only
after the dependency is recorded. -/
theorem bumpEpoch_dependency (env : Env) (fuel : Nat) (w : World) (doarchive : Int)
    (h : (bumpEpoch env fuel w doarchive).ret = some 1) :
    ∃ (r : Source) (b0 b bs : Block) (rest pre post : List Event),
      env.blockCopy (w.trace ++ [.cacheGlobal r.score BtDir RootTag env.OReadOnly])
        b0 RootTag (u32 (w.fs.ehi + 1)) w.fs.elo = some b ∧
      env.cacheLocal (w.trace ++ [.cacheGlobal r.score BtDir RootTag env.OReadOnly,
        .blockCopy b0 RootTag (u32 (w.fs.ehi + 1)) w.fs.elo,
        .entryPack (bumpEntry env b0) b 1, .blockDirty b]) PartSuper 0 env.OReadWrite = some bs ∧
      (bumpEpoch env fuel w doarchive).world.trace =
        w.trace ++ bumpTrace env w r b0 b bs doarchive ++ rest ∧
      (bumpTrace env w r b0 b bs doarchive ++ rest).filter Event.isDependency =
        [Event.blockDependency bs b 0 (env.localToGlobal w.super.active)] ∧
      bumpTrace env w r b0 b bs doarchive ++ rest =
        pre ++ Event.blockDependency bs b 0 (env.localToGlobal w.super.active) :: post ∧
      (∀ e ∈ pre, e.isPackOrWrite = false) ∧
      Event.superPack (bumpSuper w.super (u32 (w.fs.ehi + 1)) b.addr doarchive) bs ∈ post ∧
      (bumpSuper w.super (u32 (w.fs.ehi + 1)) b.addr doarchive).active = b.addr := by
  rcases bumpEpoch_cases env fuel w doarchive with ⟨_, hr⟩ | ⟨hB, _⟩
  · rw [h] at hr
    simp at hr
  · obtain ⟨r, b0, b, bs, rest, _, _, h3, hcl, _, _, _, h7, h8⟩ := hB
    refine ⟨r, b0, b, bs, rest,
      [.cacheGlobal r.score BtDir RootTag env.OReadOnly,
        .blockCopy b0 RootTag (u32 (w.fs.ehi + 1)) w.fs.elo,
        .entryPack (bumpEntry env b0) b 1, .blockDirty b,
        .cacheLocal PartSuper 0 env.OReadWrite, .superUnpack bs],
      [.blockPut b, .superPack (bumpSuper w.super (u32 (w.fs.ehi + 1)) b.addr doarchive) bs,
        .blockDirty bs] ++ rest, h3, hcl, h7, ?_, ?_, ?_, ?_, rfl⟩
    · rw [List.filter_append, filter_writeIO_dependency rest h8]
      simp [bumpTrace, List.filter, Event.isDependency]
    · simp [bumpTrace]
    · intro e he
      simp only [List.mem_cons, List.mem_singleton, List.not_mem_nil, or_false] at he
      rcases he with he | he | he | he | he | he <;> subst he <;> rfl
    · simp

/-- Witness for C8: in `okWorld` the one dependency recorded by `bumpEpoch` is
from the super-block to the new root block at address 101, with the old root
address 7 as saved score. -/
theorem bumpEpoch_dependency_witness :
    (bumpEpoch okEnv 1 okWorld 0).ret = some 1 ∧
      (bumpEpoch okEnv 1 okWorld 0).world.trace.filter Event.isDependency =
        [Event.blockDependency
          { part := 1, addr := 0, score := [], l := ⟨0, 0, 0, 0, 0⟩ }
          { part := 3, addr := 101, score := [101], l := ⟨8, 1, 1, 6, 0⟩ } 0
          (okEnv.localToGlobal 7)] := by
  refine ⟨by decide, ?_⟩
  obtain ⟨r, b0, b, bs, rest, pre, post, h1, h2, h3, h4, _⟩ :=
    bumpEpoch_dependency okEnv 1 okWorld 0 (by decide)
  decide

/-! ## Claims on `fsEpochLow` and `fsOpen`: the rejected calls -/

/-- C6: for `low > fs->ehi`, `fsEpochLow(fs, low)` returns 0 with the error
"bad low epoch (must be <= ehi)" set; the only calls it makes are
`vtLock(fs->elk)`, `vtSetError` and `vtUnlock(fs->elk)`, so `superGet` and
`superPut` are not called and `elk` is released before the return; `fs->elo`,
`fs->ehi` (the whole `Fs` record) and the super-block are unchanged. -/
theorem fsEpochLow_rejects (env : Env) (fuel : Nat) (w : World) (low : Nat)
    (h : low > w.fs.ehi) :
    (fsEpochLow env fuel w low).ret = some 0 ∧
      (fsEpochLow env fuel w low).world.err = some (badLowEpoch w.fs.ehi) ∧
      (fsEpochLow env fuel w low).world.trace =
        w.trace ++ [.vtLock .elk, .vtSetError (badLowEpoch w.fs.ehi), .vtUnlock .elk] ∧
      (fsEpochLow env fuel w low).world.fs = w.fs ∧
      (fsEpochLow env fuel w low).world.super = w.super := by
  unfold fsEpochLow
  simp [h, Outcome.ret, Outcome.world, World.log]

/-- Witness for C6: `fsEpochLow(fs, 9)` on `okWorld`, where `fs->ehi = 5`. -/
theorem fsEpochLow_rejects_witness :
    (fsEpochLow okEnv 1 okWorld 9).ret = some 0 ∧
      (fsEpochLow okEnv 1 okWorld 9).world.err = some (badLowEpoch 5) ∧
      (fsEpochLow okEnv 1 okWorld 9).world.trace =
        okWorld.trace ++ [.vtLock .elk, .vtSetError (badLowEpoch 5), .vtUnlock .elk] ∧
      (fsEpochLow okEnv 1 okWorld 9).world.fs = okWorld.fs ∧
      (fsEpochLow okEnv 1 okWorld 9).world.super = okWorld.super :=
  fsEpochLow_rejects okEnv 1 okWorld 9 (by decide)

/-- C10: for a mode other than `OReadOnly` and `OReadWrite`, `fsOpen` returns
nil with the error `EBadMode`; its only call is `vtSetError(EBadMode)`, so the
file is not opened and no disk, cache, archiver or `Fs` is allocated; the `Fs`
record and the super-block of the world are unchanged. -/
theorem fsOpen_bad_mode (env : Env) (w : World) (file : String) (ncache mode : Int)
    (h1 : mode ≠ env.OReadOnly) (h2 : mode ≠ env.OReadWrite) :
    (fsOpen env w file ncache mode).ret = some none ∧
      (fsOpen env w file ncache mode).world.err = some env.EBadMode ∧
      (fsOpen env w file ncache mode).world.trace = w.trace ++ [.vtSetError env.EBadMode] ∧
      (fsOpen env w file ncache mode).world.fs = w.fs ∧
      (fsOpen env w file ncache mode).world.super = w.super := by
  unfold fsOpen
  simp [h1, h2, Outcome.ret, Outcome.world, World.log]

/-- Witness for C10: `fsOpen` with mode 2 in `okEnv`, where `OReadOnly = 0` and
`OReadWrite = 1`. -/
theorem fsOpen_bad_mode_witness :
    (fsOpen okEnv lastEpochDisk "fossil" 1000 2).ret = some none ∧
      (fsOpen okEnv lastEpochDisk "fossil" 1000 2).world.err = some okEnv.EBadMode ∧
      (fsOpen okEnv lastEpochDisk "fossil" 1000 2).world.trace =
        lastEpochDisk.trace ++ [.vtSetError okEnv.EBadMode] ∧
      (fsOpen okEnv lastEpochDisk "fossil" 1000 2).world.fs = lastEpochDisk.fs ∧
      (fsOpen okEnv lastEpochDisk "fossil" 1000 2).world.super = lastEpochDisk.super :=
  fsOpen_bad_mode okEnv lastEpochDisk "fossil" 1000 2 (by decide) (by decide)

/-! ## Growth of the trace -/

theorem u32_pred_succ (h : Nat) (hh : h < 2 ^ 32) : u32 (u32 (h + 1) + 2 ^ 32 - 1) = h := by
  unfold u32
  omega

theorem u32_succ_succ (h : Nat) : u32 (u32 (h + 1) + 1) = u32 (h + 2) := by
  unfold u32
  omega

theorem Grows.grefl (P : Event → Prop) (w : World) : Grows P w w :=
  ⟨[], by simp, by simp⟩

theorem Grows.gtrans {P : Event → Prop} {w1 w2 w3 : World}
    (h12 : Grows P w1 w2) (h23 : Grows P w2 w3) : Grows P w1 w3 := by
  obtain ⟨n1, a4, a5⟩ := h12
  obtain ⟨n2, b4, b5⟩ := h23
  refine ⟨n1 ++ n2, ?_, ?_⟩
  · rw [b4, a4, List.append_assoc]
  · intro e he
    rcases List.mem_append.1 he with h | h
    · exact a5 e h
    · exact b5 e h

theorem Grows.glog {P : Event → Prop} {w1 w2 : World} (h : Grows P w1 w2) (e : Event)
    (he : P e) : Grows P w1 (w2.log e) :=
  h.gtrans ⟨[e], rfl, by simpa using he⟩

theorem Quiet.toGrows {K : Event → Bool} {P : Event → Prop} {w1 w2 : World}
    (h : Quiet K w1 w2) (hP : ∀ e, K e = true → P e) : Grows P w1 w2 := by
  obtain ⟨_, _, _, new, h4, h5⟩ := h
  exact ⟨new, h4, fun e he => hP e (h5 e he)⟩

theorem Bumped.bgrows {env : Env} {P : Event → Prop} {w1 w2 : World} {doarchive : Int}
    (h : Bumped env w1 w2 doarchive) (hP : ∀ e, e.isInner = true → P e) : Grows P w1 w2 := by
  obtain ⟨r, b0, b, bs, rest, _, _, _, _, _, _, _, h7, h8⟩ := h
  refine ⟨bumpTrace env w1 r b0 b bs doarchive ++ rest, ?_, ?_⟩
  · rw [h7, List.append_assoc]
  · intro e he
    rcases List.mem_append.1 he with h | h
    · apply hP
      simp only [bumpTrace, List.mem_cons, List.mem_singleton, List.not_mem_nil, or_false] at h
      rcases h with h | h | h | h | h | h | h | h | h | h <;> subst h <;> rfl
    · exact hP e (isWriteIO_isInner e (h8 e h))

theorem Bumped.fs_ehi {env : Env} {w1 w2 : World} {doarchive : Int}
    (h : Bumped env w1 w2 doarchive) : w2.fs.ehi = u32 (w1.fs.ehi + 1) := by
  obtain ⟨r, b0, b, bs, rest, _, _, _, _, h4, _⟩ := h
  rw [h4]

theorem Bumped.fs_arch {env : Env} {w1 w2 : World} {doarchive : Int}
    (h : Bumped env w1 w2 doarchive) : w2.fs.arch = w1.fs.arch := by
  obtain ⟨r, b0, b, bs, rest, _, _, _, _, h4, _⟩ := h
  rw [h4]

theorem Bumped.fs_elo {env : Env} {w1 w2 : World} {doarchive : Int}
    (h : Bumped env w1 w2 doarchive) : w2.fs.elo = w1.fs.elo := by
  obtain ⟨r, b0, b, bs, rest, _, _, _, _, h4, _⟩ := h
  rw [h4]

theorem isCalm_isInner_of (P : Event → Prop) (hI : ∀ e, e.isInner = true → P e)
    (hL : ∀ l, P (.vtLock l)) (hU : ∀ l, P (.vtUnlock l)) (hW : ∀ f, P (.fileWalkSources f))
    (hF : ∀ n, P (.cacheFlush n)) (e : Event) (he : e.isCalm = true) : P e := by
  cases e <;>
    first
    | exact hL _
    | exact hU _
    | exact hW _
    | exact hF _
    | exact hI _ rfl
    | simp [Event.isCalm, Event.isBody, Event.isPlain, Event.isInner] at he

theorem SnapShape.sgrows {env : Env} {w : World} {doarchive : Int} {o : Outcome Int}
    (P : Event → Prop) (hI : ∀ e, e.isInner = true → P e)
    (hL : ∀ l, P (.vtLock l)) (hU : ∀ l, P (.vtUnlock l)) (hW : ∀ f, P (.fileWalkSources f))
    (hF : ∀ n, P (.cacheFlush n))
    (hS : ∀ dst src,
      P (.fileSnapshot dst src (u32 (u32 (w.fs.ehi + 1) + 2 ^ 32 - 1)) doarchive))
    (hK : doarchive ≠ 0 → w.fs.arch = true → o.ret = some 1 → P .archKick)
    (h : SnapShape env w doarchive o) : Grows P w o.world := by
  have hC : ∀ e, e.isCalm = true → P e := isCalm_isInner_of P hI hL hU hW hF
  have hB : ∀ e, e.isBody = true → P e := fun e he => hC e (isBody_isCalm e he)
  have hPl : ∀ e, e.isPlain = true → P e := fun e he => hC e (isPlain_isCalm e he)
  rcases h with ⟨q, _⟩ | ⟨wb, hb, h⟩
  · exact q.toGrows hC
  · have g1 : Grows P w wb :=
      (((Grows.grefl P w).glog _ (hL .elk)).glog _ (hI (.fileOpen "/active") rfl)).gtrans
        (hb.bgrows hI)
    have he : wb.fs.ehi = u32 (w.fs.ehi + 1) := hb.fs_ehi
    have ha : wb.fs.arch = w.fs.arch := hb.fs_arch
    rcases h with ⟨h1, _⟩ | ⟨q, _⟩ | ⟨w3, dst, src, q3, h⟩
    · rw [h1]
      exact g1
    · exact g1.gtrans (q.toGrows hC)
    · have g4 : Grows P w
          (w3.log (.fileSnapshot dst src (u32 (wb.fs.ehi + 2 ^ 32 - 1)) doarchive)) := by
        refine (g1.gtrans (q3.toGrows hB)).glog _ ?_
        rw [he]
        exact hS dst src
      rcases h with ⟨q, _⟩ | ⟨_, ho⟩ | ⟨hd, w6, w7, q6, hb2, h⟩
      · exact g4.gtrans (q.toGrows hC)
      · rw [ho]
        exact ((g4.glog _ (hI (.fileDecRef src) rfl)).glog _ (hI (.fileDecRef dst) rfl)).glog _
          (hU .elk)
      · have g7 : Grows P w w7 := (g4.gtrans (q6.toGrows hPl)).gtrans (hb2.bgrows hI)
        have ha7 : w7.fs.arch = w.fs.arch := by
          rw [hb2.fs_arch, q6.1, World.log_fs, q3.1, ha]
        rcases h with ⟨h1, _⟩ | ho
        · rw [h1]
          exact g7
        · rw [ho]
          by_cases harch : w7.fs.arch = true
          · simp only [harch, if_true, Outcome.world]
            refine (g7.glog _ (hU .elk)).glog _ (hK hd (ha7 ▸ harch) ?_)
            rw [ho]
            rfl
          · simp only [harch, Outcome.world]
            exact g7.glog _ (hU .elk)

/-! ## Claims on `fsSnapshot` -/

/-- C2, counterexample: on `okWorld` (`fs->ehi = 5`) the temporary snapshot
`fsSnapshot(fs, 0)` returns 1 and leaves `fs->ehi = 6`, not 7. -/
theorem fsSnapshot_not_plus_two :
    (fsSnapshot okEnv 1 okWorld 0).ret = some 1 ∧
      (fsSnapshot okEnv 1 okWorld 0).world.fs.ehi = 6 ∧
      (fsSnapshot okEnv 1 okWorld 0).world.fs.ehi ≠ okWorld.fs.ehi + 2 := by
  decide

/-- C2, amended: when `fsSnapshot(fs, 0)` returns 1, `fs->ehi` after the call
is its value before the call plus exactly 1 in `u32int` arithmetic (the
second bump is made only when archiving); so it is the old value plus 1
whenever that is below `2^32`. -/
theorem fsSnapshot_temporary_ehi (env : Env) (fuel : Nat) (w : World)
    (h : (fsSnapshot env fuel w 0).ret = some 1) :
    (fsSnapshot env fuel w 0).world.fs.ehi = u32 (w.fs.ehi + 1) ∧
      (w.fs.ehi + 1 < 2 ^ 32 → (fsSnapshot env fuel w 0).world.fs.ehi = w.fs.ehi + 1) := by
  have key : (fsSnapshot env fuel w 0).world.fs.ehi = u32 (w.fs.ehi + 1) := by
    rcases fsSnapshot_shape env fuel w 0 with ⟨_, hr⟩ | ⟨wb, hb, hs⟩
    · exact absurd h hr
    · rcases hs with ⟨_, hr⟩ | ⟨_, hr⟩ | ⟨w3, dst, src, q3, hs⟩
      · rw [h] at hr
        simp at hr
      · exact absurd h hr
      · rcases hs with ⟨_, hr⟩ | ⟨_, ho⟩ | ⟨hd, _⟩
        · exact absurd h hr
        · rw [ho]
          simp only [Outcome.world, World.log_fs]
          rw [q3.1, hb.fs_ehi]
          rfl
        · exact absurd rfl hd
  refine ⟨key, fun hlt => ?_⟩
  rw [key]
  exact Nat.mod_eq_of_lt hlt

/-- Witness for C2 as amended: the temporary snapshot of `okWorld`. -/
theorem fsSnapshot_temporary_ehi_witness :
    (fsSnapshot okEnv 1 okWorld 0).ret = some 1 ∧
      (fsSnapshot okEnv 1 okWorld 0).world.fs.ehi = u32 (okWorld.fs.ehi + 1) :=
  ⟨by decide, (fsSnapshot_temporary_ehi okEnv 1 okWorld (by decide)).1⟩

/-- C3: when `fsSnapshot(fs, doarchive)` with `doarchive` non-zero returns 1,
`bumpEpoch(fs, 1)` has run (from `w6` to `w7`) after the call of `fileSnapshot`,
`fs->ehi` ends 2 above its value at entry (in `u32int` arithmetic), and the
calls of `fsSnapshot` end with `vtUnlock(fs->elk)` followed, iff `fs->arch` is
not nil, by the one `archKick`: no call before them is an `archKick` or a
`vtUnlock(fs->elk)`.  When `doarchive` is zero, when `fs->arch` is nil or when
the call does not return 1, `archKick` is not called. -/
theorem fsSnapshot_archive (env : Env) (fuel : Nat) (w : World) (doarchive : Int) :
    (doarchive ≠ 0 → (fsSnapshot env fuel w doarchive).ret = some 1 →
      ∃ (dst src : File) (ep : Nat) (w6 w7 : World) (pre mid body : List Event),
        w6.trace = w.trace ++ pre ++ [.fileSnapshot dst src ep doarchive] ++ mid ∧
        w6.fs.ehi = u32 (w.fs.ehi + 1) ∧
        Bumped env w6 w7 1 ∧
        w7.trace = w.trace ++ body ∧
        (∀ e ∈ body, e ≠ .archKick ∧ e ≠ .vtUnlock .elk) ∧
        (fsSnapshot env fuel w doarchive).world.trace =
          w.trace ++ body ++ [.vtUnlock .elk] ++
            (if w.fs.arch = true then [.archKick] else []) ∧
        (fsSnapshot env fuel w doarchive).world.fs.ehi = u32 (w.fs.ehi + 2)) ∧
    ((doarchive = 0 ∨ w.fs.arch = false ∨ (fsSnapshot env fuel w doarchive).ret ≠ some 1) →
      ∃ new, (fsSnapshot env fuel w doarchive).world.trace = w.trace ++ new ∧
        Event.archKick ∉ new) := by
  constructor
  · intro hd h
    have hP : ∀ e : Event, e.isInner = true → e ≠ .archKick ∧ e ≠ .vtUnlock .elk := by
      intro e he
      constructor <;> intro hc <;> rw [hc] at he <;> simp [Event.isInner] at he
    have hPb : ∀ e : Event, e.isBody = true → e ≠ .archKick ∧ e ≠ .vtUnlock .elk := by
      intro e he
      constructor <;> intro hc <;> rw [hc] at he <;>
        simp [Event.isBody, Event.isPlain, Event.isInner] at he
    rcases fsSnapshot_shape env fuel w doarchive with ⟨_, hr⟩ | ⟨wb, hb, hs⟩
    · exact absurd h hr
    · rcases hs with ⟨_, hr⟩ | ⟨_, hr⟩ | ⟨w3, dst, src, q3, hs⟩
      · rw [h] at hr
        simp at hr
      · exact absurd h hr
      · rcases hs with ⟨_, hr⟩ | ⟨hd0, _⟩ | ⟨_, w6, w7, q6, hb2, hs⟩
        · exact absurd h hr
        · exact absurd hd0 hd
        · have g3 : Grows (fun e => e ≠ .archKick ∧ e ≠ .vtUnlock .elk) w w3 :=
            ((((Grows.grefl _ w).glog (.vtLock .elk) (by simp)).glog (.fileOpen "/active")
              (by simp)).gtrans (hb.bgrows hP)).gtrans (q3.toGrows hPb)
          have g7 : Grows (fun e => e ≠ .archKick ∧ e ≠ .vtUnlock .elk) w w7 :=
            (((g3.glog (.fileSnapshot dst src (u32 (wb.fs.ehi + 2 ^ 32 - 1)) doarchive)
              (by simp)).gtrans (q6.toGrows (fun e he => hPb e (isPlain_isBody e he)))).gtrans
              (hb2.bgrows hP))
          have hfs6 : w6.fs = w3.fs := q6.1
          obtain ⟨pre, hpre, _⟩ := g3
          obtain ⟨body, hbody, hbodyP⟩ := g7
          obtain ⟨_, _, _, mid, hmid, _⟩ := q6
          have he6 : w6.fs.ehi = u32 (w.fs.ehi + 1) := by
            rw [hfs6, q3.1, hb.fs_ehi]
            rfl
          have ha7 : w7.fs.arch = w.fs.arch := by
            rw [hb2.fs_arch, hfs6, q3.1, hb.fs_arch]
            rfl
          have he7 : w7.fs.ehi = u32 (w.fs.ehi + 2) := by
            rw [hb2.fs_ehi, he6, u32_succ_succ]
          refine ⟨dst, src, u32 (wb.fs.ehi + 2 ^ 32 - 1), w6, w7, pre, mid, body, ?_, he6, hb2,
            hbody, hbodyP, ?_, ?_⟩
          · rw [hmid, World.log_trace, hpre]
          · rcases hs with ⟨_, hr⟩ | ho
            · rw [h] at hr
              simp at hr
            · rw [ho, ← ha7]
              by_cases harch : w7.fs.arch = true
              · simp [harch, Outcome.world, hbody]
              · simp [harch, Outcome.world, hbody]
          · rcases hs with ⟨_, hr⟩ | ho
            · rw [h] at hr
              simp at hr
            · rw [ho]
              by_cases harch : w7.fs.arch = true
              · simp [harch, Outcome.world, he7]
              · simp [harch, Outcome.world, he7]
  · intro hcond
    have g := SnapShape.sgrows (fun e => e ≠ Event.archKick)
      (by intro e he hc; rw [hc] at he; simp [Event.isInner] at he)
      (by simp) (by simp) (by simp) (by simp) (by simp)
      (by
        intro hd ha hr
        rcases hcond with h | h | h
        · exact absurd h hd
        · rw [ha] at h
          simp at h
        · exact absurd hr h)
      (fsSnapshot_shape env fuel w doarchive)
    obtain ⟨new, h1, h2⟩ := g
    exact ⟨new, h1, fun hmem => h2 _ hmem rfl⟩

/-- Witness for C3: the archival snapshot of `okWorld` returns 1, leaves
`fs->ehi = 7` and ends with `vtUnlock(fs->elk)` and `archKick`; the temporary
snapshot of `okWorld` makes no `archKick`. -/
theorem fsSnapshot_archive_witness :
    (fsSnapshot okEnv 1 okWorld 1).ret = some 1 ∧
      (fsSnapshot okEnv 1 okWorld 1).world.fs.ehi = 7 ∧
      (∃ new, (fsSnapshot okEnv 1 okWorld 0).world.trace = okWorld.trace ++ new ∧
        Event.archKick ∉ new) := by
  obtain ⟨_, _, _, _, _, _, _, _, _, _, _, _, _, _, h⟩ :=
    (fsSnapshot_archive okEnv 1 okWorld 1).1 (by decide) (by decide)
  exact ⟨by decide, h, (fsSnapshot_archive okEnv 1 okWorld 0).2 (Or.inl rfl)⟩

/-- C4: in every call of `fsSnapshot` (whatever its outcome), each call of
`fileSnapshot` it makes has as epoch argument the value `fs->ehi` had on entry
(`fs->ehi - 1` in `u32int` arithmetic after the first bump) and as archive
argument `doarchive`. -/
theorem fsSnapshot_fileSnapshot_args (env : Env) (fuel : Nat) (w : World) (doarchive : Int)
    (hh : w.fs.ehi < 2 ^ 32) (new : List Event)
    (hnew : (fsSnapshot env fuel w doarchive).world.trace = w.trace ++ new)
    (dst src : File) (ep : Nat) (ar : Int)
    (hmem : Event.fileSnapshot dst src ep ar ∈ new) :
    ep = w.fs.ehi ∧ ar = doarchive := by
  have g := SnapShape.sgrows
    (fun e => ∀ dst src ep ar, e = Event.fileSnapshot dst src ep ar →
      ep = w.fs.ehi ∧ ar = doarchive)
    (by intro e he dst src ep ar hc; rw [hc] at he; simp [Event.isInner] at he)
    (by simp) (by simp) (by simp) (by simp)
    (by
      intro dst src dst2 src2 ep ar hc
      simp only [Event.fileSnapshot.injEq] at hc
      obtain ⟨_, _, h3, h4⟩ := hc
      rw [u32_pred_succ _ hh] at h3
      exact ⟨h3.symm, h4.symm⟩)
    (by simp)
    (fsSnapshot_shape env fuel w doarchive)
  obtain ⟨new2, h1, h2⟩ := g
  rw [hnew] at h1
  have hnn : new = new2 := List.append_cancel_left h1
  subst hnn
  exact h2 _ hmem dst src ep ar rfl

/-- Witness for C4: the archival snapshot of `okWorld` (`fs->ehi = 5`) calls
`fileSnapshot(dst, src, 5, 1)`. -/
theorem fsSnapshot_fileSnapshot_args_witness :
    Event.fileSnapshot 32 2 5 1 ∈ (fsSnapshot okEnv 1 okWorld 1).world.trace ∧
      (5 : Nat) = okWorld.fs.ehi ∧ (1 : Int) = 1 :=
  ⟨by decide, fsSnapshot_fileSnapshot_args okEnv 1 okWorld 1 (by decide)
    (fsSnapshot okEnv 1 okWorld 1).world.trace (by rfl) 32 2 5 1 (by decide)⟩

/-! ## Fuel -/

theorem superPutWrite_mono (env : Env) (b : Block) (n : Nat) (w w1 : World)
    (h : superPutWrite env b n w = .done () w1) (m : Nat) (hm : n ≤ m) :
    superPutWrite env b m w = .done () w1 := by
  induction n generalizing w m with
  | zero => simp [superPutWrite] at h
  | succ k ih =>
    obtain ⟨m2, rfl⟩ : ∃ m2, m = m2 + 1 := ⟨m - 1, by omega⟩
    unfold superPutWrite at h ⊢
    by_cases hok : env.blockWrite w.trace b = true
    · simpa [hok] using h
    · simp only [hok] at h ⊢
      exact ih _ h m2 (by omega)

theorem superPutWait_mono (env : Env) (b : Block) (n : Nat) (w w1 : World)
    (h : superPutWait env b n w = .done () w1) (m : Nat) (hm : n ≤ m) :
    superPutWait env b m w = .done () w1 := by
  induction n generalizing w m with
  | zero => simp [superPutWait] at h
  | succ k ih =>
    obtain ⟨m2, rfl⟩ : ∃ m2, m = m2 + 1 := ⟨m - 1, by omega⟩
    unfold superPutWait at h ⊢
    simp only at h ⊢
    split
    · next hc =>
      rw [if_pos hc] at h
      split
      · next hw =>
        rw [if_pos hw] at h
        exact ih _ h m2 (by omega)
      · next hw =>
        rw [if_neg hw] at h
        simp at h
    · next hc =>
      rw [if_neg hc] at h
      exact h

theorem superPutWrite_done_mem (env : Env) (b : Block) (n : Nat) (w w1 : World)
    (h : superPutWrite env b n w = .done () w1) :
    ∃ new, w1.trace = w.trace ++ new ∧ Event.blockWrite b ∈ new := by
  induction n generalizing w with
  | zero => simp [superPutWrite] at h
  | succ k ih =>
    unfold superPutWrite at h
    by_cases hok : env.blockWrite w.trace b = true
    · simp only [hok, if_true, Outcome.done.injEq, true_and] at h
      subst h
      exact ⟨[.blockWrite b], rfl, by simp⟩
    · simp only [hok] at h
      obtain ⟨new, h1, h2⟩ := ih _ h
      refine ⟨[.blockWrite b, .sleep (10 * 0)] ++ new, ?_, ?_⟩
      · rw [h1]
        simp
      · simp

theorem superPutWrite_quiet_of_eq {env : Env} {b : Block} {fuel : Nat} {w : World}
    {o : Outcome Unit} (h : superPutWrite env b fuel w = o) :
    Quiet Event.isWriteIO w o.world :=
  h ▸ superPutWrite_quiet env b fuel w

theorem superPutWait_quiet_of_eq {env : Env} {b : Block} {fuel : Nat} {w : World}
    {o : Outcome Unit} (h : superPutWait env b fuel w = o) :
    Quiet Event.isWriteIO w o.world :=
  h ▸ superPutWait_quiet env b fuel w

theorem superGet_ok (env : Env) (w : World) (bs : Block)
    (hcl : env.cacheLocal w.trace PartSuper 0 env.OReadWrite = some bs)
    (hun : env.superUnpack (w.trace ++ [.cacheLocal PartSuper 0 env.OReadWrite]) bs = true) :
    superGet env w =
      (some (bs, w.super),
        (w.log (.cacheLocal PartSuper 0 env.OReadWrite)).log (.superUnpack bs)) := by
  unfold superGet
  simp [hcl, hun]

theorem superPut_done_of_ends (env : Env) (n fuel : Nat) (w : World) (b : Block) (super : Super)
    (hn : n ≤ fuel)
    (h : WriteEnds env b n (({ w with super := super }.log (.superPack super b)).log
      (.blockDirty b))) :
    ∃ w1 w2, superPutWrite env b n (({ w with super := super }.log (.superPack super b)).log
        (.blockDirty b)) = .done () w1 ∧
      superPutWait env b n w1 = .done () w2 ∧
      superPut env fuel w b super 1 = .done () (w2.log (.blockPut b)) := by
  obtain ⟨h1, h2⟩ := h
  cases hw : superPutWrite env b n (({ w with super := super }.log (.superPack super b)).log
      (.blockDirty b)) with
  | hang w1 => simp [hw, Outcome.ret] at h1
  | abort w1 => simp [hw, Outcome.ret] at h1
  | done u w1 =>
    rw [hw] at h2
    simp only [Outcome.world] at h2
    cases hwt : superPutWait env b n w1 with
    | hang w2 => simp [hwt, Outcome.ret] at h2
    | abort w2 => simp [hwt, Outcome.ret] at h2
    | done u2 w2 =>
      refine ⟨w1, w2, rfl, hwt, ?_⟩
      unfold superPut
      simp only [one_ne_zero, ne_eq, not_false_eq_true, if_true]
      rw [superPutWrite_mono env b n _ w1 hw fuel hn]
      simp only
      rw [superPutWait_mono env b n _ w2 hwt fuel hn]

theorem lowWorld_eq (env : Env) (w : World) (low : Nat) (bs : Block) :
    (({ ({ ((w.log (.vtLock .elk)).log (.cacheLocal PartSuper 0 env.OReadWrite)).log
            (.superUnpack bs) with fs := { w.fs with elo := low } } : World) with
          super := { w.super with epochLow := low } } : World).log
        (.superPack { w.super with epochLow := low } bs)).log (.blockDirty bs) =
      lowWorld env w low bs := by
  simp [lowWorld, World.log]

/-! ## The frame of the accepted calls of `fsEpochLow` -/

/-- The frame of an accepted call of `fsEpochLow`: for `low <= fs->ehi`, when
`superGet` succeeds (its `cacheLocal` returns `bs` and its `superUnpack`
succeeds), `fsEpochLow(fs, low)` sets `fs->elo` and the `epochLow` of the
super-block to `low`, packs that record into `bs` (`superPut`), and leaves
every other field of `Fs` (so `fs->ehi`) and of the super-block unchanged,
whatever the fuel.  It never returns anything but 1; and once the forced write
of `superPut` ends (within `n` rounds), the call returns 1 for every fuel from
`n` on, having called `blockWrite(bs)` (the write is forced) and released `elk`
last. -/
theorem fsEpochLow_sets (env : Env) (w : World) (low : Nat) (bs : Block)
    (hlow : low ≤ w.fs.ehi)
    (hcl : env.cacheLocal (w.trace ++ [.vtLock .elk]) PartSuper 0 env.OReadWrite = some bs)
    (hun : env.superUnpack
      (w.trace ++ [.vtLock .elk, .cacheLocal PartSuper 0 env.OReadWrite]) bs = true) :
    (∀ fuel,
      ((fsEpochLow env fuel w low).ret = some 1 ∨ (fsEpochLow env fuel w low).ret = none) ∧
      (fsEpochLow env fuel w low).world.fs = { w.fs with elo := low } ∧
      (fsEpochLow env fuel w low).world.super = { w.super with epochLow := low } ∧
      ∃ rest, (fsEpochLow env fuel w low).world.trace =
          w.trace ++ [.vtLock .elk, .cacheLocal PartSuper 0 env.OReadWrite, .superUnpack bs,
            .superPack { w.super with epochLow := low } bs, .blockDirty bs] ++ rest ∧
        ∀ e ∈ rest, e.isWriteIO = true ∨ e = .vtUnlock .elk) ∧
    (∀ n, WriteEnds env bs n (lowWorld env w low bs) → ∀ fuel, n ≤ fuel →
      (fsEpochLow env fuel w low).ret = some 1 ∧
      ∃ rest, (fsEpochLow env fuel w low).world.trace =
          w.trace ++ [.vtLock .elk, .cacheLocal PartSuper 0 env.OReadWrite, .superUnpack bs,
            .superPack { w.super with epochLow := low } bs, .blockDirty bs] ++ rest ++
            [.blockPut bs, .vtUnlock .elk] ∧
        (∀ e ∈ rest, e.isWriteIO = true) ∧ Event.blockWrite bs ∈ rest) := by
  have hsg := superGet_ok env (w.log (.vtLock .elk)) bs (by simpa using hcl)
    (by simpa using hun)
  have hstep : ∀ fuel o, fsEpochLow env fuel w low = o →
      ∃ op, superPut env fuel
          { ((w.log (.vtLock .elk)).log (.cacheLocal PartSuper 0 env.OReadWrite)).log
              (.superUnpack bs) with fs := { w.fs with elo := low } }
          bs { w.super with epochLow := low } 1 = op ∧
        ((∃ w2, op = .done () w2 ∧ o = .done 1 (w2.log (.vtUnlock .elk))) ∨
          (∃ w2, op = .hang w2 ∧ o = .hang w2) ∨ (∃ w2, op = .abort w2 ∧ o = .abort w2)) := by
    intro fuel o ho
    unfold fsEpochLow at ho
    simp only [World.log_fs, gt_iff_lt, not_lt.mpr hlow, if_false, hsg, World.log_super] at ho
    split at ho
    · next u w2 hp => exact ⟨_, hp, Or.inl ⟨w2, rfl, ho.symm⟩⟩
    · next w2 hp => exact ⟨_, hp, Or.inr (Or.inl ⟨w2, rfl, ho.symm⟩)⟩
    · next w2 hp => exact ⟨_, hp, Or.inr (Or.inr ⟨w2, rfl, ho.symm⟩)⟩
  constructor
  · intro fuel
    obtain ⟨op, hop, hcases⟩ := hstep fuel _ rfl
    have hq := superPut_quiet_of_eq hop
    rw [lowWorld_eq] at hq
    obtain ⟨q1, q2, _, rest, q4, q5⟩ := hq
    rcases hcases with ⟨w2, h1, h2⟩ | ⟨w2, h1, h2⟩ | ⟨w2, h1, h2⟩
    · subst h1
      rw [h2]
      simp only [Outcome.world] at q1 q2 q4
      refine ⟨Or.inl rfl, ?_, ?_, rest ++ [.vtUnlock .elk], ?_, ?_⟩
      · simp only [Outcome.world, World.log_fs, q1]
        rfl
      · simp only [Outcome.world, World.log_super, q2]
        rfl
      · simp only [Outcome.world, World.log_trace, q4, lowWorld, List.append_assoc]
      · intro e he
        rcases List.mem_append.1 he with h | h
        · exact Or.inl (q5 e h)
        · exact Or.inr (by simpa using h)
    · subst h1
      rw [h2]
      simp only [Outcome.world] at q1 q2 q4
      refine ⟨Or.inr rfl, ?_, ?_, rest, ?_, fun e he => Or.inl (q5 e he)⟩
      · simp only [Outcome.world, q1]
        rfl
      · simp only [Outcome.world, q2]
        rfl
      · simp only [Outcome.world, q4, lowWorld]
    · subst h1
      rw [h2]
      simp only [Outcome.world] at q1 q2 q4
      refine ⟨Or.inr rfl, ?_, ?_, rest, ?_, fun e he => Or.inl (q5 e he)⟩
      · simp only [Outcome.world, q1]
        rfl
      · simp only [Outcome.world, q2]
        rfl
      · simp only [Outcome.world, q4, lowWorld]
  · intro n hends fuel hn
    obtain ⟨op, hop, hcases⟩ := hstep fuel _ rfl
    rw [← lowWorld_eq] at hends
    obtain ⟨w1, w2, hw1, hw2, hput⟩ := superPut_done_of_ends env n fuel _ bs _ hn hends
    rw [hput] at hop
    subst hop
    rcases hcases with ⟨w3, h1, h2⟩ | ⟨w3, h1, _⟩ | ⟨w3, h1, _⟩
    · simp only [Outcome.done.injEq, true_and] at h1
      subst h1
      rw [h2]
      refine ⟨rfl, ?_⟩
      have qa := superPutWrite_quiet_of_eq hw1
      have qb := superPutWait_quiet_of_eq hw2
      obtain ⟨newa, ha1, ha2⟩ := superPutWrite_done_mem env bs n _ w1 hw1
      obtain ⟨_, _, _, newb, hb1, hb2⟩ := qb
      obtain ⟨_, _, _, newa2, ha3, ha4⟩ := qa
      simp only [Outcome.world] at hb1 ha3
      have hsame : newa = newa2 := List.append_cancel_left (ha1.symm.trans ha3)
      subst hsame
      refine ⟨newa ++ newb, ?_, ?_, ?_⟩
      · rw [lowWorld_eq] at ha1
        simp only [Outcome.world, World.log_trace, hb1, ha1, lowWorld, List.append_assoc,
          List.singleton_append]
      · intro e he
        rcases List.mem_append.1 he with h | h
        · exact ha4 e h
        · exact hb2 e h
      · exact List.mem_append_left _ ha2
    · simp at h1
    · simp at h1

/-- A run of `fsEpochLow(fs, 3)` on `okWorld` (`fs->ehi = 5`), where the disk
writes at the first attempt: it returns 1 with `fs->elo = 3`. -/
theorem fsEpochLow_sets_witness :
    (fsEpochLow okEnv 1 okWorld 3).ret = some 1 ∧
      (fsEpochLow okEnv 1 okWorld 3).world.fs = { okWorld.fs with elo := 3 } ∧
      (fsEpochLow okEnv 1 okWorld 3).world.super = { okWorld.super with epochLow := 3 } := by
  have h := fsEpochLow_sets okEnv okWorld 3
    { part := 1, addr := 0, score := [], l := ⟨0, 0, 0, 0, 0⟩ } (by decide) (by rfl) (by rfl)
  exact ⟨(h.2 1 ⟨by decide, by decide⟩ 1 (le_refl 1)).1, (h.1 1).2.1, (h.1 1).2.2.1⟩

/-! ## The order of the epochs -/

theorem Safe.srefl (w : World) : Safe 0 w w := by
  intro ho hle _
  exact ⟨ho, hle, by omega, [], by simp, by simp [packed]⟩

theorem Safe.strans {n m : Nat} {w1 w2 w3 : World} (h12 : Safe n w1 w2) (h23 : Safe m w2 w3) :
    Safe (n + m) w1 w3 := by
  intro ho hle hw
  obtain ⟨a1, a2, a3, n1, a4, a5⟩ := h12 ho hle (by omega)
  obtain ⟨b1, b2, b3, n2, b4, b5⟩ := h23 a1 a2 (by omega)
  refine ⟨b1, b2, by omega, n1 ++ n2, ?_, ?_⟩
  · rw [b4, a4, List.append_assoc]
  · intro s hs
    rw [packed_append] at hs
    rcases List.mem_append.1 hs with h | h
    · exact a5 s h
    · exact b5 s h

theorem Safe.smono {n m : Nat} {w1 w2 : World} (h : Safe n w1 w2) (hnm : n ≤ m) :
    Safe m w1 w2 := by
  intro ho hle hw
  obtain ⟨a1, a2, a3, n1, a4, a5⟩ := h ho hle (by omega)
  exact ⟨a1, a2, by omega, n1, a4, a5⟩

theorem Quiet.toSafe {K : Event → Bool} {w1 w2 : World} (h : Quiet K w1 w2)
    (hK : ∀ e, K e = true → e.isCalm = true) : Safe 0 w1 w2 := by
  obtain ⟨h1, h2, _, new, h4, h5⟩ := h
  intro ho hle _
  refine ⟨?_, ?_, ?_, new, h4, ?_⟩
  · unfold Opened at ho ⊢
    rw [h1, h2]
    exact ho
  · rw [h1]
    exact hle
  · rw [h1]
    omega
  · rw [packed_calm new (fun e he => hK e (h5 e he))]
    simp

theorem Safe.slog {n : Nat} {w1 w2 : World} (h : Safe n w1 w2) (e : Event)
    (he : packed [e] = []) : Safe n w1 (w2.log e) := by
  intro ho hle hw
  obtain ⟨a1, a2, a3, n1, a4, a5⟩ := h ho hle hw
  refine ⟨a1, a2, a3, n1 ++ [e], ?_, ?_⟩
  · rw [World.log_trace, a4, List.append_assoc]
  · intro s hs
    rw [packed_append, he, List.append_nil] at hs
    exact a5 s hs

theorem Bumped.bsafe {env : Env} {w1 w2 : World} {doarchive : Int}
    (h : Bumped env w1 w2 doarchive) : Safe 1 w1 w2 := by
  obtain ⟨r, b0, b, bs, rest, _, _, _, _, h4, h5, _, h7, h8⟩ := h
  intro ho hle hw
  have hu : u32 (w1.fs.ehi + 1) = w1.fs.ehi + 1 := Nat.mod_eq_of_lt hw
  obtain ⟨ho1, ho2⟩ := ho
  refine ⟨?_, ?_, ?_, bumpTrace env w1 r b0 b bs doarchive ++ rest, ?_, ?_⟩
  · unfold Opened
    rw [h4, h5]
    exact ⟨rfl, ho2⟩
  · rw [h4, hu]
    show w1.fs.elo ≤ w1.fs.ehi + 1
    omega
  · rw [h4, hu]
  · rw [h7, List.append_assoc]
  · intro s hs
    rw [packed_append, packed_writeIO rest h8] at hs
    simp only [bumpTrace, packed, List.append_nil, List.mem_singleton] at hs
    subst hs
    show w1.super.epochLow ≤ u32 (w1.fs.ehi + 1)
    rw [hu, ho2]
    omega

theorem SnapShape.ssafe {env : Env} {w : World} {doarchive : Int} {o : Outcome Int}
    (h : SnapShape env w doarchive o) :
    Safe (if doarchive ≠ 0 then 2 else 1) w o.world := by
  have hC : ∀ e : Event, e.isCalm = true → e.isCalm = true := fun _ h => h
  have h12 : 1 ≤ (if doarchive ≠ 0 then 2 else 1) := by split <;> omega
  have h02 : 0 ≤ (if doarchive ≠ 0 then 2 else 1) := by omega
  rcases h with ⟨q, _⟩ | ⟨wb, hb, h⟩
  · exact (q.toSafe hC).smono h02
  · have g1 : Safe 1 w wb := by
      have := (((Safe.srefl w).slog (.vtLock .elk) rfl).slog (.fileOpen "/active") rfl).strans
        hb.bsafe
      simpa using this
    rcases h with ⟨h1, _⟩ | ⟨q, _⟩ | ⟨w3, dst, src, q3, h⟩
    · rw [h1]
      exact g1.smono h12
    · exact (g1.strans (q.toSafe hC)).smono h12
    · have g4 : Safe 1 w
          (w3.log (.fileSnapshot dst src (u32 (wb.fs.ehi + 2 ^ 32 - 1)) doarchive)) :=
        (g1.strans (q3.toSafe isBody_isCalm)).slog _ rfl
      rcases h with ⟨q, _⟩ | ⟨_, ho⟩ | ⟨hd, w6, w7, q6, hb2, h⟩
      · exact (g4.strans (q.toSafe hC)).smono h12
      · rw [ho]
        exact (((g4.slog (.fileDecRef src) rfl).slog (.fileDecRef dst) rfl).slog
          (.vtUnlock .elk) rfl).smono h12
      · have g7 : Safe 2 w w7 := (g4.strans (q6.toSafe isPlain_isCalm)).strans hb2.bsafe
        rw [if_pos hd]
        rcases h with ⟨h1, _⟩ | ho
        · rw [h1]
          exact g7
        · rw [ho]
          by_cases harch : w7.fs.arch = true
          · simp only [harch, if_true, Outcome.world]
            exact (g7.slog (.vtUnlock .elk) rfl).slog .archKick rfl
          · simp only [harch, Outcome.world]
            exact g7.slog (.vtUnlock .elk) rfl

theorem Safe.of_pack {w w2 : World} (S : Super) (b : Block) (pre post : List Event)
    (hehi : w2.fs.ehi = w.fs.ehi) (helo : w2.fs.elo = S.epochLow) (hsup : w2.super = S)
    (hhi : S.epochHigh = w.super.epochHigh) (hlo : S.epochLow ≤ w.fs.ehi)
    (htr : w2.trace = w.trace ++ (pre ++ Event.superPack S b :: post))
    (hpre : packed pre = []) (hpost : packed post = []) : Safe 0 w w2 := by
  intro ho _ _
  obtain ⟨ho1, ho2⟩ := ho
  refine ⟨⟨?_, ?_⟩, ?_, ?_, pre ++ Event.superPack S b :: post, htr, ?_⟩
  · rw [hsup, hhi, hehi, ho1]
  · rw [hsup, helo]
  · rw [helo, hehi]
    exact hlo
  · rw [hehi]
    omega
  · intro s hs
    rw [packed_append, hpre] at hs
    simp only [packed, hpost, List.nil_append, List.mem_singleton] at hs
    subst hs
    rw [hhi, ho1]
    exact hlo

theorem isWriteIO_isCalm (e : Event) (h : e.isWriteIO = true) : e.isCalm = true := by
  cases e <;> simp_all [Event.isWriteIO, Event.isCalm, Event.isBody, Event.isPlain, Event.isInner]

theorem outcome_world_safe {α : Type} {n : Nat} {w w2 : World} {op : Outcome Unit}
    {o : Outcome α} (v : α) (tail : List Event) (hs : Safe n w w2) (hq : Quiet Event.isWriteIO w2 op.world)
    (htail : ∀ e ∈ tail, packed [e] = [])
    (ho : (∃ w3, op = .done () w3 ∧ o = .done v (tail.foldl World.log w3)) ∨
      (∃ w3, op = .hang w3 ∧ o = .hang w3) ∨ (∃ w3, op = .abort w3 ∧ o = .abort w3)) :
    Safe n w o.world := by
  have base : Safe n w op.world := by
    have := hs.strans (hq.toSafe isWriteIO_isCalm)
    simpa using this
  rcases ho with ⟨w3, h1, h2⟩ | ⟨w3, h1, h2⟩ | ⟨w3, h1, h2⟩
  · subst h1
    subst h2
    simp only [Outcome.world] at base ⊢
    clear hq
    induction tail generalizing w3 with
    | nil => exact base
    | cons e t ih =>
      simp only [List.foldl_cons]
      exact ih (fun e he => htail e (List.mem_cons_of_mem _ he)) _
        (base.slog e (htail e (List.mem_cons_self _ _)))
  · subst h1
    subst h2
    exact base
  · subst h1
    subst h2
    exact base

theorem fsEpochLow_safe (env : Env) (fuel : Nat) (w : World) (low : Nat) :
    Safe 0 w (fsEpochLow env fuel w low).world := by
  generalize ho : fsEpochLow env fuel w low = o
  unfold fsEpochLow at ho
  simp only [World.log_fs] at ho
  split at ho
  · subst ho
    intro hop hle _
    exact ⟨hop, hle, by simp [Outcome.world],
      [.vtLock .elk, .vtSetError (badLowEpoch w.fs.ehi), .vtUnlock .elk],
      by simp [Outcome.world, World.log], by simp [packed]⟩
  · next hlow =>
    have hlow2 : low ≤ w.fs.ehi := not_lt.mp hlow
    split at ho
    · next w1 hsg =>
      subst ho
      exact ((((Safe.srefl w).slog (.vtLock .elk) rfl).strans
        ((superGet_quiet_of_eq hsg).toSafe isPlain_isCalm)).slog (.vtUnlock .elk) rfl)
    · next bs sup w1 hsg =>
      obtain ⟨_, hsup, hw1⟩ := superGet_some _ _ _ _ _ hsg
      subst hw1
      subst hsup
      simp only [World.log_super, World.log_fs] at ho
      have hs : Safe 0 w (lowWorld env w low bs) :=
        Safe.of_pack { w.super with epochLow := low } bs
          [.vtLock .elk, .cacheLocal PartSuper 0 env.OReadWrite, .superUnpack bs]
          [.blockDirty bs] rfl rfl rfl rfl hlow2 (by simp [lowWorld]) rfl rfl
      split at ho
      · next u w2 hp =>
        have hq := superPut_quiet_of_eq hp
        rw [lowWorld_eq] at hq
        exact outcome_world_safe 1 [.vtUnlock .elk] hs hq (by simp [packed])
          (Or.inl ⟨w2, rfl, ho.symm⟩)
      · next w2 hp =>
        have hq := superPut_quiet_of_eq hp
        rw [lowWorld_eq] at hq
        exact outcome_world_safe 0 [] hs hq (by simp)
          (Or.inr (Or.inl ⟨w2, rfl, ho.symm⟩))
      · next w2 hp =>
        have hq := superPut_quiet_of_eq hp
        rw [lowWorld_eq] at hq
        exact outcome_world_safe 0 [] hs hq (by simp)
          (Or.inr (Or.inr ⟨w2, rfl, ho.symm⟩))

theorem Safe.of_repack {w w2 : World} (S : Super) (b : Block) (pre post : List Event)
    (hfs : w2.fs = w.fs) (hsup : w2.super = S)
    (hhi : S.epochHigh = w.super.epochHigh) (hlo : S.epochLow = w.super.epochLow)
    (htr : w2.trace = w.trace ++ (pre ++ Event.superPack S b :: post))
    (hpre : packed pre = []) (hpost : packed post = []) : Safe 0 w w2 := by
  intro ho hle _
  obtain ⟨ho1, ho2⟩ := ho
  refine ⟨⟨?_, ?_⟩, ?_, ?_, pre ++ Event.superPack S b :: post, htr, ?_⟩
  · rw [hsup, hhi, hfs, ho1]
  · rw [hsup, hlo, hfs, ho2]
  · rw [hfs]
    exact hle
  · rw [hfs]
    omega
  · intro s hs
    rw [packed_append, hpre] at hs
    simp only [packed, hpost, List.nil_append, List.mem_singleton] at hs
    subst hs
    rw [hhi, hlo, ho1, ho2]
    exact hle

theorem fsNextQid_safe (env : Env) (fuel : Nat) (w : World) :
    Safe 0 w (fsNextQid env fuel w).world := by
  generalize ho : fsNextQid env fuel w = o
  unfold fsNextQid at ho
  split at ho
  · next w1 hsg =>
    subst ho
    exact (superGet_quiet_of_eq hsg).toSafe isPlain_isCalm
  · next bs sup w1 hsg =>
    obtain ⟨_, hsup, hw1⟩ := superGet_some _ _ _ _ _ hsg
    subst hw1
    subst hsup
    simp only at ho
    split at ho
    · next u w2 hp =>
      refine outcome_world_safe (1, some w.super.qid) []
        (Safe.of_repack { w.super with qid := u64 (w.super.qid + 1) } bs
          [.cacheLocal PartSuper 0 env.OReadWrite, .superUnpack bs] [.blockDirty bs]
          ?_ ?_ ?_ ?_ ?_ rfl rfl)
        (superPut_quiet_of_eq hp) (by simp) (Or.inl ⟨w2, rfl, ho.symm⟩) <;>
        first | rfl | simp [World.log]
    · next w2 hp =>
      refine outcome_world_safe (0, none) []
        (Safe.of_repack { w.super with qid := u64 (w.super.qid + 1) } bs
          [.cacheLocal PartSuper 0 env.OReadWrite, .superUnpack bs] [.blockDirty bs]
          ?_ ?_ ?_ ?_ ?_ rfl rfl)
        (superPut_quiet_of_eq hp) (by simp) (Or.inr (Or.inl ⟨w2, rfl, ho.symm⟩)) <;>
        first | rfl | simp [World.log]
    · next w2 hp =>
      refine outcome_world_safe (0, none) []
        (Safe.of_repack { w.super with qid := u64 (w.super.qid + 1) } bs
          [.cacheLocal PartSuper 0 env.OReadWrite, .superUnpack bs] [.blockDirty bs]
          ?_ ?_ ?_ ?_ ?_ rfl rfl)
        (superPut_quiet_of_eq hp) (by simp) (Or.inr (Or.inr ⟨w2, rfl, ho.symm⟩)) <;>
        first | rfl | simp [World.log]

theorem fsSync_safe (w : World) : Safe 0 w (fsSync w).world :=
  (((Safe.srefl w).slog (.vtLock .elk) rfl).slog (.cacheFlush 1) rfl).slog (.vtUnlock .elk) rfl

theorem Call.run_safe (env : Env) (w : World) (c : Call) : Safe c.bumps w (c.run env w) := by
  cases c with
  | epochLow fuel low => exact fsEpochLow_safe env fuel w low
  | snapshot fuel doarchive => exact (fsSnapshot_shape env fuel w doarchive).ssafe
  | nextQid fuel => exact fsNextQid_safe env fuel w
  | sync => exact fsSync_safe w

theorem runCalls_safe (env : Env) (w : World) (cs : List Call) :
    Safe (cs.map Call.bumps).sum w (runCalls env w cs) := by
  induction cs generalizing w with
  | nil => exact Safe.srefl w
  | cons c cs ih =>
    simp only [List.map_cons, List.sum_cons, runCalls]
    exact (Call.run_safe env w c).strans (ih _)

/-! ## `fsOpen` establishes `Opened` -/

theorem fsOpenErr_ret (env : Env) (fs : Fs) (w : World) (fs2 : Fs) :
    (fsOpenErr env fs w).ret ≠ some (some fs2) := by
  unfold fsOpenErr
  split <;> simp [Outcome.ret]

theorem fsOpenFinish_opened (env : Env) (fs : Fs) (w : World) (mode : Int) (fs2 : Fs)
    (hs : w.super.epochHigh = fs.ehi ∧ w.super.epochLow = fs.elo)
    (h : (fsOpenFinish env fs w mode).ret = some (some fs2)) :
    Opened (fsOpenFinish env fs w mode).world := by
  generalize ho : fsOpenFinish env fs w mode = o at h
  unfold fsOpenFinish at ho
  simp only at ho
  split at ho
  · subst ho
    exact absurd h (fsOpenErr_ret _ _ _ _)
  · split at ho
    · subst ho
      exact hs
    · subst ho
      exact hs

theorem fsOpenRecover_opened (env : Env) (fs : Fs) (w : World) (super : Super) (mode : Int)
    (fs2 : Fs) (hs : super.epochHigh = fs.ehi ∧ super.epochLow = fs.elo)
    (h : (fsOpenRecover env fs w super mode).ret = some (some fs2)) :
    Opened (fsOpenRecover env fs w super mode).world := by
  generalize ho : fsOpenRecover env fs w super mode = o at h
  unfold fsOpenRecover at ho
  simp only at ho
  split at ho
  · subst ho
    exact absurd h (fsOpenErr_ret _ _ _ _)
  · split at ho
    · subst ho
      exact absurd h (fsOpenErr_ret _ _ _ _)
    · split at ho
      · subst ho
        exact absurd h (fsOpenErr_ret _ _ _ _)
      · split at ho
        · subst ho
          exact absurd h (fsOpenErr_ret _ _ _ _)
        · split at ho
          · subst ho
            exact absurd h (fsOpenErr_ret _ _ _ _)
          · subst ho
            exact fsOpenFinish_opened _ _ _ _ fs2 hs h

theorem fsOpenSuper_opened (env : Env) (fs : Fs) (w : World) (mode : Int) (fs2 : Fs)
    (h : (fsOpenSuper env fs w mode).ret = some (some fs2)) :
    Opened (fsOpenSuper env fs w mode).world := by
  generalize ho : fsOpenSuper env fs w mode = o at h
  unfold fsOpenSuper at ho
  simp only at ho
  split at ho
  · subst ho
    exact absurd h (fsOpenErr_ret _ _ _ _)
  · split at ho
    · subst ho
      exact absurd h (fsOpenErr_ret _ _ _ _)
    · split at ho
      · subst ho
        exact fsOpenFinish_opened _ _ _ _ fs2 ⟨rfl, rfl⟩ h
      · split at ho
        · subst ho
          exact absurd h (fsOpenErr_ret _ _ _ _)
        · subst ho
          exact fsOpenRecover_opened _ _ _ _ _ fs2 ⟨rfl, rfl⟩ h

theorem fsOpen_opened (env : Env) (w : World) (file : String) (ncache mode : Int) (fs2 : Fs)
    (h : (fsOpen env w file ncache mode).ret = some (some fs2)) :
    Opened (fsOpen env w file ncache mode).world := by
  generalize ho : fsOpen env w file ncache mode = o at h
  unfold fsOpen at ho
  simp only at ho
  repeat' split at ho
  all_goals first
    | (subst ho; exact fsOpenSuper_opened _ _ _ _ fs2 h)
    | (subst ho; simp [Outcome.ret] at h)

/-! ## Claim on the order of the epochs -/

/-- C5, counterexample: `fsOpen` succeeds on a disk whose super-block has
`epochLow = 1` and `epochHigh = 2^32 - 1`, so `fs->elo <= fs->ehi`; one
successful `fsSnapshot(fs, 0)` then wraps `fs->ehi` to 0, below `fs->elo = 1`,
and packs a super-block with `epochLow = 1` and `epochHigh = 0`. -/
theorem epoch_order_broken_by_wrap :
    (fsOpen okEnv lastEpochDisk "fossil" 1000 1).ret = some (some lastEpochWorld.fs) ∧
      lastEpochWorld.fs.elo ≤ lastEpochWorld.fs.ehi ∧
      (fsSnapshot okEnv 1 lastEpochWorld 0).ret = some 1 ∧
      (runCalls okEnv lastEpochWorld [.snapshot 1 0]).fs.ehi = 0 ∧
      (runCalls okEnv lastEpochWorld [.snapshot 1 0]).fs.elo = 1 ∧
      ¬ ((runCalls okEnv lastEpochWorld [.snapshot 1 0]).fs.elo ≤
          (runCalls okEnv lastEpochWorld [.snapshot 1 0]).fs.ehi) ∧
      (packed (runCalls okEnv lastEpochWorld [.snapshot 1 0]).trace).map
        (fun s => (s.epochLow, s.epochHigh)) = [(1, 0)] := by
  decide

/-- C5, amended: from an opened file system (`fs->ehi = super.epochHigh`,
`fs->elo = super.epochLow`) with `fs->elo <= fs->ehi`, after any sequence of
calls of `fsEpochLow`, `fsSnapshot`, `fsNextQid` and `fsSync`, returned or not,
during which the `u32int` epoch does not wrap (`fs->ehi` plus the bumps the
calls can make, one for each `fsSnapshot` and two when archiving, stays below
`2^32`), `fs->elo <= fs->ehi` holds and every record packed into the
super-block has `epochLow <= epochHigh`. -/
theorem epoch_order_kept (env : Env) (w0 : World) (cs : List Call)
    (hopen : Opened w0) (hle : w0.fs.elo ≤ w0.fs.ehi)
    (hwrap : w0.fs.ehi + (cs.map Call.bumps).sum < 2 ^ 32) :
    (runCalls env w0 cs).fs.elo ≤ (runCalls env w0 cs).fs.ehi ∧
      ∃ new, (runCalls env w0 cs).trace = w0.trace ++ new ∧
        ∀ s ∈ packed new, s.epochLow ≤ s.epochHigh := by
  obtain ⟨_, h2, _, h4⟩ := runCalls_safe env w0 cs hopen hle hwrap
  exact ⟨h2, h4⟩

/-- Witness for C5 as amended: the file system opened on `okDisk` (epochs 2
and 5), then an archival snapshot, `fsEpochLow(fs, 6)`, `fsNextQid`, `fsSync`
and a temporary snapshot. -/
theorem epoch_order_kept_witness :
    (runCalls okEnv (fsOpen okEnv okDisk "fossil" 1000 1).world
        [.snapshot 1 1, .epochLow 1 6, .nextQid 1, .sync, .snapshot 1 0]).fs.elo ≤
      (runCalls okEnv (fsOpen okEnv okDisk "fossil" 1000 1).world
        [.snapshot 1 1, .epochLow 1 6, .nextQid 1, .sync, .snapshot 1 0]).fs.ehi :=
  (epoch_order_kept okEnv (fsOpen okEnv okDisk "fossil" 1000 1).world
    [.snapshot 1 1, .epochLow 1 6, .nextQid 1, .sync, .snapshot 1 0]
    (fsOpen_opened okEnv okDisk "fossil" 1000 1
      (fsOpen okEnv okDisk "fossil" 1000 1).world.fs (by decide))
    (by decide) (by decide)).1

/-! ## Claim on the block states of `dat.h` -/

/-- C19: the block states of `dat.h` are `BsAlloc = 1`, `BsCopied = 2`,
`BsVenti = 4`, `BsClosed = 8`, four single bits that are pairwise disjoint and
whose union is `BsMask = 0x0F`; `BsFree = 0`; and `BsBad = 0xFF` differs from
every union of a subset of the four bits and from every state `s` with
`(s & ~BsMask) = 0`. -/
theorem block_state_encoding :
    BsAlloc = 1 ∧ BsCopied = 2 ∧ BsVenti = 4 ∧ BsClosed = 8 ∧
    (BsAlloc &&& BsCopied = 0 ∧ BsAlloc &&& BsVenti = 0 ∧ BsAlloc &&& BsClosed = 0 ∧
      BsCopied &&& BsVenti = 0 ∧ BsCopied &&& BsClosed = 0 ∧ BsVenti &&& BsClosed = 0) ∧
    BsAlloc ||| BsCopied ||| BsVenti ||| BsClosed = BsMask ∧ BsMask = 0x0F ∧
    BsFree = 0 ∧ BsBad = 0xFF ∧
    (∀ a c v d : Bool,
      ((if a then BsAlloc else 0) ||| (if c then BsCopied else 0) |||
        (if v then BsVenti else 0) ||| (if d then BsClosed else 0)) &&& not32 BsMask = 0 ∧
      ((if a then BsAlloc else 0) ||| (if c then BsCopied else 0) |||
        (if v then BsVenti else 0) ||| (if d then BsClosed else 0)) ≠ BsBad) ∧
    (∀ s : Nat, s &&& not32 BsMask = 0 → s ≠ BsBad) := by
  refine ⟨by decide, by decide, by decide, by decide, by decide, by decide, by decide,
    by decide, by decide, by decide, ?_⟩
  intro s h hs
  subst hs
  revert h
  decide

/-- Witness for C19: the state `BsAlloc|BsClosed` has no bit outside `BsMask`
and is not `BsBad`. -/
theorem block_state_encoding_witness :
    (BsAlloc ||| BsClosed) &&& not32 BsMask = 0 ∧ BsAlloc ||| BsClosed ≠ BsBad :=
  ⟨by decide, block_state_encoding.2.2.2.2.2.2.2.2.2.2 (BsAlloc ||| BsClosed) (by decide)⟩

/-! ## Claim on `vtWriteBlock` -/

/-- C16: `vtWriteBlock(z, buf, n, type, score)` returns 1 exactly when
`vtWrite` succeeds, storing a score, and `vtSha1Check(score, buf, n)` accepts
that score; otherwise it returns 0.  When `vtWrite` fails the only call made is
`vtWrite` (no `vtSha1Check`), and nothing is stored in `score`; when `vtWrite`
succeeds the calls are `vtWrite` and then `vtSha1Check` on the stored score,
and a refused score gives 0. -/
theorem vtWriteBlock_verifies (venv : VacEnv) (w : World) (buf : Buf) (n type : Nat) :
    ((vtWriteBlock venv w buf n type).1.1 = 1 ↔
      ∃ score, venv.vtWrite w.trace type buf n = some score ∧
        venv.vtSha1Check (w.trace ++ [.vac (.vtWrite type buf n)]) score buf n = true) ∧
    ((vtWriteBlock venv w buf n type).1.1 = 1 ∨ (vtWriteBlock venv w buf n type).1.1 = 0) ∧
    (venv.vtWrite w.trace type buf n = none →
      vtWriteBlock venv w buf n type = ((0, none), w.log (.vac (.vtWrite type buf n)))) ∧
    (∀ score, venv.vtWrite w.trace type buf n = some score →
      (vtWriteBlock venv w buf n type).2 =
        (w.log (.vac (.vtWrite type buf n))).log (.vac (.vtSha1Check score buf n)) ∧
      (vtWriteBlock venv w buf n type).1.2 = some score ∧
      (venv.vtSha1Check (w.trace ++ [.vac (.vtWrite type buf n)]) score buf n = false →
        (vtWriteBlock venv w buf n type).1.1 = 0)) := by
  unfold vtWriteBlock
  cases hw : venv.vtWrite w.trace type buf n with
  | none => simp
  | some score =>
    cases hc : venv.vtSha1Check (w.trace ++ [.vac (.vtWrite type buf n)]) score buf n <;>
      simp [hc, World.log]

/-! ## Claim on the back-pointer packed by `bumpEpoch` -/

/-- C20: after a successful `bumpEpoch`, the calls made are `cacheGlobal`
(giving the old root block `b0`), `blockCopy` (giving the new root block `b`),
then `entryPack(&e, b->data, 1)` and `blockDirty(b)`, and no other `entryPack`
follows; the entry `e` has `flags = VtEntryActive|VtEntryLocal|VtEntryDir` (as
a `uchar`), `score` the score of `b0`, `tag = RootTag`, `snap` the label epoch
of `b0`, and `gen`, `psize`, `dsize`, `depth`, `size`, `archive` zero. -/
theorem bumpEpoch_back_pointer (env : Env) (fuel : Nat) (w : World) (doarchive : Int)
    (h : (bumpEpoch env fuel w doarchive).ret = some 1) :
    ∃ (r : Source) (b0 b : Block) (post : List Event),
      w.fs.source = some r ∧
      env.cacheGlobal w.trace r.score BtDir RootTag env.OReadOnly = some b0 ∧
      env.blockCopy (w.trace ++ [.cacheGlobal r.score BtDir RootTag env.OReadOnly])
        b0 RootTag (u32 (w.fs.ehi + 1)) w.fs.elo = some b ∧
      (bumpEpoch env fuel w doarchive).world.trace =
        w.trace ++ [.cacheGlobal r.score BtDir RootTag env.OReadOnly,
          .blockCopy b0 RootTag (u32 (w.fs.ehi + 1)) w.fs.elo] ++
          [.entryPack (bumpEntry env b0) b 1, .blockDirty b] ++ post ∧
      (∀ e ∈ post, ∀ (e2 : Entry) (b2 : Block) (i : Nat), e ≠ .entryPack e2 b2 i) ∧
      (bumpEntry env b0).flags = u8 (env.VtEntryActive ||| env.VtEntryLocal ||| env.VtEntryDir) ∧
      (env.VtEntryActive ||| env.VtEntryLocal ||| env.VtEntryDir < 2 ^ 8 →
        (bumpEntry env b0).flags = env.VtEntryActive ||| env.VtEntryLocal ||| env.VtEntryDir) ∧
      (bumpEntry env b0).score = b0.score ∧
      (bumpEntry env b0).tag = RootTag ∧
      (bumpEntry env b0).snap = b0.l.epoch ∧
      (bumpEntry env b0).gen = 0 ∧ (bumpEntry env b0).psize = 0 ∧
      (bumpEntry env b0).dsize = 0 ∧ (bumpEntry env b0).depth = 0 ∧
      (bumpEntry env b0).size = 0 ∧ (bumpEntry env b0).archive = 0 := by
  rcases bumpEpoch_cases env fuel w doarchive with ⟨_, hr⟩ | ⟨hB, _⟩
  · rw [h] at hr
    simp at hr
  · obtain ⟨r, b0, b, bs, rest, h1, h2, h3, _, _, _, _, h7, h8⟩ := hB
    refine ⟨r, b0, b,
      [.cacheLocal PartSuper 0 env.OReadWrite, .superUnpack bs,
        .blockDependency bs b 0 (env.localToGlobal w.super.active), .blockPut b,
        .superPack (bumpSuper w.super (u32 (w.fs.ehi + 1)) b.addr doarchive) bs,
        .blockDirty bs] ++ rest, h1, h2, h3, ?_, ?_, rfl, ?_, rfl, rfl, rfl, rfl, rfl, rfl,
      rfl, rfl, rfl⟩
    · rw [h7]
      simp [bumpTrace]
    · intro e he e2 b2 i hne
      subst hne
      simp only [List.cons_append, List.nil_append, List.mem_cons] at he
      rcases he with he | he | he | he | he | he | he
      all_goals first
        | exact Event.noConfusion he
        | exact absurd (h8 _ he) (by simp [Event.isWriteIO])
    · intro hlt
      exact Nat.mod_eq_of_lt hlt

/-- Witness for C20: in `okWorld` the entry packed at index 1 of the new root
block has flags `1|32|2`, the score `[7]` of the old root, tag 1 and snap 5. -/
theorem bumpEpoch_back_pointer_witness :
    (bumpEpoch okEnv 1 okWorld 0).ret = some 1 ∧
      Event.entryPack
        { gen := 0, psize := 0, dsize := 0, depth := 0, flags := 35, size := 0,
          score := [7], tag := 1, snap := 5, archive := 0 }
        { part := 3, addr := 101, score := [101], l := ⟨8, 1, 1, 6, 0⟩ } 1
        ∈ (bumpEpoch okEnv 1 okWorld 0).world.trace := by
  refine ⟨by decide, ?_⟩
  obtain ⟨r, b0, b, post, h1, h2, h3, h4, _⟩ :=
    bumpEpoch_back_pointer okEnv 1 okWorld 0 (by decide)
  decide

/-! ## Claim on `fsNextQid` -/

/-- C12: when `superGet` succeeds, giving the super-block `bs`, `fsNextQid`
returns 1 with `*qid` the `qid` of the super-block before the call; the one
record it packs is the old one with `qid` one more (as a `u64int`); the calls
it makes are those of `superGet`, then `superPack`, `blockDirty` and
`blockPut`, with no `blockWrite`.  A second call that succeeds right after
returns the `u64int` successor, which differs from the first value.  When
`superGet` fails, `fsNextQid` returns 0, stores nothing in `*qid` and leaves
the super-block as it was. -/
theorem fsNextQid_spec (env : Env) (fuel : Nat) (w : World) :
    (∀ (bs : Block) (s : Super) (w1 : World), superGet env w = (some (bs, s), w1) →
      fsNextQid env fuel w = .done (1, some w.super.qid)
        { fs := w.fs, super := { w.super with qid := u64 (w.super.qid + 1) }, err := w.err,
          trace := w.trace ++ [.cacheLocal PartSuper 0 env.OReadWrite, .superUnpack bs,
            .superPack { w.super with qid := u64 (w.super.qid + 1) } bs,
            .blockDirty bs, .blockPut bs] } ∧
      ∀ (fuel2 : Nat) (bs2 : Block) (s2 : Super) (w2 : World),
        superGet env (fsNextQid env fuel w).world = (some (bs2, s2), w2) →
        (fsNextQid env fuel2 (fsNextQid env fuel w).world).ret =
          some (1, some (u64 (w.super.qid + 1))) ∧
        (w.super.qid < 2 ^ 64 → u64 (w.super.qid + 1) ≠ w.super.qid)) ∧
    (∀ w1 : World, superGet env w = (none, w1) →
      fsNextQid env fuel w = .done (0, none) w1 ∧ w1.super = w.super ∧ w1.fs = w.fs ∧
        ∀ e ∈ w1.trace, ∀ (s : Super) (b : Block), e ∈ w.trace ∨ e ≠ .superPack s b) := by
  have first : ∀ (fuel : Nat) (w : World) (bs : Block) (s : Super) (w1 : World),
      superGet env w = (some (bs, s), w1) →
      fsNextQid env fuel w = .done (1, some w.super.qid)
        { fs := w.fs, super := { w.super with qid := u64 (w.super.qid + 1) }, err := w.err,
          trace := w.trace ++ [.cacheLocal PartSuper 0 env.OReadWrite, .superUnpack bs,
            .superPack { w.super with qid := u64 (w.super.qid + 1) } bs,
            .blockDirty bs, .blockPut bs] } := by
    intro fuel w bs s w1 hg
    obtain ⟨_, hs, hw1⟩ := superGet_some env w w1 bs s hg
    subst hs hw1
    unfold fsNextQid
    rw [hg]
    simp [superPut, World.log]
  refine ⟨fun bs s w1 hg => ⟨first fuel w bs s w1 hg, ?_⟩, ?_⟩
  · intro fuel2 bs2 s2 w2 hg2
    refine ⟨?_, ?_⟩
    · rw [first fuel2 _ bs2 s2 w2 hg2, first fuel w bs s w1 hg]
      rfl
    · intro hlt hEq
      unfold u64 at hEq
      omega
  · intro w1 hg
    have hq := superGet_quiet env w
    rw [hg] at hq
    obtain ⟨hfs, hsup, _, new, hnew, hall⟩ := hq
    refine ⟨?_, hsup, hfs, ?_⟩
    · unfold fsNextQid
      rw [hg]
    · intro e he s b
      rw [hnew, List.mem_append] at he
      rcases he with he | he
      · exact Or.inl he
      · right
        intro hEq
        subst hEq
        have := hall _ he
        simp [Event.isPlain] at this

/-- Witness for C12: in `okWorld`, whose super-block has `qid = 100`, two calls
of `fsNextQid` return 100 and then 101. -/
theorem fsNextQid_spec_witness :
    (fsNextQid okEnv 0 okWorld).ret = some (1, some 100) ∧
      (fsNextQid okEnv 0 (fsNextQid okEnv 0 okWorld).world).ret = some (1, some 101) := by
  obtain ⟨h1, h2⟩ := (fsNextQid_spec okEnv 0 okWorld).1 okBlock okWorld.super
    ((okWorld.log (.cacheLocal PartSuper 0 okEnv.OReadWrite)).log (.superUnpack okBlock))
    (by decide)
  refine ⟨by rw [h1]; rfl, ?_⟩
  have h3 := (h2 0 okBlock (fsNextQid okEnv 0 okWorld).world.super
    (((fsNextQid okEnv 0 okWorld).world.log (.cacheLocal PartSuper 0 okEnv.OReadWrite)).log
      (.superUnpack okBlock)) (by decide)).1
  rw [h3]
  decide

/-! ## Claim on the forced write of `superPut` -/

theorem retries_sleep (b : Block) (k : Nat) (ms : Nat) (h : Event.sleep ms ∈ retries b k) :
    ms = 0 := by
  induction k with
  | zero => simp [retries] at h
  | succ k ih =>
    simp only [retries, List.mem_cons] at h
    rcases h with h | h
    · exact Event.noConfusion h
    · rcases h with h | h
      · cases h
        rfl
      · exact ih h

theorem superPutWrite_retries (env : Env) (b : Block) : ∀ (fuel : Nat) (w : World),
    ∃ k, k ≤ fuel ∧ (∀ i, i < k → env.blockWrite (w.trace ++ retries b i) b = false) ∧
      ((k = fuel ∧
          superPutWrite env b fuel w = .hang { w with trace := w.trace ++ retries b fuel }) ∨
       (k < fuel ∧ env.blockWrite (w.trace ++ retries b k) b = true ∧
          superPutWrite env b fuel w =
            .done () { w with trace := w.trace ++ retries b k ++ [.blockWrite b] })) := by
  intro fuel
  induction fuel with
  | zero =>
    intro w
    refine ⟨0, le_refl _, fun i hi => absurd hi (Nat.not_lt_zero i), Or.inl ⟨rfl, ?_⟩⟩
    simp [superPutWrite, retries]
  | succ n ih =>
    intro w
    cases hb : env.blockWrite w.trace b with
    | true =>
      refine ⟨0, Nat.zero_le _, fun i hi => absurd hi (Nat.not_lt_zero i),
        Or.inr ⟨Nat.succ_pos n, by simpa [retries] using hb, ?_⟩⟩
      simp [superPutWrite, hb, retries, World.log]
    | false =>
      obtain ⟨k, hk, hfail, hend⟩ := ih ((w.log (.blockWrite b)).log (.sleep (10 * 0)))
      have htr : ∀ i, ((w.log (.blockWrite b)).log (.sleep (10 * 0))).trace ++ retries b i =
          w.trace ++ retries b (i + 1) := by
        intro i
        simp [World.log, retries]
      refine ⟨k + 1, Nat.succ_le_succ hk, ?_, ?_⟩
      · intro i hi
        cases i with
        | zero => simpa [retries] using hb
        | succ j =>
          rw [← htr j]
          exact hfail j (Nat.lt_of_succ_lt_succ hi)
      · rcases hend with ⟨hkn, hh⟩ | ⟨hkn, hok, hd⟩
        · refine Or.inl ⟨by rw [hkn], ?_⟩
          rw [superPutWrite]
          simp only [hb]
          rw [hh, htr n]
          simp [World.log]
        · refine Or.inr ⟨Nat.succ_lt_succ hkn, by rw [← htr k]; exact hok, ?_⟩
          rw [superPutWrite]
          simp only [hb]
          rw [hd, htr k]
          simp [World.log]

theorem superPutWait_trace (env : Env) (b : Block) : ∀ (fuel : Nat) (w : World),
    ∃ new, (superPutWait env b fuel w).world.trace = w.trace ++ new ∧
      ∀ e ∈ new, e = .vtSleep b := by
  intro fuel
  induction fuel with
  | zero =>
    intro w
    exact ⟨[], by simp [superPutWait, Outcome.world], by simp⟩
  | succ n ih =>
    intro w
    unfold superPutWait
    simp only
    split
    · split
      · obtain ⟨new, h1, h2⟩ := ih (w.log (.vtSleep b))
        refine ⟨.vtSleep b :: new, ?_, ?_⟩
        · rw [h1]
          simp [World.log]
        · intro e he
          rcases List.mem_cons.1 he with he | he
          · exact he
          · exact h2 e he
      · exact ⟨[], by simp [Outcome.world], by simp⟩
    · exact ⟨[], by simp [Outcome.world], by simp⟩

/-- C13, what the code does: with `forceWrite` set, `superPut` calls
`blockWrite(b)` again after every failure, for as long as the fuel lasts
(`k = fuel` failed rounds leave it in the loop), and it goes past the loop only
after a `blockWrite` that succeeded; but each failed round is followed by
`sleep(10*000)`, whose argument is 0 milliseconds, not 10 000. -/
theorem superPut_retries (env : Env) (fuel : Nat) (w : World) (b : Block) (super : Super)
    (forceWrite : Int) (hf : forceWrite ≠ 0) :
    ∃ k, k ≤ fuel ∧
      (∀ i, i < k → env.blockWrite ((packedWorld w b super).trace ++ retries b i) b = false) ∧
      ((k = fuel ∧ superPut env fuel w b super forceWrite =
          .hang { packedWorld w b super with
                  trace := (packedWorld w b super).trace ++ retries b fuel }) ∨
       (k < fuel ∧ env.blockWrite ((packedWorld w b super).trace ++ retries b k) b = true ∧
          ∃ rest, (superPut env fuel w b super forceWrite).world.trace =
              (packedWorld w b super).trace ++ retries b k ++ [.blockWrite b] ++ rest ∧
            ∀ e ∈ rest, e.isBlockWrite = false ∧ e.isSleep = false)) ∧
      (∀ ms, Event.sleep ms ∈ retries b k → ms = 0) ∧
      (0 < k → Event.sleep 0 ∈ retries b k) := by
  obtain ⟨k, hk, hfail, hend⟩ := superPutWrite_retries env b fuel (packedWorld w b super)
  refine ⟨k, hk, hfail, ?_, fun ms h => retries_sleep b k ms h, ?_⟩
  · rcases hend with ⟨hkn, hh⟩ | ⟨hkn, hok, hd⟩
    · refine Or.inl ⟨hkn, ?_⟩
      unfold superPut
      simp only [hf, ne_eq, not_false_eq_true, if_true]
      change (match superPutWrite env b fuel (packedWorld w b super) with
        | .done _ w =>
          match superPutWait env b fuel w with
          | .done _ w => Outcome.done () (w.log (.blockPut b))
          | .hang w => .hang w
          | .abort w => .abort w
        | .hang w => .hang w
        | .abort w => .abort w) = _
      rw [hh]
    · refine Or.inr ⟨hkn, hok, ?_⟩
      obtain ⟨new, h1, h2⟩ := superPutWait_trace env b fuel
        { packedWorld w b super with
          trace := (packedWorld w b super).trace ++ retries b k ++ [.blockWrite b] }
      have hsp : superPut env fuel w b super forceWrite =
          (match superPutWait env b fuel
              { packedWorld w b super with
                trace := (packedWorld w b super).trace ++ retries b k ++ [.blockWrite b] } with
            | .done _ w => Outcome.done () (w.log (.blockPut b))
            | .hang w => .hang w
            | .abort w => .abort w) := by
        unfold superPut
        simp only [hf, ne_eq, not_false_eq_true, if_true]
        change (match superPutWrite env b fuel (packedWorld w b super) with
          | .done _ w =>
            match superPutWait env b fuel w with
            | .done _ w => Outcome.done () (w.log (.blockPut b))
            | .hang w => .hang w
            | .abort w => .abort w
          | .hang w => .hang w
          | .abort w => .abort w) = _
        rw [hd]
      rw [hsp]
      generalize superPutWait env b fuel
        { packedWorld w b super with
          trace := (packedWorld w b super).trace ++ retries b k ++ [.blockWrite b] } = o at h1
      have hnew : ∀ e ∈ new, e.isBlockWrite = false ∧ e.isSleep = false := by
        intro e he
        rw [h2 e he]
        exact ⟨rfl, rfl⟩
      cases o with
      | done v w2 =>
        refine ⟨new ++ [.blockPut b], ?_, ?_⟩
        · simp only [Outcome.world] at h1 ⊢
          simp [World.log, h1]
        · intro e he
          rcases List.mem_append.1 he with he | he
          · exact hnew e he
          · rw [List.mem_singleton.1 he]
            exact ⟨rfl, rfl⟩
      | hang w2 => exact ⟨new, by simpa [Outcome.world] using h1, hnew⟩
      | abort w2 => exact ⟨new, by simpa [Outcome.world] using h1, hnew⟩
  · intro hk0
    cases k with
    | zero => exact absurd hk0 (Nat.lt_irrefl 0)
    | succ j => simp [retries]

/-- Witness for C13: on a disk that fails the first `blockWrite`, `superPut`
with `forceWrite = 1` returns after one failed round. -/
theorem superPut_retries_witness :
    ∃ k, k ≤ 2 ∧
      (∀ i, i < k →
        flakyEnv.blockWrite ((packedWorld okWorld okBlock okSuper).trace ++ retries okBlock i)
          okBlock = false) ∧
      ((k = 2 ∧ superPut flakyEnv 2 okWorld okBlock okSuper 1 =
          .hang { packedWorld okWorld okBlock okSuper with
                  trace := (packedWorld okWorld okBlock okSuper).trace ++ retries okBlock 2 }) ∨
       (k < 2 ∧
          flakyEnv.blockWrite ((packedWorld okWorld okBlock okSuper).trace ++ retries okBlock k)
            okBlock = true ∧
          ∃ rest, (superPut flakyEnv 2 okWorld okBlock okSuper 1).world.trace =
              (packedWorld okWorld okBlock okSuper).trace ++ retries okBlock k ++
                [.blockWrite okBlock] ++ rest ∧
            ∀ e ∈ rest, e.isBlockWrite = false ∧ e.isSleep = false)) ∧
      (∀ ms, Event.sleep ms ∈ retries okBlock k → ms = 0) ∧
      (0 < k → Event.sleep 0 ∈ retries okBlock k) :=
  superPut_retries flakyEnv 2 okWorld okBlock okSuper 1 (by decide)

/-- C13, a run that shows the divergence: the first `blockWrite` of the
super-block fails, and `superPut(b, &super, 1)` calls `sleep(0)` before the
second `blockWrite`; no call of `sleep` has the argument 10 000. -/
theorem superPut_backoff_zero :
    (superPut flakyEnv 2 okWorld okBlock okSuper 1).ret = some () ∧
      (superPut flakyEnv 2 okWorld okBlock okSuper 1).world.trace =
        [.superPack okSuper okBlock, .blockDirty okBlock, .blockWrite okBlock, .sleep 0,
          .blockWrite okBlock, .blockPut okBlock] ∧
      Event.sleep 10000 ∉ (superPut flakyEnv 2 okWorld okBlock okSuper 1).world.trace := by
  decide

/-! ## Claim on the rejections of `mkVac` -/

/-- C17: `mkVac` checks first that the scores are not local: when
`globalToLocal(e.score) != NilBlock`, or `ee` has `VtEntryActive` set and
`globalToLocal(ee.score) != NilBlock`, it returns 0 with the error
"can only vac paths already stored on venti".  Otherwise, when
`deSize(de)+MetaHeaderSize+MetaIndexSize` (a sum that fits in a `uint`)
exceeds 8192, it returns 0 with the error "DirEntry too big".  In both cases
the only call made is `vtSetError`, so no `vtWrite` is issued and nothing is
stored in `score`; `fsVac` then returns 0 as well, after `fileDecRef` and
`vtRUnlock`, with the same error.  The arguments `pe`, `pee` and `pde` are
only read. -/
theorem mkVac_rejects (venv : VacEnv) (w : World) (blockSize : Nat) (e ee : Entry)
    (de : DirEntry) :
    ((venv.globalToLocal e.score ≠ NilBlock ∨
        (ee.flags &&& venv.VtEntryActive ≠ 0 ∧ venv.globalToLocal ee.score ≠ NilBlock)) →
      mkVac venv w blockSize e ee de = .done (0, none)
        { w with err := some "can only vac paths already stored on venti",
                 trace := w.trace ++
                   [.vtSetError "can only vac paths already stored on venti"] }) ∧
    (¬ (venv.globalToLocal e.score ≠ NilBlock ∨
        (ee.flags &&& venv.VtEntryActive ≠ 0 ∧ venv.globalToLocal ee.score ≠ NilBlock)) →
      venv.deSize de + venv.MetaHeaderSize + venv.MetaIndexSize < 2 ^ 32 →
      venv.deSize de + venv.MetaHeaderSize + venv.MetaIndexSize > 8192 →
      mkVac venv w blockSize e ee de = .done (0, none)
        { w with err := some "DirEntry too big",
                 trace := w.trace ++ [.vtSetError "DirEntry too big"] }) ∧
    (∀ (env : Env) (name : String) (f : File) (w0 : World) (msg : String),
      env.fileOpen (w0.trace ++ [.vtRLock .elk]) name = some f →
      venv.fileGetSources (w0.trace ++ [.vtRLock .elk, .fileOpen name]) f = some (e, ee) →
      venv.fileGetDir
        (w0.trace ++ [.vtRLock .elk, .fileOpen name, .vac (.fileGetSources f)]) f = some de →
      w = ((((w0.log (.vtRLock .elk)).log (.fileOpen name)).log (.vac (.fileGetSources f))).log
            (.vac (.fileGetDir f))).log (.fileDecRef f) →
      blockSize = u32 (w0.fs.blockSize % 2 ^ 32).toNat →
      mkVac venv w blockSize e ee de = .done (0, none)
        { w with err := some msg, trace := w.trace ++ [.vtSetError msg] } →
      fsVac env venv w0 name = .done (0, none)
        { w0 with err := some msg,
                  trace := w0.trace ++ [.vtRLock .elk, .fileOpen name, .vac (.fileGetSources f),
                    .vac (.fileGetDir f), .fileDecRef f, .vtSetError msg, .vtRUnlock .elk] }) := by
  refine ⟨?_, ?_, ?_⟩
  · intro h
    unfold mkVac
    rw [if_pos h]
    rfl
  · intro h hsum hbig
    unfold mkVac
    rw [if_neg h]
    have h1 : u32 (venv.deSize de) = venv.deSize de := Nat.mod_eq_of_lt (by omega)
    have h2 : u32 (venv.deSize de + venv.MetaHeaderSize + venv.MetaIndexSize) =
        venv.deSize de + venv.MetaHeaderSize + venv.MetaIndexSize := Nat.mod_eq_of_lt hsum
    simp only [h1, h2]
    rw [if_pos hbig]
    rfl
  · intro env name f w0 msg hopen hsrc hdir hw hbs hmk
    subst hw hbs
    unfold fsVac
    simp only [World.log_trace, hopen]
    simp only [World.log_trace, List.append_assoc, List.singleton_append, hsrc]
    simp only [World.log_trace, List.append_assoc, List.singleton_append, List.cons_append,
      List.nil_append, hdir]
    simp only [World.log_fs]
    simp only [World.log_fs] at hmk
    rw [hmk]
    simp [World.log]

/-- Witness for C17: an entry whose score is the local address 7 is rejected
with the first error, and a directory entry of more than 8192 bytes with the
second. -/
theorem mkVac_rejects_witness :
    mkVac okVac okWorld 8192 localEntry ventiEntry okDir = .done (0, none)
        { okWorld with err := some "can only vac paths already stored on venti",
                       trace := okWorld.trace ++
                         [.vtSetError "can only vac paths already stored on venti"] } ∧
      mkVac okVac okWorld 8192 ventiEntry ventiEntry
          { elem := "active", body := [9000] } = .done (0, none)
        { okWorld with err := some "DirEntry too big",
                       trace := okWorld.trace ++ [.vtSetError "DirEntry too big"] } :=
  ⟨(mkVac_rejects okVac okWorld 8192 localEntry ventiEntry okDir).1 (by decide),
    (mkVac_rejects okVac okWorld 8192 ventiEntry ventiEntry
      { elem := "active", body := [9000] }).2.1 (by decide)
      (by decide) (by decide)⟩

/-! ## Claim on the root recovery of `fsOpen` -/

theorem isCopyOrDirty_isRootWork (e : Event) (h : e.isRootWork = false) :
    e.isCopyOrDirty = false := by
  cases e <;> first | rfl | simp [Event.isRootWork] at h

theorem snapClose_grows (w : World) (s : Option Snap) :
    Grows (fun e => e.isRootWork = false) w (snapClose w s) := by
  cases s with
  | none => exact Grows.grefl (fun e => e.isRootWork = false) _
  | some s =>
    exact ((Grows.grefl (fun e => e.isRootWork = false) w).glog .periodicKill rfl).glog
      .vtMemFree rfl

theorem fsClose_grows (env : Env) (fs : Fs) (w : World) :
    Grows (fun e => e.isRootWork = false) w (fsClose env fs w).world := by
  have g0 : Grows (fun e => e.isRootWork = false) w
      (snapClose ((w.log (.vtRLock .elk)).log .periodicKill) fs.snap) :=
    (((Grows.grefl (fun e => e.isRootWork = false) w).glog (.vtRLock .elk) rfl).glog
      .periodicKill rfl).gtrans (snapClose_grows _ _)
  have rest : ∀ w1 : World, Grows (fun e => e.isRootWork = false) w w1 →
      Grows (fun e => e.isRootWork = false) w
        (((((if fs.arch = true then ((w1.log .sourceClose).log .cacheFree).log .archFree
            else (w1.log .sourceClose).log .cacheFree).log (.vtRUnlock .elk)).log
              .vtLockFree).log .vtMemFree)) := by
    intro w1 g
    split
    · exact ((((((g.glog .sourceClose rfl).glog .cacheFree rfl).glog .archFree rfl).glog
        (.vtRUnlock .elk) rfl).glog .vtLockFree rfl).glog .vtMemFree rfl)
    · exact (((((g.glog .sourceClose rfl).glog .cacheFree rfl).glog
        (.vtRUnlock .elk) rfl).glog .vtLockFree rfl).glog .vtMemFree rfl)
  unfold fsClose
  simp only
  split
  · next f hf =>
    split
    · exact ((g0.glog (.fileMetaFlush (some f) 0) rfl).glog (.fileDecRef f) rfl).glog
        (.vtFatal _) rfl
    · exact rest _ ((g0.glog (.fileMetaFlush (some f) 0) rfl).glog (.fileDecRef f) rfl)
  · exact rest _ g0

theorem fsClose_done (env : Env) (fs : Fs) (w : World) (h : fs.file = none) :
    (fsClose env fs w).ret = some () := by
  unfold fsClose
  simp only [h]
  rfl

theorem fsOpenErr_grows (env : Env) (fs : Fs) (w : World) :
    Grows (fun e => e.isRootWork = false) w (fsOpenErr env fs w).world := by
  have h := fsClose_grows env fs w
  unfold fsOpenErr
  cases hc : fsClose env fs w <;> rw [hc] at h <;> exact h

theorem fsOpenErr_nil (env : Env) (fs : Fs) (w : World) (h : fs.file = none) :
    (fsOpenErr env fs w).ret = some none := by
  have h1 := fsClose_done env fs w h
  unfold fsOpenErr
  cases hc : fsClose env fs w <;> rw [hc] at h1 <;> simp [Outcome.ret] at h1 ⊢

theorem fsOpenFinish_grows (env : Env) (fs : Fs) (w : World) (mode : Int) :
    Grows (fun e => e.isRootWork = false) w (fsOpenFinish env fs w mode).world := by
  have g0 : Grows (fun e => e.isRootWork = false) w
      (((w.log (.vtRLock .elk)).log .fileRoot).log (.vtRUnlock .elk)) :=
    (((Grows.grefl (fun e => e.isRootWork = false) w).glog (.vtRLock .elk) rfl).glog
      .fileRoot rfl).glog (.vtRUnlock .elk) rfl
  unfold fsOpenFinish
  simp only
  split
  · exact g0.gtrans (fsOpenErr_grows _ _ _)
  · split
    · exact ⟨[.vtRLock .elk, .fileRoot, .vtRUnlock .elk, .periodicAlloc 1000,
        .periodicAlloc (10 * 1000), .vtLockAlloc], by simp [Outcome.world, snapInit, World.log],
        by simp [Event.isRootWork]⟩
    · exact g0

theorem fsOpenSuper_bad (env : Env) (fs : Fs) (w : World) (mode : Int) (b1 : Block)
    (msg : String)
    (hb : env.cacheLocal w.trace PartSuper 0 mode = some b1)
    (hun : env.superUnpack (w.trace ++ [.cacheLocal PartSuper 0 mode]) b1 = true)
    (hsr : env.sourceRoot
      (w.trace ++ [.cacheLocal PartSuper 0 mode, .superUnpack b1, .blockPut b1])
      w.super.active mode = .error msg) :
    fsOpenSuper env fs w mode =
      if mode = env.OReadOnly ∨ msg ≠ env.EBadRoot then
        fsOpenErr env { fs with ehi := w.super.epochHigh, elo := w.super.epochLow }
          (badRootWorld w mode b1 msg)
      else
        fsOpenRecover env { fs with ehi := w.super.epochHigh, elo := w.super.epochLow }
          (badRootWorld w mode b1 msg) w.super mode := by
  unfold fsOpenSuper
  simp only [hb, World.log_trace, hun, Bool.true_eq_false, if_false, World.log_super,
    List.append_assoc, List.singleton_append, List.cons_append, List.nil_append, hsr]
  rfl

theorem fsOpenRecover_guard (env : Env) (fs : Fs) (w : World) (super : Super) (mode : Int)
    (b : Block)
    (hb : env.cacheLocalData w.trace super.active BtDir RootTag env.OReadWrite 0 = some b)
    (hg : b.l.state &&& BsClosed = 0 ∧ b.l.epoch = fs.ehi) :
    fsOpenRecover env fs w super mode =
      fsOpenErr env fs
        ((w.log (.cacheLocalData super.active BtDir RootTag env.OReadWrite 0)).log
          (.blockPut b)) := by
  unfold fsOpenRecover
  simp only [hb]
  rw [if_pos hg]

theorem fsOpenRecover_copy (env : Env) (fs : Fs) (w : World) (super : Super) (mode : Int)
    (b c bs : Block)
    (hb : env.cacheLocalData w.trace super.active BtDir RootTag env.OReadWrite 0 = some b)
    (hg : ¬ (b.l.state &&& BsClosed = 0 ∧ b.l.epoch = fs.ehi))
    (hc : env.blockCopy
      (w.trace ++ [.cacheLocalData super.active BtDir RootTag env.OReadWrite 0])
      b RootTag fs.ehi fs.elo = some c)
    (hs : env.cacheLocal
      (w.trace ++ [.cacheLocalData super.active BtDir RootTag env.OReadWrite 0,
        .blockCopy b RootTag fs.ehi fs.elo]) PartSuper 0 env.OReadWrite = some bs) :
    fsOpenRecover env fs w super mode =
      match env.sourceRoot
        (w.trace ++ [.cacheLocalData super.active BtDir RootTag env.OReadWrite 0,
          .blockCopy b RootTag fs.ehi fs.elo, .cacheLocal PartSuper 0 env.OReadWrite,
          .superPack { super with active := c.addr } bs,
          .blockDependency bs c 0 (env.localToGlobal super.active),
          .blockDirty bs, .blockPut bs, .blockPut c]) c.addr mode with
      | .error msg =>
        fsOpenErr env fs { recoveredWorld env w fs super mode b c bs with err := some msg }
      | .ok src =>
        fsOpenFinish env { fs with source := some src }
          (recoveredWorld env w fs super mode b c bs) mode := by
  unfold fsOpenRecover
  simp only [hb]
  rw [if_neg hg]
  simp only [World.log_trace, hc, List.append_assoc, List.singleton_append, List.cons_append,
    List.nil_append, hs]
  split <;> simp_all [recoveredWorld, World.log]

theorem Grows.gmono {P Q : Event → Prop} {w1 w2 : World} (h : Grows P w1 w2)
    (hPQ : ∀ e, P e → Q e) : Grows Q w1 w2 := by
  obtain ⟨new, h1, h2⟩ := h
  exact ⟨new, h1, fun e he => hPQ e (h2 e he)⟩

theorem fsOpenRecover_head (env : Env) (fs : Fs) (w : World) (super : Super) (mode : Int) :
    Grows (fun _ => True)
      (w.log (.cacheLocalData super.active BtDir RootTag env.OReadWrite 0))
      (fsOpenRecover env fs w super mode).world := by
  have gE : ∀ (fs2 : Fs) (w1 w2 : World), Grows (fun _ => True) w1 w2 →
      Grows (fun _ => True) w1 (fsOpenErr env fs2 w2).world := fun fs2 w1 w2 g =>
    g.gtrans ((fsOpenErr_grows env fs2 w2).gmono (fun _ _ => trivial))
  have gF : ∀ (fs2 : Fs) (w1 w2 : World), Grows (fun _ => True) w1 w2 →
      Grows (fun _ => True) w1 (fsOpenFinish env fs2 w2 mode).world := fun fs2 w1 w2 g =>
    g.gtrans ((fsOpenFinish_grows env fs2 w2 mode).gmono (fun _ _ => trivial))
  generalize ho : fsOpenRecover env fs w super mode = o
  unfold fsOpenRecover at ho
  simp only at ho
  have g0 := Grows.grefl (fun _ => True)
    (w.log (.cacheLocalData super.active BtDir RootTag env.OReadWrite 0))
  split at ho
  · subst ho
    exact gE _ _ _ g0
  · next b hb =>
    split at ho
    · subst ho
      exact gE _ _ _ (g0.glog _ trivial)
    · split at ho
      · subst ho
        exact gE _ _ _ (g0.glog _ trivial)
      · next c hc =>
        split at ho
        · subst ho
          exact gE _ _ _ (((g0.glog _ trivial).glog _ trivial).glog _ trivial)
        · next bs hbs =>
          split at ho
          · subst ho
            refine gE _ _ _ ⟨[.blockCopy b RootTag fs.ehi fs.elo,
              .cacheLocal PartSuper 0 env.OReadWrite,
              .superPack { super with active := c.addr } bs,
              .blockDependency bs c 0 (env.localToGlobal super.active),
              .blockDirty bs, .blockPut bs, .blockPut c, .sourceRoot c.addr mode],
              ?_, fun _ _ => trivial⟩
            simp [World.log]
          · subst ho
            refine gF _ _ _ ⟨[.blockCopy b RootTag fs.ehi fs.elo,
              .cacheLocal PartSuper 0 env.OReadWrite,
              .superPack { super with active := c.addr } bs,
              .blockDependency bs c 0 (env.localToGlobal super.active),
              .blockDirty bs, .blockPut bs, .blockPut c, .sourceRoot c.addr mode],
              ?_, fun _ _ => trivial⟩
            simp [World.log]

theorem fsOpenSuper_readonly (env : Env) (fs : Fs) (w : World) :
    Grows (fun e => e.isCopyOrDirty = false) w (fsOpenSuper env fs w env.OReadOnly).world := by
  have gE : ∀ (fs2 : Fs) (w1 w2 : World), Grows (fun e => e.isCopyOrDirty = false) w1 w2 →
      Grows (fun e => e.isCopyOrDirty = false) w1 (fsOpenErr env fs2 w2).world :=
    fun fs2 w1 w2 g => g.gtrans ((fsOpenErr_grows env fs2 w2).gmono isCopyOrDirty_isRootWork)
  have gF : ∀ (fs2 : Fs) (w1 w2 : World), Grows (fun e => e.isCopyOrDirty = false) w1 w2 →
      Grows (fun e => e.isCopyOrDirty = false) w1
        (fsOpenFinish env fs2 w2 env.OReadOnly).world :=
    fun fs2 w1 w2 g =>
      g.gtrans ((fsOpenFinish_grows env fs2 w2 env.OReadOnly).gmono isCopyOrDirty_isRootWork)
  have g0 := Grows.grefl (fun e => e.isCopyOrDirty = false) w
  generalize ho : fsOpenSuper env fs w env.OReadOnly = o
  unfold fsOpenSuper at ho
  simp only at ho
  split at ho
  · subst ho
    exact gE _ _ _ (g0.glog (.cacheLocal PartSuper 0 env.OReadOnly) rfl)
  · next b hb =>
    have g1 : Grows (fun e => e.isCopyOrDirty = false) w
        (((w.log (.cacheLocal PartSuper 0 env.OReadOnly)).log (.superUnpack b)).log
          (.blockPut b)) :=
      ((g0.glog (.cacheLocal PartSuper 0 env.OReadOnly) rfl).glog (.superUnpack b) rfl).glog
        (.blockPut b) rfl
    split at ho
    · subst ho
      exact gE _ _ _ g1
    · split at ho
      · subst ho
        exact gF _ _ _ (g1.glog (.sourceRoot _ _) rfl)
      · simp only [true_or, if_true] at ho
        subst ho
        refine gE _ _ _ ?_
        obtain ⟨new, h1, h2⟩ := g1.glog (.sourceRoot w.super.active env.OReadOnly) rfl
        exact ⟨new, h1, h2⟩

theorem fsOpen_readonly (env : Env) (w : World) (file : String) (ncache : Int) :
    Grows (fun e => e.isCopyOrDirty = false) w
      (fsOpen env w file ncache env.OReadOnly).world := by
  have g0 := Grows.grefl (fun e => e.isCopyOrDirty = false) w
  generalize ho : fsOpen env w file ncache env.OReadOnly = o
  unfold fsOpen at ho
  simp only [ne_eq, not_true_eq_false, false_and, if_false, if_true] at ho
  split at ho
  · subst ho
    exact (g0.glog (.sysOpen _ _) rfl).glog .vtOSError rfl
  · split at ho
    · subst ho
      exact (((g0.glog (.sysOpen _ _) rfl).glog .bwatchInit rfl).glog (.diskAlloc _) rfl).glog
        (.sysClose _) rfl
    · subst ho
      refine Grows.gtrans ?_ (fsOpenSuper_readonly env _ _)
      have g5 := (((((g0.glog (.sysOpen file env.OREAD) rfl).glog
        .bwatchInit rfl).glog (.diskAlloc (env.sysOpen w.trace file env.OREAD)) rfl).glog
        .diskBlockSize rfl).glog .vtLockAlloc rfl).glog (.cacheAlloc ncache env.OReadOnly) rfl
      split
      · exact g5.glog .archInit rfl
      · exact g5

/-- C11: in `fsOpen` (whose record `fs` is new, with `fs->file` nil, and whose
`mode` has passed the `switch`), after the super-block `b1` has been read and
the first `sourceRoot(fs, super.active, mode)` has failed with the error `msg`
(world `badRootWorld`): the root is fetched for a copy (`cacheLocalData`) exactly when
`mode` is `OReadWrite` and `msg` is `EBadRoot`; otherwise `fsOpen` returns nil
and makes no call on the root or the super-block.  When the root `b` is
fetched: if `b` is not `BsClosed` and has epoch `fs->ehi`, `fsOpen` releases
`b` and returns nil with no `blockCopy`; else, the copy `c` and the super-block
`bs` being obtained, the calls are `blockCopy(b, RootTag, fs->ehi, fs->elo)`,
`cacheLocal`, `superPack` of the record with `active = c->addr` into `bs`,
`blockDependency(bs, c, 0, oscore)` with `oscore` the score of the old
`super.active`, `blockDirty(bs)`, the two `blockPut` and one more
`sourceRoot(fs, c->addr, mode)` (world `recoveredWorld`), after which no call
on the root or the super-block and no `sourceRoot` follows, and `fsOpen`
returns nil when that second `sourceRoot` fails.  In mode `OReadOnly` a call
of `fsOpen` makes no `blockCopy` and no `blockDirty`. -/
theorem fsOpen_root_recovery (env : Env) (fs : Fs) (w : World) (mode : Int) (b1 : Block)
    (msg : String)
    (hne : env.OReadOnly ≠ env.OReadWrite)
    (hmode : mode = env.OReadOnly ∨ mode = env.OReadWrite)
    (hfile : fs.file = none)
    (hb : env.cacheLocal w.trace PartSuper 0 mode = some b1)
    (hun : env.superUnpack (w.trace ++ [.cacheLocal PartSuper 0 mode]) b1 = true)
    (hsr : env.sourceRoot
      (w.trace ++ [.cacheLocal PartSuper 0 mode, .superUnpack b1, .blockPut b1])
      w.super.active mode = .error msg) :
    (∃ new, (fsOpenSuper env fs w mode).world.trace =
        (badRootWorld w mode b1 msg).trace ++ new ∧
      (Event.cacheLocalData w.super.active BtDir RootTag env.OReadWrite 0 ∈ new ↔
        (mode = env.OReadWrite ∧ msg = env.EBadRoot)) ∧
      (¬ (mode = env.OReadWrite ∧ msg = env.EBadRoot) →
        (∀ e ∈ new, e.isRootWork = false) ∧ (fsOpenSuper env fs w mode).ret = some none)) ∧
    (mode = env.OReadWrite → msg = env.EBadRoot →
      ∀ b : Block,
        env.cacheLocalData (badRootWorld w mode b1 msg).trace w.super.active BtDir RootTag
          env.OReadWrite 0 = some b →
        (b.l.state &&& BsClosed = 0 ∧ b.l.epoch = w.super.epochHigh →
          (fsOpenSuper env fs w mode).ret = some none ∧
          ∃ new, (fsOpenSuper env fs w mode).world.trace =
              (badRootWorld w mode b1 msg).trace ++
                [.cacheLocalData w.super.active BtDir RootTag env.OReadWrite 0, .blockPut b] ++
                new ∧
            ∀ e ∈ new, e.isRootWork = false) ∧
        (¬ (b.l.state &&& BsClosed = 0 ∧ b.l.epoch = w.super.epochHigh) →
          ∀ c bs : Block,
            env.blockCopy ((badRootWorld w mode b1 msg).trace ++
                [.cacheLocalData w.super.active BtDir RootTag env.OReadWrite 0])
              b RootTag w.super.epochHigh w.super.epochLow = some c →
            env.cacheLocal ((badRootWorld w mode b1 msg).trace ++
                [.cacheLocalData w.super.active BtDir RootTag env.OReadWrite 0,
                  .blockCopy b RootTag w.super.epochHigh w.super.epochLow])
              PartSuper 0 env.OReadWrite = some bs →
            (∃ new, (fsOpenSuper env fs w mode).world.trace =
                (recoveredWorld env (badRootWorld w mode b1 msg)
                  { fs with ehi := w.super.epochHigh, elo := w.super.epochLow }
                  w.super mode b c bs).trace ++ new ∧
              ∀ e ∈ new, e.isRootWork = false) ∧
            (∀ msg2 : String,
              env.sourceRoot ((badRootWorld w mode b1 msg).trace ++
                [.cacheLocalData w.super.active BtDir RootTag env.OReadWrite 0,
                  .blockCopy b RootTag w.super.epochHigh w.super.epochLow,
                  .cacheLocal PartSuper 0 env.OReadWrite,
                  .superPack { w.super with active := c.addr } bs,
                  .blockDependency bs c 0 (env.localToGlobal w.super.active),
                  .blockDirty bs, .blockPut bs, .blockPut c]) c.addr mode = .error msg2 →
              (fsOpenSuper env fs w mode).ret = some none))) ∧
    (∀ (w0 : World) (file : String) (ncache : Int),
      ∃ new, (fsOpen env w0 file ncache env.OReadOnly).world.trace = w0.trace ++ new ∧
        ∀ e ∈ new, e.isCopyOrDirty = false) := by
  have hS := fsOpenSuper_bad env fs w mode b1 msg hb hun hsr
  have hcond : (mode = env.OReadOnly ∨ msg ≠ env.EBadRoot) ↔
      ¬ (mode = env.OReadWrite ∧ msg = env.EBadRoot) := by
    constructor
    · rintro (h | h) ⟨h1, h2⟩
      · exact hne (h.symm.trans h1)
      · exact h h2
    · intro h
      rcases hmode with h1 | h1
      · exact Or.inl h1
      · exact Or.inr (fun h2 => h ⟨h1, h2⟩)
  have hF : ({ fs with ehi := w.super.epochHigh, elo := w.super.epochLow } : Fs).file = none :=
    hfile
  refine ⟨?_, ?_, fun w0 file ncache => fsOpen_readonly env w0 file ncache⟩
  · by_cases hc : mode = env.OReadWrite ∧ msg = env.EBadRoot
    · rw [if_neg (fun h => (hcond.1 h) hc)] at hS
      obtain ⟨new, h1, _⟩ := fsOpenRecover_head env
        { fs with ehi := w.super.epochHigh, elo := w.super.epochLow }
        (badRootWorld w mode b1 msg) w.super mode
      refine ⟨.cacheLocalData w.super.active BtDir RootTag env.OReadWrite 0 :: new, ?_, ?_, ?_⟩
      · rw [hS, h1]
        simp [World.log]
      · simp [hc]
      · intro h
        exact absurd hc h
    · rw [if_pos (hcond.2 hc)] at hS
      obtain ⟨new, h1, h2⟩ := fsOpenErr_grows env
        { fs with ehi := w.super.epochHigh, elo := w.super.epochLow }
        (badRootWorld w mode b1 msg)
      refine ⟨new, by rw [hS, h1], ?_, fun _ => ⟨h2, ?_⟩⟩
      · constructor
        · intro hmem
          have := h2 _ hmem
          simp [Event.isRootWork] at this
        · intro h
          exact absurd h hc
      · rw [hS]
        exact fsOpenErr_nil _ _ _ hF
  · intro hm1 hm2 b hcl
    rw [if_neg (fun h => (hcond.1 h) ⟨hm1, hm2⟩)] at hS
    refine ⟨?_, ?_⟩
    · intro hg
      rw [hS, fsOpenRecover_guard env _ _ _ _ b hcl hg]
      refine ⟨fsOpenErr_nil _ _ _ hF, ?_⟩
      obtain ⟨new, h1, h2⟩ := fsOpenErr_grows env
        { fs with ehi := w.super.epochHigh, elo := w.super.epochLow }
        (((badRootWorld w mode b1 msg).log
          (.cacheLocalData w.super.active BtDir RootTag env.OReadWrite 0)).log (.blockPut b))
      refine ⟨new, ?_, h2⟩
      rw [h1]
      simp [World.log]
    · intro hg c bs hcopy hsup
      rw [hS, fsOpenRecover_copy env _ _ _ _ b c bs hcl hg hcopy hsup]
      refine ⟨?_, ?_⟩
      · split
        · obtain ⟨new, h1, h2⟩ := fsOpenErr_grows env
            { fs with ehi := w.super.epochHigh, elo := w.super.epochLow }
            { recoveredWorld env (badRootWorld w mode b1 msg)
                { fs with ehi := w.super.epochHigh, elo := w.super.epochLow }
                w.super mode b c bs with err := some ‹String› }
          exact ⟨new, h1, h2⟩
        · obtain ⟨new, h1, h2⟩ := fsOpenFinish_grows env
            { fs with ehi := w.super.epochHigh, elo := w.super.epochLow,
                      source := some ‹Source› }
            (recoveredWorld env (badRootWorld w mode b1 msg)
                { fs with ehi := w.super.epochHigh, elo := w.super.epochLow }
                w.super mode b c bs) mode
          exact ⟨new, h1, h2⟩
      · intro msg2 hsr2
        rw [hsr2]
        exact fsOpenErr_nil _ _ _ hF

/-- Witness for C11: opened read-write on a disk whose root is refused with
`EBadRoot`, `fsOpen` copies the root block at address 7 into a block at address
112, packs the super-block with `active = 112` and opens the file system after
the second `sourceRoot`. -/
theorem fsOpen_root_recovery_witness :
    fsOpen badRootEnv okDisk "fossil" 1000 1 = fsOpenSuper badRootEnv newFs newWorld 1 ∧
      (fsOpenSuper badRootEnv newFs newWorld 1).ret ≠ some none ∧
      ∃ new, (fsOpenSuper badRootEnv newFs newWorld 1).world.trace =
          (recoveredWorld badRootEnv (badRootWorld newWorld 1 okBlock "root block is bad")
            { newFs with ehi := newWorld.super.epochHigh, elo := newWorld.super.epochLow }
            newWorld.super 1
            { part := 3, addr := 7, score := [], l := ⟨8, 1, 1, 0, 0⟩ }
            { part := 3, addr := 112, score := [112], l := ⟨8, 1, 1, 5, 0⟩ }
            okBlock).trace ++ new ∧
        ∀ e ∈ new, e.isRootWork = false :=
  ⟨rfl, by decide,
    (((fsOpen_root_recovery badRootEnv newFs newWorld 1 okBlock "root block is bad"
      (by decide) (by decide) rfl (by decide) (by decide) rfl).2.1 rfl rfl
      { part := 3, addr := 7, score := [], l := ⟨8, 1, 1, 0, 0⟩ } (by decide)).2 (by decide)
      { part := 3, addr := 112, score := [112], l := ⟨8, 1, 1, 5, 0⟩ } okBlock
      (by decide) (by decide)).1⟩

/-! ## The lock `elk` -/

theorem isInner_not_lock (e : Event) (h : e.isInner = true) : e.isLock = false := by
  cases e <;> first | rfl | simp [Event.isInner] at h

theorem isPlain_not_lock (e : Event) (h : e.isPlain = true) : e.isLock = false :=
  isInner_not_lock e (isPlain_isInner e h)

theorem bumpEpoch_no_lock {env : Env} {fuel : Nat} {w : World} {doarchive : Int}
    {o : Outcome Int} (h : bumpEpoch env fuel w doarchive = o) :
    Grows (fun e => e.isLock = false) w o.world := by
  rcases bumpEpoch_cases_of_eq h with ⟨q, _⟩ | ⟨hB, _⟩
  · exact q.toGrows isPlain_not_lock
  · exact hB.bgrows isInner_not_lock

theorem Locked.of_stop {α : Type} {acq rel : Event} {w w1 : World} {o : Outcome α}
    (g : Grows (fun e => e.isLock = false) (w.log acq) w1) (hw : o.world = w1)
    (hr : o.ret = none) : Locked acq rel w o := by
  obtain ⟨body, h1, h2⟩ := g
  refine ⟨body, [], ?_, h2, Or.inl ⟨hr, rfl⟩⟩
  rw [hw, h1]
  simp [World.log]

theorem Locked.of_release {α : Type} {acq rel : Event} {w w1 : World} {o : Outcome α}
    (post : List Event) (g : Grows (fun e => e.isLock = false) (w.log acq) w1)
    (hw : o.world.trace = w1.trace ++ rel :: post) (hr : o.ret ≠ none)
    (hp : ∀ e ∈ post, e.isLock = false ∧ ∀ s b, e ≠ .superPack s b) :
    Locked acq rel w o := by
  obtain ⟨body, h1, h2⟩ := g
  refine ⟨body, rel :: post, ?_, h2, Or.inr ⟨hr, post, rfl, hp⟩⟩
  rw [hw, h1]
  simp [World.log]

theorem fsSnapshotErr_locked {w w1 : World} (src dst : Option File)
    (g : Grows (fun e => e.isLock = false) (w.log (.vtLock .elk)) w1) :
    Locked (.vtLock .elk) (.vtUnlock .elk) w (fsSnapshotErr w1 src dst) := by
  unfold fsSnapshotErr
  cases src <;> cases dst
  · exact Locked.of_release [] g rfl (by simp [Outcome.ret]) (by simp)
  · exact Locked.of_release [] (g.glog (.fileDecRef _) rfl) rfl (by simp [Outcome.ret])
      (by simp)
  · exact Locked.of_release [] (g.glog (.fileDecRef _) rfl) rfl (by simp [Outcome.ret])
      (by simp)
  · exact Locked.of_release [] ((g.glog (.fileDecRef _) rfl).glog (.fileDecRef _) rfl) rfl
      (by simp [Outcome.ret]) (by simp)

theorem fsSnapshotEnd_locked {w w1 : World} (doarchive : Int)
    (g : Grows (fun e => e.isLock = false) (w.log (.vtLock .elk)) w1) :
    Locked (.vtLock .elk) (.vtUnlock .elk) w (fsSnapshotEnd w1 doarchive) := by
  unfold fsSnapshotEnd
  simp only
  split
  · exact Locked.of_release [.archKick] g (by simp [Outcome.world, World.log])
      (by simp [Outcome.ret]) (by simp [Event.isLock])
  · exact Locked.of_release [] g rfl (by simp [Outcome.ret]) (by simp)

theorem fsSnapshot_locked_mode (env : Env) (fuel : Nat) (w : World) (doarchive : Int)
    (hmode : w.fs.mode = env.OReadWrite) :
    Locked (.vtLock .elk) (.vtUnlock .elk) w (fsSnapshot env fuel w doarchive) := by
  generalize ho : fsSnapshot env fuel w doarchive = o
  unfold fsSnapshot at ho
  split at ho
  · next hne => exact absurd hmode hne
  · dsimp only at ho
    have g1 : Grows (fun e => e.isLock = false) (w.log (.vtLock .elk))
        ((w.log (.vtLock .elk)).log (.fileOpen "/active")) :=
      (Grows.grefl (fun e => e.isLock = false) _).glog (.fileOpen "/active") rfl
    split at ho
    · subst ho
      exact fsSnapshotErr_locked _ _ g1
    · next src hsrc =>
      split at ho
      · next wh hb =>
        subst ho
        exact Locked.of_stop (g1.gtrans (bumpEpoch_no_lock hb)) rfl rfl
      · next wh hb =>
        subst ho
        exact Locked.of_stop (g1.gtrans (bumpEpoch_no_lock hb)) rfl rfl
      · next r wb hb =>
        have g2 : Grows (fun e => e.isLock = false) (w.log (.vtLock .elk)) wb :=
          g1.gtrans (bumpEpoch_no_lock hb)
        split at ho
        · subst ho
          exact fsSnapshotErr_locked _ _ g2
        · split at ho
          · subst ho
            exact fsSnapshotErr_locked _ _ (g2.glog (.fileWalkSources src) rfl)
          · have g3 : Grows (fun e => e.isLock = false) (w.log (.vtLock .elk))
                ((wb.log (.fileWalkSources src)).log (.cacheFlush 1)) :=
              (g2.glog (.fileWalkSources src) rfl).glog (.cacheFlush 1) rfl
            split at ho
            · next wh hf =>
              subst ho
              exact Locked.of_stop
                (g3.gtrans ((fileOpenSnapshot_quiet_of_eq hf).toGrows isPlain_not_lock)) rfl rfl
            · next wh hf =>
              subst ho
              exact Locked.of_stop
                (g3.gtrans ((fileOpenSnapshot_quiet_of_eq hf).toGrows isPlain_not_lock)) rfl rfl
            · next w3 hf =>
              subst ho
              exact fsSnapshotErr_locked _ _
                (g3.gtrans ((fileOpenSnapshot_quiet_of_eq hf).toGrows isPlain_not_lock))
            · next dst w3 hf =>
              have g4 : Grows (fun e => e.isLock = false) (w.log (.vtLock .elk))
                  (w3.log (.fileSnapshot dst src (u32 (w3.fs.ehi + 2 ^ 32 - 1)) doarchive)) :=
                (g3.gtrans ((fileOpenSnapshot_quiet_of_eq hf).toGrows isPlain_not_lock)).glog
                  (.fileSnapshot dst src (u32 (w3.fs.ehi + 2 ^ 32 - 1)) doarchive) rfl
              split at ho
              · subst ho
                exact fsSnapshotErr_locked _ _ g4
              · have g5 := (g4.glog (.fileDecRef src) rfl).glog (.fileDecRef dst) rfl
                split at ho
                · have g6 := g5.gtrans ((saveQid_quiet env _).toGrows isPlain_not_lock)
                  split at ho
                  · subst ho
                    exact fsSnapshotErr_locked _ _ g6
                  · split at ho
                    · next wh hb2 =>
                      subst ho
                      exact Locked.of_stop (g6.gtrans (bumpEpoch_no_lock hb2)) rfl rfl
                    · next wh hb2 =>
                      subst ho
                      exact Locked.of_stop (g6.gtrans (bumpEpoch_no_lock hb2)) rfl rfl
                    · next r7 w7 hb2 =>
                      have g7 := g6.gtrans (bumpEpoch_no_lock hb2)
                      split at ho
                      · subst ho
                        exact fsSnapshotErr_locked _ _ g7
                      · subst ho
                        exact fsSnapshotEnd_locked _ g7
                · subst ho
                  exact fsSnapshotEnd_locked _ g5

theorem fsSnapshot_locked (env : Env) (fuel : Nat) (w : World) (doarchive : Int) :
    fsSnapshot env fuel w doarchive = .abort w ∨
      Locked (.vtLock .elk) (.vtUnlock .elk) w (fsSnapshot env fuel w doarchive) := by
  by_cases hmode : w.fs.mode = env.OReadWrite
  · exact Or.inr (fsSnapshot_locked_mode env fuel w doarchive hmode)
  · left
    unfold fsSnapshot
    rw [if_pos hmode]

theorem fsEpochLow_locked (env : Env) (fuel : Nat) (w : World) (low : Nat) :
    Locked (.vtLock .elk) (.vtUnlock .elk) w (fsEpochLow env fuel w low) := by
  have g0 := Grows.grefl (fun e => e.isLock = false) (w.log (.vtLock .elk))
  generalize ho : fsEpochLow env fuel w low = o
  unfold fsEpochLow at ho
  simp only [World.log_fs] at ho
  split at ho
  · subst ho
    have g : Grows (fun e => e.isLock = false) (w.log (.vtLock .elk))
        { w.log (.vtLock .elk) with
          err := some (badLowEpoch w.fs.ehi),
          trace := (w.log (.vtLock .elk)).trace ++ [.vtSetError (badLowEpoch w.fs.ehi)] } :=
      ⟨[.vtSetError (badLowEpoch w.fs.ehi)], rfl, by simp [Event.isLock]⟩
    refine Locked.of_release [] g ?_ (by simp [Outcome.ret]) (by simp)
    simp [Outcome.world, World.log]
  · split at ho
    · next w1 hsg =>
      subst ho
      exact Locked.of_release [] (g0.gtrans ((superGet_quiet_of_eq hsg).toGrows isPlain_not_lock))
        rfl (by simp [Outcome.ret]) (by simp)
    · next bs sup w1 hsg =>
      have g1 := g0.gtrans ((superGet_quiet_of_eq hsg).toGrows isPlain_not_lock)
      have g2 : Grows (fun e => e.isLock = false) (w.log (.vtLock .elk))
          (({ ({ w1 with fs := { w1.fs with elo := low } } : World) with
              super := { sup with epochLow := low } }.log
            (.superPack { sup with epochLow := low } bs)).log (.blockDirty bs)) := by
        obtain ⟨new, h1, h2⟩ := g1
        refine ⟨new ++ [.superPack { sup with epochLow := low } bs, .blockDirty bs], ?_, ?_⟩
        · simp [World.log, h1]
        · intro e he
          rcases List.mem_append.1 he with he | he
          · exact h2 e he
          · simp only [List.mem_cons, List.mem_singleton, List.not_mem_nil, or_false] at he
            rcases he with he | he <;> subst he <;> rfl
      split at ho
      · next u w2 hp =>
        subst ho
        exact Locked.of_release []
          (g2.gtrans ((superPut_quiet_of_eq hp).toGrows
            (fun e he => isInner_not_lock e (isWriteIO_isInner e he))))
          rfl (by simp [Outcome.ret]) (by simp)
      · next w2 hp =>
        subst ho
        exact Locked.of_stop
          (g2.gtrans ((superPut_quiet_of_eq hp).toGrows
            (fun e he => isInner_not_lock e (isWriteIO_isInner e he)))) rfl rfl
      · next w2 hp =>
        subst ho
        exact Locked.of_stop
          (g2.gtrans ((superPut_quiet_of_eq hp).toGrows
            (fun e he => isInner_not_lock e (isWriteIO_isInner e he)))) rfl rfl

theorem fsSync_locked (w : World) :
    Locked (.vtLock .elk) (.vtUnlock .elk) w (fsSync w) :=
  Locked.of_release []
    ((Grows.grefl (fun e => e.isLock = false) (w.log (.vtLock .elk))).glog (.cacheFlush 1) rfl)
    rfl (by simp [fsSync, Outcome.ret]) (by simp)

theorem fsMetaFlush_locked (w : World) :
    Locked (.vtRLock .elk) (.vtRUnlock .elk) w (fsMetaFlush w) :=
  Locked.of_release [.cacheFlush 0]
    ((Grows.grefl (fun e => e.isLock = false) (w.log (.vtRLock .elk))).glog
      (.fileMetaFlush w.fs.file 1) rfl)
    (by simp [fsMetaFlush, Outcome.world, World.log]) (by simp [fsMetaFlush, Outcome.ret])
    (by simp [Event.isLock])

theorem Grows.gvac {w1 w2 : World} (g : Grows (fun e => e.isLock = false) w1 w2)
    (v : VacEvent) : Grows (fun e => e.isLock = false) w1 (w2.log (.vac v)) :=
  g.glog (.vac v) rfl

theorem vtWriteBlock_no_lock (venv : VacEnv) (w : World) (buf : Buf) (n type : Nat) :
    Grows (fun e => e.isLock = false) w (vtWriteBlock venv w buf n type).2 := by
  have g0 := (Grows.grefl (fun e => e.isLock = false) w).gvac (.vtWrite type buf n)
  unfold vtWriteBlock
  simp only
  split
  · exact g0
  · next score hs =>
    split
    · exact g0.gvac _
    · exact g0.gvac _

theorem mkVacRoot_no_lock (venv : VacEnv) (w : World) (blockSize : Nat) (de : DirEntry)
    (buf : Buf) (dirScore : Score) :
    Grows (fun e => e.isLock = false) w (mkVacRoot venv w blockSize de buf dirScore).2 := by
  unfold mkVacRoot
  simp only
  have g : Grows (fun e => e.isLock = false) w
      (vtWriteBlock venv (w.log (.vac (.vtRootPack
        { version := venv.VtRootVersion, name := de.elem.take (venv.RootNameSize - 1), type := "vac",
          score := dirScore, blockSize := blockSize, prev := [] })))
        (buf ++ [.vtRootPack
          { version := venv.VtRootVersion, name := de.elem.take (venv.RootNameSize - 1), type := "vac",
            score := dirScore, blockSize := blockSize, prev := [] }])
        venv.VtRootSize venv.VtRootType).2 :=
    ((Grows.grefl (fun e => e.isLock = false) w).gvac _).gtrans
      (vtWriteBlock_no_lock venv _ _ _ _)
  split <;> exact g

theorem mkVacDir_no_lock (venv : VacEnv) (w : World) (blockSize : Nat) (e ee : Entry)
    (de : DirEntry) (buf : Buf) (n : Nat) :
    Grows (fun e => e.isLock = false) w (mkVacDir venv w blockSize e ee de buf n).2 := by
  have g1 := vtWriteBlock_no_lock venv w buf
    (u32 (n + venv.MetaHeaderSize + venv.MetaIndexSize)) venv.VtDataType
  unfold mkVacDir
  simp only
  split
  · exact g1
  · split
    · refine Grows.gtrans ?_ (vtWriteBlock_no_lock venv _ _ _ _)
      exact ((g1.gvac _).gvac _).gvac _
    · refine Grows.gtrans ?_ (mkVacRoot_no_lock venv _ blockSize de _ _)
      refine Grows.gtrans ?_ (vtWriteBlock_no_lock venv _ _ _ _)
      exact ((g1.gvac _).gvac _).gvac _

theorem mkVac_no_lock (venv : VacEnv) (w : World) (blockSize : Nat) (e ee : Entry)
    (de : DirEntry) :
    Grows (fun e => e.isLock = false) w (mkVac venv w blockSize e ee de).world := by
  have g0 := Grows.grefl (fun e => e.isLock = false) w
  unfold mkVac
  simp only
  split
  · exact ⟨[.vtSetError EVacLocal], rfl, by simp [Event.isLock]⟩
  · split
    · exact ⟨[.vtSetError EVacBig], rfl, by simp [Event.isLock]⟩
    · split
      · exact ((g0.gvac _).gvac _).gvac _
      · split
        · exact ((g0.gvac _).gvac _).gvac _
        · refine Grows.gtrans ?_ (mkVacDir_no_lock venv _ blockSize e ee de _ _)
          exact (((((g0.gvac _).gvac _).gvac _).gvac _).gvac _).gvac _

theorem mkVac_no_lock_of_eq {venv : VacEnv} {w : World} {blockSize : Nat} {e ee : Entry}
    {de : DirEntry} {o : Outcome (Int × Option Score)}
    (h : mkVac venv w blockSize e ee de = o) :
    Grows (fun e => e.isLock = false) w o.world :=
  h ▸ mkVac_no_lock venv w blockSize e ee de

theorem fsVac_locked (env : Env) (venv : VacEnv) (w : World) (name : String) :
    Locked (.vtRLock .elk) (.vtRUnlock .elk) w (fsVac env venv w name) := by
  have g0 := (Grows.grefl (fun e => e.isLock = false) (w.log (.vtRLock .elk))).glog
    (.fileOpen name) rfl
  generalize ho : fsVac env venv w name = o
  unfold fsVac at ho
  simp only at ho
  split at ho
  · subst ho
    exact Locked.of_release [] g0 rfl (by simp [Outcome.ret]) (by simp)
  · next f hf =>
    have g1 := g0.gvac (.fileGetSources f)
    split at ho
    · subst ho
      exact Locked.of_release [] (g1.glog (.fileDecRef f) rfl) rfl (by simp [Outcome.ret])
        (by simp)
    · next e ee hes =>
      have g2 := g1.gvac (.fileGetDir f)
      split at ho
      · subst ho
        exact Locked.of_release [] (g2.glog (.fileDecRef f) rfl) rfl (by simp [Outcome.ret])
          (by simp)
      · next de hde =>
        have g3 := g2.glog (.fileDecRef f) rfl
        split at ho
        · next r w2 hm =>
          subst ho
          exact Locked.of_release [] (g3.gtrans (mkVac_no_lock_of_eq hm)) rfl
            (by simp [Outcome.ret]) (by simp)
        · next w2 hm =>
          subst ho
          exact Locked.of_stop (g3.gtrans (mkVac_no_lock_of_eq hm)) rfl rfl
        · next w2 hm =>
          subst ho
          exact Locked.of_stop (g3.gtrans (mkVac_no_lock_of_eq hm)) rfl rfl

theorem Locked.lock_calls {α : Type} {acq rel : Event} {w : World} {o : Outcome α}
    (h : Locked acq rel w o) (ha : acq.isLock = true) (hr : rel.isLock = true)
    (hret : o.ret ≠ none) :
    ∃ new, o.world.trace = w.trace ++ new ∧ new.filter Event.isLock = [acq, rel] := by
  obtain ⟨body, tail, h1, h2, h3⟩ := h
  rcases h3 with ⟨h3, _⟩ | ⟨_, post, h4, h5⟩
  · exact absurd h3 hret
  · subst h4
    refine ⟨acq :: body ++ rel :: post, by rw [h1, List.append_assoc], ?_⟩
    have hb : body.filter Event.isLock = [] :=
      List.filter_eq_nil_iff.2 (fun e he => by simp [h2 e he])
    have hp : post.filter Event.isLock = [] :=
      List.filter_eq_nil_iff.2 (fun e he => by simp [(h5 e he).1])
    simp [List.filter_cons, List.filter_append, ha, hr, hb, hp]

theorem packsUnderLock_body (body : List Event) (h : ∀ e ∈ body, e.isLock = false)
    (t : List Event) : packsUnderLock true (body ++ t) = packsUnderLock true t := by
  induction body with
  | nil => rfl
  | cons e body ih =>
    have ih2 := ih (fun x hx => h x (List.mem_cons_of_mem e hx))
    have he := h e (List.mem_cons_self e body)
    cases e <;> first
      | simpa [packsUnderLock] using ih2
      | simp [Event.isLock] at he

theorem packsUnderLock_post (post : List Event)
    (h : ∀ e ∈ post, e.isLock = false ∧ ∀ s b, e ≠ .superPack s b) :
    packsUnderLock false post = true := by
  induction post with
  | nil => rfl
  | cons e post ih =>
    have ih2 := ih (fun x hx => h x (List.mem_cons_of_mem e hx))
    have he := h e (List.mem_cons_self e post)
    cases e <;> first
      | simpa [packsUnderLock] using ih2
      | exact absurd rfl (he.2 _ _)
      | simp [Event.isLock] at he

theorem Locked.packs {α : Type} {w : World} {o : Outcome α}
    (h : Locked (.vtLock .elk) (.vtUnlock .elk) w o) :
    ∃ new, o.world.trace = w.trace ++ new ∧ packsUnderLock false new = true := by
  obtain ⟨body, tail, h1, h2, h3⟩ := h
  refine ⟨.vtLock .elk :: body ++ tail, by rw [h1, List.append_assoc], ?_⟩
  have h4 : packsUnderLock false (.vtLock .elk :: body ++ tail) =
      packsUnderLock true (body ++ tail) := rfl
  rw [h4, packsUnderLock_body body h2]
  rcases h3 with ⟨_, h3⟩ | ⟨_, post, h3, h5⟩
  · rw [h3]
    rfl
  · rw [h3]
    exact packsUnderLock_post post h5

theorem Locked.lock_run {α : Type} {acq rel : Event} {w : World} {o : Outcome α}
    (h : Locked acq rel w o) (hr : rel.isLock = true) :
    ∃ new, o.world.trace = w.trace ++ acq :: new ∧
      ((o.ret = none ∧ new.filter Event.isLock = []) ∨
        (o.ret ≠ none ∧ new.filter Event.isLock = [rel])) := by
  obtain ⟨body, tail, h1, h2, h3⟩ := h
  have hb : body.filter Event.isLock = [] :=
    List.filter_eq_nil_iff.2 (fun e he => by simp [h2 e he])
  rcases h3 with ⟨h3, h4⟩ | ⟨h3, post, h4, h5⟩
  · subst h4
    exact ⟨body, by simpa using h1, Or.inl ⟨h3, hb⟩⟩
  · subst h4
    have hp : post.filter Event.isLock = [] :=
      List.filter_eq_nil_iff.2 (fun e he => by simp [(h5 e he).1])
    refine ⟨body ++ rel :: post, by simpa using h1, Or.inr ⟨h3, ?_⟩⟩
    simp [List.filter_cons, List.filter_append, hr, hb, hp]

/-! ## Claims on the lock `elk` -/

/-- C15: in every run, the first call made by `fsSnapshot` (once its `assert`
on `fs->mode` has passed; otherwise the process stops before any call),
`fsEpochLow` and `fsSync` is `vtLock(fs->elk)`, and the first call made by
`fsVac` and `fsMetaFlush` is `vtRLock(fs->elk)`.  After it, a run that returns,
whatever the value, has made exactly one more call on a lock, the release of
`elk` in the same mode (`vtUnlock` after `vtLock`, `vtRUnlock` after
`vtRLock`), so it does not return with `elk` held; a run that does not return
(a loop of `superPut`, a failed `assert`) has made no other call on a lock.
`fsSync` and `fsMetaFlush` always return. -/
theorem elk_discipline (env : Env) (venv : VacEnv) (fuel : Nat) (w : World) :
    (∀ doarchive : Int,
      (w.fs.mode ≠ env.OReadWrite → fsSnapshot env fuel w doarchive = .abort w) ∧
      (w.fs.mode = env.OReadWrite →
        ∃ new, (fsSnapshot env fuel w doarchive).world.trace =
            w.trace ++ .vtLock .elk :: new ∧
          (((fsSnapshot env fuel w doarchive).ret = none ∧ new.filter Event.isLock = []) ∨
            ((fsSnapshot env fuel w doarchive).ret ≠ none ∧
              new.filter Event.isLock = [.vtUnlock .elk])))) ∧
    (∀ low : Nat, ∃ new, (fsEpochLow env fuel w low).world.trace =
        w.trace ++ .vtLock .elk :: new ∧
      (((fsEpochLow env fuel w low).ret = none ∧ new.filter Event.isLock = []) ∨
        ((fsEpochLow env fuel w low).ret ≠ none ∧
          new.filter Event.isLock = [.vtUnlock .elk]))) ∧
    ((fsSync w).ret = some 1 ∧
      ∃ new, (fsSync w).world.trace = w.trace ++ .vtLock .elk :: new ∧
        new.filter Event.isLock = [.vtUnlock .elk]) ∧
    (∀ name : String, ∃ new, (fsVac env venv w name).world.trace =
        w.trace ++ .vtRLock .elk :: new ∧
      (((fsVac env venv w name).ret = none ∧ new.filter Event.isLock = []) ∨
        ((fsVac env venv w name).ret ≠ none ∧
          new.filter Event.isLock = [.vtRUnlock .elk]))) ∧
    ((fsMetaFlush w).ret = some () ∧
      ∃ new, (fsMetaFlush w).world.trace = w.trace ++ .vtRLock .elk :: new ∧
        new.filter Event.isLock = [.vtRUnlock .elk]) := by
  refine ⟨?_, ?_, ⟨rfl, ?_⟩, ?_, ⟨rfl, ?_⟩⟩
  · intro doarchive
    constructor
    · intro hmode
      unfold fsSnapshot
      rw [if_pos hmode]
    · intro hmode
      exact (fsSnapshot_locked_mode env fuel w doarchive hmode).lock_run rfl
  · intro low
    exact (fsEpochLow_locked env fuel w low).lock_run rfl
  · obtain ⟨new, h1, h2⟩ := (fsSync_locked w).lock_run rfl
    refine ⟨new, h1, ?_⟩
    rcases h2 with ⟨h2, _⟩ | ⟨_, h2⟩
    · simp [fsSync, Outcome.ret] at h2
    · exact h2
  · intro name
    exact (fsVac_locked env venv w name).lock_run rfl
  · obtain ⟨new, h1, h2⟩ := (fsMetaFlush_locked w).lock_run rfl
    refine ⟨new, h1, ?_⟩
    rcases h2 with ⟨h2, _⟩ | ⟨_, h2⟩
    · simp [fsMetaFlush, Outcome.ret] at h2
    · exact h2

/-- Witness for C15, on `okWorld`: a temporary snapshot returns 1, a snapshot
whose `bumpEpoch` cannot get the super-block returns 0, `fsEpochLow(fs, 3)`
returns 1, `fsEpochLow(fs, 9)` returns 0, `fsVac` returns 1 on `okVac` and 0
when `fileOpen` fails or the store refuses the directory block; each of these
runs starts with the acquisition of `elk` and has made, after it, the one
release in the same mode.  On a disk that refuses every `blockWrite`,
`fsEpochLow(fs, 3)` does not return and its only call on a lock is
`vtLock(fs->elk)`. -/
theorem elk_discipline_witness :
    ((fsSnapshot okEnv 1 okWorld 0).ret = some 1 ∧
      ∃ new, (fsSnapshot okEnv 1 okWorld 0).world.trace =
          okWorld.trace ++ .vtLock .elk :: new ∧
        new.filter Event.isLock = [.vtUnlock .elk]) ∧
    ((fsSnapshot noSuperEnv 1 okWorld 1).ret = some 0 ∧
      ∃ new, (fsSnapshot noSuperEnv 1 okWorld 1).world.trace =
          okWorld.trace ++ .vtLock .elk :: new ∧
        new.filter Event.isLock = [.vtUnlock .elk]) ∧
    ((fsEpochLow okEnv 1 okWorld 3).ret = some 1 ∧
      ∃ new, (fsEpochLow okEnv 1 okWorld 3).world.trace =
          okWorld.trace ++ .vtLock .elk :: new ∧
        new.filter Event.isLock = [.vtUnlock .elk]) ∧
    ((fsEpochLow okEnv 1 okWorld 9).ret = some 0 ∧
      ∃ new, (fsEpochLow okEnv 1 okWorld 9).world.trace =
          okWorld.trace ++ .vtLock .elk :: new ∧
        new.filter Event.isLock = [.vtUnlock .elk]) ∧
    ((fsEpochLow deadDiskEnv 3 okWorld 3).ret = none ∧
      ∃ new, (fsEpochLow deadDiskEnv 3 okWorld 3).world.trace =
          okWorld.trace ++ .vtLock .elk :: new ∧
        new.filter Event.isLock = []) ∧
    ((fsVac okEnv okVac okWorld "/active").ret = some (1, some (List.replicate 20 19)) ∧
      ∃ new, (fsVac okEnv okVac okWorld "/active").world.trace =
          okWorld.trace ++ .vtRLock .elk :: new ∧
        new.filter Event.isLock = [.vtRUnlock .elk]) ∧
    ((fsVac noFileEnv okVac okWorld "/active").ret = some (0, none) ∧
      ∃ new, (fsVac noFileEnv okVac okWorld "/active").world.trace =
          okWorld.trace ++ .vtRLock .elk :: new ∧
        new.filter Event.isLock = [.vtRUnlock .elk]) ∧
    ((fsVac okEnv noDirVac okWorld "/active").ret = some (0, none) ∧
      ∃ new, (fsVac okEnv noDirVac okWorld "/active").world.trace =
          okWorld.trace ++ .vtRLock .elk :: new ∧
        new.filter Event.isLock = [.vtRUnlock .elk]) ∧
    (fsSync okWorld).world.trace = [.vtLock .elk, .cacheFlush 1, .vtUnlock .elk] ∧
    (fsMetaFlush okWorld).world.trace =
      [.vtRLock .elk, .fileMetaFlush (some 1) 1, .vtRUnlock .elk, .cacheFlush 0] := by
  have ret : ∀ {α : Type} {o : Outcome α} {acq rel : Event} {t : List Event} (v : α),
      o.ret = some v →
      (∃ new, o.world.trace = t ++ acq :: new ∧
        ((o.ret = none ∧ new.filter Event.isLock = []) ∨
          (o.ret ≠ none ∧ new.filter Event.isLock = [rel]))) →
      o.ret = some v ∧ ∃ new, o.world.trace = t ++ acq :: new ∧
        new.filter Event.isLock = [rel] := by
    intro α o acq rel t v hv h
    obtain ⟨new, h1, h2⟩ := h
    refine ⟨hv, new, h1, ?_⟩
    rcases h2 with ⟨h2, _⟩ | ⟨_, h2⟩
    · rw [hv] at h2
      exact absurd h2 (by simp)
    · exact h2
  refine ⟨ret 1 (by decide) (((elk_discipline okEnv okVac 1 okWorld).1 0).2 (by decide)),
    ret 0 (by decide) (((elk_discipline noSuperEnv okVac 1 okWorld).1 1).2 (by decide)),
    ret 1 (by decide) ((elk_discipline okEnv okVac 1 okWorld).2.1 3),
    ret 0 (by decide) ((elk_discipline okEnv okVac 1 okWorld).2.1 9),
    ?_,
    ret _ (by decide) ((elk_discipline okEnv okVac 1 okWorld).2.2.2.1 "/active"),
    ret _ (by decide) ((elk_discipline noFileEnv okVac 1 okWorld).2.2.2.1 "/active"),
    ret _ (by decide) ((elk_discipline okEnv noDirVac 1 okWorld).2.2.2.1 "/active"),
    by decide, by decide⟩
  obtain ⟨new, h1, h2⟩ := (elk_discipline deadDiskEnv okVac 3 okWorld).2.1 3
  refine ⟨by decide, new, h1, ?_⟩
  rcases h2 with ⟨_, h2⟩ | ⟨h2, _⟩
  · exact h2
  · exact absurd (by decide) h2

/-- C14, counterexample: `fsNextQid` packs the super-block through `superGet`
and `superPut` without any call on a lock; and `fsOpen`, recovering a bad
root, packs the super-block before any call on a lock, with `cacheLocal` and
`superPack` and not through `superGet` and `superPut`. -/
theorem superPack_without_lock :
    (fsNextQid okEnv 0 okWorld).world.trace =
        [.cacheLocal PartSuper 0 1, .superUnpack okBlock,
          .superPack { okSuper with qid := 101 } okBlock, .blockDirty okBlock,
          .blockPut okBlock] ∧
      packsUnderLock false (fsNextQid okEnv 0 okWorld).world.trace = false ∧
      (fsOpen badRootEnv okDisk "fossil" 1000 1).world.trace.filter
          (fun e => e.isLock || e.isPackOrWrite) =
        [.superPack { okSuper with active := 112 } okBlock, .vtRLock .elk, .vtRUnlock .elk] ∧
      packsUnderLock false (fsOpen badRootEnv okDisk "fossil" 1000 1).world.trace = false := by
  decide

/-- C14, amended: `superGet` and `superPut` make no call on a lock, and
neither does `fsNextQid`; but in every run of `fsEpochLow` and of `fsSnapshot`
(the only caller of `bumpEpoch`) each `superPack` is made between
`vtLock(fs->elk)` and `vtUnlock(fs->elk)`. -/
theorem superPack_under_elk (env : Env) (fuel : Nat) (w : World) :
    (∀ low : Nat, ∃ new, (fsEpochLow env fuel w low).world.trace = w.trace ++ new ∧
      packsUnderLock false new = true) ∧
    (∀ doarchive : Int, ∃ new,
      (fsSnapshot env fuel w doarchive).world.trace = w.trace ++ new ∧
      packsUnderLock false new = true) ∧
    (∃ new, (superGet env w).2.trace = w.trace ++ new ∧ ∀ e ∈ new, e.isLock = false) ∧
    (∀ (b : Block) (super : Super) (forceWrite : Int), ∃ new,
      (superPut env fuel w b super forceWrite).world.trace = w.trace ++ new ∧
      ∀ e ∈ new, e.isLock = false) ∧
    (∃ new, (fsNextQid env fuel w).world.trace = w.trace ++ new ∧
      ∀ e ∈ new, e.isLock = false) := by
  have hput : ∀ (w0 : World) (b : Block) (super : Super) (forceWrite : Int),
      Grows (fun e => e.isLock = false) w0
        (superPut env fuel w0 b super forceWrite).world := by
    intro w0 b super forceWrite
    obtain ⟨new, h1, h2⟩ := (superPut_quiet env fuel w0 b super forceWrite).toGrows
      (P := fun e => e.isLock = false)
      (fun e he => isInner_not_lock e (isWriteIO_isInner e he))
    refine ⟨[.superPack super b, .blockDirty b] ++ new, ?_, ?_⟩
    · rw [h1]
      simp [World.log]
    · intro e he
      rcases List.mem_append.1 he with he | he
      · simp only [List.mem_cons, List.mem_singleton, List.not_mem_nil, or_false] at he
        rcases he with he | he <;> subst he <;> rfl
      · exact h2 e he
  refine ⟨fun low => (fsEpochLow_locked env fuel w low).packs, ?_,
    (superGet_quiet env w).toGrows isPlain_not_lock, fun b super fw => hput w b super fw, ?_⟩
  · intro doarchive
    rcases fsSnapshot_locked env fuel w doarchive with h | h
    · exact ⟨[], by rw [h]; simp [Outcome.world], rfl⟩
    · exact h.packs
  · generalize ho : fsNextQid env fuel w = o
    unfold fsNextQid at ho
    split at ho
    · next w1 hsg =>
      subst ho
      exact (superGet_quiet_of_eq hsg).toGrows isPlain_not_lock
    · next b sup w1 hsg =>
      have g1 : Grows (fun e => e.isLock = false) w w1 :=
        (superGet_quiet_of_eq hsg).toGrows isPlain_not_lock
      have g2 := g1.gtrans (hput w1 b { sup with qid := u64 (sup.qid + 1) } 0)
      simp only at ho
      split at ho
      · next v w2 hp =>
        subst ho
        rw [hp] at g2
        exact g2
      · next w2 hp =>
        subst ho
        rw [hp] at g2
        exact g2
      · next w2 hp =>
        subst ho
        rw [hp] at g2
        exact g2

/-! ## Claim on the names of `fileOpenSnapshot` -/

theorem snprint30_short (s : String) (h : s.length ≤ 29) : snprint30 s = s := by
  unfold snprint30
  rw [String.take_eq, List.take_of_length_le h]

theorem toString_nat_length (k : Nat) (h : k < 2 ^ 31) : (toString k).length ≤ 10 :=
  Nat.repr_length k 10 (by decide) (by omega)

theorem fmt02d_length (x : Int) (h0 : 0 ≤ x) (h1 : x ≤ 99) : (fmt02d x).length = 2 := by
  interval_cases x <;> rfl

theorem loop_name (base buf : String) (j : Nat) (hbase : base.length ≤ 18) (hj : j < 2 ^ 31)
    (hbuf : j = 0 → buf = base) :
    (if (j : Int) ≠ 0 then snprint30 (base ++ "." ++ toString (j : Int)) else buf) =
      snapName base j := by
  unfold snapName
  by_cases h : j = 0
  · subst h
    simp [hbuf rfl]
  · have h2 : (j : Int) ≠ 0 := by exact_mod_cast h
    rw [if_pos h2, if_neg h]
    have h3 : toString (j : Int) = toString j := rfl
    rw [h3]
    apply snprint30_short
    have := toString_nat_length j hj
    simp only [String.length_append]
    have h4 : ".".length = 1 := rfl
    omega

theorem snapRounds_succ (env : Env) (dir : File) (base : String) (t : List Event) (j : Nat)
    (f : File)
    (h : env.fileWalk (t ++ snapRounds env dir base t j) dir (snapName base j) = some f) :
    snapRounds env dir base t (j + 1) =
      snapRounds env dir base t j ++ [.fileWalk dir (snapName base j), .fileDecRef f] := by
  rw [snapRounds]
  simp only [h]

theorem snapNameLoop_from (env : Env) (dir : File) (base : String) (t : List Event)
    (hbase : base.length ≤ 18) :
    ∀ (m fuel j : Nat) (w : World) (buf : String),
      w.trace = t ++ snapRounds env dir base t j →
      (j = 0 → buf = base) →
      (∀ i, j ≤ i → i < j + m →
        (env.fileWalk (t ++ snapRounds env dir base t i) dir (snapName base i)).isSome = true) →
      env.fileWalk (t ++ snapRounds env dir base t (j + m)) dir (snapName base (j + m)) = none →
      m < fuel → j + m < 2 ^ 31 →
      snapNameLoop env dir base fuel (j : Int) buf w =
        .done
          (env.fileCreate
            (t ++ snapRounds env dir base t (j + m) ++ [.fileWalk dir (snapName base (j + m))])
            dir (snapName base (j + m)) (env.ModeDir ||| env.ModeSnapshot ||| 0o555) "adm")
          { w with trace := t ++ snapRounds env dir base t (j + m) ++
              [.fileWalk dir (snapName base (j + m)),
                .fileCreate dir (snapName base (j + m))
                  (env.ModeDir ||| env.ModeSnapshot ||| 0o555) "adm"] } := by
  intro m
  induction m with
  | zero =>
    intro fuel j w buf htr hbuf _ hfree hfuel hj
    obtain ⟨n, rfl⟩ : ∃ n, fuel = n + 1 := ⟨fuel - 1, by omega⟩
    rw [snapNameLoop]
    simp only [loop_name base buf j hbase (by omega) hbuf]
    simp only [Nat.add_zero] at hfree ⊢
    rw [htr, hfree]
    simp [World.log, htr]
  | succ m ih =>
    intro fuel j w buf htr hbuf hall hfree hfuel hj
    obtain ⟨n, rfl⟩ : ∃ n, fuel = n + 1 := ⟨fuel - 1, by omega⟩
    have hsome := hall j (le_refl j) (by omega)
    obtain ⟨f, hf⟩ := Option.isSome_iff_exists.1 hsome
    rw [snapNameLoop]
    simp only [loop_name base buf j hbase (by omega) hbuf]
    rw [htr, hf]
    simp only
    have hn : i32 ((j : Int) + 1) = ((j + 1 : Nat) : Int) := by
      unfold i32
      push_cast
      omega
    rw [hn]
    have key := ih n (j + 1)
      ((w.log (.fileWalk dir (snapName base j))).log (.fileDecRef f)) (snapName base j)
      (by rw [snapRounds_succ env dir base t j f hf]; simp [World.log, htr])
      (by intro h; omega)
      (fun i hi1 hi2 => hall i (by omega) (by omega))
      (by rw [show j + 1 + m = j + (m + 1) by omega]; exact hfree)
      (by omega) (by omega)
    rw [show j + 1 + m = j + (m + 1) by omega] at key
    rw [key]
    simp [World.log]

theorem year_name (now : Tm) (hv : now.valid) :
    snprint30 (toString (i32 (now.year + 1900))) = yearName now := by
  obtain ⟨h0, h1, _⟩ := hv
  have hi : i32 (now.year + 1900) = now.year + 1900 := by
    unfold i32
    omega
  rw [hi]
  unfold yearName
  apply snprint30_short
  obtain ⟨n, hn⟩ : ∃ n : Nat, now.year + 1900 = (n : Int) :=
    ⟨(now.year + 1900).toNat, (Int.toNat_of_nonneg (by omega)).symm⟩
  rw [hn]
  have h3 : toString (n : Int) = toString n := rfl
  rw [h3]
  have := toString_nat_length n (by omega)
  omega

theorem day_name (now : Tm) (hv : now.valid) :
    snprint30 (fmt02d (i32 (now.mon + 1)) ++ fmt02d now.mday) = dayName now ∧
      (dayName now).length = 4 := by
  obtain ⟨_, _, h2, h3, h4, h5, _⟩ := hv
  have hi : i32 (now.mon + 1) = now.mon + 1 := by
    unfold i32
    omega
  rw [hi]
  have hl : (dayName now).length = 4 := by
    unfold dayName
    rw [String.length_append, fmt02d_length _ (by omega) (by omega),
      fmt02d_length _ (by omega) (by omega)]
  refine ⟨snprint30_short _ ?_, hl⟩
  have h : (fmt02d (now.mon + 1) ++ fmt02d now.mday).length = 4 := hl
  omega

theorem minute_name (now : Tm) (hv : now.valid) :
    snprint30 (fmt02d now.hour ++ fmt02d now.min) = minuteName now ∧
      (minuteName now).length = 4 := by
  obtain ⟨_, _, _, _, _, _, h6, h7, h8, h9⟩ := hv
  have hl : (minuteName now).length = 4 := by
    unfold minuteName
    rw [String.length_append, fmt02d_length _ (by omega) (by omega),
      fmt02d_length _ (by omega) (by omega)]
  refine ⟨snprint30_short _ ?_, hl⟩
  have h : (fmt02d now.hour ++ fmt02d now.min).length = 4 := hl
  omega

theorem snapNameLoop_first (env : Env) (dir : File) (base : String) (fuel k : Nat) (w : World)
    (hbase : base.length ≤ 18) (hfree : FirstFree env dir base w.trace k)
    (hfuel : k < fuel) (hk : k < 2 ^ 31) :
    snapNameLoop env dir base fuel 0 base w =
      .done
        (env.fileCreate
          (w.trace ++ snapRounds env dir base w.trace k ++ [.fileWalk dir (snapName base k)])
          dir (snapName base k) (env.ModeDir ||| env.ModeSnapshot ||| 0o555) "adm")
        { w with trace := w.trace ++ snapRounds env dir base w.trace k ++
            [.fileWalk dir (snapName base k),
              .fileCreate dir (snapName base k)
                (env.ModeDir ||| env.ModeSnapshot ||| 0o555) "adm"] } := by
  have h := snapNameLoop_from env dir base w.trace hbase k fuel 0 w base
    (by simp [snapRounds]) (fun _ => rfl)
    (fun i _ hi => hfree.1 i (by omega))
    (by rw [Nat.zero_add]; exact hfree.2) hfuel (by omega)
  simp only [Nat.zero_add, Nat.cast_zero] at h
  exact h

/-- C18: `fileOpenSnapshot` opens `/archive` (archival) or `/snapshot`
(temporary), reads the local time `now`, and walks to the directory `yyyy`
(the decimal `now.year+1900`) and, for a temporary snapshot, from there to
`mmdd` (month `now.mon+1` and day, two digits each); `walkOrCreate` creates
such a parent, with `fileCreate(dir, name, ModeDir|0555, "adm")`, exactly when
`fileWalk` does not find it.  In the last parent it tries the names `base`,
`base.1`, `base.2`, ... in turn, where `base` is `mmdd` (archival) or `hhmm`
(temporary): a name that `fileWalk` finds is released with `fileDecRef` and
never created; the first name number `k` that `fileWalk` does not find is
created with `fileCreate(dir, name, ModeDir|ModeSnapshot|0555, "adm")`, and
its result is returned, provided the loop has fuel for `k+1` rounds and `k`
fits an `int`. -/
theorem fileOpenSnapshot_names (env : Env) (fuel : Nat) (w : World) :
    (∀ (w1 : World) (dir : File) (name : String),
      (∀ f, env.fileWalk w1.trace dir name = some f →
        walkOrCreate env w1 dir name = (some f, w1.log (.fileWalk dir name))) ∧
      (env.fileWalk w1.trace dir name = none →
        walkOrCreate env w1 dir name =
          (env.fileCreate (w1.trace ++ [.fileWalk dir name]) dir name (env.ModeDir ||| 0o555)
              "adm",
            (w1.log (.fileWalk dir name)).log
              (.fileCreate dir name (env.ModeDir ||| 0o555) "adm")))) ∧
    (∀ (doarchive : Int) (d0 d1 : File) (w2 : World) (k : Nat),
      doarchive ≠ 0 →
      env.fileOpen w.trace "/archive" = some d0 →
      (env.localtime (w.trace ++ [.fileOpen "/archive"])).valid →
      walkOrCreate env ((w.log (.fileOpen "/archive")).log .localtime) d0
        (yearName (env.localtime (w.trace ++ [.fileOpen "/archive"]))) = (some d1, w2) →
      FirstFree env d1 (dayName (env.localtime (w.trace ++ [.fileOpen "/archive"])))
        (w2.trace ++ [.fileDecRef d0]) k →
      k < fuel → k < 2 ^ 31 →
      fileOpenSnapshot env fuel w doarchive =
        .done
          (env.fileCreate
            (w2.trace ++ [.fileDecRef d0] ++
              snapRounds env d1 (dayName (env.localtime (w.trace ++ [.fileOpen "/archive"])))
                (w2.trace ++ [.fileDecRef d0]) k ++
              [.fileWalk d1
                (snapName (dayName (env.localtime (w.trace ++ [.fileOpen "/archive"]))) k)])
            d1 (snapName (dayName (env.localtime (w.trace ++ [.fileOpen "/archive"]))) k)
            (env.ModeDir ||| env.ModeSnapshot ||| 0o555) "adm")
          { w2 with
            trace := w2.trace ++ [.fileDecRef d0] ++
              snapRounds env d1 (dayName (env.localtime (w.trace ++ [.fileOpen "/archive"])))
                (w2.trace ++ [.fileDecRef d0]) k ++
              [.fileWalk d1
                  (snapName (dayName (env.localtime (w.trace ++ [.fileOpen "/archive"]))) k),
                .fileCreate d1
                  (snapName (dayName (env.localtime (w.trace ++ [.fileOpen "/archive"]))) k)
                  (env.ModeDir ||| env.ModeSnapshot ||| 0o555) "adm",
                .fileDecRef d1] }) ∧
    (∀ (d0 d1 d2 : File) (w2 w3 : World) (k : Nat),
      env.fileOpen w.trace "/snapshot" = some d0 →
      (env.localtime (w.trace ++ [.fileOpen "/snapshot"])).valid →
      walkOrCreate env ((w.log (.fileOpen "/snapshot")).log .localtime) d0
        (yearName (env.localtime (w.trace ++ [.fileOpen "/snapshot"]))) = (some d1, w2) →
      walkOrCreate env (w2.log (.fileDecRef d0)) d1
        (dayName (env.localtime (w.trace ++ [.fileOpen "/snapshot"]))) = (some d2, w3) →
      FirstFree env d2 (minuteName (env.localtime (w.trace ++ [.fileOpen "/snapshot"])))
        (w3.trace ++ [.fileDecRef d1]) k →
      k < fuel → k < 2 ^ 31 →
      fileOpenSnapshot env fuel w 0 =
        .done
          (env.fileCreate
            (w3.trace ++ [.fileDecRef d1] ++
              snapRounds env d2 (minuteName (env.localtime (w.trace ++ [.fileOpen "/snapshot"])))
                (w3.trace ++ [.fileDecRef d1]) k ++
              [.fileWalk d2
                (snapName (minuteName (env.localtime (w.trace ++ [.fileOpen "/snapshot"]))) k)])
            d2 (snapName (minuteName (env.localtime (w.trace ++ [.fileOpen "/snapshot"]))) k)
            (env.ModeDir ||| env.ModeSnapshot ||| 0o555) "adm")
          { w3 with
            trace := w3.trace ++ [.fileDecRef d1] ++
              snapRounds env d2 (minuteName (env.localtime (w.trace ++ [.fileOpen "/snapshot"])))
                (w3.trace ++ [.fileDecRef d1]) k ++
              [.fileWalk d2
                  (snapName (minuteName (env.localtime (w.trace ++ [.fileOpen "/snapshot"]))) k),
                .fileCreate d2
                  (snapName (minuteName (env.localtime (w.trace ++ [.fileOpen "/snapshot"]))) k)
                  (env.ModeDir ||| env.ModeSnapshot ||| 0o555) "adm",
                .fileDecRef d2] }) := by
  refine ⟨?_, ?_, ?_⟩
  · intro w1 dir name
    constructor
    · intro f hf
      unfold walkOrCreate
      simp only [hf]
    · intro hf
      unfold walkOrCreate
      simp only [hf]
      rfl
  · intro doarchive d0 d1 w2 k hd hopen hv hy hfree hfuel hk
    obtain ⟨hday, hlen⟩ := day_name _ hv
    unfold fileOpenSnapshot
    rw [if_pos hd]
    simp only [hopen, World.log_trace, year_name _ hv, hy, hday]
    rw [snapNameLoop_first env d1 _ fuel k (w2.log (.fileDecRef d0)) (by omega) hfree hfuel hk]
    simp [World.log]
  · intro d0 d1 d2 w2 w3 k hopen hv hy hdd hfree hfuel hk
    obtain ⟨hday, _⟩ := day_name _ hv
    obtain ⟨hmin, hlen⟩ := minute_name _ hv
    unfold fileOpenSnapshot
    rw [if_neg (by simp)]
    simp only [hopen, World.log_trace, year_name _ hv, hy, hday, hdd, hmin]
    rw [snapNameLoop_first env d2 _ fuel k (w3.log (.fileDecRef d1)) (by omega) hfree hfuel hk]
    simp [World.log]

/-- Witness for C18: on 1 November 2026 at 18:58, in a tree where
`/snapshot/2026` does not exist yet and the last parent already holds `1858`
and `1858.1`, a temporary snapshot creates `2026`, `1101` and then `1858.2`. -/
theorem fileOpenSnapshot_names_witness :
    (fileOpenSnapshot busyEnv 3 okWorld 0).ret = some (some 23) ∧
      (fileOpenSnapshot busyEnv 3 okWorld 0).world.trace =
        [.fileOpen "/snapshot", .localtime, .fileWalk 2 "2026",
          .fileCreate 2 "2026" 2147484013 "adm", .fileDecRef 2, .fileWalk 13 "1101",
          .fileCreate 13 "1101" 2147484013 "adm", .fileDecRef 13, .fileWalk 16 "1858",
          .fileDecRef 9, .fileWalk 16 "1858.1", .fileDecRef 9, .fileWalk 16 "1858.2",
          .fileCreate 16 "1858.2" 2155872621 "adm", .fileDecRef 16] := by
  have h := (fileOpenSnapshot_names busyEnv 3 okWorld).2.2 2 13 16
    { okWorld with
      trace := [.fileOpen "/snapshot", .localtime, .fileWalk 2 "2026",
        .fileCreate 2 "2026" 2147484013 "adm"] }
    { okWorld with
      trace := [.fileOpen "/snapshot", .localtime, .fileWalk 2 "2026",
        .fileCreate 2 "2026" 2147484013 "adm", .fileDecRef 2, .fileWalk 13 "1101",
        .fileCreate 13 "1101" 2147484013 "adm"] }
    2 (by decide) (by unfold Tm.valid; decide) (by decide) (by decide)
    ⟨fun i hi => by interval_cases i <;> decide, by decide⟩ (by decide) (by decide)
  rw [h]
  constructor <;> decide

/-- Witness for C16: in `okVac`, where `vtWrite` stores the block and
`vtSha1Check` accepts the score, `vtWriteBlock` returns 1. -/
theorem vtWriteBlock_verifies_witness :
    (vtWriteBlock okVac okWorld [] 0 13).1.1 = 1 ∧
      ∃ score, okVac.vtWrite okWorld.trace 13 [] 0 = some score ∧
        okVac.vtSha1Check (okWorld.trace ++ [.vac (.vtWrite 13 [] 0)]) score [] 0 = true :=
  ⟨by decide, (vtWriteBlock_verifies okVac okWorld [] 0 13).1.1 (by decide)⟩

/-- A second run for C15: in `okWorld` and `okVac`, `fsVac` of `/active`
returns 1, and the calls it has made on locks are `vtRLock(elk)` and
`vtRUnlock(elk)`. -/
theorem fsVac_lock_run :
    (fsVac okEnv okVac okWorld "/active").ret = some (1, some (List.replicate 20 19)) ∧
      (fsVac okEnv okVac okWorld "/active").world.trace.filter Event.isLock =
        [.vtRLock .elk, .vtRUnlock .elk] := by
  decide

/-! ## Claims on the frame of `bumpEpoch` -/

/-- C23: however `bumpEpoch(fs, doarchive)` ends, `fs->elo` and the fields
`version`, `epochLow`, `qid`, `current`, `last` and `name` of the super-block are
as before the call; `next` is unchanged when `doarchive` is zero; and when
`bumpEpoch` has reached `superPut` (in particular whenever it returns 1), with
`doarchive` non-zero `next` is the former `active`, the other fields of the
record packed being `epochHigh` and `active`, which get their new values. -/
theorem bumpEpoch_frame (env : Env) (fuel : Nat) (w : World) (doarchive : Int) :
    (bumpEpoch env fuel w doarchive).world.fs.elo = w.fs.elo ∧
    (bumpEpoch env fuel w doarchive).world.super.version = w.super.version ∧
    (bumpEpoch env fuel w doarchive).world.super.epochLow = w.super.epochLow ∧
    (bumpEpoch env fuel w doarchive).world.super.qid = w.super.qid ∧
    (bumpEpoch env fuel w doarchive).world.super.current = w.super.current ∧
    (bumpEpoch env fuel w doarchive).world.super.last = w.super.last ∧
    (bumpEpoch env fuel w doarchive).world.super.name = w.super.name ∧
    (doarchive = 0 → (bumpEpoch env fuel w doarchive).world.super.next = w.super.next) ∧
    ((bumpEpoch env fuel w doarchive).ret = some 1 →
      (doarchive ≠ 0 →
        (bumpEpoch env fuel w doarchive).world.super.next = w.super.active) ∧
      ∃ (b bs : Block),
        packed ((bumpEpoch env fuel w doarchive).world.trace.drop w.trace.length) =
          [{ w.super with epochHigh := u32 (w.fs.ehi + 1), active := b.addr,
                          next := if doarchive ≠ 0 then w.super.active else w.super.next }] ∧
        Event.superPack
          { w.super with epochHigh := u32 (w.fs.ehi + 1), active := b.addr,
                         next := if doarchive ≠ 0 then w.super.active else w.super.next } bs ∈
          (bumpEpoch env fuel w doarchive).world.trace) := by
  rcases bumpEpoch_cases env fuel w doarchive with ⟨q, hr⟩ | ⟨hB, _⟩
  · obtain ⟨h1, h2, _⟩ := q
    refine ⟨by rw [h1], by rw [h2], by rw [h2], by rw [h2], by rw [h2], by rw [h2],
      by rw [h2], fun _ => by rw [h2], ?_⟩
    intro h
    rw [h] at hr
    simp at hr
  · obtain ⟨r, b0, b, bs, rest, _, _, _, _, h4, h5, _, h7, h8⟩ := hB
    refine ⟨by rw [h4], by rw [h5]; rfl, by rw [h5]; rfl, by rw [h5]; rfl, by rw [h5]; rfl,
      by rw [h5]; rfl, by rw [h5]; rfl, ?_, ?_⟩
    · intro hd
      rw [h5]
      simp [bumpSuper, hd]
    · intro _
      refine ⟨?_, b, bs, ?_, ?_⟩
      · intro hd
        rw [h5]
        simp [bumpSuper, hd]
      · rw [h7, List.append_assoc, List.drop_left, packed_append, packed_writeIO rest h8]
        simp [bumpTrace, packed, bumpSuper]
      · rw [h7]
        simp [bumpTrace, bumpSuper]

/-- Witness for C23: in `okWorld`, whose super-block has `active = 7` and
`next = NilBlock`, `bumpEpoch(fs, 1)` returns 1 and leaves `next = 7`. -/
theorem bumpEpoch_frame_witness :
    (bumpEpoch okEnv 1 okWorld 1).ret = some 1 ∧
      (bumpEpoch okEnv 1 okWorld 1).world.super.next = 7 ∧
      (bumpEpoch okEnv 1 okWorld 0).world.super.next = 2 ^ 32 - 1 := by
  refine ⟨by decide, ?_, ?_⟩
  · rw [((bumpEpoch_frame okEnv 1 okWorld 1).2.2.2.2.2.2.2.2 (by decide)).1 (by decide)]
    rfl
  · rw [(bumpEpoch_frame okEnv 1 okWorld 0).2.2.2.2.2.2.2.1 rfl]
    rfl

/-- C27: when `bumpEpoch` returns 0, one of `cacheGlobal`, `blockCopy` and
`superGet` has returned nil, and the `Fs` record (with `fs->ehi`, `fs->elo`
and the score and epoch of the root source), the super-block and the error
slot are as they were at entry; the calls made are none of `superPack`. -/
theorem bumpEpoch_failure_atomic (env : Env) (fuel : Nat) (w : World) (doarchive : Int)
    (h : (bumpEpoch env fuel w doarchive).ret = some 0) :
    (bumpEpoch env fuel w doarchive).world.fs = w.fs ∧
    (bumpEpoch env fuel w doarchive).world.fs.ehi = w.fs.ehi ∧
    (bumpEpoch env fuel w doarchive).world.fs.elo = w.fs.elo ∧
    (bumpEpoch env fuel w doarchive).world.fs.source = w.fs.source ∧
    (bumpEpoch env fuel w doarchive).world.super = w.super ∧
    (∃ new, (bumpEpoch env fuel w doarchive).world.trace = w.trace ++ new ∧
      packed new = [] ∧ ∀ e ∈ new, ∀ s b, e ≠ .superPack s b) ∧
    ∃ r, w.fs.source = some r ∧
      (env.cacheGlobal w.trace r.score BtDir RootTag env.OReadOnly = none ∨
       ∃ b0, env.cacheGlobal w.trace r.score BtDir RootTag env.OReadOnly = some b0 ∧
        (env.blockCopy (w.trace ++ [.cacheGlobal r.score BtDir RootTag env.OReadOnly])
            b0 RootTag (u32 (w.fs.ehi + 1)) w.fs.elo = none ∨
         ∃ b, env.blockCopy (w.trace ++ [.cacheGlobal r.score BtDir RootTag env.OReadOnly])
            b0 RootTag (u32 (w.fs.ehi + 1)) w.fs.elo = some b ∧
          (superGet env
            { w with trace := w.trace ++ [.cacheGlobal r.score BtDir RootTag env.OReadOnly,
                .blockCopy b0 RootTag (u32 (w.fs.ehi + 1)) w.fs.elo,
                .entryPack (bumpEntry env b0) b 1, .blockDirty b] }).1 = none)) := by
  have hfr : (bumpEpoch env fuel w doarchive).world.fs = w.fs ∧
      (bumpEpoch env fuel w doarchive).world.super = w.super ∧
      ∃ new, (bumpEpoch env fuel w doarchive).world.trace = w.trace ++ new ∧
        ∀ e ∈ new, e.isPlain = true := by
    rcases bumpEpoch_cases env fuel w doarchive with ⟨q, _⟩ | ⟨_, hr⟩
    · exact ⟨q.1, q.2.1, q.2.2.2⟩
    · rw [h] at hr
      simp at hr
  obtain ⟨h1, h2, new, h3, h4⟩ := hfr
  have hnp : ∀ e ∈ new, ∀ s b, e ≠ .superPack s b := by
    intro e he s b hEq
    subst hEq
    have := h4 _ he
    simp [Event.isPlain] at this
  refine ⟨h1, by rw [h1], by rw [h1], by rw [h1], h2, ⟨new, h3, packed_of_ne new hnp, hnp⟩, ?_⟩
  generalize ho : bumpEpoch env fuel w doarchive = o at h
  unfold bumpEpoch at ho
  split at ho
  · subst ho
    simp [Outcome.ret] at h
  · next r hsrc =>
    refine ⟨r, hsrc, ?_⟩
    simp only [World.log_fs, World.log_trace] at ho
    split at ho
    · next hcg => exact Or.inl hcg
    · next b0 hcg =>
      refine Or.inr ⟨b0, hcg, ?_⟩
      split at ho
      · next hbc => exact Or.inl hbc
      · next b hbc =>
        refine Or.inr ⟨b, hbc, ?_⟩
        split at ho
        · next w1 hsg =>
          have : ((((w.log (.cacheGlobal r.score BtDir RootTag env.OReadOnly)).log
              (.blockCopy b0 RootTag (u32 (w.fs.ehi + 1)) w.fs.elo)).log
              (.entryPack (bumpEntry env b0) b 1)).log (.blockDirty b)) =
              { w with trace := w.trace ++ [.cacheGlobal r.score BtDir RootTag env.OReadOnly,
                .blockCopy b0 RootTag (u32 (w.fs.ehi + 1)) w.fs.elo,
                .entryPack (bumpEntry env b0) b 1, .blockDirty b] } := by
            simp [World.log]
          rw [← this, hsg]
        · next bs sup w1 hsg =>
          exfalso
          split at ho <;> subst ho <;> simp [Outcome.ret] at h

/-- Witness for C27: with a cache that cannot give the super-block,
`bumpEpoch` returns 0 and leaves the `Fs` record and the super-block as they
were. -/
theorem bumpEpoch_failure_atomic_witness :
    (bumpEpoch noSuperEnv 1 okWorld 0).ret = some 0 ∧
      (bumpEpoch noSuperEnv 1 okWorld 0).world.fs = okWorld.fs ∧
      (bumpEpoch noSuperEnv 1 okWorld 0).world.super = okWorld.super :=
  ⟨by decide, (bumpEpoch_failure_atomic noSuperEnv 1 okWorld 0 (by decide)).1,
    (bumpEpoch_failure_atomic noSuperEnv 1 okWorld 0 (by decide)).2.2.2.2.1⟩

/-! ## Claim on the blocks held by `bumpEpoch` -/

theorem superGet_none (env : Env) (w w1 : World) (h : superGet env w = (none, w1)) :
    (env.cacheLocal w.trace PartSuper 0 env.OReadWrite = none ∧
      w1 = w.log (.cacheLocal PartSuper 0 env.OReadWrite)) ∨
    ∃ bs, env.cacheLocal w.trace PartSuper 0 env.OReadWrite = some bs ∧
      w1 = ((w.log (.cacheLocal PartSuper 0 env.OReadWrite)).log (.superUnpack bs)).log
        (.blockPut bs) := by
  unfold superGet at h
  cases hc : env.cacheLocal w.trace PartSuper 0 env.OReadWrite with
  | none =>
    simp only [hc] at h
    exact Or.inl ⟨rfl, (Prod.mk.inj h).2.symm⟩
  | some b =>
    simp only [hc] at h
    split at h
    · simp at h
    · exact Or.inr ⟨b, rfl, (Prod.mk.inj h).2.symm⟩

theorem superPutWrite_calls (env : Env) (b : Block) : ∀ (fuel : Nat) (w : World),
    ∃ new, (superPutWrite env b fuel w).world.trace = w.trace ++ new ∧
      ∀ e ∈ new, e.isBlockPut = false ∧ e.isWriteIO = true := by
  intro fuel
  induction fuel with
  | zero =>
    intro w
    exact ⟨[], by simp [superPutWrite, Outcome.world], by simp⟩
  | succ n ih =>
    intro w
    unfold superPutWrite
    simp only
    split
    · exact ⟨[.blockWrite b], rfl, by simp [Event.isBlockPut, Event.isWriteIO]⟩
    · obtain ⟨new, h1, h2⟩ := ih ((w.log (.blockWrite b)).log (.sleep (10 * 0)))
      refine ⟨[.blockWrite b, .sleep (10 * 0)] ++ new, ?_, ?_⟩
      · rw [h1]
        simp [World.log]
      · intro e he
        rcases List.mem_append.1 he with he | he
        · simp only [List.mem_cons, List.mem_singleton, List.not_mem_nil, or_false] at he
          rcases he with he | he <;> subst he <;> exact ⟨rfl, rfl⟩
        · exact h2 e he

theorem superPut_puts (env : Env) (fuel : Nat) (w : World) (b : Block) (super : Super)
    (forceWrite : Int) (h : (superPut env fuel w b super forceWrite).ret = some ()) :
    ∃ mid, (superPut env fuel w b super forceWrite).world.trace =
        w.trace ++ [.superPack super b, .blockDirty b] ++ mid ++ [.blockPut b] ∧
      ∀ e ∈ mid, e.isBlockPut = false ∧ e.isWriteIO = true := by
  generalize ho : superPut env fuel w b super forceWrite = o at h
  unfold superPut at ho
  simp only at ho
  split at ho
  · split at ho
    · next u w1 hw =>
      obtain ⟨new1, h1, h2⟩ := superPutWrite_calls env b fuel
        (({ w with super := super }.log (.superPack super b)).log (.blockDirty b))
      rw [hw] at h1
      split at ho
      · next u2 w2 hw2 =>
        subst ho
        obtain ⟨new2, h3, h4⟩ := superPutWait_trace env b fuel w1
        rw [hw2] at h3
        refine ⟨new1 ++ new2, ?_, ?_⟩
        · simp only [Outcome.world, World.log_trace] at h1 h3 ⊢
          rw [h3, h1]
          simp [World.log]
        · intro e he
          rcases List.mem_append.1 he with he | he
          · exact h2 e he
          · rw [h4 e he]
            exact ⟨rfl, rfl⟩
      · subst ho
        simp [Outcome.ret] at h
      · subst ho
        simp [Outcome.ret] at h
    · subst ho
      simp [Outcome.ret] at h
    · subst ho
      simp [Outcome.ret] at h
  · subst ho
    exact ⟨[], by simp [Outcome.world, World.log], by simp⟩

/-- C26, what the code does: when `bumpEpoch` returns 1, the calls of
`blockPut` it has made are `blockPut(b)` on the new root block and then
`blockPut(bs)` on the super-block (the old root block `b0` was handed to
`blockCopy`); but when `superGet` fails after `blockCopy` has returned the new
root block `b`, `bumpEpoch` returns 0 and no `blockPut(b)` has been made: the
only calls after `blockDirty(b)` are those of `superGet`. -/
theorem bumpEpoch_block_puts (env : Env) (fuel : Nat) (w : World) (doarchive : Int) :
    ((bumpEpoch env fuel w doarchive).ret = some 1 →
      ∃ (r : Source) (b0 b bs : Block) (new : List Event),
        w.fs.source = some r ∧
        env.cacheGlobal w.trace r.score BtDir RootTag env.OReadOnly = some b0 ∧
        env.blockCopy (w.trace ++ [.cacheGlobal r.score BtDir RootTag env.OReadOnly])
          b0 RootTag (u32 (w.fs.ehi + 1)) w.fs.elo = some b ∧
        (bumpEpoch env fuel w doarchive).world.trace = w.trace ++ new ∧
        new.filter Event.isBlockPut = [.blockPut b, .blockPut bs]) ∧
    (∀ (r : Source) (b0 b : Block) (w1 : World),
      w.fs.source = some r →
      env.cacheGlobal w.trace r.score BtDir RootTag env.OReadOnly = some b0 →
      env.blockCopy (w.trace ++ [.cacheGlobal r.score BtDir RootTag env.OReadOnly])
        b0 RootTag (u32 (w.fs.ehi + 1)) w.fs.elo = some b →
      superGet env
        ((((w.log (.cacheGlobal r.score BtDir RootTag env.OReadOnly)).log
          (.blockCopy b0 RootTag (u32 (w.fs.ehi + 1)) w.fs.elo)).log
          (.entryPack (bumpEntry env b0) b 1)).log (.blockDirty b)) = (none, w1) →
      bumpEpoch env fuel w doarchive = .done 0 w1 ∧
      (w1.trace = w.trace ++ [.cacheGlobal r.score BtDir RootTag env.OReadOnly,
          .blockCopy b0 RootTag (u32 (w.fs.ehi + 1)) w.fs.elo,
          .entryPack (bumpEntry env b0) b 1, .blockDirty b,
          .cacheLocal PartSuper 0 env.OReadWrite] ∨
       ∃ bs, w1.trace = w.trace ++ [.cacheGlobal r.score BtDir RootTag env.OReadOnly,
          .blockCopy b0 RootTag (u32 (w.fs.ehi + 1)) w.fs.elo,
          .entryPack (bumpEntry env b0) b 1, .blockDirty b,
          .cacheLocal PartSuper 0 env.OReadWrite, .superUnpack bs, .blockPut bs])) := by
  constructor
  · intro h
    generalize ho : bumpEpoch env fuel w doarchive = o at h
    unfold bumpEpoch at ho
    split at ho
    · subst ho
      simp [Outcome.ret] at h
    · next r hsrc =>
      simp only [World.log_fs, World.log_trace] at ho
      split at ho
      · subst ho
        simp [Outcome.ret] at h
      · next b0 hcg =>
        split at ho
        · subst ho
          simp [Outcome.ret] at h
        · next b hbc =>
          split at ho
          · subst ho
            simp [Outcome.ret] at h
          · next bs sup w1 hsg =>
            obtain ⟨hcl, hsup, hw1⟩ := superGet_some _ _ _ _ _ hsg
            subst hw1
            subst hsup
            simp only [World.log_fs, World.log_trace, World.log_super, World.log_err] at ho
            split at ho
            · next u w2 hsp =>
              subst ho
              obtain ⟨mid, h1, h2⟩ := superPut_puts env fuel _ bs _ 1 (by rw [hsp]; rfl)
              rw [hsp] at h1
              simp only [Outcome.world] at h1 ⊢
              have hm : mid.filter Event.isBlockPut = [] :=
                List.filter_eq_nil_iff.2 (fun e he => by simp [(h2 e he).1])
              simp only [World.log_trace, List.append_assoc] at h1
              refine ⟨r, b0, b, bs, _, hsrc, hcg, hbc, h1, ?_⟩
              simp [List.filter_cons, List.filter_append, Event.isBlockPut, hm]
            · subst ho
              simp [Outcome.ret] at h
            · subst ho
              simp [Outcome.ret] at h
  · intro r b0 b w1 hsrc hcg hbc hsg
    constructor
    · unfold bumpEpoch
      simp only [hsrc, hcg, World.log_fs, World.log_trace, hbc, hsg]
    · rcases superGet_none env _ w1 hsg with ⟨_, h⟩ | ⟨bs, _, h⟩
      · left
        rw [h]
        simp [World.log]
      · right
        refine ⟨bs, ?_⟩
        rw [h]
        simp [World.log]

/-- Witness for C26: in `okWorld`, `bumpEpoch` returns 1 after `blockPut` on
the new root block and on the super-block. -/
theorem bumpEpoch_block_puts_witness :
    (bumpEpoch okEnv 1 okWorld 0).ret = some 1 ∧
      (bumpEpoch okEnv 1 okWorld 0).world.trace.filter Event.isBlockPut =
        [.blockPut { part := 3, addr := 101, score := [101], l := ⟨8, 1, 1, 6, 0⟩ },
          .blockPut okBlock] := by
  refine ⟨by decide, ?_⟩
  obtain ⟨r, b0, b, bs, new, _, _, _, h4, h5⟩ :=
    (bumpEpoch_block_puts okEnv 1 okWorld 0).1 (by decide)
  decide

/-- C26, a run that shows the divergence: with a cache that cannot give the
super-block, `bumpEpoch` gets the new root block from `blockCopy`, packs entry
1 into it, marks it dirty, and returns 0 without any `blockPut`. -/
theorem bumpEpoch_keeps_root :
    (bumpEpoch noSuperEnv 1 okWorld 0).ret = some 0 ∧
      (bumpEpoch noSuperEnv 1 okWorld 0).world.trace =
        [.cacheGlobal [7] BtDir RootTag 0,
          .blockCopy { part := 3, addr := 7, score := [7], l := ⟨8, 1, 1, 5, 0⟩ } RootTag 6 2,
          .entryPack (bumpEntry noSuperEnv
              { part := 3, addr := 7, score := [7], l := ⟨8, 1, 1, 5, 0⟩ })
            { part := 3, addr := 101, score := [101], l := ⟨8, 1, 1, 6, 0⟩ } 1,
          .blockDirty { part := 3, addr := 101, score := [101], l := ⟨8, 1, 1, 6, 0⟩ },
          .cacheLocal PartSuper 0 1] ∧
      (bumpEpoch noSuperEnv 1 okWorld 0).world.trace.filter Event.isBlockPut = [] := by
  decide

/-! ## The paths of `fsSnapshot` -/

theorem fsSnapshot_publish (env : Env) (fuel : Nat) (w : World) (doarchive : Int)
    (src dst : File) (r : Int) (wb w3 : World)
    (hmode : w.fs.mode = env.OReadWrite)
    (hsrc : env.fileOpen (w.trace ++ [.vtLock .elk]) "/active" = some src)
    (hb : bumpEpoch env fuel ((w.log (.vtLock .elk)).log (.fileOpen "/active")) 0 =
      .done r wb)
    (hr : r ≠ 0)
    (hwalk : env.fileWalkSources wb.trace src = true)
    (hdst : fileOpenSnapshot env fuel ((wb.log (.fileWalkSources src)).log (.cacheFlush 1))
      doarchive = .done (some dst) w3) :
    fsSnapshot env fuel w doarchive = fsSnapshotPublish env fuel w3 src dst doarchive := by
  unfold fsSnapshot fsSnapshotPublish
  rw [if_neg (by simp [hmode])]
  simp only [World.log_trace, hsrc, hb, hr, if_false, hwalk, Bool.true_eq_false, hdst]

theorem fsSnapshot_success (env : Env) (fuel : Nat) (w : World) (doarchive : Int)
    (h : (fsSnapshot env fuel w doarchive).ret = some 1) :
    ∃ (src dst : File) (r : Int) (wb w3 : World),
      w.fs.mode = env.OReadWrite ∧
      env.fileOpen (w.trace ++ [.vtLock .elk]) "/active" = some src ∧
      bumpEpoch env fuel ((w.log (.vtLock .elk)).log (.fileOpen "/active")) 0 = .done r wb ∧
      r ≠ 0 ∧
      env.fileWalkSources wb.trace src = true ∧
      fileOpenSnapshot env fuel ((wb.log (.fileWalkSources src)).log (.cacheFlush 1))
        doarchive = .done (some dst) w3 ∧
      env.fileSnapshot w3.trace dst src (u32 (w3.fs.ehi + 2 ^ 32 - 1)) doarchive = true := by
  have hE : ∀ (w1 : World) (a b : Option File), (fsSnapshotErr w1 a b).ret ≠ some 1 := by
    intro w1 a b
    rw [(fsSnapshotErr_quiet w1 a b).2]
    simp
  generalize ho : fsSnapshot env fuel w doarchive = o at h
  unfold fsSnapshot at ho
  split at ho
  · subst ho
    simp [Outcome.ret] at h
  · next hmode =>
    dsimp only at ho
    split at ho
    · subst ho
      exact absurd h (hE _ _ _)
    · next src hsrc =>
      split at ho
      · subst ho
        simp [Outcome.ret] at h
      · subst ho
        simp [Outcome.ret] at h
      · next r wb hb =>
        split at ho
        · subst ho
          exact absurd h (hE _ _ _)
        · next hr =>
          split at ho
          · subst ho
            exact absurd h (hE _ _ _)
          · next hwalk =>
            split at ho
            · subst ho
              simp [Outcome.ret] at h
            · subst ho
              simp [Outcome.ret] at h
            · subst ho
              exact absurd h (hE _ _ _)
            · next dst w3 hdst =>
              refine ⟨src, dst, r, wb, w3, by simpa using hmode, by simpa using hsrc, hb, hr,
                by simpa using hwalk, hdst, ?_⟩
              split at ho
              · subst ho
                exact absurd h (hE _ _ _)
              · next hs => simpa using hs

theorem isWriteIO_isBlockCall (e : Event) (h : e.isWriteIO = true) : e.isBlockCall = true := by
  cases e <;> first | rfl | simp [Event.isWriteIO] at h

theorem isBlockCall_not_step (e : Event) (h : e.isBlockCall = true) :
    e.isStep = false ∧ e.isCreate = false := by
  cases e <;> first | exact ⟨rfl, rfl⟩ | simp [Event.isBlockCall] at h

theorem isPlain_not_step (e : Event) (h : e.isPlain = true) : e.isStep = false := by
  cases e <;> first | rfl | simp [Event.isPlain, Event.isInner] at h

theorem superGet_blocks (env : Env) (w : World) :
    Grows (fun e => e.isBlockCall = true) w (superGet env w).2 := by
  have g0 := (Grows.grefl (fun e => e.isBlockCall = true) w).glog
    (.cacheLocal PartSuper 0 env.OReadWrite) rfl
  unfold superGet
  simp only
  split
  · exact g0
  · next b hb =>
    split
    · exact g0.glog (.superUnpack b) rfl
    · exact (g0.glog (.superUnpack b) rfl).glog (.blockPut b) rfl

theorem superGet_blocks_of_eq {env : Env} {w w1 : World} {r : Option (Block × Super)}
    (h : superGet env w = (r, w1)) : Grows (fun e => e.isBlockCall = true) w w1 := by
  have h1 := superGet_blocks env w
  rw [h] at h1
  exact h1

theorem superPut_blocks (env : Env) (fuel : Nat) (w : World) (b : Block) (super : Super)
    (forceWrite : Int) :
    Grows (fun e => e.isBlockCall = true) w (superPut env fuel w b super forceWrite).world := by
  obtain ⟨_, _, _, new, h1, h2⟩ := superPut_quiet env fuel w b super forceWrite
  refine ⟨[.superPack super b, .blockDirty b] ++ new, ?_, ?_⟩
  · rw [h1]
    simp [World.log]
  · intro e he
    rcases List.mem_append.1 he with he | he
    · simp only [List.mem_cons, List.mem_singleton, List.not_mem_nil, or_false] at he
      rcases he with he | he <;> subst he <;> rfl
    · exact isWriteIO_isBlockCall e (h2 e he)

theorem bumpEpoch_blocks (env : Env) (fuel : Nat) (w : World) (doarchive : Int) :
    Grows (fun e => e.isBlockCall = true) w (bumpEpoch env fuel w doarchive).world := by
  have g0 := Grows.grefl (fun e => e.isBlockCall = true) w
  generalize ho : bumpEpoch env fuel w doarchive = o
  unfold bumpEpoch at ho
  split at ho
  · subst ho
    exact g0
  · next r hsrc =>
    simp only [World.log_fs, World.log_trace] at ho
    have g1 := g0.glog (.cacheGlobal r.score BtDir RootTag env.OReadOnly) rfl
    split at ho
    · subst ho
      exact g1
    · next b0 hcg =>
      have g2 := g1.glog (.blockCopy b0 RootTag (u32 (w.fs.ehi + 1)) w.fs.elo) rfl
      split at ho
      · subst ho
        exact g2
      · next b hbc =>
        have g4 := (g2.glog (.entryPack (bumpEntry env b0) b 1) rfl).glog (.blockDirty b) rfl
        split at ho
        · next w1 hsg =>
          subst ho
          exact g4.gtrans (superGet_blocks_of_eq hsg)
        · next bs sup w1 hsg =>
          have g5 := g4.gtrans (superGet_blocks_of_eq hsg)
          have key : ∀ (W : World) (S : Super) (ou : Outcome Unit), W.trace = w1.trace ++
              [.blockDependency bs b 0 (env.localToGlobal sup.active), .blockPut b] →
              superPut env fuel W bs S 1 = ou →
              Grows (fun e => e.isBlockCall = true) w ou.world := by
            intro W S ou hW hou
            subst hou
            refine Grows.gtrans ?_ (superPut_blocks env fuel W bs S 1)
            obtain ⟨new, h1, h2⟩ := g5
            refine ⟨new ++ [.blockDependency bs b 0 (env.localToGlobal sup.active),
              .blockPut b], by rw [hW, h1, List.append_assoc], ?_⟩
            intro e he
            rcases List.mem_append.1 he with he | he
            · exact h2 e he
            · simp only [List.mem_cons, List.mem_singleton, List.not_mem_nil, or_false] at he
              rcases he with he | he <;> subst he <;> rfl
          split at ho
          · next u w2 hsp =>
            subst ho
            refine key _ _ _ ?_ hsp
            simp [World.log]
          · next w2 hsp =>
            subst ho
            refine key _ _ _ ?_ hsp
            simp [World.log]
          · next w2 hsp =>
            subst ho
            refine key _ _ _ ?_ hsp
            simp [World.log]

theorem bumpEpoch_blocks_of_eq {env : Env} {fuel : Nat} {w : World} {doarchive : Int}
    {o : Outcome Int} (h : bumpEpoch env fuel w doarchive = o) :
    Grows (fun e => e.isBlockCall = true) w o.world :=
  h ▸ bumpEpoch_blocks env fuel w doarchive

theorem snapNameLoop_done_create (env : Env) (dir : File) (base : String) :
    ∀ (fuel : Nat) (n : Int) (buf : String) (w w2 : World) (f : Option File),
      snapNameLoop env dir base fuel n buf w = .done f w2 →
      ∃ pre name, w2.trace = w.trace ++ pre ++
        [.fileCreate dir name (env.ModeDir ||| env.ModeSnapshot ||| 0o555) "adm"] := by
  intro fuel
  induction fuel with
  | zero =>
    intro n buf w w2 f h
    simp [snapNameLoop] at h
  | succ k ih =>
    intro n buf w w2 f h
    rw [snapNameLoop] at h
    simp only at h
    split at h
    · next f1 hf1 =>
      obtain ⟨pre, name, hp⟩ := ih _ _ _ _ _ h
      refine ⟨[.fileWalk dir
        (if n ≠ 0 then snprint30 (base ++ "." ++ toString n) else buf), .fileDecRef f1] ++ pre,
        name, ?_⟩
      rw [hp]
      simp [World.log]
    · injection h with h1 h2
      subst h2
      exact ⟨[.fileWalk dir (if n ≠ 0 then snprint30 (base ++ "." ++ toString n) else buf)],
        (if n ≠ 0 then snprint30 (base ++ "." ++ toString n) else buf), by simp [World.log]⟩

theorem snapNameLoop_leaf {env : Env} {dir : File} {base : String} {fuel : Nat} {n : Int}
    {buf : String} {w0 w w3 : World} {dst : File}
    (q : Quiet Event.isPlain w0 w)
    (ho : (match snapNameLoop env dir base fuel n buf w with
      | .done f w => Outcome.done f (w.log (.fileDecRef dir))
      | .hang w => .hang w
      | .abort w => .abort w) = .done (some dst) w3) :
    ∃ F, w3.trace = w0.trace ++ F ∧ (∀ e ∈ F, e.isPlain = true) ∧
      ∃ d name, Event.fileCreate d name (env.ModeDir ||| env.ModeSnapshot ||| 0o555) "adm" ∈ F := by
  split at ho
  · next f2 w2 hl =>
    injection ho with h1 h2
    subst h2
    obtain ⟨_, _, _, F1, hF1, hP1⟩ := q
    obtain ⟨_, _, _, F2, hF2, hP2⟩ := snapNameLoop_quiet_of_eq hl
    obtain ⟨pre, name, hp⟩ := snapNameLoop_done_create env dir base _ _ _ _ _ _ hl
    simp only [Outcome.world] at hF2
    refine ⟨F1 ++ F2 ++ [.fileDecRef dir], ?_, ?_, dir, name, ?_⟩
    · simp [World.log, hF2, hF1]
    · intro e he
      rcases List.mem_append.1 he with he | he
      · rcases List.mem_append.1 he with he | he
        · exact hP1 e he
        · exact hP2 e he
      · rw [List.mem_singleton.1 he]
        rfl
    · have h3 : F2 = pre ++
          [.fileCreate dir name (env.ModeDir ||| env.ModeSnapshot ||| 0o555) "adm"] := by
        have := hF2.symm.trans hp
        rw [List.append_assoc] at this
        exact List.append_cancel_left this
      rw [h3]
      simp
  · exact Outcome.noConfusion ho
  · exact Outcome.noConfusion ho

theorem fileOpenSnapshot_calls (env : Env) (fuel : Nat) (w w3 : World) (doarchive : Int)
    (dst : File) (h : fileOpenSnapshot env fuel w doarchive = .done (some dst) w3) :
    ∃ F, w3.trace =
        w.trace ++ .fileOpen (if doarchive ≠ 0 then "/archive" else "/snapshot") :: F ∧
      (∀ e ∈ F, e.isPlain = true) ∧
      ∃ d name, Event.fileCreate d name (env.ModeDir ||| env.ModeSnapshot ||| 0o555) "adm" ∈ F := by
  have fin : ∀ (root : String), (∃ F, w3.trace = (w.log (.fileOpen root)).trace ++ F ∧
      (∀ e ∈ F, e.isPlain = true) ∧
      ∃ d name, Event.fileCreate d name (env.ModeDir ||| env.ModeSnapshot ||| 0o555) "adm" ∈ F) →
      ∃ F, w3.trace = w.trace ++ .fileOpen root :: F ∧ (∀ e ∈ F, e.isPlain = true) ∧
      ∃ d name, Event.fileCreate d name (env.ModeDir ||| env.ModeSnapshot ||| 0o555) "adm" ∈ F := by
    rintro root ⟨F, h1, h2, h3⟩
    exact ⟨F, by simpa [World.log] using h1, h2, h3⟩
  unfold fileOpenSnapshot at h
  split at h
  · next hd =>
    rw [if_pos hd]
    apply fin
    dsimp only at h
    split at h
    · simp at h
    · next dir hdir =>
      have q1 : Quiet Event.isPlain (w.log (.fileOpen "/archive"))
          ((w.log (.fileOpen "/archive")).log .localtime) := Quiet.qlog _ _ rfl
      split at h
      · simp at h
      · next dir2 hd2 =>
        exact snapNameLoop_leaf (walkOrCreate_step env _ _ _ q1) h
  · next hd =>
    rw [if_neg hd]
    apply fin
    dsimp only at h
    split at h
    · simp at h
    · next dir hdir =>
      have q1 : Quiet Event.isPlain (w.log (.fileOpen "/snapshot"))
          ((w.log (.fileOpen "/snapshot")).log .localtime) := Quiet.qlog _ _ rfl
      split at h
      · simp at h
      · next dir2 hd2 =>
        split at h
        · simp at h
        · next dir3 hd3 =>
          exact snapNameLoop_leaf
            (walkOrCreate_step env _ _ _ (walkOrCreate_step env _ _ _ q1)) h

theorem saveQid_calls (env : Env) (w : World) :
    (saveQid env w).2.fs = w.fs ∧ (saveQid env w).2.super = w.super ∧
    (saveQid env w).2.err = w.err ∧
    ((∃ bs, env.cacheLocal w.trace PartSuper 0 env.OReadWrite = some bs ∧
        (saveQid env w).2.trace = w.trace ++ [.cacheLocal PartSuper 0 env.OReadWrite,
          .superUnpack bs, .blockPut bs, .fileSetQidSpace w.fs.file 0 w.super.qid] ∧
        (saveQid env w).1 =
          if env.fileSetQidSpace (w.trace ++ [.cacheLocal PartSuper 0 env.OReadWrite,
            .superUnpack bs, .blockPut bs]) w.fs.file 0 w.super.qid = true then 1 else 0) ∨
     ((saveQid env w).1 = 0 ∧
        ((saveQid env w).2.trace = w.trace ++ [.cacheLocal PartSuper 0 env.OReadWrite] ∨
          ∃ bs, (saveQid env w).2.trace = w.trace ++ [.cacheLocal PartSuper 0 env.OReadWrite,
            .superUnpack bs, .blockPut bs]))) := by
  obtain ⟨h1, h2, h3, _⟩ := saveQid_quiet env w
  refine ⟨h1, h2, h3, ?_⟩
  unfold saveQid
  split
  · next w1 hsg =>
    right
    refine ⟨rfl, ?_⟩
    rcases superGet_none env w w1 hsg with ⟨_, h⟩ | ⟨bs, _, h⟩
    · left
      rw [h]
      rfl
    · right
      exact ⟨bs, by rw [h]; simp [World.log]⟩
  · next b sup w1 hsg =>
    left
    obtain ⟨hcl, hsup, hw1⟩ := superGet_some _ _ _ _ _ hsg
    subst hw1
    subst hsup
    refine ⟨b, hcl, ?_, ?_⟩
    · simp only
      split <;> simp [World.log]
    · simp only [World.log_trace, World.log_fs, List.append_assoc, List.singleton_append,
        List.cons_append, List.nil_append]
      split <;> simp_all

theorem fsSnapshotPublish_success (env : Env) (fuel : Nat) (w3 : World) (src dst : File)
    (doarchive : Int) (h : (fsSnapshotPublish env fuel w3 src dst doarchive).ret = some 1) :
    env.fileSnapshot w3.trace dst src (u32 (w3.fs.ehi + 2 ^ 32 - 1)) doarchive = true ∧
    (doarchive = 0 →
      fsSnapshotPublish env fuel w3 src dst doarchive =
        fsSnapshotEnd (((w3.log (.fileSnapshot dst src (u32 (w3.fs.ehi + 2 ^ 32 - 1))
          doarchive)).log (.fileDecRef src)).log (.fileDecRef dst)) doarchive) ∧
    (doarchive ≠ 0 →
      (saveQid env (((w3.log (.fileSnapshot dst src (u32 (w3.fs.ehi + 2 ^ 32 - 1))
          doarchive)).log (.fileDecRef src)).log (.fileDecRef dst))).1 ≠ 0 ∧
      ∃ w7, bumpEpoch env fuel
          (saveQid env (((w3.log (.fileSnapshot dst src (u32 (w3.fs.ehi + 2 ^ 32 - 1))
            doarchive)).log (.fileDecRef src)).log (.fileDecRef dst))).2 1 = .done 1 w7 ∧
        fsSnapshotPublish env fuel w3 src dst doarchive = fsSnapshotEnd w7 doarchive) := by
  have hE : ∀ (w1 : World) (a b : Option File), (fsSnapshotErr w1 a b).ret ≠ some 1 := by
    intro w1 a b
    rw [(fsSnapshotErr_quiet w1 a b).2]
    simp
  generalize ho : fsSnapshotPublish env fuel w3 src dst doarchive = o at h
  unfold fsSnapshotPublish at ho
  dsimp only at ho
  split at ho
  · subst ho
    exact absurd h (hE _ _ _)
  · next hs =>
    refine ⟨by simpa using hs, ?_, ?_⟩
    · intro hd
      rw [if_neg (by simp [hd])] at ho
      exact ho.symm
    · intro hd
      rw [if_pos hd] at ho
      split at ho
      · subst ho
        exact absurd h (hE _ _ _)
      · next hq =>
        refine ⟨hq, ?_⟩
        split at ho
        · subst ho
          simp [Outcome.ret] at h
        · subst ho
          simp [Outcome.ret] at h
        · next r7 w7 hb2 =>
          split at ho
          · subst ho
            exact absurd h (hE _ _ _)
          · next hr7 =>
            have hr1 : r7 = 1 := by
              rcases bumpEpoch_cases_of_eq hb2 with ⟨_, hr⟩ | ⟨_, hr⟩
              · simp [Outcome.ret] at hr
                exact absurd hr hr7
              · simpa [Outcome.ret] using hr
            subst hr1
            exact ⟨w7, hb2, ho.symm⟩

/-! ## Claim on the order of the phases of `fsSnapshot` -/

theorem fsSnapshotEnd_tail (w : World) (doarchive : Int) :
    ∃ tail, (fsSnapshotEnd w doarchive).world.trace = w.trace ++ tail ∧
      ∀ e ∈ tail, e.isStep = false ∧ e.isCreate = false := by
  unfold fsSnapshotEnd
  simp only
  split
  · exact ⟨[.vtUnlock .elk, .archKick], by simp [Outcome.world, World.log],
      by simp [Event.isStep, Event.isCreate]⟩
  · exact ⟨[.vtUnlock .elk], by simp [Outcome.world, World.log],
      by simp [Event.isStep, Event.isCreate]⟩

theorem fsSnapshotErr_tail (w : World) (src dst : Option File) :
    ∃ tail, (fsSnapshotErr w src dst).world.trace = w.trace ++ tail ∧
      ∀ e ∈ tail, e.isStep = false ∧ e.isCreate = false := by
  unfold fsSnapshotErr
  cases src with
  | none =>
    cases dst with
    | none =>
      exact ⟨[.vtUnlock .elk], by simp [Outcome.world, World.log],
        by simp [Event.isStep, Event.isCreate]⟩
    | some d =>
      exact ⟨[.fileDecRef d, .vtUnlock .elk], by simp [Outcome.world, World.log],
        by simp [Event.isStep, Event.isCreate]⟩
  | some s =>
    cases dst with
    | none =>
      exact ⟨[.fileDecRef s, .vtUnlock .elk], by simp [Outcome.world, World.log],
        by simp [Event.isStep, Event.isCreate]⟩
    | some d =>
      exact ⟨[.fileDecRef s, .fileDecRef d, .vtUnlock .elk],
        by simp [Outcome.world, World.log], by simp [Event.isStep, Event.isCreate]⟩

theorem saveQid_no_step (env : Env) (w : World) :
    ∃ new, (saveQid env w).2.trace = w.trace ++ new ∧
      ∀ e ∈ new, e.isStep = false ∧ e.isCreate = false := by
  rcases (saveQid_calls env w).2.2.2 with ⟨bs, _, h, _⟩ | ⟨_, h | ⟨bs, h⟩⟩
  · exact ⟨_, h, by simp [Event.isStep, Event.isCreate]⟩
  · exact ⟨_, h, by simp [Event.isStep, Event.isCreate]⟩
  · exact ⟨_, h, by simp [Event.isStep, Event.isCreate]⟩

/-- C21: in every run of `fsSnapshot` that returns 1, the calls made are, in
this order: `vtLock` and `fileOpen("/active")`; the calls `B` of
`bumpEpoch(fs, 0)`, all of them calls on blocks, among them `blockCopy` at
epoch `fs->ehi+1`; `fileWalkSources(src)`; `cacheFlush(cache, 1)`; the calls
of `fileOpenSnapshot`, which start with `fileOpen` of `/archive` or
`/snapshot` and hold the `fileCreate` of the snapshot directory;
`fileSnapshot(dst, src, ...)`; and calls `post` that are none of
`fileWalkSources`, `cacheFlush`, `fileSnapshot` and `fileCreate`.  So no
`fileCreate` precedes the flush, and the flush follows the bump and the
rewalk.  When the first `bumpEpoch` returns 0 or `fileWalkSources` fails,
`fsSnapshot` returns 0 and has made no `cacheFlush`, no `fileCreate` and no
`fileSnapshot`: its calls are `vtLock` and `fileOpen("/active")`, the calls `B`
of `bumpEpoch`, all of them calls on blocks, `fileWalkSources(src)` if the bump
returned 1, and then `fileDecRef(src)` and `vtUnlock`. -/
theorem fsSnapshot_phases (env : Env) (fuel : Nat) (w : World) (doarchive : Int) :
    ((fsSnapshot env fuel w doarchive).ret = some 1 →
      ∃ (src dst : File) (ep : Nat) (b0 : Block) (B F post : List Event),
        (fsSnapshot env fuel w doarchive).world.trace =
          w.trace ++ [.vtLock .elk, .fileOpen "/active"] ++ B ++
            [.fileWalkSources src, .cacheFlush 1] ++
            .fileOpen (if doarchive ≠ 0 then "/archive" else "/snapshot") :: F ++
            .fileSnapshot dst src ep doarchive :: post ∧
        (∀ e ∈ B, e.isBlockCall = true ∧ e.isStep = false ∧ e.isCreate = false) ∧
        Event.blockCopy b0 RootTag (u32 (w.fs.ehi + 1)) w.fs.elo ∈ B ∧
        (∀ e ∈ F, e.isStep = false) ∧
        (∃ d name,
          Event.fileCreate d name (env.ModeDir ||| env.ModeSnapshot ||| 0o555) "adm" ∈ F) ∧
        (∀ e ∈ post, e.isStep = false ∧ e.isCreate = false)) ∧
    (∀ (src : File) (r : Int) (wb : World),
      w.fs.mode = env.OReadWrite →
      env.fileOpen (w.trace ++ [.vtLock .elk]) "/active" = some src →
      bumpEpoch env fuel ((w.log (.vtLock .elk)).log (.fileOpen "/active")) 0 = .done r wb →
      (r = 0 ∨ env.fileWalkSources wb.trace src = false) →
      (fsSnapshot env fuel w doarchive).ret = some 0 ∧
      (∃ new, (fsSnapshot env fuel w doarchive).world.trace = w.trace ++ new ∧
        ∀ e ∈ new, e.isCreate = false ∧ (e.isStep = true → e = .fileWalkSources src)) ∧
      ∃ B, wb.trace = w.trace ++ [.vtLock .elk, .fileOpen "/active"] ++ B ∧
        (∀ e ∈ B, e.isBlockCall = true) ∧
        (fsSnapshot env fuel w doarchive).world.trace =
          wb.trace ++ (if r = 0 then [] else [.fileWalkSources src]) ++
            [.fileDecRef src, .vtUnlock .elk]) := by
  constructor
  · intro h
    obtain ⟨src, dst, r, wb, w3, hmode, hsrc, hb, hr, hwalk, hdst, hsnap⟩ :=
      fsSnapshot_success env fuel w doarchive h
    have hpub := fsSnapshot_publish env fuel w doarchive src dst r wb w3 hmode hsrc hb hr
      hwalk hdst
    rw [hpub] at h ⊢
    have hr1 : r = 1 := by
      rcases bumpEpoch_cases_of_eq hb with ⟨_, hr0⟩ | ⟨_, hr0⟩
      · simp [Outcome.ret] at hr0
        exact absurd hr0 hr
      · simpa [Outcome.ret] using hr0
    subst hr1
    have hB : Bumped env ((w.log (.vtLock .elk)).log (.fileOpen "/active")) wb 0 := by
      rcases bumpEpoch_cases_of_eq hb with ⟨_, hr0⟩ | ⟨hB, _⟩
      · simp [Outcome.ret] at hr0
      · exact hB
    obtain ⟨rr, b0, b, bs, rest, _, _, _, _, _, _, _, hB7, hB8⟩ := hB
    obtain ⟨F, hF1, hF2, hF3⟩ := fileOpenSnapshot_calls env fuel _ w3 doarchive dst hdst
    have hpost : ∃ post, (fsSnapshotPublish env fuel w3 src dst doarchive).world.trace =
        w3.trace ++ .fileSnapshot dst src (u32 (w3.fs.ehi + 2 ^ 32 - 1)) doarchive :: post ∧
        ∀ e ∈ post, e.isStep = false ∧ e.isCreate = false := by
      obtain ⟨_, h0, h1⟩ := fsSnapshotPublish_success env fuel w3 src dst doarchive h
      by_cases hd : doarchive = 0
      · rw [h0 hd]
        obtain ⟨tail, ht1, ht2⟩ := fsSnapshotEnd_tail
          (((w3.log (.fileSnapshot dst src (u32 (w3.fs.ehi + 2 ^ 32 - 1)) doarchive)).log
            (.fileDecRef src)).log (.fileDecRef dst)) doarchive
        refine ⟨[.fileDecRef src, .fileDecRef dst] ++ tail, ?_, ?_⟩
        · rw [ht1]
          simp [World.log]
        · intro e he
          rcases List.mem_append.1 he with he | he
          · simp only [List.mem_cons, List.mem_singleton, List.not_mem_nil, or_false] at he
            rcases he with he | he <;> subst he <;> exact ⟨rfl, rfl⟩
          · exact ht2 e he
      · obtain ⟨_, w7, hb2, hend⟩ := h1 hd
        rw [hend]
        obtain ⟨tail, ht1, ht2⟩ := fsSnapshotEnd_tail w7 doarchive
        obtain ⟨q, hq1, hq2⟩ := saveQid_no_step env
          (((w3.log (.fileSnapshot dst src (u32 (w3.fs.ehi + 2 ^ 32 - 1)) doarchive)).log
            (.fileDecRef src)).log (.fileDecRef dst))
        obtain ⟨b2, hb21, hb22⟩ := bumpEpoch_blocks_of_eq hb2
        simp only [Outcome.world] at hb21
        refine ⟨[.fileDecRef src, .fileDecRef dst] ++ q ++ b2 ++ tail, ?_, ?_⟩
        · rw [ht1, hb21, hq1]
          simp [World.log]
        · intro e he
          rcases List.mem_append.1 he with he | he
          · rcases List.mem_append.1 he with he | he
            · rcases List.mem_append.1 he with he | he
              · simp only [List.mem_cons, List.mem_singleton, List.not_mem_nil,
                  or_false] at he
                rcases he with he | he <;> subst he <;> exact ⟨rfl, rfl⟩
              · exact hq2 e he
            · exact isBlockCall_not_step e (hb22 e he)
          · exact ht2 e he
    obtain ⟨post, hp1, hp2⟩ := hpost
    refine ⟨src, dst, u32 (w3.fs.ehi + 2 ^ 32 - 1), b0,
      bumpTrace env ((w.log (.vtLock .elk)).log (.fileOpen "/active")) rr b0 b bs 0 ++ rest,
      F, post, ?_, ?_, ?_, fun e he => isPlain_not_step e (hF2 e he), hF3, hp2⟩
    · rw [hp1, hF1]
      simp only [World.log_trace, hB7]
      simp [World.log]
    · intro e he
      have hbc : e.isBlockCall = true := by
        rcases List.mem_append.1 he with he | he
        · simp only [bumpTrace, List.mem_cons, List.mem_singleton, List.not_mem_nil,
            or_false] at he
          rcases he with he | he | he | he | he | he | he | he | he | he <;> subst he <;> rfl
        · exact isWriteIO_isBlockCall e (hB8 e he)
      exact ⟨hbc, isBlockCall_not_step e hbc⟩
    · simp [bumpTrace, World.log]
  · intro src r wb hmode hsrc hb hfail
    obtain ⟨B, hB1, hB2⟩ := bumpEpoch_blocks_of_eq hb
    simp only [Outcome.world] at hB1
    have hB3 : ∀ e ∈ B, e.isCreate = false ∧ (e.isStep = true → e = .fileWalkSources src) := by
      intro e he
      obtain ⟨h1, h2⟩ := isBlockCall_not_step e (hB2 e he)
      exact ⟨h2, fun h => by rw [h1] at h; exact absurd h (by simp)⟩
    unfold fsSnapshot
    rw [if_neg (by simp [hmode])]
    simp only [World.log_trace, hsrc, hb]
    by_cases hr : r = 0
    · rw [if_pos hr]
      refine ⟨rfl, ⟨[.vtLock .elk, .fileOpen "/active"] ++ B ++
        [.fileDecRef src, .vtUnlock .elk], ?_, ?_⟩, B, ?_, hB2, ?_⟩
      rotate_left 2
      · simp [World.log, hB1]
      · simp [fsSnapshotErr, Outcome.world, World.log, hB1, hr]
      · simp [fsSnapshotErr, Outcome.world, World.log, hB1]
      · intro e he
        rcases List.mem_append.1 he with he | he
        · rcases List.mem_append.1 he with he | he
          · simp only [List.mem_cons, List.mem_singleton, List.not_mem_nil, or_false] at he
            rcases he with he | he <;> subst he <;> simp [Event.isCreate, Event.isStep]
          · exact hB3 e he
        · simp only [List.mem_cons, List.mem_singleton, List.not_mem_nil, or_false] at he
          rcases he with he | he <;> subst he <;> simp [Event.isCreate, Event.isStep]
    · rw [if_neg hr]
      have hw : env.fileWalkSources wb.trace src = false := by
        rcases hfail with h | h
        · exact absurd h hr
        · exact h
      rw [if_pos hw]
      refine ⟨rfl, ⟨[.vtLock .elk, .fileOpen "/active"] ++ B ++
        [.fileWalkSources src, .fileDecRef src, .vtUnlock .elk], ?_, ?_⟩, B, ?_, hB2, ?_⟩
      rotate_left 2
      · simp [World.log, hB1]
      · simp [fsSnapshotErr, Outcome.world, World.log, hB1, hr]
      · simp [fsSnapshotErr, Outcome.world, World.log, hB1]
      · intro e he
        rcases List.mem_append.1 he with he | he
        · rcases List.mem_append.1 he with he | he
          · simp only [List.mem_cons, List.mem_singleton, List.not_mem_nil, or_false] at he
            rcases he with he | he <;> subst he <;> simp [Event.isCreate, Event.isStep]
          · exact hB3 e he
        · simp only [List.mem_cons, List.mem_singleton, List.not_mem_nil, or_false] at he
          rcases he with he | he | he <;> subst he <;> simp [Event.isCreate, Event.isStep]

set_option maxRecDepth 8192 in
/-- Witness for C21, on `okWorld`.  A temporary snapshot returns 1 and its
calls are in the order of the phases; of these, the flush, the rewalk, the
creations and the publication are `fileWalkSources`, `cacheFlush`, the three
`fileCreate` of `2026`, `1101` and `1858`, and `fileSnapshot`.  With a cache
that cannot give the super-block the first `bumpEpoch` returns 0, and with a
file tree whose `fileWalkSources` fails the rewalk fails: both snapshots return
0 without `cacheFlush`, `fileCreate` or `fileSnapshot`. -/
theorem fsSnapshot_phases_witness :
    ((fsSnapshot okEnv 1 okWorld 0).ret = some 1 ∧
      (∃ (src dst : File) (ep : Nat) (b0 : Block) (B F post : List Event),
        (fsSnapshot okEnv 1 okWorld 0).world.trace =
          okWorld.trace ++ [.vtLock .elk, .fileOpen "/active"] ++ B ++
            [.fileWalkSources src, .cacheFlush 1] ++
            .fileOpen (if (0 : Int) ≠ 0 then "/archive" else "/snapshot") :: F ++
            .fileSnapshot dst src ep 0 :: post ∧
        (∀ e ∈ B, e.isBlockCall = true ∧ e.isStep = false ∧ e.isCreate = false) ∧
        Event.blockCopy b0 RootTag (u32 (okWorld.fs.ehi + 1)) okWorld.fs.elo ∈ B ∧
        (∀ e ∈ F, e.isStep = false) ∧
        (∃ d name,
          Event.fileCreate d name (okEnv.ModeDir ||| okEnv.ModeSnapshot ||| 0o555) "adm" ∈ F) ∧
        (∀ e ∈ post, e.isStep = false ∧ e.isCreate = false)) ∧
      (fsSnapshot okEnv 1 okWorld 0).world.trace.filter (fun e => e.isStep || e.isCreate) =
        [.fileWalkSources 2, .cacheFlush 1, .fileCreate 2 "2026" 2147484013 "adm",
          .fileCreate 29 "1101" 2147484013 "adm", .fileCreate 32 "1858" 2155872621 "adm",
          .fileSnapshot 35 2 5 0]) ∧
    ((fsSnapshot noSuperEnv 1 okWorld 0).ret = some 0 ∧
      (fsSnapshot noSuperEnv 1 okWorld 0).world.trace.filter
        (fun e => e.isStep || e.isCreate) = [] ∧
      (fsSnapshot noSuperEnv 1 okWorld 0).world.trace.drop 7 =
        [.fileDecRef 2, .vtUnlock .elk]) ∧
    ((fsSnapshot noWalkEnv 1 okWorld 0).ret = some 0 ∧
      (fsSnapshot noWalkEnv 1 okWorld 0).world.trace.filter
        (fun e => e.isStep || e.isCreate) = [.fileWalkSources 2] ∧
      (fsSnapshot noWalkEnv 1 okWorld 0).world.trace.drop 14 =
        [.fileWalkSources 2, .fileDecRef 2, .vtUnlock .elk]) := by
  have h0 := (fsSnapshot_phases noSuperEnv 1 okWorld 0).2 2 0
    (bumpEpoch noSuperEnv 1 ((okWorld.log (.vtLock .elk)).log (.fileOpen "/active")) 0).world
    (by decide) (by decide) (by rfl) (Or.inl rfl)
  have h1 := (fsSnapshot_phases noWalkEnv 1 okWorld 0).2 2 1
    (bumpEpoch noWalkEnv 1 ((okWorld.log (.vtLock .elk)).log (.fileOpen "/active")) 0).world
    (by decide) (by decide) (by rfl) (Or.inr (by decide))
  exact ⟨⟨by decide, (fsSnapshot_phases okEnv 1 okWorld 0).1 (by decide), by decide⟩,
    ⟨h0.1, by decide, by decide⟩, ⟨h1.1, by decide, by decide⟩⟩

/-! ## Claim on `saveQid` in an archival snapshot -/

/-- C22 (amended): in an archival snapshot that returns 1, after
`fileSnapshot` and the two `fileDecRef` (world `w5`) and before the second
`bumpEpoch`, `saveQid` returns 1 having made exactly the calls `cacheLocal`
of the super-block, `superUnpack`, `blockPut` and
`fileSetQidSpace(fs->file, 0, qidMax)`, where `qidMax` is the `qid` field read
from the super-block, the one it had at the entry of `fsSnapshot`.  The
watermark goes from the super-block to the root file: `saveQid` leaves the
super-block and the `Fs` record as they were and packs nothing. -/
theorem saveQid_reads_watermark (env : Env) (fuel : Nat) (w : World) (doarchive : Int)
    (hd : doarchive ≠ 0) (h : (fsSnapshot env fuel w doarchive).ret = some 1) :
    ∃ (src dst : File) (w3 w5 w7 : World) (bs : Block),
      w5 = ((w3.log (.fileSnapshot dst src (u32 (w3.fs.ehi + 2 ^ 32 - 1)) doarchive)).log
        (.fileDecRef src)).log (.fileDecRef dst) ∧
      w5.super.qid = w.super.qid ∧
      (saveQid env w5).1 = 1 ∧
      (saveQid env w5).2.trace = w5.trace ++ [.cacheLocal PartSuper 0 env.OReadWrite,
        .superUnpack bs, .blockPut bs, .fileSetQidSpace w5.fs.file 0 w.super.qid] ∧
      (saveQid env w5).2.super = w5.super ∧
      (saveQid env w5).2.fs = w5.fs ∧
      bumpEpoch env fuel (saveQid env w5).2 1 = .done 1 w7 ∧
      fsSnapshot env fuel w doarchive = fsSnapshotEnd w7 doarchive := by
  obtain ⟨src, dst, r, wb, w3, hmode, hsrc, hb, hr, hwalk, hdst, hsnap⟩ :=
    fsSnapshot_success env fuel w doarchive h
  have hpub := fsSnapshot_publish env fuel w doarchive src dst r wb w3 hmode hsrc hb hr
    hwalk hdst
  rw [hpub] at h ⊢
  obtain ⟨_, _, h1⟩ := fsSnapshotPublish_success env fuel w3 src dst doarchive h
  obtain ⟨hq, w7, hb2, hend⟩ := h1 hd
  have hB : Bumped env ((w.log (.vtLock .elk)).log (.fileOpen "/active")) wb 0 := by
    rcases bumpEpoch_cases_of_eq hb with ⟨_, hr0⟩ | ⟨hB, _⟩
    · simp [Outcome.ret] at hr0
      exact absurd hr0 hr
    · exact hB
  obtain ⟨rr, b0, b, bs0, rest, _, _, _, _, _, hB6, _, _, _⟩ := hB
  have hF := fileOpenSnapshot_quiet_of_eq hdst
  have hsq : w3.super.qid = w.super.qid := by
    have h3 : w3.super = wb.super := hF.2.1
    rw [h3, hB6]
    simp [bumpSuper, World.log]
  obtain ⟨c1, c2, _, c4⟩ := saveQid_calls env
    (((w3.log (.fileSnapshot dst src (u32 (w3.fs.ehi + 2 ^ 32 - 1)) doarchive)).log
      (.fileDecRef src)).log (.fileDecRef dst))
  rcases c4 with ⟨bs, _, ht, hres⟩ | ⟨h0, _⟩
  · refine ⟨src, dst, w3, _, w7, bs, rfl, hsq, ?_, ?_, c2, c1, ?_, hend⟩
    · rw [hres] at hq ⊢
      split
      · rfl
      · next hn => rw [if_neg hn] at hq; exact absurd rfl hq
    · rw [ht]
      simp [World.log, hsq]
    · exact hb2
  · exact absurd h0 hq

theorem saveQid_reads_watermark_witness :
    (fsSnapshot okEnv 1 okWorld 1).ret = some 1 ∧
    ∃ (src dst : File) (w3 w5 w7 : World) (bs : Block),
      w5 = ((w3.log (.fileSnapshot dst src (u32 (w3.fs.ehi + 2 ^ 32 - 1)) 1)).log
        (.fileDecRef src)).log (.fileDecRef dst) ∧
      w5.super.qid = okWorld.super.qid ∧
      (saveQid okEnv w5).1 = 1 ∧
      (saveQid okEnv w5).2.trace = w5.trace ++ [.cacheLocal PartSuper 0 okEnv.OReadWrite,
        .superUnpack bs, .blockPut bs, .fileSetQidSpace w5.fs.file 0 okWorld.super.qid] ∧
      (saveQid okEnv w5).2.super = w5.super ∧
      (saveQid okEnv w5).2.fs = w5.fs ∧
      bumpEpoch okEnv 1 (saveQid okEnv w5).2 1 = .done 1 w7 ∧
      fsSnapshot okEnv 1 okWorld 1 = fsSnapshotEnd w7 1 :=
  ⟨by decide, saveQid_reads_watermark okEnv 1 okWorld 1 (by decide) (by decide)⟩

/-- C22, as stated, fails on the super-block `okSuper` (qid 100): `saveQid`
returns 1, its calls are the read of the super-block, its release and
`fileSetQidSpace(fs->file, 0, 100)`; it makes no `superPack`, `blockDirty` or
`blockWrite`, and the super-block is unchanged. -/
theorem saveQid_packs_nothing :
    (saveQid okEnv okWorld).1 = 1 ∧
    (saveQid okEnv okWorld).2.trace =
      [.cacheLocal PartSuper 0 1, .superUnpack okBlock, .blockPut okBlock,
        .fileSetQidSpace (some 1) 0 100] ∧
    (saveQid okEnv okWorld).2.super = okSuper ∧
    (saveQid okEnv okWorld).2.trace.filter Event.isPackOrWrite = [] := by
  refine ⟨by decide, by decide, rfl, by decide⟩

/-! ## Claim on the releases of `src` and `dst` in `fsSnapshot` -/

/-- C25 (the path on which it fails): in an archival snapshot in which
`fileSnapshot` has succeeded, `src` and `dst` are released by
`fileDecRef(src); fileDecRef(dst)`; when `saveQid` then returns 0, or the second
`bumpEpoch` returns 0, the code at `Err:` releases both a second time:
`fsSnapshot` returns 0 and its calls from `fileSnapshot` on are `fileSnapshot`,
`fileDecRef(src)`, `fileDecRef(dst)`, calls `mid` of `saveQid` and `bumpEpoch`
(none of them a `fileDecRef`), `fileDecRef(src)`, `fileDecRef(dst)`,
`vtUnlock`. -/
theorem fsSnapshot_double_release (env : Env) (fuel : Nat) (w : World) (doarchive : Int)
    (src dst : File) (r : Int) (wb w3 : World)
    (hmode : w.fs.mode = env.OReadWrite)
    (hsrc : env.fileOpen (w.trace ++ [.vtLock .elk]) "/active" = some src)
    (hb : bumpEpoch env fuel ((w.log (.vtLock .elk)).log (.fileOpen "/active")) 0 =
      .done r wb)
    (hr : r ≠ 0)
    (hwalk : env.fileWalkSources wb.trace src = true)
    (hdst : fileOpenSnapshot env fuel ((wb.log (.fileWalkSources src)).log (.cacheFlush 1))
      doarchive = .done (some dst) w3)
    (hsnap : env.fileSnapshot w3.trace dst src (u32 (w3.fs.ehi + 2 ^ 32 - 1)) doarchive = true)
    (hd : doarchive ≠ 0)
    (hfail : (saveQid env (((w3.log (.fileSnapshot dst src (u32 (w3.fs.ehi + 2 ^ 32 - 1))
          doarchive)).log (.fileDecRef src)).log (.fileDecRef dst))).1 = 0 ∨
      ∃ w7, bumpEpoch env fuel (saveQid env (((w3.log (.fileSnapshot dst src
          (u32 (w3.fs.ehi + 2 ^ 32 - 1)) doarchive)).log (.fileDecRef src)).log
          (.fileDecRef dst))).2 1 = .done 0 w7) :
    (fsSnapshot env fuel w doarchive).ret = some 0 ∧
    ∃ mid, (fsSnapshot env fuel w doarchive).world.trace =
        w3.trace ++ [.fileSnapshot dst src (u32 (w3.fs.ehi + 2 ^ 32 - 1)) doarchive,
          .fileDecRef src, .fileDecRef dst] ++ mid ++
          [.fileDecRef src, .fileDecRef dst, .vtUnlock .elk] ∧
      ∀ e ∈ mid, e.isBlockCall = true ∨ e = .fileSetQidSpace w3.fs.file 0 w3.super.qid := by
  rw [fsSnapshot_publish env fuel w doarchive src dst r wb w3 hmode hsrc hb hr hwalk hdst]
  obtain ⟨c1, c2, _, c4⟩ := saveQid_calls env
    (((w3.log (.fileSnapshot dst src (u32 (w3.fs.ehi + 2 ^ 32 - 1)) doarchive)).log
      (.fileDecRef src)).log (.fileDecRef dst))
  have hmid : ∃ q, (saveQid env (((w3.log (.fileSnapshot dst src (u32 (w3.fs.ehi + 2 ^ 32 - 1))
      doarchive)).log (.fileDecRef src)).log (.fileDecRef dst))).2.trace =
      w3.trace ++ [.fileSnapshot dst src (u32 (w3.fs.ehi + 2 ^ 32 - 1)) doarchive,
        .fileDecRef src, .fileDecRef dst] ++ q ∧
      ∀ e ∈ q, e.isBlockCall = true ∨ e = .fileSetQidSpace w3.fs.file 0 w3.super.qid := by
    rcases c4 with ⟨bs, _, ht, _⟩ | ⟨_, ht | ⟨bs, ht⟩⟩
    · refine ⟨[.cacheLocal PartSuper 0 env.OReadWrite, .superUnpack bs, .blockPut bs,
        .fileSetQidSpace w3.fs.file 0 w3.super.qid], ?_, ?_⟩
      · rw [ht]
        simp [World.log]
      · simp [Event.isBlockCall]
    · refine ⟨[.cacheLocal PartSuper 0 env.OReadWrite], ?_, ?_⟩
      · rw [ht]
        simp [World.log]
      · simp [Event.isBlockCall]
    · refine ⟨[.cacheLocal PartSuper 0 env.OReadWrite, .superUnpack bs, .blockPut bs], ?_, ?_⟩
      · rw [ht]
        simp [World.log]
      · simp [Event.isBlockCall]
  obtain ⟨q, hq1, hq2⟩ := hmid
  unfold fsSnapshotPublish
  simp only [hsnap, Bool.true_eq_false, if_false, if_pos hd]
  by_cases hq : (saveQid env (((w3.log (.fileSnapshot dst src (u32 (w3.fs.ehi + 2 ^ 32 - 1))
      doarchive)).log (.fileDecRef src)).log (.fileDecRef dst))).1 = 0
  · rw [if_pos hq]
    refine ⟨rfl, q, ?_, hq2⟩
    simp only [fsSnapshotErr, Outcome.world, World.log_trace, hq1]
    simp
  · rw [if_neg hq]
    rcases hfail with h0 | ⟨w7, hb2⟩
    · exact absurd h0 hq
    · rw [hb2]
      obtain ⟨B, hB1, hB2⟩ := bumpEpoch_blocks_of_eq hb2
      have hB3 : w7.trace = _ ++ B := hB1
      refine ⟨rfl, q ++ B, ?_, ?_⟩
      · simp only [fsSnapshotErr, Outcome.world, World.log_trace, if_true, ↓reduceIte]
        rw [hB3, hq1]
        simp
      · intro e he
        rcases List.mem_append.1 he with he | he
        · exact hq2 e he
        · exact Or.inl (hB2 e he)

set_option maxRecDepth 4096 in
theorem fsSnapshot_double_release_witness :
    (fsSnapshot failQidEnv 1 okWorld 1).ret = some 0 ∧
    ∃ mid, (fsSnapshot failQidEnv 1 okWorld 1).world.trace =
        (fileOpenSnapshot failQidEnv 1
          (((bumpEpoch failQidEnv 1 ((okWorld.log (.vtLock .elk)).log (.fileOpen "/active"))
            0).world.log (.fileWalkSources 51)).log (.cacheFlush 1)) 1).world.trace ++
          [.fileSnapshot 32 51 5 1, .fileDecRef 51, .fileDecRef 32] ++ mid ++
          [.fileDecRef 51, .fileDecRef 32, .vtUnlock .elk] ∧
      ∀ e ∈ mid, e.isBlockCall = true ∨ e = .fileSetQidSpace (some 1) 0 100 :=
  fsSnapshot_double_release failQidEnv 1 okWorld 1 51 32 1
    (bumpEpoch failQidEnv 1 ((okWorld.log (.vtLock .elk)).log (.fileOpen "/active")) 0).world
    (fileOpenSnapshot failQidEnv 1
      (((bumpEpoch failQidEnv 1 ((okWorld.log (.vtLock .elk)).log (.fileOpen "/active"))
        0).world.log (.fileWalkSources 51)).log (.cacheFlush 1)) 1).world
    rfl rfl rfl (by decide) rfl rfl rfl (by decide) (Or.inl (by decide))

set_option maxRecDepth 4096 in
/-- C25, as stated, fails on an archival snapshot in which `fileSetQidSpace`
fails: `/active` is opened once (reference 51) and the snapshot directory is
created once (reference 32), `fsSnapshot` returns 0, and each of the two is
released twice. -/
theorem fsSnapshot_releases_twice :
    (fsSnapshot failQidEnv 1 okWorld 1).ret = some 0 ∧
    (fsSnapshot failQidEnv 1 okWorld 1).world.trace.drop 24 =
      [.fileSnapshot 32 51 5 1, .fileDecRef 51, .fileDecRef 32,
        .cacheLocal 1 0 1, .superUnpack okBlock, .blockPut okBlock,
        .fileSetQidSpace (some 1) 0 100,
        .fileDecRef 51, .fileDecRef 32, .vtUnlock .elk] ∧
    (fsSnapshot failQidEnv 1 okWorld 1).world.trace.count (.fileOpen "/active") = 1 ∧
    (fsSnapshot failQidEnv 1 okWorld 1).world.trace.count
      (.fileCreate 29 "1101" (2 ^ 31 ||| 2 ^ 23 ||| 0o555) "adm") = 1 ∧
    (fsSnapshot failQidEnv 1 okWorld 1).world.trace.count (.fileDecRef 51) = 2 ∧
    (fsSnapshot failQidEnv 1 okWorld 1).world.trace.count (.fileDecRef 32) = 2 := by
  refine ⟨by decide, by decide, by decide, by decide, by decide, by decide⟩

/-! ## Claim on the three writes of `mkVac` -/

/-- Two runs for C29.  In the store `okVac` the three writes succeed: `mkVac`
returns 1 with the score of the third write, and its calls of `vtWrite` have
the types `VtDataType`, `VtDirType`, `VtRootType` and the sizes 62 (46 bytes of
entry, 12 of header, 4 of index), 120 and 300.  In the store `noDirVac` the
second write fails: `mkVac` returns 0 after two calls of `vtWrite`. -/
theorem mkVac_runs :
    (mkVac okVac okWorld 8192 ventiEntry ventiEntry okDir).ret =
      some (1, some (List.replicate 20 14)) ∧
    ((mkVac okVac okWorld 8192 ventiEntry ventiEntry okDir).world.trace.filter
        Event.isVtWrite).map
      (fun ev => match ev with
        | .vac (.vtWrite type _ n) => (type, n)
        | _ => (0, 0)) = [(13, 62), (2, 120), (1, 300)] ∧
    (mkVac noDirVac okWorld 8192 ventiEntry ventiEntry okDir).ret = some (0, none) ∧
    ((mkVac noDirVac okWorld 8192 ventiEntry ventiEntry okDir).world.trace.filter
        Event.isVtWrite).map
      (fun ev => match ev with
        | .vac (.vtWrite type _ n) => (type, n)
        | _ => (0, 0)) = [(13, 62), (2, 120)] := by
  refine ⟨by decide, by decide, by decide, by decide⟩

/-! ## Claim on the schedule of `snapEvent` -/

theorem snapEventArch_due (env : Env) (cenv : ClockEnv) (fuel : Nat) (w : World) (s : Snap)
    (now : Nat)
    (h : s.archMinute ≠ 2 ^ 32 - 1 ∧
      u32i ((cenv.localtime w.trace (i32 (u32 (now * 60)))).hour * 60 +
        (cenv.localtime w.trace (i32 (u32 (now * 60)))).min) = s.archMinute ∧
      now ≠ s.lastArch) :
    snapEventArch env cenv fuel w s now =
      match fsSnapshot env fuel (w.log (.clock (.localtime (i32 (u32 (now * 60)))))) 1 with
      | .done _ w3 => .done { s with lastArch := now } (w3.log (.vtUnlock .snapLk))
      | .hang w3 => .hang w3
      | .abort w3 => .abort w3 := by
  unfold snapEventArch
  have h0 : not32 0 = 2 ^ 32 - 1 := by decide
  simp only [h0]
  rw [if_pos h]

theorem snapEventArch_idle (env : Env) (cenv : ClockEnv) (fuel : Nat) (w : World) (s : Snap)
    (now : Nat)
    (h : ¬ (s.archMinute ≠ 2 ^ 32 - 1 ∧
      u32i ((cenv.localtime w.trace (i32 (u32 (now * 60)))).hour * 60 +
        (cenv.localtime w.trace (i32 (u32 (now * 60)))).min) = s.archMinute ∧
      now ≠ s.lastArch)) :
    snapEventArch env cenv fuel w s now =
      .done s ((w.log (.clock (.localtime (i32 (u32 (now * 60)))))).log (.vtUnlock .snapLk)) := by
  unfold snapEventArch
  have h0 : not32 0 = 2 ^ 32 - 1 := by decide
  simp only [h0]
  rw [if_neg h]

theorem snapEvent_due (env : Env) (cenv : ClockEnv) (fuel : Nat) (w : World) (s : Snap)
    (h : s.snapMinutes ≠ 0 ∧ s.snapMinutes ≠ 2 ^ 32 - 1 ∧
      u32i (Int.tdiv (cenv.time w.trace) 60) % s.snapMinutes = 0 ∧
      u32i (Int.tdiv (cenv.time w.trace) 60) ≠ s.lastSnap) :
    snapEvent env cenv fuel w s = some
      (match fsSnapshot env fuel ((w.log (.clock .time)).log (.vtLock .snapLk)) 0 with
      | .done _ w2 => snapEventArch env cenv fuel w2
          { s with lastSnap := u32i (Int.tdiv (cenv.time w.trace) 60) }
          (u32i (Int.tdiv (cenv.time w.trace) 60))
      | .hang w2 => .hang w2
      | .abort w2 => .abort w2) := by
  unfold snapEvent
  have h0 : not32 0 = 2 ^ 32 - 1 := by decide
  simp only [h0]
  rw [if_pos ⟨h.2.1, h.1⟩]
  simp only [umod, if_neg h.1]
  rw [if_pos ⟨h.2.2.1, h.2.2.2⟩]
  split <;> rfl

theorem snapEvent_idle (env : Env) (cenv : ClockEnv) (fuel : Nat) (w : World) (s : Snap)
    (h : ¬ (s.snapMinutes ≠ 0 ∧ s.snapMinutes ≠ 2 ^ 32 - 1 ∧
      u32i (Int.tdiv (cenv.time w.trace) 60) % s.snapMinutes = 0 ∧
      u32i (Int.tdiv (cenv.time w.trace) 60) ≠ s.lastSnap)) :
    snapEvent env cenv fuel w s = some
      (snapEventArch env cenv fuel ((w.log (.clock .time)).log (.vtLock .snapLk)) s
        (u32i (Int.tdiv (cenv.time w.trace) 60))) := by
  unfold snapEvent
  have h0 : not32 0 = 2 ^ 32 - 1 := by decide
  simp only [h0]
  by_cases h1 : s.snapMinutes ≠ 2 ^ 32 - 1 ∧ s.snapMinutes ≠ 0
  · rw [if_pos h1]
    simp only [umod, if_neg h1.2]
    rw [if_neg (fun hc => h ⟨h1.2, h1.1, hc.1, hc.2⟩)]
  · rw [if_neg h1]

theorem snapEventArch_done (env : Env) (cenv : ClockEnv) (fuel : Nat) (w w2 : World)
    (s s2 : Snap) (now : Nat) (h : snapEventArch env cenv fuel w s now = .done s2 w2) :
    s2.snapMinutes = s.snapMinutes ∧ s2.archMinute = s.archMinute ∧
    s2.lastSnap = s.lastSnap ∧ s2.ignore = s.ignore ∧
    ((s.archMinute ≠ 2 ^ 32 - 1 ∧
      u32i ((cenv.localtime w.trace (i32 (u32 (now * 60)))).hour * 60 +
        (cenv.localtime w.trace (i32 (u32 (now * 60)))).min) = s.archMinute ∧
      now ≠ s.lastArch) → s2.lastArch = now) ∧
    (¬ (s.archMinute ≠ 2 ^ 32 - 1 ∧
      u32i ((cenv.localtime w.trace (i32 (u32 (now * 60)))).hour * 60 +
        (cenv.localtime w.trace (i32 (u32 (now * 60)))).min) = s.archMinute ∧
      now ≠ s.lastArch) → s2.lastArch = s.lastArch) := by
  by_cases hc : s.archMinute ≠ 2 ^ 32 - 1 ∧
      u32i ((cenv.localtime w.trace (i32 (u32 (now * 60)))).hour * 60 +
        (cenv.localtime w.trace (i32 (u32 (now * 60)))).min) = s.archMinute ∧
      now ≠ s.lastArch
  · rw [snapEventArch_due env cenv fuel w s now hc] at h
    split at h
    · simp only [Outcome.done.injEq] at h
      obtain ⟨h1, _⟩ := h
      subst h1
      exact ⟨rfl, rfl, rfl, rfl, fun _ => rfl, fun hn => absurd hc hn⟩
    · simp at h
    · simp at h
  · rw [snapEventArch_idle env cenv fuel w s now hc] at h
    simp only [Outcome.done.injEq] at h
    obtain ⟨h1, _⟩ := h
    subst h1
    exact ⟨rfl, rfl, rfl, rfl, fun hn => absurd hn hc, fun _ => rfl⟩

/-- C24: `snapInit` starts `snapEvent` with a period of `10*1000` ms.  With
`now = time(0)/60` as a `u32int`, the run of `snapEvent` on the record `s`:
never evaluates `now % s->snapMinutes` with a zero divisor; when
`snapMinutes` is neither 0 nor `~0`, `now % snapMinutes == 0` and
`now != lastSnap`, it calls `fsSnapshot(fs, 0)` right after `vtLock(s->lk)` and,
whatever `fsSnapshot` returns, goes on with `lastSnap = now`; otherwise it goes
on at once with `s` unchanged.  It then calls `localtime(now*60)` and, with
`min = tm.hour*60+tm.min`, when `archMinute` is not `~0`, `min == archMinute` and
`now != lastArch`, calls `fsSnapshot(fs, 1)` and, whatever it returns, sets
`lastArch = now` and unlocks; otherwise it only unlocks.  So an event that
finds `lastSnap` (`lastArch`) equal to `now` attempts no temporary (archival)
snapshot, whatever the times are set to, and with the times of `snapInit` the
only calls of an event are `time`, `vtLock`, `localtime` and `vtUnlock`. -/
theorem snapEvent_schedule (env : Env) (cenv : ClockEnv) (fuel : Nat) (w : World) (s : Snap) :
    (∃ w0 : World, (snapInit w).2 = w0 ∧
      w0.trace = w.trace ++ [.periodicAlloc (10 * 1000), .vtLockAlloc]) ∧
    (∃ o, snapEvent env cenv fuel w s = some o) ∧
    ((s.snapMinutes ≠ 0 ∧ s.snapMinutes ≠ 2 ^ 32 - 1 ∧
        u32i (Int.tdiv (cenv.time w.trace) 60) % s.snapMinutes = 0 ∧
        u32i (Int.tdiv (cenv.time w.trace) 60) ≠ s.lastSnap) →
      snapEvent env cenv fuel w s = some
        (match fsSnapshot env fuel ((w.log (.clock .time)).log (.vtLock .snapLk)) 0 with
        | .done _ w2 => snapEventArch env cenv fuel w2
            { s with lastSnap := u32i (Int.tdiv (cenv.time w.trace) 60) }
            (u32i (Int.tdiv (cenv.time w.trace) 60))
        | .hang w2 => .hang w2
        | .abort w2 => .abort w2)) ∧
    (¬ (s.snapMinutes ≠ 0 ∧ s.snapMinutes ≠ 2 ^ 32 - 1 ∧
        u32i (Int.tdiv (cenv.time w.trace) 60) % s.snapMinutes = 0 ∧
        u32i (Int.tdiv (cenv.time w.trace) 60) ≠ s.lastSnap) →
      snapEvent env cenv fuel w s = some
        (snapEventArch env cenv fuel ((w.log (.clock .time)).log (.vtLock .snapLk)) s
          (u32i (Int.tdiv (cenv.time w.trace) 60)))) ∧
    (∀ (w1 : World) (s1 : Snap) (now : Nat),
      ((s1.archMinute ≠ 2 ^ 32 - 1 ∧
          u32i ((cenv.localtime w1.trace (i32 (u32 (now * 60)))).hour * 60 +
            (cenv.localtime w1.trace (i32 (u32 (now * 60)))).min) = s1.archMinute ∧
          now ≠ s1.lastArch) →
        snapEventArch env cenv fuel w1 s1 now =
          match fsSnapshot env fuel
              (w1.log (.clock (.localtime (i32 (u32 (now * 60)))))) 1 with
          | .done _ w3 => .done { s1 with lastArch := now } (w3.log (.vtUnlock .snapLk))
          | .hang w3 => .hang w3
          | .abort w3 => .abort w3) ∧
      (¬ (s1.archMinute ≠ 2 ^ 32 - 1 ∧
          u32i ((cenv.localtime w1.trace (i32 (u32 (now * 60)))).hour * 60 +
            (cenv.localtime w1.trace (i32 (u32 (now * 60)))).min) = s1.archMinute ∧
          now ≠ s1.lastArch) →
        snapEventArch env cenv fuel w1 s1 now =
          .done s1 ((w1.log (.clock (.localtime (i32 (u32 (now * 60)))))).log
            (.vtUnlock .snapLk)))) ∧
    (∀ (s2 : Snap) (w2 : World), snapEvent env cenv fuel w s = some (.done s2 w2) →
      s2.snapMinutes = s.snapMinutes ∧ s2.archMinute = s.archMinute ∧
      ((s.snapMinutes ≠ 0 ∧ s.snapMinutes ≠ 2 ^ 32 - 1 ∧
          u32i (Int.tdiv (cenv.time w.trace) 60) % s.snapMinutes = 0 ∧
          u32i (Int.tdiv (cenv.time w.trace) 60) ≠ s.lastSnap) →
        s2.lastSnap = u32i (Int.tdiv (cenv.time w.trace) 60)) ∧
      (s2.lastSnap = s.lastSnap ∨ s2.lastSnap = u32i (Int.tdiv (cenv.time w.trace) 60)) ∧
      (s2.lastArch = s.lastArch ∨ s2.lastArch = u32i (Int.tdiv (cenv.time w.trace) 60))) ∧
    (s.lastSnap = u32i (Int.tdiv (cenv.time w.trace) 60) →
      snapEvent env cenv fuel w s = some
        (snapEventArch env cenv fuel ((w.log (.clock .time)).log (.vtLock .snapLk)) s
          (u32i (Int.tdiv (cenv.time w.trace) 60)))) ∧
    (∀ (w1 : World) (s1 : Snap), s1.lastArch = u32i (Int.tdiv (cenv.time w.trace) 60) →
      snapEventArch env cenv fuel w1 s1 (u32i (Int.tdiv (cenv.time w.trace) 60)) =
        .done s1 ((w1.log (.clock (.localtime
          (i32 (u32 (u32i (Int.tdiv (cenv.time w.trace) 60) * 60)))))).log
            (.vtUnlock .snapLk))) ∧
    (∀ w0 : World, snapEvent env cenv fuel w (snapInit w0).1 = some (.done (snapInit w0).1
      { w with trace := w.trace ++ [.clock .time, .vtLock .snapLk,
          .clock (.localtime (i32 (u32 (u32i (Int.tdiv (cenv.time w.trace) 60) * 60)))),
          .vtUnlock .snapLk] })) := by
  have hidle : ∀ (w1 : World) (s1 : Snap), s1.lastArch = u32i (Int.tdiv (cenv.time w.trace) 60) →
      snapEventArch env cenv fuel w1 s1 (u32i (Int.tdiv (cenv.time w.trace) 60)) =
        .done s1 ((w1.log (.clock (.localtime
          (i32 (u32 (u32i (Int.tdiv (cenv.time w.trace) 60) * 60)))))).log
            (.vtUnlock .snapLk)) :=
    fun w1 s1 h => snapEventArch_idle env cenv fuel w1 s1 _ (fun hc => hc.2.2 h.symm)
  refine ⟨⟨_, rfl, by simp [snapInit, World.log]⟩, ?_, snapEvent_due env cenv fuel w s, snapEvent_idle env cenv fuel w s,
    fun w1 s1 now => ⟨snapEventArch_due env cenv fuel w1 s1 now,
      snapEventArch_idle env cenv fuel w1 s1 now⟩, ?_,
    fun h => snapEvent_idle env cenv fuel w s (fun hc => hc.2.2.2 h.symm), hidle, ?_⟩
  · by_cases hc : s.snapMinutes ≠ 0 ∧ s.snapMinutes ≠ 2 ^ 32 - 1 ∧
        u32i (Int.tdiv (cenv.time w.trace) 60) % s.snapMinutes = 0 ∧
        u32i (Int.tdiv (cenv.time w.trace) 60) ≠ s.lastSnap
    · exact ⟨_, snapEvent_due env cenv fuel w s hc⟩
    · exact ⟨_, snapEvent_idle env cenv fuel w s hc⟩
  · intro s2 w2 h
    by_cases hc : s.snapMinutes ≠ 0 ∧ s.snapMinutes ≠ 2 ^ 32 - 1 ∧
        u32i (Int.tdiv (cenv.time w.trace) 60) % s.snapMinutes = 0 ∧
        u32i (Int.tdiv (cenv.time w.trace) 60) ≠ s.lastSnap
    · rw [snapEvent_due env cenv fuel w s hc] at h
      simp only [Option.some.injEq] at h
      split at h
      · obtain ⟨h1, h2, h3, _, h5, h6⟩ := snapEventArch_done env cenv fuel _ _ _ _ _ h
        refine ⟨h1, h2, fun _ => h3, Or.inr h3, ?_⟩
        exact (Classical.em _).elim (fun ha => Or.inr (h5 ha)) (fun ha => Or.inl (h6 ha))
      · simp at h
      · simp at h
    · rw [snapEvent_idle env cenv fuel w s hc] at h
      simp only [Option.some.injEq] at h
      obtain ⟨h1, h2, h3, _, h5, h6⟩ := snapEventArch_done env cenv fuel _ _ _ _ _ h
      refine ⟨h1, h2, fun hn => absurd hn hc, Or.inl h3, ?_⟩
      exact (Classical.em _).elim (fun ha => Or.inr (h5 ha)) (fun ha => Or.inl (h6 ha))
  · intro w0
    have hs : (snapInit w0).1.snapMinutes = 2 ^ 32 - 1 := by
      simp [snapInit, u32]
    have ha : (snapInit w0).1.archMinute = 2 ^ 32 - 1 := by
      simp [snapInit, u32]
    rw [snapEvent_idle env cenv fuel w _ (fun hc => hc.2.1 hs),
      snapEventArch_idle env cenv fuel _ _ _ (fun hc => hc.1 ha)]
    simp [World.log]

/-- Two events in the same minute, for C24: at minute 120 (02:00) with a
temporary snapshot every 60 minutes and an archival snapshot at minute 120 of
the day, the first event makes both snapshots (`fs->ehi` goes from 5 to 8,
`fs->elk` is taken twice) and records `lastSnap = lastArch = 120`; a second event
in the same minute only calls `time`, `vtLock`, `localtime` and `vtUnlock`. -/
theorem snapEvent_same_minute :
    (snapEvent okEnv okClock 1 okWorld bothSnap).map
        (fun o => (o.ret, o.world.fs.ehi, o.world.trace.count (.vtLock .elk))) =
      some (some { snapMinutes := 60, archMinute := 120, lastSnap := 120, lastArch := 120,
                   ignore := 10 }, 8, 2) ∧
    (snapEvent okEnv okClock 1 okWorld bothSnap).bind
        (fun o => match o with
          | .done s1 w1 => (snapEvent okEnv okClock 1 w1 s1).map
              (fun o2 => (o2.ret, o2.world.trace.drop w1.trace.length))
          | _ => none) =
      some (some { snapMinutes := 60, archMinute := 120, lastSnap := 120, lastArch := 120,
                   ignore := 10 },
        [.clock .time, .vtLock .snapLk, .clock (.localtime 7200), .vtUnlock .snapLk]) := by
  refine ⟨by decide, by decide⟩

/-! ## Claim on the counter `ignore` of `Snap` -/

theorem snapEventArch_ignore (env : Env) (cenv : ClockEnv) (fuel : Nat) (w : World) (s : Snap)
    (now k : Nat) :
    snapEventArch env cenv fuel w { s with ignore := k } now =
      match snapEventArch env cenv fuel w s now with
      | .done s2 w2 => .done { s2 with ignore := k } w2
      | .hang w2 => .hang w2
      | .abort w2 => .abort w2 := by
  unfold snapEventArch
  simp only
  split
  · split <;> rfl
  · rfl

/-- C28 (what the code does): `snapEvent` never reads the counter `ignore`
and never changes it.  Its run on a record with `ignore = k` is the run on the
same record with any other value of `ignore`, with `ignore = k` put back in the
result: the same calls, the same snapshots attempted; and a run that returns
leaves `ignore` as it was. -/
theorem snapEvent_ignore_unread (env : Env) (cenv : ClockEnv) (fuel : Nat) (w : World)
    (s : Snap) (k : Nat) :
    snapEvent env cenv fuel w { s with ignore := k } =
      (snapEvent env cenv fuel w s).map (fun o => match o with
        | .done s2 w2 => .done { s2 with ignore := k } w2
        | .hang w2 => .hang w2
        | .abort w2 => .abort w2) ∧
    (∀ (s2 : Snap) (w2 : World), snapEvent env cenv fuel w s = some (.done s2 w2) →
      s2.ignore = s.ignore) := by
  constructor
  · unfold snapEvent
    simp only
    split
    · split
      · rfl
      · split
        · split
          · simp only [Option.map_some', Option.some.injEq]
            exact snapEventArch_ignore env cenv fuel _
              { s with lastSnap := u32i (Int.tdiv (cenv.time w.trace) 60) } _ k
          · rfl
          · rfl
        · simp only [Option.map_some', Option.some.injEq]
          exact snapEventArch_ignore env cenv fuel _ s _ k
    · simp only [Option.map_some', Option.some.injEq]
      exact snapEventArch_ignore env cenv fuel _ s _ k
  · intro s2 w2 h
    by_cases hc : s.snapMinutes ≠ 0 ∧ s.snapMinutes ≠ 2 ^ 32 - 1 ∧
        u32i (Int.tdiv (cenv.time w.trace) 60) % s.snapMinutes = 0 ∧
        u32i (Int.tdiv (cenv.time w.trace) 60) ≠ s.lastSnap
    · rw [snapEvent_due env cenv fuel w s hc] at h
      simp only [Option.some.injEq] at h
      split at h
      · exact (snapEventArch_done env cenv fuel _ _ _ _ _ h).2.2.2.1
      · simp at h
      · simp at h
    · rw [snapEvent_idle env cenv fuel w s hc] at h
      simp only [Option.some.injEq] at h
      exact (snapEventArch_done env cenv fuel _ _ _ _ _ h).2.2.2.1

/-- C28, as stated, fails on the first event after `snapInit` and
`snapSetTimes(s, ~0, 60)`, at minute 120: the counter `ignore` is 10 before and
after the event, and the event makes a temporary snapshot at once (it takes
`fs->elk`, calls `fileSnapshot`, and `fs->ehi` goes from 5 to 6). -/
theorem snapEvent_snapshots_at_once :
    (snapInit okWorld).1.ignore = 10 ∧
    hourlySnap = { snapMinutes := 60, archMinute := 2 ^ 32 - 1, lastSnap := 0, lastArch := 0,
                   ignore := 10 } ∧
    (snapEvent okEnv okClock 1 okWorld hourlySnap).map
        (fun o => (o.ret, o.world.fs.ehi, o.world.trace.count (.vtLock .elk),
          (o.world.trace.filter Event.isStep).length)) =
      some (some { snapMinutes := 60, archMinute := 2 ^ 32 - 1, lastSnap := 120, lastArch := 0,
                   ignore := 10 }, 6, 1, 3) := by
  refine ⟨by decide, by decide, by decide⟩

end Fossil

namespace SevenC

open Fossil (i32)

/-! ## Claim on `regalloc` -/

theorem i32_small (x : Int) (h1 : -2 ^ 31 ≤ x) (h2 : x < 2 ^ 31) : i32 x = x := by
  unfold Fossil.i32
  omega

theorem regScan_step (reg : Int → Int) (lo hi : Int) (n : Nat) (i j p : Int) (hlt : i < hi)
    (hp : p = if j ≥ hi then lo else j) :
    regScan reg lo hi (n + 1) i j =
      if reg p = 0 then some (some p) else regScan reg lo hi n (i32 (i + 1)) (i32 (p + 1)) := by
  subst hp
  rw [regScan, if_pos hlt]

theorem regScan_stop (reg : Int → Int) (lo hi : Int) (n : Nat) (i j : Int) (hlt : ¬ i < hi) :
    regScan reg lo hi (n + 1) i j = some none := by
  rw [regScan, if_neg hlt]

theorem regScan_sound (reg : Int → Int) (lo hi : Int) :
    ∀ (fuel : Nat) (i j r : Int), lo ≤ i → lo ≤ j → -2 ^ 31 ≤ lo → hi < 2 ^ 31 →
      regScan reg lo hi fuel i j = some (some r) → lo ≤ r ∧ r < hi ∧ reg r = 0 := by
  intro fuel
  induction fuel with
  | zero =>
    intro i j r _ _ _ _ h
    simp [regScan] at h
  | succ n ih =>
    intro i j r hi1 hj hlo hhi h
    by_cases hlt : i < hi
    · obtain ⟨p, hp⟩ : ∃ p, p = if j ≥ hi then lo else j := ⟨_, rfl⟩
      have hp1 : lo ≤ p ∧ p < hi := by
        rw [hp]
        split <;> omega
      rw [regScan_step reg lo hi n i j p hlt hp] at h
      by_cases hz : reg p = 0
      · rw [if_pos hz] at h
        simp only [Option.some.injEq] at h
        subst h
        exact ⟨hp1.1, hp1.2, hz⟩
      · rw [if_neg hz, i32_small (i + 1) (by omega) (by omega),
          i32_small (p + 1) (by omega) (by omega)] at h
        exact ih _ _ r (by omega) (by omega) hlo hhi h
    · rw [regScan_stop reg lo hi n i j hlt] at h
      simp at h

theorem regScan_total (reg : Int → Int) (lo hi : Int) :
    ∀ (fuel : Nat) (i j : Int), lo ≤ i → lo ≤ j → -2 ^ 31 ≤ lo → hi < 2 ^ 31 →
      (hi - i).toNat < fuel → regScan reg lo hi fuel i j ≠ none := by
  intro fuel
  induction fuel with
  | zero =>
    intro i j _ _ _ _ h
    omega
  | succ n ih =>
    intro i j hi1 hj hlo hhi hf
    by_cases hlt : i < hi
    · obtain ⟨p, hp⟩ : ∃ p, p = if j ≥ hi then lo else j := ⟨_, rfl⟩
      have hp1 : lo ≤ p ∧ p < hi := by
        rw [hp]
        split <;> omega
      rw [regScan_step reg lo hi n i j p hlt hp]
      by_cases hz : reg p = 0
      · rw [if_pos hz]
        simp
      · rw [if_neg hz, i32_small (i + 1) (by omega) (by omega),
          i32_small (p + 1) (by omega) (by omega)]
        exact ih _ _ (by omega) (by omega) hlo hhi (by omega)
    · rw [regScan_stop reg lo hi n i j hlt]
      simp

theorem regScan_complete (reg : Int → Int) (lo hi : Int) :
    ∀ (fuel : Nat) (i j : Int), lo ≤ i → lo ≤ j → -2 ^ 31 ≤ lo → hi < 2 ^ 31 →
      regScan reg lo hi fuel i j = some none →
      ∀ r, lo ≤ r → r < hi →
        (if r ≥ (if j ≥ hi then lo else j) then r - (if j ≥ hi then lo else j)
          else r - (if j ≥ hi then lo else j) + (hi - lo)) < hi - i →
        reg r ≠ 0 := by
  intro fuel
  induction fuel with
  | zero =>
    intro i j _ _ _ _ h
    simp [regScan] at h
  | succ n ih =>
    intro i j hi1 hj hlo hhi h r hr1 hr2 hd
    by_cases hlt : i < hi
    · obtain ⟨p, hp⟩ : ∃ p, p = if j ≥ hi then lo else j := ⟨_, rfl⟩
      have hp1 : lo ≤ p ∧ p < hi := by
        rw [hp]
        split <;> omega
      rw [regScan_step reg lo hi n i j p hlt hp] at h
      rw [← hp] at hd
      by_cases hz : reg p = 0
      · rw [if_pos hz] at h
        simp at h
      · rw [if_neg hz, i32_small (i + 1) (by omega) (by omega),
          i32_small (p + 1) (by omega) (by omega)] at h
        by_cases hrp : r = p
        · rw [hrp]
          exact hz
        · refine ih _ _ (by omega) (by omega) hlo hhi h r hr1 hr2 ?_
          split_ifs at hd ⊢ <;> omega
    · split_ifs at hd <;> omega

theorem regScan_spec (reg : Int → Int) (lo hi j : Int) (fuel : Nat)
    (hj : lo ≤ j) (hlo : -2 ^ 31 ≤ lo) (hhi : hi < 2 ^ 31) (hf : (hi - lo).toNat < fuel) :
    ((∃ r, lo ≤ r ∧ r < hi ∧ reg r = 0) →
      ∃ r, regScan reg lo hi fuel lo j = some (some r) ∧ lo ≤ r ∧ r < hi ∧ reg r = 0) ∧
    ((¬ ∃ r, lo ≤ r ∧ r < hi ∧ reg r = 0) → regScan reg lo hi fuel lo j = some none) := by
  have ht := regScan_total reg lo hi fuel lo j (le_refl _) hj hlo hhi hf
  cases hs : regScan reg lo hi fuel lo j with
  | none => exact absurd hs ht
  | some res =>
    cases res with
    | none =>
      refine ⟨?_, fun _ => rfl⟩
      rintro ⟨r, h1, h2, h3⟩
      refine absurd h3 (regScan_complete reg lo hi fuel lo j (le_refl _) hj hlo hhi hs r h1 h2 ?_)
      split_ifs <;> omega
    | some r =>
      have h := regScan_sound reg lo hi fuel lo j r (le_refl _) hj hlo hhi hs
      exact ⟨fun _ => ⟨r, rfl, h⟩, fun hn => absurd ⟨r, h⟩ hn⟩

theorem regallocOut_spec (M : Machine) (st : Regs) (tn : Node) (i : Int)
    (hl : 0 ≤ st.lasti ∧ st.lasti ≤ 4) :
    (regallocOut M st tn i).1 =
      { st.regnode with reg := i, etype := tn.etype, lineno := tn.lineno } ∧
    (regallocOut M st tn i).2.lasti = (st.lasti + 1) % 5 ∧
    (regallocOut M st tn i).2.regnode = st.regnode ∧
    (regallocOut M st tn i).2.diags = st.diags ∧
    (0 ≤ i → (regallocOut M st tn i).2.reg = Function.update st.reg i (M.conv (st.reg i + 1))) ∧
    (i < 0 → (regallocOut M st tn i).2.reg = st.reg) := by
  have e : i32 (st.lasti + 1) = st.lasti + 1 := i32_small _ (by omega) (by omega)
  have e5 : ∀ x : Int, x = st.lasti → (i32 (x + 1) ≥ 5 ↔ st.lasti + 1 ≥ 5) := by
    intro x hx
    rw [hx, e]
  unfold regallocOut
  by_cases hi : i ≥ 0
  · simp only [if_pos hi]
    by_cases h5 : st.lasti + 1 ≥ 5
    · rw [if_pos ((e5 _ rfl).2 h5)]
      exact ⟨rfl, by show (0 : Int) = _; omega, rfl, rfl, fun _ => rfl, fun h => by omega⟩
    · rw [if_neg (fun h => h5 ((e5 _ rfl).1 h))]
      exact ⟨rfl, by show i32 (st.lasti + 1) = _; rw [e]; omega, rfl, rfl, fun _ => rfl,
        fun h => by omega⟩
  · simp only [if_neg hi]
    by_cases h5 : st.lasti + 1 ≥ 5
    · rw [if_pos ((e5 _ rfl).2 h5)]
      exact ⟨rfl, by show (0 : Int) = _; omega, rfl, rfl, fun h => by omega, fun _ => rfl⟩
    · rw [if_neg (fun h => h5 ((e5 _ rfl).1 h))]
      exact ⟨rfl, by show i32 (st.lasti + 1) = _; rw [e]; omega, rfl, rfl, fun h => by omega,
        fun _ => rfl⟩

theorem hint_skipped (o : Option Node) (lo hi : Int) (fast : Node → Option (Node × Regs))
    (s : Option (Node × Regs)) :
    ¬ usableHint o lo hi →
    (match o with
      | some h => if h.op = .OREGISTER then if h.reg ≥ lo ∧ h.reg < hi then fast h else s else s
      | none => s) = s := by
  intro hh
  cases o with
  | none => rfl
  | some h =>
    simp only
    by_cases hop : h.op = .OREGISTER
    · rw [if_pos hop]
      by_cases hr : h.reg ≥ lo ∧ h.reg < hi
      · exact absurd ⟨h, rfl, hop, hr.1, hr.2⟩ hh
      · rw [if_neg hr]
    · rw [if_neg hop]

theorem regalloc_fixed (M : Machine) (fuel : Nat) (st : Regs) (tn : Node) (o : Option Node)
    (hf : tn.etype.isFixed = true) (hh : ¬ usableHint o 0 (i32 (M.NREG - 1))) :
    regalloc M fuel st tn o =
      match regScan st.reg (i32 (M.REGRET + 1)) M.NREG fuel (i32 (M.REGRET + 1))
          (i32 (i32 (st.lasti + M.REGRET) + 1)) with
      | none => none
      | some (some i) => some (regallocOut M st tn i)
      | some none => some (regallocErr M st tn "out of fixed registers") := by
  unfold regalloc
  cases he : tn.etype <;> simp only [he, Etype.isFixed] at hf ⊢ <;>
    first
    | exact hint_skipped o 0 (i32 (M.NREG - 1)) (fun h => some (regallocOut M st tn h.reg))
        _ hh
    | exact absurd hf (by simp)

theorem regalloc_float (M : Machine) (fuel : Nat) (st : Regs) (tn : Node) (o : Option Node)
    (hf : tn.etype.isFloat = true) (hh : ¬ usableHint o M.NREG (i32 (M.NREG + M.NREG))) :
    regalloc M fuel st tn o =
      match regScan st.reg M.NREG (i32 (M.NREG + M.NREG)) fuel M.NREG
          (i32 (i32 (M.NREG + 12) + st.lasti)) with
      | none => none
      | some (some i) => some (regallocOut M st tn i)
      | some none => some (regallocErr M st tn "out of float registers") := by
  unfold regalloc
  cases he : tn.etype <;> simp only [he, Etype.isFloat] at hf ⊢ <;>
    first
    | exact hint_skipped o M.NREG (i32 (M.NREG + M.NREG))
        (fun h => some (regallocOut M st tn h.reg)) _ hh
    | exact absurd hf (by simp)

theorem regalloc_returns (M : Machine) (fuel : Nat) (st : Regs) (tn : Node) (o : Option Node)
    (hR : 0 ≤ M.REGRET ∧ M.REGRET < 2 ^ 30) (hN : 0 ≤ M.NREG ∧ M.NREG < 2 ^ 30)
    (hl : 0 ≤ st.lasti ∧ st.lasti ≤ 4) (hfuel : M.NREG.toNat < fuel) :
    ∃ i msgs, regalloc M fuel st tn o =
      some (regallocOut M { st with diags := st.diags ++ msgs } tn i) := by
  have e1 : i32 (M.REGRET + 1) = M.REGRET + 1 := i32_small _ (by omega) (by omega)
  have e2 : i32 (M.NREG + M.NREG) = M.NREG + M.NREG := i32_small _ (by omega) (by omega)
  have e3 : i32 (i32 (st.lasti + M.REGRET) + 1) = st.lasti + M.REGRET + 1 := by
    rw [i32_small (st.lasti + M.REGRET) (by omega) (by omega)]
    exact i32_small _ (by omega) (by omega)
  have e4 : i32 (i32 (M.NREG + 12) + st.lasti) = M.NREG + 12 + st.lasti := by
    rw [i32_small (M.NREG + 12) (by omega) (by omega)]
    exact i32_small _ (by omega) (by omega)
  have fixed : ∃ i msgs, (match regScan st.reg (i32 (M.REGRET + 1)) M.NREG fuel
        (i32 (M.REGRET + 1)) (i32 (i32 (st.lasti + M.REGRET) + 1)) with
      | none => none
      | some (some i) => some (regallocOut M st tn i)
      | some none => some (regallocErr M st tn "out of fixed registers")) =
      some (regallocOut M { st with diags := st.diags ++ msgs } tn i) := by
    have ht := regScan_total st.reg (M.REGRET + 1) M.NREG fuel (M.REGRET + 1)
      (st.lasti + M.REGRET + 1) (le_refl _) (by omega) (by omega) (by omega) (by omega)
    rw [e1, e3]
    cases hs : regScan st.reg (M.REGRET + 1) M.NREG fuel (M.REGRET + 1)
        (st.lasti + M.REGRET + 1) with
    | none => exact absurd hs ht
    | some res =>
      cases res with
      | none => exact ⟨-1, ["out of fixed registers"], rfl⟩
      | some r => exact ⟨r, [], by simp⟩
  have float : ∃ i msgs, (match regScan st.reg M.NREG (i32 (M.NREG + M.NREG)) fuel M.NREG
        (i32 (i32 (M.NREG + 12) + st.lasti)) with
      | none => none
      | some (some i) => some (regallocOut M st tn i)
      | some none => some (regallocErr M st tn "out of float registers")) =
      some (regallocOut M { st with diags := st.diags ++ msgs } tn i) := by
    have ht := regScan_total st.reg M.NREG (M.NREG + M.NREG) fuel M.NREG
      (M.NREG + 12 + st.lasti) (le_refl _) (by omega) (by omega) (by omega) (by omega)
    rw [e2, e4]
    cases hs : regScan st.reg M.NREG (M.NREG + M.NREG) fuel M.NREG
        (M.NREG + 12 + st.lasti) with
    | none => exact absurd hs ht
    | some res =>
      cases res with
      | none => exact ⟨-1, ["out of float registers"], rfl⟩
      | some r => exact ⟨r, [], by simp⟩
  have hint : ∀ (lo hi : Int) (s : Option (Node × Regs)),
      (∃ i msgs, s = some (regallocOut M { st with diags := st.diags ++ msgs } tn i)) →
      ∃ i msgs, (match o with
        | some h =>
          if h.op = .OREGISTER then
            if h.reg ≥ lo ∧ h.reg < hi then some (regallocOut M st tn h.reg) else s
          else s
        | none => s) = some (regallocOut M { st with diags := st.diags ++ msgs } tn i) := by
    intro lo hi s hs
    cases o with
    | none => exact hs
    | some h =>
      simp only
      split
      · split
        · exact ⟨h.reg, [], by simp⟩
        · exact hs
      · exact hs
  unfold regalloc
  cases he : tn.etype <;> simp only [he] <;>
    first
    | exact hint 0 (i32 (M.NREG - 1)) _ fixed
    | exact hint M.NREG (i32 (M.NREG + M.NREG)) _ float
    | exact ⟨-1, ["unknown type in regalloc: %T"], rfl⟩

/-- C30: with `lasti` in 0..4 (it is 0 at start and `regalloc` is the only
code that writes it) and constants `0 <= REGRET`, `0 <= NREG` below 2^30,
`regalloc` returns; the node written is `regnode` with the register chosen and
the type and line of `tn`; `lasti` becomes `(lasti+1) mod 5`, again in 0..4.
For an integer or pointer type and a hint that is not a register node with
`0 <= reg < NREG-1`: when some register `r` with `REGRET+1 <= r < NREG` has
`reg[r] = 0`, the register chosen is such a one, its count goes up by exactly
one, no other count changes and `diag` is not called; when there is none the
register is -1, `reg[]` is unchanged and the one message is "out of fixed
registers".  For `float` and `double` and a hint that is not a register node
with `NREG <= reg < NREG+NREG`, the same holds with the range
`NREG <= r < NREG+NREG` and the message "out of float registers". -/
theorem regalloc_complete (M : Machine) (fuel : Nat) (st : Regs) (tn : Node) (o : Option Node)
    (hR : 0 ≤ M.REGRET ∧ M.REGRET < 2 ^ 30) (hN : 0 ≤ M.NREG ∧ M.NREG < 2 ^ 30)
    (hc : M.conv 1 = 1) (hl : 0 ≤ st.lasti ∧ st.lasti ≤ 4) (hfuel : M.NREG.toNat < fuel) :
    ∃ (n : Node) (st2 : Regs), regalloc M fuel st tn o = some (n, st2) ∧
      n = { st.regnode with reg := n.reg, etype := tn.etype, lineno := tn.lineno } ∧
      st2.lasti = (st.lasti + 1) % 5 ∧ 0 ≤ st2.lasti ∧ st2.lasti ≤ 4 ∧
      st2.regnode = st.regnode ∧
      (tn.etype.isFixed = true → ¬ usableHint o 0 (M.NREG - 1) →
        ((∃ r, M.REGRET + 1 ≤ r ∧ r < M.NREG ∧ st.reg r = 0) →
          M.REGRET + 1 ≤ n.reg ∧ n.reg < M.NREG ∧ st.reg n.reg = 0 ∧
          st2.reg n.reg = st.reg n.reg + 1 ∧ (∀ r, r ≠ n.reg → st2.reg r = st.reg r) ∧
          st2.diags = st.diags) ∧
        ((¬ ∃ r, M.REGRET + 1 ≤ r ∧ r < M.NREG ∧ st.reg r = 0) →
          n.reg = -1 ∧ st2.reg = st.reg ∧
          st2.diags = st.diags ++ ["out of fixed registers"])) ∧
      (tn.etype.isFloat = true → ¬ usableHint o M.NREG (M.NREG + M.NREG) →
        ((∃ r, M.NREG ≤ r ∧ r < M.NREG + M.NREG ∧ st.reg r = 0) →
          M.NREG ≤ n.reg ∧ n.reg < M.NREG + M.NREG ∧ st.reg n.reg = 0 ∧
          st2.reg n.reg = st.reg n.reg + 1 ∧ (∀ r, r ≠ n.reg → st2.reg r = st.reg r) ∧
          st2.diags = st.diags) ∧
        ((¬ ∃ r, M.NREG ≤ r ∧ r < M.NREG + M.NREG ∧ st.reg r = 0) →
          n.reg = -1 ∧ st2.reg = st.reg ∧
          st2.diags = st.diags ++ ["out of float registers"])) := by
  have e0 : i32 (M.NREG - 1) = M.NREG - 1 := i32_small _ (by omega) (by omega)
  have e1 : i32 (M.REGRET + 1) = M.REGRET + 1 := i32_small _ (by omega) (by omega)
  have e2 : i32 (M.NREG + M.NREG) = M.NREG + M.NREG := i32_small _ (by omega) (by omega)
  have e3 : i32 (i32 (st.lasti + M.REGRET) + 1) = st.lasti + M.REGRET + 1 := by
    rw [i32_small (st.lasti + M.REGRET) (by omega) (by omega)]
    exact i32_small _ (by omega) (by omega)
  have e4 : i32 (i32 (M.NREG + 12) + st.lasti) = M.NREG + 12 + st.lasti := by
    rw [i32_small (M.NREG + 12) (by omega) (by omega)]
    exact i32_small _ (by omega) (by omega)
  -- what the code after `out` does with a free register, and after `err`
  have pick : ∀ r : Int, 0 ≤ r → st.reg r = 0 →
      (regallocOut M st tn r).1.reg = r ∧
      (regallocOut M st tn r).2.reg r = st.reg r + 1 ∧
      (∀ q, q ≠ r → (regallocOut M st tn r).2.reg q = st.reg q) ∧
      (regallocOut M st tn r).2.diags = st.diags := by
    intro r hr hz
    obtain ⟨h1, _, _, h4, h5, _⟩ := regallocOut_spec M st tn r hl
    refine ⟨by rw [h1], ?_, ?_, h4⟩
    · rw [h5 hr, Function.update_same, hz, zero_add, hc]
    · intro q hq
      rw [h5 hr, Function.update_noteq hq]
  have fail : ∀ msg : String,
      (regallocErr M st tn msg).1.reg = -1 ∧ (regallocErr M st tn msg).2.reg = st.reg ∧
      (regallocErr M st tn msg).2.diags = st.diags ++ [msg] := by
    intro msg
    obtain ⟨h1, _, _, h4, _, h6⟩ :=
      regallocOut_spec M { st with diags := st.diags ++ [msg] } tn (-1) hl
    exact ⟨by unfold regallocErr; rw [h1], h6 (by omega), h4⟩
  obtain ⟨i, msgs, hret⟩ := regalloc_returns M fuel st tn o hR hN hl hfuel
  obtain ⟨g1, g2, g3, _, _, _⟩ :=
    regallocOut_spec M { st with diags := st.diags ++ msgs } tn i hl
  have g4 : (regallocOut M { st with diags := st.diags ++ msgs } tn i).2.lasti =
      (st.lasti + 1) % 5 := g2
  refine ⟨(regallocOut M { st with diags := st.diags ++ msgs } tn i).1,
    (regallocOut M { st with diags := st.diags ++ msgs } tn i).2, hret, ?_, g4, by omega,
    by omega, g3, ?_, ?_⟩
  · rw [g1]
  · intro hf hh
    have hscan := regalloc_fixed M fuel st tn o hf (by rw [e0]; exact hh)
    rw [e1, e3] at hscan
    obtain ⟨s1, s2⟩ := regScan_spec st.reg (M.REGRET + 1) M.NREG (st.lasti + M.REGRET + 1) fuel
      (by omega) (by omega) (by omega) (by omega)
    rw [hscan] at hret
    constructor
    · intro hex
      obtain ⟨r, hr, hr1, hr2, hr3⟩ := s1 hex
      rw [hr] at hret
      simp only [Option.some.injEq] at hret
      rw [← hret]
      obtain ⟨p1, p2, p3, p4⟩ := pick r (by omega) hr3
      rw [p1]
      exact ⟨hr1, hr2, hr3, p2, p3, p4⟩
    · intro hne
      rw [s2 hne] at hret
      simp only [Option.some.injEq] at hret
      rw [← hret]
      exact fail _
  · intro hf hh
    have hscan := regalloc_float M fuel st tn o hf (by rw [e2]; exact hh)
    rw [e2, e4] at hscan
    obtain ⟨s1, s2⟩ := regScan_spec st.reg M.NREG (M.NREG + M.NREG) (M.NREG + 12 + st.lasti) fuel
      (by omega) (by omega) (by omega) (by omega)
    rw [hscan] at hret
    constructor
    · intro hex
      obtain ⟨r, hr, hr1, hr2, hr3⟩ := s1 hex
      rw [hr] at hret
      simp only [Option.some.injEq] at hret
      rw [← hret]
      obtain ⟨p1, p2, p3, p4⟩ := pick r (by omega) hr3
      rw [p1]
      exact ⟨hr1, hr2, hr3, p2, p3, p4⟩
    · intro hne
      rw [s2 hne] at hret
      simp only [Option.some.injEq] at hret
      rw [← hret]
      exact fail _

theorem regalloc_complete_witness :
    ∃ (n : Node) (st2 : Regs), regalloc alpha 40 busyRegs longNode none = some (n, st2) ∧
      n = { busyRegs.regnode with reg := n.reg, etype := longNode.etype,
                                  lineno := longNode.lineno } ∧
      st2.lasti = (busyRegs.lasti + 1) % 5 ∧ 0 ≤ st2.lasti ∧ st2.lasti ≤ 4 ∧
      st2.regnode = busyRegs.regnode ∧
      (longNode.etype.isFixed = true → ¬ usableHint none 0 (alpha.NREG - 1) →
        ((∃ r, alpha.REGRET + 1 ≤ r ∧ r < alpha.NREG ∧ busyRegs.reg r = 0) →
          alpha.REGRET + 1 ≤ n.reg ∧ n.reg < alpha.NREG ∧ busyRegs.reg n.reg = 0 ∧
          st2.reg n.reg = busyRegs.reg n.reg + 1 ∧
          (∀ r, r ≠ n.reg → st2.reg r = busyRegs.reg r) ∧
          st2.diags = busyRegs.diags) ∧
        ((¬ ∃ r, alpha.REGRET + 1 ≤ r ∧ r < alpha.NREG ∧ busyRegs.reg r = 0) →
          n.reg = -1 ∧ st2.reg = busyRegs.reg ∧
          st2.diags = busyRegs.diags ++ ["out of fixed registers"])) ∧
      (longNode.etype.isFloat = true → ¬ usableHint none alpha.NREG (alpha.NREG + alpha.NREG) →
        ((∃ r, alpha.NREG ≤ r ∧ r < alpha.NREG + alpha.NREG ∧ busyRegs.reg r = 0) →
          alpha.NREG ≤ n.reg ∧ n.reg < alpha.NREG + alpha.NREG ∧ busyRegs.reg n.reg = 0 ∧
          st2.reg n.reg = busyRegs.reg n.reg + 1 ∧
          (∀ r, r ≠ n.reg → st2.reg r = busyRegs.reg r) ∧
          st2.diags = busyRegs.diags) ∧
        ((¬ ∃ r, alpha.NREG ≤ r ∧ r < alpha.NREG + alpha.NREG ∧ busyRegs.reg r = 0) →
          n.reg = -1 ∧ st2.reg = busyRegs.reg ∧
          st2.diags = busyRegs.diags ++ ["out of float registers"])) :=
  regalloc_complete alpha 40 busyRegs longNode none (by simp [alpha]) (by simp [alpha])
    (by decide) (by decide) (by decide)

/-- Three runs for C30 on the Alpha.  With the fixed registers 1 to 5 and 31
in use and `lasti = 3` the scan starts at register 4 and chooses register 6,
whose count goes from 0 to 1 while register 7 stays free, and `lasti` becomes
4; for a `double` it chooses register `NREG+12+3 = 47`; with every register in
use the register is -1, the message is "out of fixed registers" and `lasti`
goes from 4 to 0. -/
theorem regalloc_runs :
    (regalloc alpha 40 busyRegs longNode none).map
        (fun p => (p.1, p.2.lasti, p.2.diags, p.2.reg 6, p.2.reg 7)) =
      some ({ op := .OREGISTER, reg := 6, etype := .TLONG, lineno := 7, rest := 11 },
        4, [], 1, 0) ∧
    (regalloc alpha 40 busyRegs { longNode with etype := .TDOUBLE } none).map
        (fun p => (p.1.reg, p.2.lasti, p.2.diags, p.2.reg 47)) = some (47, 4, [], 1) ∧
    (regalloc alpha 40 fullRegs longNode none).map
        (fun p => (p.1.reg, p.2.lasti, p.2.diags, p.2.reg 6)) =
      some (-1, 0, ["out of fixed registers"], 1) := by
  refine ⟨by decide, by decide, by decide⟩

/-! ## Lemmas on `regfree` and on a `regalloc` followed by `regfree` -/

theorem regfree_guard (M : Machine) (st : Regs) (n : Node) :
    (regfree M st n).reg = st.reg ∨
    ((n.op = .OREGISTER ∨ n.op = .OINDREG) ∧ 0 ≤ n.reg ∧ n.reg < M.regBytes ∧
      0 < st.reg n.reg ∧
      (regfree M st n).reg = Function.update st.reg n.reg (M.conv (st.reg n.reg - 1))) := by
  unfold regfree
  by_cases h1 : n.op ≠ .OREGISTER ∧ n.op ≠ .OINDREG
  · rw [if_pos h1]
    exact Or.inl rfl
  · rw [if_neg h1]
    simp only
    by_cases h2 : n.reg < 0 ∨ n.reg ≥ M.regBytes
    · rw [if_pos h2]
      exact Or.inl rfl
    · rw [if_neg h2]
      by_cases h3 : st.reg n.reg ≤ 0
      · rw [if_pos h3]
        exact Or.inl rfl
      · rw [if_neg h3]
        refine Or.inr ⟨?_, by omega, by omega, by omega, rfl⟩
        by_cases h4 : n.op = .OREGISTER
        · exact Or.inl h4
        · by_cases h5 : n.op = .OINDREG
          · exact Or.inr h5
          · exact absurd ⟨h4, h5⟩ h1

theorem regfree_frame (M : Machine) (st : Regs) (n : Node) :
    (regfree M st n).lasti = st.lasti ∧ (regfree M st n).regnode = st.regnode := by
  unfold regfree regfreeErr
  split
  · exact ⟨rfl, rfl⟩
  · simp only
    split
    · exact ⟨rfl, rfl⟩
    · split <;> exact ⟨rfl, rfl⟩

theorem regfree_ok (M : Machine) (st : Regs) (n : Node) (h : st.ok) : (regfree M st n).ok := by
  obtain ⟨h1, h2⟩ := regfree_frame M st n
  unfold Regs.ok at h ⊢
  rw [h1, h2]
  exact h

theorem regalloc_index (M : Machine) (fuel : Nat) (st : Regs) (tn : Node) (o : Option Node)
    (p : Node × Regs) (hM : M.sane) (hl : 0 ≤ st.lasti ∧ st.lasti ≤ 4) :
    regalloc M fuel st tn o = some p →
    ∃ i msgs, p = regallocOut M { st with diags := st.diags ++ msgs } tn i ∧
      (i = -1 ∨ (0 ≤ i ∧ i < M.NREG + M.NREG)) := by
  obtain ⟨hR, hN⟩ := hM
  have e0 : i32 (M.NREG - 1) = M.NREG - 1 := i32_small _ (by omega) (by omega)
  have e1 : i32 (M.REGRET + 1) = M.REGRET + 1 := i32_small _ (by omega) (by omega)
  have e2 : i32 (M.NREG + M.NREG) = M.NREG + M.NREG := i32_small _ (by omega) (by omega)
  have e3 : i32 (i32 (st.lasti + M.REGRET) + 1) = st.lasti + M.REGRET + 1 := by
    rw [i32_small (st.lasti + M.REGRET) (by omega) (by omega)]
    exact i32_small _ (by omega) (by omega)
  have e4 : i32 (i32 (M.NREG + 12) + st.lasti) = M.NREG + 12 + st.lasti := by
    rw [i32_small (M.NREG + 12) (by omega) (by omega)]
    exact i32_small _ (by omega) (by omega)
  have fixed : (match regScan st.reg (i32 (M.REGRET + 1)) M.NREG fuel
        (i32 (M.REGRET + 1)) (i32 (i32 (st.lasti + M.REGRET) + 1)) with
      | none => none
      | some (some i) => some (regallocOut M st tn i)
      | some none => some (regallocErr M st tn "out of fixed registers")) = some p →
      ∃ i msgs, p = regallocOut M { st with diags := st.diags ++ msgs } tn i ∧
        (i = -1 ∨ (0 ≤ i ∧ i < M.NREG + M.NREG)) := by
    rw [e1, e3]
    cases hs : regScan st.reg (M.REGRET + 1) M.NREG fuel (M.REGRET + 1)
        (st.lasti + M.REGRET + 1) with
    | none =>
      intro hp
      simp at hp
    | some res =>
      cases res with
      | none =>
        intro hp
        simp only [Option.some.injEq] at hp
        exact ⟨-1, ["out of fixed registers"], hp.symm, Or.inl rfl⟩
      | some r =>
        intro hp
        simp only [Option.some.injEq] at hp
        obtain ⟨r1, r2, _⟩ := regScan_sound st.reg (M.REGRET + 1) M.NREG fuel (M.REGRET + 1)
          (st.lasti + M.REGRET + 1) r (le_refl _) (by omega) (by omega) (by omega) hs
        exact ⟨r, [], by rw [← hp]; simp, Or.inr ⟨by omega, by omega⟩⟩
  have float : (match regScan st.reg M.NREG (i32 (M.NREG + M.NREG)) fuel M.NREG
        (i32 (i32 (M.NREG + 12) + st.lasti)) with
      | none => none
      | some (some i) => some (regallocOut M st tn i)
      | some none => some (regallocErr M st tn "out of float registers")) = some p →
      ∃ i msgs, p = regallocOut M { st with diags := st.diags ++ msgs } tn i ∧
        (i = -1 ∨ (0 ≤ i ∧ i < M.NREG + M.NREG)) := by
    rw [e2, e4]
    cases hs : regScan st.reg M.NREG (M.NREG + M.NREG) fuel M.NREG
        (M.NREG + 12 + st.lasti) with
    | none =>
      intro hp
      simp at hp
    | some res =>
      cases res with
      | none =>
        intro hp
        simp only [Option.some.injEq] at hp
        exact ⟨-1, ["out of float registers"], hp.symm, Or.inl rfl⟩
      | some r =>
        intro hp
        simp only [Option.some.injEq] at hp
        obtain ⟨r1, r2, _⟩ := regScan_sound st.reg M.NREG (M.NREG + M.NREG) fuel M.NREG
          (M.NREG + 12 + st.lasti) r (le_refl _) (by omega) (by omega) (by omega) hs
        exact ⟨r, [], by rw [← hp]; simp, Or.inr ⟨by omega, by omega⟩⟩
  have hint : ∀ (lo hi : Int) (s : Option (Node × Regs)), 0 ≤ lo → hi ≤ M.NREG + M.NREG →
      (s = some p → ∃ i msgs, p = regallocOut M { st with diags := st.diags ++ msgs } tn i ∧
        (i = -1 ∨ (0 ≤ i ∧ i < M.NREG + M.NREG))) →
      (match o with
        | some h =>
          if h.op = .OREGISTER then
            if h.reg ≥ lo ∧ h.reg < hi then some (regallocOut M st tn h.reg) else s
          else s
        | none => s) = some p →
      ∃ i msgs, p = regallocOut M { st with diags := st.diags ++ msgs } tn i ∧
        (i = -1 ∨ (0 ≤ i ∧ i < M.NREG + M.NREG)) := by
    intro lo hi s hlo hhi hs
    cases o with
    | none => exact hs
    | some hn =>
      simp only
      split
      · split
        · next hr =>
          intro hp
          simp only [Option.some.injEq] at hp
          exact ⟨hn.reg, [], by rw [← hp]; simp, Or.inr ⟨by omega, by omega⟩⟩
        · exact hs
      · exact hs
  intro h
  unfold regalloc at h
  cases he : tn.etype <;> simp only [he] at h <;>
    first
    | exact hint 0 (i32 (M.NREG - 1)) _ (le_refl _) (by rw [e0]; omega) fixed h
    | exact hint M.NREG (i32 (M.NREG + M.NREG)) _ hN.1 (by rw [e2]) float h
    | (simp only [Option.some.injEq] at h
       exact ⟨-1, ["unknown type in regalloc: %T"], h.symm, Or.inl rfl⟩)

theorem regalloc_result (M : Machine) (fuel : Nat) (st : Regs) (tn : Node) (o : Option Node)
    (nod : Node) (st1 : Regs) (hM : M.sane) (hok : st.ok)
    (h : regalloc M fuel st tn o = some (nod, st1)) :
    nod.op = .OREGISTER ∧ nod.etype = tn.etype ∧ st1.ok ∧
    ((nod.reg = -1 ∧ st1.reg = st.reg) ∨
     (0 ≤ nod.reg ∧ nod.reg < M.NREG + M.NREG ∧
       st1.reg = Function.update st.reg nod.reg (M.conv (st.reg nod.reg + 1)))) := by
  obtain ⟨hop, hl⟩ := hok
  obtain ⟨i, msgs, hp, hi⟩ := regalloc_index M fuel st tn o _ hM hl h
  obtain ⟨g1, g2, g3, _, g5, g6⟩ :=
    regallocOut_spec M { st with diags := st.diags ++ msgs } tn i hl
  have hn : nod = (regallocOut M { st with diags := st.diags ++ msgs } tn i).1 := by rw [← hp]
  have hs : st1 = (regallocOut M { st with diags := st.diags ++ msgs } tn i).2 := by rw [← hp]
  have hreg : nod.reg = i := by rw [hn, g1]
  refine ⟨by rw [hn, g1]; exact hop, by rw [hn, g1], ?_, ?_⟩
  · unfold Regs.ok
    rw [hs, g2, g3]
    have g2b : (0 : Int) ≤ (st.lasti + 1) % 5 ∧ (st.lasti + 1) % 5 ≤ 4 := by omega
    exact ⟨hop, g2b⟩
  · rcases hi with hi | hi
    · exact Or.inl ⟨by rw [hreg, hi], by rw [hs]; exact g6 (by omega)⟩
    · exact Or.inr ⟨by rw [hreg]; exact hi.1, by rw [hreg]; exact hi.2,
        by rw [hs, hreg]; exact g5 hi.1⟩

theorem alloc_free (M : Machine) (B : Int) (fuel k : Nat) (st : Regs) (tn : Node)
    (o : Option Node) (nod : Node) (st1 : Regs) (hS : M.sane) (hM : M.ok B) (hok : st.ok)
    (hroom : st.room B (k + 1)) (h : regalloc M fuel st tn o = some (nod, st1)) :
    nod.op = .OREGISTER ∧ nod.etype = tn.etype ∧ st1.ok ∧ st1.room B k ∧
    (nod.reg = -1 ∨ (0 ≤ nod.reg ∧ nod.reg < M.NREG + M.NREG)) ∧
    ∀ st2 : Regs, st2.reg = st1.reg → (regfree M st2 nod).reg = st.reg := by
  obtain ⟨h1, h2, h3, h4⟩ := regalloc_result M fuel st tn o nod st1 hS hok h
  obtain ⟨hb, hc⟩ := hM
  refine ⟨h1, h2, h3, ?_, ?_, ?_⟩
  · intro r
    obtain ⟨r1, r2⟩ := hroom r
    push_cast at r2
    rcases h4 with ⟨_, h4⟩ | ⟨_, _, h4⟩
    · rw [h4]
      exact ⟨r1, by omega⟩
    · rw [h4]
      by_cases hr : r = nod.reg
      · subst hr
        rw [Function.update_same, hc _ (by omega) (by omega)]
        exact ⟨by omega, by omega⟩
      · rw [Function.update_noteq hr]
        exact ⟨r1, by omega⟩
  · rcases h4 with ⟨h4, _⟩ | ⟨h4, h5, _⟩
    · exact Or.inl h4
    · exact Or.inr ⟨h4, h5⟩
  · intro st2 h2e
    rcases h4 with ⟨h4, h5⟩ | ⟨h4, h5, h6⟩
    · rcases regfree_guard M st2 nod with hg | ⟨_, hg, _⟩
      · rw [hg, h2e, h5]
      · omega
    · obtain ⟨r1, r2⟩ := hroom nod.reg
      push_cast at r2
      have hv : st2.reg nod.reg = st.reg nod.reg + 1 := by
        rw [h2e, h6, Function.update_same, hc _ (by omega) (by omega)]
      unfold regfree
      rw [if_neg (by simp [h1])]
      simp only
      rw [if_neg (by omega), if_neg (by omega)]
      simp only
      rw [hv, h2e, h6, Function.update_idem]
      have e : st.reg nod.reg + 1 - 1 = st.reg nod.reg := by omega
      rw [e, hc _ r1 (by omega), Function.update_eq_self]

theorem room_mono {st : Regs} {B : Int} {k j : Nat} (h : st.room B k) (hj : j ≤ k) :
    st.room B j := by
  intro r
  obtain ⟨r1, r2⟩ := h r
  have : (j : Int) ≤ k := by exact_mod_cast hj
  exact ⟨r1, by omega⟩

theorem room_of_reg {st st1 : Regs} {B : Int} {k : Nat} (h : st.room B k)
    (he : st1.reg = st.reg) : st1.room B k := by
  intro r
  rw [he]
  exact h r

/-! ## The counts of `reg[]` across `gmove`, `fop` and `gopcode` -/

theorem ratHole_regs (M : Machine) (g : Gen) : (ratHole M g).regs = g.regs := by
  unfold ratHole
  split <;> rfl

theorem gmoveEnd_regs (g : Gen) (a : As) (f t : Node) : (gmoveEnd g a f t).regs = g.regs := by
  unfold gmoveEnd
  split <;> rfl

theorem gopcodeCmp_balanced (M : Machine) (C : Cc) (B : Int) (sf k : Nat) (g g1 : Gen) (o : Op)
    (et : Etype) (a : As) (f1 : Option Node) (t : Node) (hS : M.sane) (hM : M.ok B)
    (hok : g.regs.ok) (hroom : g.regs.room B (k + 1))
    (h : gopcodeCmp M C sf g o et a f1 t = some g1) :
    g1.regs.reg = g.regs.reg ∧ g1.regs.ok := by
  unfold gopcodeCmp at h
  split at h
  · simp at h
  · next nod st ha =>
    obtain ⟨_, _, ok1, _, _, hfree⟩ := alloc_free M B sf k g.regs t none nod st hS hM hok hroom ha
    simp only [Option.some.injEq] at h
    subst h
    exact ⟨hfree _ rfl, regfree_ok M _ nod ok1⟩

theorem gopcodeWith_balanced (M : Machine) (C : Cc) (B : Int) (sf k : Nat)
    (rec : Gen → Node → Node → Option Gen) (g g1 : Gen) (o : Op) (f1 f2 t : Option Node)
    (hrec : Balanced B k rec) (hS : M.sane) (hM : M.ok B)
    (hok : g.regs.ok) (hroom : g.regs.room B (k + 1))
    (h : gopcodeWith M C sf rec g o f1 f2 t = some g1) :
    g1.regs.reg = g.regs.reg ∧ g1.regs.ok := by
  unfold gopcodeWith at h
  simp only at h
  split at h
  · split at h
    · exact hrec _ _ _ _ hok (room_mono hroom (Nat.le_succ k)) h
    · simp at h
  · split at h
    · exact gopcodeCmp_balanced M C B sf k g g1 o _ _ f1 _ hS hM hok hroom h
    · simp at h
  · simp only [Option.some.injEq] at h
    subst h
    split
    · exact ⟨rfl, hok⟩
    · exact ⟨rfl, hok⟩

theorem fopWith_balanced (M : Machine) (C : Cc) (B : Int) (sf k : Nat)
    (rec : Gen → Node → Node → Option Gen) (g g1 : Gen) (o : Op) (f1 f2 : Int) (t : Node)
    (hrec : Balanced B k rec) (hS : M.sane) (hM : M.ok B)
    (hok : g.regs.ok) (hroom : g.regs.room B (k + 2))
    (h : fopWith M C sf rec g o f1 f2 t = some g1) :
    g1.regs.reg = g.regs.reg ∧ g1.regs.ok := by
  unfold fopWith at h
  simp only at h
  split at h
  · simp at h
  · next nod3 st ha =>
    obtain ⟨_, _, ok1, room1, _, hfree⟩ :=
      alloc_free M B sf (k + 1) g.regs t (some t) nod3 st hS hM hok hroom ha
    split at h
    · simp at h
    · next g2 hg2 =>
      obtain ⟨e2, ok2⟩ := gopcodeWith_balanced M C B sf k rec _ g2 o _ _ _ hrec hS hM ok1 room1 hg2
      split at h
      · simp at h
      · next g3 hg3 =>
        have room2 : g2.regs.room B k := room_mono (room_of_reg room1 e2) (Nat.le_succ k)
        obtain ⟨e3, ok3⟩ := hrec _ _ _ _ ok2 room2 hg3
        simp only [Option.some.injEq] at h
        subst h
        exact ⟨hfree _ (by rw [e3, e2]), regfree_ok M _ nod3 ok3⟩

theorem gmoveLoad_balanced (M : Machine) (C : Cc) (B : Int) (sf k : Nat)
    (rec : Gen → Node → Node → Option Gen) (g g1 : Gen) (f t : Node)
    (hrec : Balanced B k rec) (hS : M.sane) (hM : M.ok B)
    (hok : g.regs.ok) (hroom : g.regs.room B (k + 1))
    (h : gmoveLoad M C sf rec g f t = some g1) :
    g1.regs.reg = g.regs.reg ∧ g1.regs.ok := by
  unfold gmoveLoad at h
  simp only at h
  obtain ⟨tn, hr⟩ : ∃ tn, (if C.typechlp f.etype = true ∧ C.typeilp t.etype = true then
      regalloc M sf g.regs t (some t) else regalloc M sf g.regs f (some t)) =
      regalloc M sf g.regs tn (some t) := by
    split
    · exact ⟨t, rfl⟩
    · exact ⟨f, rfl⟩
  rw [hr] at h
  split at h
  · simp at h
  · next nod st ha =>
    obtain ⟨_, _, ok1, room1, _, hfree⟩ :=
      alloc_free M B sf k g.regs tn (some t) nod st hS hM hok hroom ha
    split at h
    · simp at h
    · next g2 hg2 =>
      obtain ⟨e2, ok2⟩ := hrec _ _ _ _ ok1 room1 hg2
      simp only [Option.some.injEq] at h
      subst h
      exact ⟨hfree _ e2, regfree_ok M _ nod ok2⟩

theorem gmoveStore_balanced (M : Machine) (C : Cc) (B : Int) (sf k : Nat)
    (rec : Gen → Node → Node → Option Gen) (g g1 : Gen) (f t : Node)
    (hrec : Balanced B k rec) (hS : M.sane) (hM : M.ok B)
    (hok : g.regs.ok) (hroom : g.regs.room B (k + 1))
    (h : gmoveStore M C sf rec g f t = some g1) :
    g1.regs.reg = g.regs.reg ∧ g1.regs.ok := by
  unfold gmoveStore at h
  simp only at h
  split at h
  · simp only [Option.some.injEq] at h
    subst h
    exact ⟨rfl, hok⟩
  · obtain ⟨o, hr⟩ : ∃ o, (if f.etype = t.etype then regalloc M sf g.regs t (some f)
        else regalloc M sf g.regs t none) = regalloc M sf g.regs t o := by
      split
      · exact ⟨some f, rfl⟩
      · exact ⟨none, rfl⟩
    rw [hr] at h
    split at h
    · simp at h
    · next nod st ha =>
      obtain ⟨_, _, ok1, room1, _, hfree⟩ :=
        alloc_free M B sf k g.regs t o nod st hS hM hok hroom ha
      split at h
      · simp at h
      · next g2 hg2 =>
        obtain ⟨e2, ok2⟩ := hrec _ _ _ _ ok1 room1 hg2
        simp only [Option.some.injEq] at h
        subst h
        exact ⟨hfree _ e2, regfree_ok M _ nod ok2⟩

theorem gmoveFloatToFix_balanced (M : Machine) (B : Int) (sf k : Nat)
    (rec : Gen → Node → Node → Option Gen) (g g1 : Gen) (f t : Node)
    (hrec : Balanced B k rec) (hS : M.sane) (hM : M.ok B)
    (hok : g.regs.ok) (hroom : g.regs.room B (k + 1))
    (h : gmoveFloatToFix M sf rec g f t = some g1) :
    g1.regs.reg = g.regs.reg ∧ g1.regs.ok := by
  unfold gmoveFloatToFix at h
  split at h
  · simp at h
  · next nod st ha =>
    obtain ⟨_, _, ok1, _, _, hfree⟩ :=
      alloc_free M B sf k g.regs f none nod st hS hM hok hroom ha
    simp only at h
    split at h
    · simp at h
    · next g2 hg2 =>
      have e1 : (regfree M st nod).reg = g.regs.reg := hfree st rfl
      obtain ⟨e2, ok2⟩ := hrec _ _ _ _ (regfree_ok M st nod ok1)
        (room_mono (room_of_reg hroom e1) (Nat.le_succ k)) hg2
      simp only [Option.some.injEq] at h
      subst h
      rw [ratHole_regs]
      exact ⟨by rw [e2]; exact e1, ok2⟩

theorem gmoveFixToFloat_balanced (M : Machine) (B : Int) (sf k : Nat) (g g1 : Gen) (f t : Node)
    (hS : M.sane) (hM : M.ok B) (hok : g.regs.ok) (hroom : g.regs.room B (k + 1))
    (h : gmoveFixToFloat M sf g f t = some g1) :
    g1.regs.reg = g.regs.reg ∧ g1.regs.ok := by
  unfold gmoveFixToFloat at h
  split at h
  · simp at h
  · next nod st ha =>
    obtain ⟨_, _, ok1, _, _, hfree⟩ :=
      alloc_free M B sf k g.regs t none nod st hS hM hok hroom ha
    simp only [Option.some.injEq] at h
    subst h
    rw [ratHole_regs]
    exact ⟨hfree st rfl, regfree_ok M st nod ok1⟩

theorem gmoveBody_balanced (M : Machine) (C : Cc) (B : Int) (sf k : Nat)
    (rec : Gen → Node → Node → Option Gen) (g g1 : Gen) (f t : Node)
    (hrec : Balanced B k rec) (hS : M.sane) (hM : M.ok B)
    (hok : g.regs.ok) (hroom : g.regs.room B (k + 2))
    (h : gmoveBody M C sf rec g f t = some g1) :
    g1.regs.reg = g.regs.reg ∧ g1.regs.ok := by
  have hroom1 : g.regs.room B (k + 1) := room_mono hroom (Nat.le_succ _)
  unfold gmoveBody at h
  split at h
  · exact hrec _ _ _ _ hok (room_mono hroom (by omega)) h
  · exact fopWith_balanced M C B sf k rec g g1 _ _ _ t hrec hS hM hok hroom h
  · split at h
    · exact gmoveLoad_balanced M C B sf k rec g g1 f t hrec hS hM hok hroom1 h
    · split at h
      · exact gmoveStore_balanced M C B sf k rec g g1 f t hrec hS hM hok hroom1 h
      · split at h
        · exact gmoveFloatToFix_balanced M B sf k rec g g1 f t hrec hS hM hok hroom1 h
        · exact gmoveFixToFloat_balanced M B sf k g g1 f t hS hM hok hroom1 h
        · simp only [Option.some.injEq] at h
          subst h
          rw [gmoveEnd_regs]
          exact ⟨rfl, hok⟩

theorem gmove_balanced (M : Machine) (C : Cc) (B : Int) (sf : Nat) (hS : M.sane) (hM : M.ok B) :
    ∀ depth : Nat, Balanced B (2 * depth) (gmove M C sf depth) := by
  intro depth
  induction depth with
  | zero =>
    intro g f t g1 _ _ h
    simp [gmove] at h
  | succ n ih =>
    intro g f t g1 hok hroom h
    rw [gmove] at h
    exact gmoveBody_balanced M C B sf (2 * n) _ g g1 f t ih hS hM hok
      (room_mono hroom (by omega)) h

/-! ## The nesting of the calls of `gmove` -/

theorem isMem_iff (n : Node) :
    n.isMem = true ↔ (n.op = .ONAME ∨ n.op = .OINDREG ∨ n.op = .OIND) := by
  unfold Node.isMem
  exact decide_eq_true_iff

theorem isMem_register (n : Node) (h : n.op = .OREGISTER) : n.isMem = false := by
  cases hm : n.isMem with
  | false => rfl
  | true =>
    rw [isMem_iff, h] at hm
    simp at hm

theorem gmoveSpecial_register (M : Machine) (n : Node) (h : n.op = .OREGISTER) :
    gmoveSpecial M n = .no := by
  unfold gmoveSpecial gmoveSpecialFloat
  simp [h]

theorem gmoveSpecial_fixed (M : Machine) (n : Node) (h : n.etype.isFixed = true) :
    gmoveSpecial M n = .no := by
  have h1 : n.etype ≠ .TDOUBLE := by
    intro he
    rw [he] at h
    simp [Etype.isFixed] at h
  have h2 : n.etype ≠ .TFLOAT := by
    intro he
    rw [he] at h
    simp [Etype.isFixed] at h
  unfold gmoveSpecial gmoveSpecialFloat
  simp [h1, h2]

theorem cross_floatToFix (ft tt : Etype) (h : cross ft tt = .floatToFix) :
    (ft = .TDOUBLE ∨ ft = .TFLOAT) ∧ tt.isFixed = true := by
  cases ft <;> cases tt <;> simp [cross] at h <;> simp [Etype.isFixed]

theorem cross_fixed (ft tt : Etype) (h : ft.isFixed = true) : cross ft tt ≠ .floatToFix := by
  intro hc
  rcases (cross_floatToFix ft tt hc).1 with he | he <;> rw [he] at h <;> simp [Etype.isFixed] at h

theorem gmoveDepth_le (M : Machine) (f t : Node) : gmoveDepth M f t ≤ 4 := by
  unfold gmoveDepth
  split_ifs <;> omega

theorem gmoveDepth_pos (M : Machine) (f t : Node) : 1 ≤ gmoveDepth M f t := by
  unfold gmoveDepth
  split_ifs <;> omega

theorem gmoveDepth_plain (M : Machine) (f t : Node) (hs : gmoveSpecial M f = .no)
    (hf : f.isMem = false) : gmoveDepth M f t ≤ 3 := by
  unfold gmoveDepth
  rw [if_neg (by simp [hs, hf])]
  split_ifs <;> omega

theorem gmoveDepth_register (M : Machine) (n t : Node) (h : n.op = .OREGISTER) :
    gmoveDepth M n t ≤ 3 :=
  gmoveDepth_plain M n t (gmoveSpecial_register M n h) (isMem_register n h)

theorem gmoveDepth_regs (M : Machine) (f t : Node) (hs : gmoveSpecial M f = .no)
    (hf : f.isMem = false) (ht : t.isMem = false) : gmoveDepth M f t ≤ 2 := by
  unfold gmoveDepth
  rw [if_neg (by simp [hs, hf]), if_neg (by simp [ht])]
  split_ifs <;> omega

theorem gmoveDepth_same (M : Machine) (t : Node) (hx : t.etype.isFixed = true)
    (ht : t.isMem = false) : gmoveDepth M t t = 1 := by
  unfold gmoveDepth
  rw [if_neg (by simp [gmoveSpecial_fixed M t hx, ht]), if_neg (by simp [ht]),
    if_neg (cross_fixed _ _ hx)]

theorem regalloc_some (M : Machine) (sf : Nat) (st : Regs) (tn : Node) (o : Option Node)
    (hS : M.sane) (hok : st.ok) (hsf : M.NREG.toNat < sf) :
    ∃ nod st1, regalloc M sf st tn o = some (nod, st1) ∧ nod.op = .OREGISTER ∧
      nod.etype = tn.etype ∧ st1.ok := by
  obtain ⟨i, msgs, h⟩ := regalloc_returns M sf st tn o hS.1 hS.2 hok.2 hsf
  obtain ⟨h1, h2, h3, _⟩ := regalloc_result M sf st tn o _ _ hS hok h
  exact ⟨_, _, h, h1, h2, h3⟩

theorem Returns.rmono {M : Machine} {k j : Nat} {rec : Gen → Node → Node → Option Gen}
    (h : Returns M k rec) (hj : j ≤ k) : Returns M j rec :=
  fun g f t hok hd => h g f t hok (le_trans hd hj)

theorem match_returns (x : Option Gen) (F : Gen → Gen)
    (h : ∃ g2, x = some g2 ∧ (F g2).regs.ok) :
    ∃ g1, (match x with
      | none => none
      | some g => some (F g)) = some g1 ∧ g1.regs.ok := by
  obtain ⟨g2, h1, h2⟩ := h
  subst h1
  exact ⟨_, rfl, h2⟩

theorem gopcodeWith_returns (M : Machine) (C : Cc) (sf : Nat)
    (rec : Gen → Node → Node → Option Gen) (g : Gen) (o : Op) (f1 : Node) (f2 : Option Node)
    (t : Node) (hS : M.sane) (hok : g.regs.ok) (hsf : M.NREG.toNat < sf)
    (hrec : ∃ g1, rec g f1 t = some g1 ∧ g1.regs.ok) :
    ∃ g1, gopcodeWith M C sf rec g o (some f1) f2 (some t) = some g1 ∧ g1.regs.ok := by
  unfold gopcodeWith
  simp only
  split
  · exact hrec
  · unfold gopcodeCmp
    obtain ⟨nod, st1, ha, _, _, ok1⟩ := regalloc_some M sf g.regs t none hS hok hsf
    simp only [ha]
    exact ⟨_, rfl, regfree_ok M _ nod ok1⟩
  · refine ⟨_, rfl, ?_⟩
    split
    · exact hok
    · exact hok

theorem fopWith_returns (M : Machine) (C : Cc) (sf k : Nat)
    (rec : Gen → Node → Node → Option Gen) (g : Gen) (o : Op) (f1 f2 : Int) (t : Node)
    (hrec : Returns M k rec) (hk : 3 ≤ k) (hS : M.sane) (hok : g.regs.ok)
    (hsf : M.NREG.toNat < sf) :
    ∃ g1, fopWith M C sf rec g o f1 f2 t = some g1 ∧ g1.regs.ok := by
  unfold fopWith
  simp only
  obtain ⟨nod3, st1, ha, hop, _, ok1⟩ := regalloc_some M sf g.regs t (some t) hS hok hsf
  simp only [ha]
  have hn1 : (nodreg g.regs t (i32 (M.NREG + f1))).op = .OREGISTER := hok.1
  obtain ⟨g2, hg2, ok2⟩ := gopcodeWith_returns M C sf rec { g with regs := st1 } o
    (nodreg g.regs t (i32 (M.NREG + f1))) (some (nodreg g.regs t (i32 (M.NREG + f2)))) nod3
    hS ok1 hsf
    (hrec _ _ _ ok1 (le_trans (gmoveDepth_register M _ _ hn1) hk))
  simp only [hg2]
  obtain ⟨g3, hg3, ok3⟩ := hrec g2 nod3 t ok2 (le_trans (gmoveDepth_register M _ _ hop) hk)
  simp only [hg3]
  exact ⟨_, rfl, regfree_ok M _ nod3 ok3⟩

theorem gmoveLoad_returns (M : Machine) (C : Cc) (sf k : Nat)
    (rec : Gen → Node → Node → Option Gen) (g : Gen) (f t : Node)
    (hrec : Returns M k rec) (hk : 3 ≤ k) (hS : M.sane) (hok : g.regs.ok)
    (hsf : M.NREG.toNat < sf) :
    ∃ g1, gmoveLoad M C sf rec g f t = some g1 ∧ g1.regs.ok := by
  unfold gmoveLoad
  simp only
  obtain ⟨tn, hr⟩ : ∃ tn, (if C.typechlp f.etype = true ∧ C.typeilp t.etype = true then
      regalloc M sf g.regs t (some t) else regalloc M sf g.regs f (some t)) =
      regalloc M sf g.regs tn (some t) := by
    split
    · exact ⟨t, rfl⟩
    · exact ⟨f, rfl⟩
  rw [hr]
  obtain ⟨nod, st1, ha, hop, _, ok1⟩ := regalloc_some M sf g.regs tn (some t) hS hok hsf
  simp only [ha]
  obtain ⟨g2, hg2, ok2⟩ := hrec (gins { g with regs := st1 } (loadAs f.etype) (some f) (some nod))
    nod t ok1 (le_trans (gmoveDepth_register M _ _ hop) hk)
  simp only [hg2]
  exact ⟨_, rfl, regfree_ok M _ nod ok2⟩

theorem gmoveStore_returns (M : Machine) (C : Cc) (sf k : Nat)
    (rec : Gen → Node → Node → Option Gen) (g : Gen) (f t : Node)
    (hrec : Returns M k rec) (hk : 2 ≤ k) (hs : gmoveSpecial M f = .no) (hf : f.isMem = false)
    (hS : M.sane) (hok : g.regs.ok) (hsf : M.NREG.toNat < sf) :
    ∃ g1, gmoveStore M C sf rec g f t = some g1 ∧ g1.regs.ok := by
  unfold gmoveStore
  simp only
  split
  · exact ⟨_, rfl, hok⟩
  · obtain ⟨o, hr⟩ : ∃ o, (if f.etype = t.etype then regalloc M sf g.regs t (some f)
        else regalloc M sf g.regs t none) = regalloc M sf g.regs t o := by
      split
      · exact ⟨some f, rfl⟩
      · exact ⟨none, rfl⟩
    rw [hr]
    obtain ⟨nod, st1, ha, hop, _, ok1⟩ := regalloc_some M sf g.regs t o hS hok hsf
    simp only [ha]
    obtain ⟨g2, hg2, ok2⟩ := hrec { g with regs := st1 } f nod ok1
      (le_trans (gmoveDepth_regs M f nod hs hf (isMem_register nod hop)) hk)
    simp only [hg2]
    exact ⟨_, rfl, regfree_ok M _ nod ok2⟩

theorem gmoveFloatToFix_returns (M : Machine) (sf k : Nat)
    (rec : Gen → Node → Node → Option Gen) (g : Gen) (f t : Node)
    (hrec : Returns M k rec) (hk : 1 ≤ k) (hx : t.etype.isFixed = true) (ht : t.isMem = false)
    (hS : M.sane) (hok : g.regs.ok) (hsf : M.NREG.toNat < sf) :
    ∃ g1, gmoveFloatToFix M sf rec g f t = some g1 ∧ g1.regs.ok := by
  unfold gmoveFloatToFix
  obtain ⟨nod, st1, ha, _, _, ok1⟩ := regalloc_some M sf g.regs f none hS hok hsf
  simp only [ha]
  apply match_returns
  refine (hrec _ t t (regfree_ok M st1 nod ok1)
    (by rw [gmoveDepth_same M t hx ht]; exact hk)).imp fun g2 h2 => ⟨h2.1, ?_⟩
  rw [ratHole_regs]
  exact h2.2

theorem gmoveFixToFloat_returns (M : Machine) (sf : Nat) (g : Gen) (f t : Node)
    (hS : M.sane) (hok : g.regs.ok) (hsf : M.NREG.toNat < sf) :
    ∃ g1, gmoveFixToFloat M sf g f t = some g1 ∧ g1.regs.ok := by
  unfold gmoveFixToFloat
  obtain ⟨nod, st1, ha, _, _, ok1⟩ := regalloc_some M sf g.regs t none hS hok hsf
  simp only [ha]
  refine ⟨_, rfl, ?_⟩
  rw [ratHole_regs]
  exact regfree_ok M _ nod ok1

theorem gmoveBody_returns (M : Machine) (C : Cc) (sf k : Nat)
    (rec : Gen → Node → Node → Option Gen) (g : Gen) (f t : Node)
    (hrec : Returns M k rec) (hd : gmoveDepth M f t ≤ k + 1) (hS : M.sane) (hok : g.regs.ok)
    (hsf : M.NREG.toNat < sf) :
    ∃ g1, gmoveBody M C sf rec g f t = some g1 ∧ g1.regs.ok := by
  unfold gmoveBody
  cases hs : gmoveSpecial M f with
  | ffreg a =>
    have h4 : gmoveDepth M f t = 4 := by
      unfold gmoveDepth
      rw [if_pos (Or.inl (by rw [hs]; simp))]
    simp only
    exact hrec _ _ _ hok (le_trans (gmoveDepth_register M _ _ hok.1) (by omega))
  | fop o a b =>
    have h4 : gmoveDepth M f t = 4 := by
      unfold gmoveDepth
      rw [if_pos (Or.inl (by rw [hs]; simp))]
    simp only
    exact fopWith_returns M C sf k rec g o a b t hrec (by omega) hS hok hsf
  | no =>
    simp only
    by_cases hf : f.op = .ONAME ∨ f.op = .OINDREG ∨ f.op = .OIND
    · rw [if_pos hf]
      have h4 : gmoveDepth M f t = 4 := by
        unfold gmoveDepth
        rw [if_pos (Or.inr ((isMem_iff f).2 hf))]
      exact gmoveLoad_returns M C sf k rec g f t hrec (by omega) hS hok hsf
    · rw [if_neg hf]
      have hfm : f.isMem = false := by
        cases hm : f.isMem with
        | false => rfl
        | true => exact absurd ((isMem_iff f).1 hm) hf
      by_cases ht : t.op = .ONAME ∨ t.op = .OINDREG ∨ t.op = .OIND
      · rw [if_pos ht]
        have h3 : gmoveDepth M f t = 3 := by
          unfold gmoveDepth
          rw [if_neg (by simp [hs, hfm]), if_pos ((isMem_iff t).2 ht)]
        exact gmoveStore_returns M C sf k rec g f t hrec (by omega) hs hfm hS hok hsf
      · rw [if_neg ht]
        have htm : t.isMem = false := by
          cases hm : t.isMem with
          | false => rfl
          | true => exact absurd ((isMem_iff t).1 hm) ht
        cases hc : cross f.etype t.etype with
        | floatToFix =>
          have h2 : gmoveDepth M f t = 2 := by
            unfold gmoveDepth
            rw [if_neg (by simp [hs, hfm]), if_neg (by simp [htm]), if_pos hc]
          simp only
          exact gmoveFloatToFix_returns M sf k rec g f t hrec (by omega)
            (cross_floatToFix _ _ hc).2 htm hS hok hsf
        | fixToFloat =>
          simp only
          exact gmoveFixToFloat_returns M sf g f t hS hok hsf
        | ins a =>
          simp only
          exact ⟨_, rfl, by rw [gmoveEnd_regs]; exact hok⟩

theorem gmove_returns (M : Machine) (C : Cc) (sf : Nat) (hS : M.sane)
    (hsf : M.NREG.toNat < sf) : ∀ depth : Nat, Returns M depth (gmove M C sf depth) := by
  intro depth
  induction depth with
  | zero =>
    intro g f t _ hd
    have := gmoveDepth_pos M f t
    omega
  | succ n ih =>
    intro g f t hok hd
    rw [gmove]
    exact gmoveBody_returns M C sf n _ g f t ih hd hS hok hsf

/-! ## Claim on the balance of the register counts -/

theorem gcleanFixed_clean (M : Machine) (reg : Int → Int) (hS : M.sane) :
    ∀ (fuel : Nat) (i : Int), 0 ≤ i → (M.NREG - i).toNat < fuel →
      (∀ r, i ≤ r → r < M.NREG → r ≠ M.REGZERO → reg r = 0) →
      gcleanFixed M reg fuel i = some [] := by
  intro fuel
  induction fuel with
  | zero =>
    intro i _ h
    omega
  | succ n ih =>
    intro i hi hf hz
    rw [gcleanFixed]
    by_cases hlt : i < M.NREG
    · have hN := hS.2
      rw [if_pos hlt, i32_small (i + 1) (by omega) (by omega),
        ih (i + 1) (by omega) (by omega) (fun r h1 h2 h3 => hz r (by omega) h2 h3)]
      simp only
      rw [if_neg]
      intro hc
      exact hc.2 (hz i (le_refl _) hlt hc.1)
    · rw [if_neg hlt]

theorem gcleanFloat_clean (M : Machine) (reg : Int → Int) (hS : M.sane) :
    ∀ (fuel : Nat) (i : Int), 0 ≤ i → (M.NREG + M.NREG - i).toNat < fuel →
      (∀ r, i ≤ r → r < M.NREG + M.NREG → reg r = 0) →
      gcleanFloat M reg fuel i = some [] := by
  intro fuel
  induction fuel with
  | zero =>
    intro i _ h
    omega
  | succ n ih =>
    intro i hi hf hz
    have hN := hS.2
    have e2 : i32 (M.NREG + M.NREG) = M.NREG + M.NREG := i32_small _ (by omega) (by omega)
    rw [gcleanFloat, e2]
    by_cases hlt : i < M.NREG + M.NREG
    · rw [if_pos hlt, i32_small (i + 2) (by omega) (by omega),
        ih (i + 2) (by omega) (by omega) (fun r h1 h2 => hz r (by omega) h2)]
      simp only
      rw [if_neg]
      intro hc
      exact hc (hz i (le_refl _) hlt)
    · rw [if_neg hlt]

theorem gcleanDiags_clean (M : Machine) (reg : Int → Int) (fuel : Nat) (hS : M.sane)
    (hf : (M.NREG + M.NREG).toNat < fuel)
    (hz : ∀ r, 0 ≤ r → r < M.NREG + M.NREG → r ≠ M.REGZERO → reg r = 0)
    (hzero : M.REGZERO < M.NREG) :
    gcleanDiags M fuel reg = some [] := by
  have hN := hS.2
  unfold gcleanDiags
  rw [gcleanFixed_clean M reg hS fuel 0 (le_refl _) (by omega)
      (fun r h1 h2 h3 => hz r h1 (by omega) h3),
    gcleanFloat_clean M reg hS fuel M.NREG hN.1 (by omega)
      (fun r h1 h2 => hz r (by omega) h2 (by omega))]
  rfl

/-- C31: with the constants of a machine, the globals as `ginit` and
`regalloc` leave them (`regnode` a register node, `lasti` in 0..4), every count
of `reg[]` at least 0 and with room to go up by `2*depth+2` without
overflowing its element, and operands that are nodes: `gmove`, `fop` and
`gopcode` return, and every count of `reg[]` is then what it was at entry
(also when `gopcode` returns with an operand `Z`); so `gclean` gives the same messages "reg %d left allocated" after the
call as before it, and none when no register but the zero register was in use.
The reason is in the register routines: a node filled by `regalloc` has the
register -1 (then `reg[]` is unchanged) or a register from 0 to `NREG+NREG-1`
whose count has gone up by one, and `regfree` of that node, after calls that
leave the counts alone, puts the counts back (with the register -1 it only
calls `diag`); `regfree` changes `reg[]` only for a register or indirect node
whose `reg` is at least 0 and below `sizeof(reg)` and whose count is positive,
and then by taking one off that count. -/
theorem reg_balance (M : Machine) (C : Cc) (B : Int) (sf depth : Nat) (g : Gen)
    (hS : M.sane) (hM : M.ok B) (hok : g.regs.ok) (hroom : g.regs.room B (2 * depth + 2))
    (hsf : M.NREG.toNat < sf) (hd : 4 ≤ depth) :
    (∀ f t : Node, ∃ g1, gmove M C sf depth g f t = some g1 ∧ g1.regs.reg = g.regs.reg) ∧
    (∀ (o : Op) (f1 f2 : Int) (t : Node),
      ∃ g1, fop M C sf depth g o f1 f2 t = some g1 ∧ g1.regs.reg = g.regs.reg) ∧
    (∀ (o : Op) (f1 : Node) (f2 : Option Node) (t : Node),
      ∃ g1, gopcode M C sf depth g o (some f1) f2 (some t) = some g1 ∧
        g1.regs.reg = g.regs.reg) ∧
    (∀ (o : Op) (f1 f2 t : Option Node) (g1 : Gen),
      gopcode M C sf depth g o f1 f2 t = some g1 → g1.regs.reg = g.regs.reg) ∧
    (∀ (g1 : Gen) (fuel : Nat), g1.regs.reg = g.regs.reg →
      gcleanDiags M fuel g1.regs.reg = gcleanDiags M fuel g.regs.reg ∧
      ((M.NREG + M.NREG).toNat < fuel → M.REGZERO < M.NREG →
        (∀ r, 0 ≤ r → r < M.NREG + M.NREG → r ≠ M.REGZERO → g.regs.reg r = 0) →
        gcleanDiags M fuel g1.regs.reg = some [])) ∧
    (∀ (tn : Node) (o : Option Node) (nod : Node) (st1 : Regs),
      regalloc M sf g.regs tn o = some (nod, st1) →
      (nod.reg = -1 ∨ (0 ≤ nod.reg ∧ nod.reg < M.NREG + M.NREG)) ∧
      (nod.reg = -1 → st1.reg = g.regs.reg) ∧
      (0 ≤ nod.reg → st1.reg = Function.update g.regs.reg nod.reg (g.regs.reg nod.reg + 1)) ∧
      ∀ st2 : Regs, st2.reg = st1.reg → (regfree M st2 nod).reg = g.regs.reg) ∧
    (∀ (st : Regs) (n : Node),
      (regfree M st n).reg = st.reg ∨
      ((n.op = .OREGISTER ∨ n.op = .OINDREG) ∧ 0 ≤ n.reg ∧ n.reg < M.regBytes ∧
        0 < st.reg n.reg ∧
        (regfree M st n).reg = Function.update st.reg n.reg (M.conv (st.reg n.reg - 1)))) := by
  have hret := gmove_returns M C sf hS hsf depth
  have hbal := gmove_balanced M C B sf hS hM depth
  have hroom0 : g.regs.room B (2 * depth) := room_mono hroom (by omega)
  have hroom1 : g.regs.room B (2 * depth + 1) := room_mono hroom (by omega)
  refine ⟨?_, ?_, ?_, ?_, ?_, ?_, regfree_guard M⟩
  · intro f t
    obtain ⟨g1, h1, _⟩ := hret g f t hok (le_trans (gmoveDepth_le M f t) hd)
    exact ⟨g1, h1, (hbal g f t g1 hok hroom0 h1).1⟩
  · intro o f1 f2 t
    obtain ⟨g1, h1, _⟩ := fopWith_returns M C sf depth _ g o f1 f2 t hret (by omega) hS hok hsf
    exact ⟨g1, h1, (fopWith_balanced M C B sf (2 * depth) _ g g1 o f1 f2 t hbal hS hM hok
      hroom h1).1⟩
  · intro o f1 f2 t
    obtain ⟨g1, h1, _⟩ := gopcodeWith_returns M C sf _ g o f1 f2 t hS hok hsf
      (hret g f1 t hok (le_trans (gmoveDepth_le M f1 t) hd))
    exact ⟨g1, h1, (gopcodeWith_balanced M C B sf (2 * depth) _ g g1 o _ f2 _ hbal hS hM hok
      hroom1 h1).1⟩
  · intro o f1 f2 t g1 h1
    exact (gopcodeWith_balanced M C B sf (2 * depth) _ g g1 o f1 f2 t hbal hS hM hok
      hroom1 h1).1
  · intro g1 fuel he
    rw [he]
    exact ⟨rfl, fun hf hz hfree => gcleanDiags_clean M _ fuel hS hf hfree hz⟩
  · intro tn o nod st1 ha
    obtain ⟨_, _, _, _, hr, hfree⟩ :=
      alloc_free M B sf (2 * depth + 1) g.regs tn o nod st1 hS hM hok hroom ha
    obtain ⟨_, _, _, h4⟩ := regalloc_result M sf g.regs tn o nod st1 hS hok ha
    refine ⟨hr, ?_, ?_, hfree⟩
    · intro hm
      rcases h4 with ⟨_, h4⟩ | ⟨h4, _⟩
      · exact h4
      · omega
    · intro hp
      rcases h4 with ⟨h4, _⟩ | ⟨_, _, h4⟩
      · omega
      · obtain ⟨r1, r2⟩ := hroom nod.reg
        push_cast at r2
        rw [h4, hM.2 _ (by omega) (by omega)]

theorem reg_balance_witness :
    (∃ g1, gmove alpha okCc 40 4 okGen doubleVar longVar = some g1 ∧
      g1.regs.reg = okGen.regs.reg) ∧
    (∃ g1, fop alpha okCc 40 4 okGen .OADD 28 29 doubleVar = some g1 ∧
      g1.regs.reg = okGen.regs.reg) ∧
    (∃ g1, gopcode alpha okCc 40 4 okGen .OLT (some longVar) none (some longVar) = some g1 ∧
      g1.regs.reg = okGen.regs.reg) :=
  have h := reg_balance alpha okCc 127 40 4 okGen (by simp [Machine.sane, alpha])
    ⟨by simp [alpha], fun x h1 h2 => by simp only [alpha]; omega⟩
    ⟨rfl, by decide, by decide⟩
    (fun r => by simp only [okGen, busyRegs]; split_ifs <;> simp)
    (by simp [alpha]) (le_refl 4)
  ⟨h.1 doubleVar longVar, h.2.1 .OADD 28 29 doubleVar, h.2.2.1 .OLT longVar none longVar⟩

set_option maxRecDepth 8192 in
/-- Runs for C31 on the concrete machine: moving a `double` in memory to a
`long` in memory emits five instructions through the temporaries F15, F12 and
R6 and leaves every count as it was (the differences are 0), so that `gclean` names the registers 1
to 5 that were in use before; with every register in use the temporaries are
the register -1, each `regfree` calls `diag`, and the counts are unchanged. -/
theorem gmove_runs :
    (gmove alpha okCc 40 4 okGen doubleVar longVar).map
        (fun g => g.prog.map (fun i => (i.opc, i.src.map (fun n => n.reg),
          i.dst.map (fun n => n.reg)))) =
      some [(.AMOVT, some 0, some 47), (.ACVTTQ, some 47, some 44), (.AMOVT, some 44, some 0),
        (.AMOVQ, some 0, some 6), (.AMOVL, some 6, some 0)] ∧
    (gmove alpha okCc 40 4 okGen doubleVar longVar).map
        (fun g => (List.range 64).map (fun (r : Nat) => g.regs.reg r - okGen.regs.reg r)) =
      some (List.replicate 64 0) ∧
    (gmove alpha okCc 40 4 okGen doubleVar longVar).map (fun g => g.regs.diags) = some [] ∧
    (gmove alpha okCc 40 4 okGen doubleVar longVar).map
        (fun g => gcleanDiags alpha 70 g.regs.reg) =
      some (some ["reg 1 left allocated", "reg 2 left allocated", "reg 3 left allocated",
        "reg 4 left allocated", "reg 5 left allocated"]) ∧
    (gmove alpha okCc 40 4 { okGen with regs := freeRegs } doubleVar longVar).map
        (fun g => gcleanDiags alpha 70 g.regs.reg) = some (some []) ∧
    (gmove alpha okCc 40 4 { okGen with regs := fullRegs } doubleVar longVar).map
        (fun g => g.prog.map (fun i => (i.src.map (fun n => n.reg),
          i.dst.map (fun n => n.reg)))) =
      some [(some 0, some (-1)), (some (-1), some (-1)), (some (-1), some 0),
        (some 0, some (-1)), (some (-1), some 0)] ∧
    (gmove alpha okCc 40 4 { okGen with regs := fullRegs } doubleVar longVar).map
        (fun g => (List.range 64).map (fun (r : Nat) => g.regs.reg r - fullRegs.reg r)) =
      some (List.replicate 64 0) ∧
    (gmove alpha okCc 40 4 { okGen with regs := fullRegs } doubleVar longVar).map
        (fun g => g.regs.diags) =
      some ["out of float registers", "out of fixed registers", "out of float registers",
        "error in regfree: %d op %O", "error in regfree: %d op %O",
        "error in regfree: %d op %O"] := by
  decide

/-! ## Claim on the termination of `gmove` -/

theorem cross_same (ft : Etype) (h : ft.isFixed = true) : ∃ a, cross ft ft = .ins a := by
  cases ft <;> simp [cross, Etype.isFixed] at h ⊢

theorem gmove_leaf (M : Machine) (C : Cc) (sf d : Nat) (g : Gen) (t : Node)
    (hx : t.etype.isFixed = true) (ht : t.isMem = false) :
    ∃ g1, gmove M C sf (d + 1) g t t = some g1 ∧ g1.regs = g.regs ∧
      g1.nrathole = g.nrathole ∧ (g1.prog = g.prog ∨ ∃ i, g1.prog = g.prog ++ [i]) := by
  obtain ⟨a, ha⟩ := cross_same t.etype hx
  have hnm : ¬ (t.op = .ONAME ∨ t.op = .OINDREG ∨ t.op = .OIND) := by
    intro hc
    rw [(isMem_iff t).2 hc] at ht
    exact absurd ht (by simp)
  rw [gmove]
  unfold gmoveBody
  rw [gmoveSpecial_fixed M t hx]
  simp only
  rw [if_neg hnm, if_neg hnm, ha]
  refine ⟨_, rfl, gmoveEnd_regs g a t t, ?_, ?_⟩
  · unfold gmoveEnd
    split <;> rfl
  · unfold gmoveEnd
    split
    · exact Or.inl rfl
    · exact Or.inr ⟨_, rfl⟩

/-- C32: for all operand nodes `f` and `t`, with the constants of a machine
and the globals as `ginit` and `regalloc` leave them, `gmove(f, t)` returns as
soon as its calls of itself may nest `gmoveDepth f t` deep, and that bound is
at most 4 whatever the operands.  The bound goes down at each call: a
constant or memory source is replaced by a register node, for which the bound
is at most 3; a memory destination is replaced by a register node, for which
(the source being neither) the bound is at most 2; and the last call
`gmove(t, t)`, on an operand of integer type that is not in memory, has bound
1: it calls neither `gmove` nor `regalloc`, leaves the globals but the
instruction list as they are, and emits at most one instruction. -/
theorem gmove_terminates (M : Machine) (C : Cc) (sf depth : Nat) (g : Gen) (f t : Node)
    (hS : M.sane) (hok : g.regs.ok) (hsf : M.NREG.toNat < sf)
    (hd : gmoveDepth M f t ≤ depth) :
    gmoveDepth M f t ≤ 4 ∧
    (∃ g1, gmove M C sf depth g f t = some g1 ∧ g1.regs.ok) ∧
    (∀ n : Node, n.op = .OREGISTER → gmoveDepth M n t ≤ 3) ∧
    (gmoveSpecial M f = .no → f.isMem = false →
      ∀ n : Node, n.op = .OREGISTER → gmoveDepth M f n ≤ 2) ∧
    (t.etype.isFixed = true → t.isMem = false →
      gmoveDepth M t t = 1 ∧
      ∀ (d : Nat) (g0 : Gen), ∃ g1, gmove M C sf (d + 1) g0 t t = some g1 ∧
        g1.regs = g0.regs ∧ g1.nrathole = g0.nrathole ∧
        (g1.prog = g0.prog ∨ ∃ i, g1.prog = g0.prog ++ [i])) :=
  ⟨gmoveDepth_le M f t, gmove_returns M C sf hS hsf depth g f t hok hd,
    fun n hn => gmoveDepth_register M n t hn,
    fun hs hf n hn => gmoveDepth_regs M f n hs hf (isMem_register n hn),
    fun hx ht => ⟨gmoveDepth_same M t hx ht, fun d g0 => gmove_leaf M C sf d g0 t hx ht⟩⟩

theorem gmove_terminates_witness :
    gmoveDepth alpha doubleVar longVar ≤ 4 ∧
    (∃ g1, gmove alpha okCc 40 4 okGen doubleVar longVar = some g1 ∧ g1.regs.ok) :=
  have h := gmove_terminates alpha okCc 40 4 okGen doubleVar longVar
    (by simp [Machine.sane, alpha]) ⟨rfl, by decide, by decide⟩ (by simp [alpha]) (by decide)
  ⟨h.1, h.2.1⟩

/-- Runs for C32: the bound 4 is reached by a move of a `double` in memory to
a `long` in memory (three nested calls do not finish it, four do), and a
register of type `long` moved to itself emits nothing. -/
theorem gmove_depth_runs :
    gmoveDepth alpha doubleVar longVar = 4 ∧
    (gmove alpha okCc 40 3 okGen doubleVar longVar).isSome = false ∧
    (gmove alpha okCc 40 4 okGen doubleVar longVar).isSome = true ∧
    (gmove alpha okCc 40 1 okGen okRegnode okRegnode).map (fun g => g.prog) = some [] := by
  decide

/-! ## Claim on `sval`, `bval`, `sconst` and `bconst` -/

/-- C33: `sval(v)` is 1 when `-32766 <= v < 32766` and 0 otherwise, `bval(v)`
is 1 when `0 <= v < 256` and 0 otherwise; `sconst(n)` (`bconst(n)`) is 1
exactly when `n` is an `OCONST` node whose type is not in `typefd` and whose
`vconst` is at least -32766 and below 32766 (at least 0 and below 256), and 0
otherwise; that is when `bval(n->vconst)` is 1, and, for a `vconst` that a
`long` holds, when `sval(n->vconst)` is 1; a value that is accepted fits in a
signed 16-bit (an unsigned 8-bit) field. -/
theorem immediate_ranges (C : Cc) (n : Node) (v : Int) :
    (sval v = 1 ↔ (-32766 ≤ v ∧ v < 32766)) ∧ (sval v = 1 ∨ sval v = 0) ∧
    (bval v = 1 ↔ (0 ≤ v ∧ v < 256)) ∧ (bval v = 1 ∨ bval v = 0) ∧
    (sconst C n = 1 ↔
      (n.op = .OCONST ∧ C.typefd n.etype = false ∧ -32766 ≤ n.vconst ∧ n.vconst < 32766)) ∧
    (-2 ^ 31 ≤ n.vconst ∧ n.vconst < 2 ^ 31 →
      (sconst C n = 1 ↔
        (n.op = .OCONST ∧ C.typefd n.etype = false ∧ sval (i32 n.vconst) = 1))) ∧
    (sconst C n = 1 ∨ sconst C n = 0) ∧
    (bconst C n = 1 ↔
      (n.op = .OCONST ∧ C.typefd n.etype = false ∧ 0 ≤ n.vconst ∧ n.vconst < 256)) ∧
    (bconst C n = 1 ↔ (n.op = .OCONST ∧ C.typefd n.etype = false ∧ bval n.vconst = 1)) ∧
    (bconst C n = 1 ∨ bconst C n = 0) ∧
    (sval v = 1 → -2 ^ 15 ≤ v ∧ v < 2 ^ 15) ∧
    (bval v = 1 → 0 ≤ v ∧ v < 2 ^ 8) ∧
    (sconst C n = 1 → -2 ^ 15 ≤ n.vconst ∧ n.vconst < 2 ^ 15) ∧
    (bconst C n = 1 → 0 ≤ n.vconst ∧ n.vconst < 2 ^ 8) := by
  have hs : ∀ x : Int, sval x = 1 ↔ (-32766 ≤ x ∧ x < 32766) := by
    intro x
    unfold sval
    split
    · next h => exact ⟨fun _ => ⟨h.1, h.2⟩, fun _ => rfl⟩
    · next h => exact ⟨fun h1 => absurd h1 (by decide), fun h1 => absurd ⟨h1.1, h1.2⟩ h⟩
  have hb : ∀ x : Int, bval x = 1 ↔ (0 ≤ x ∧ x < 256) := by
    intro x
    unfold bval
    split
    · next h => exact ⟨fun _ => ⟨h.1, h.2⟩, fun _ => rfl⟩
    · next h => exact ⟨fun h1 => absurd h1 (by decide), fun h1 => absurd ⟨h1.1, h1.2⟩ h⟩
  have hsc : sconst C n = 1 ↔
      (n.op = .OCONST ∧ C.typefd n.etype = false ∧ sval n.vconst = 1) := by
    rw [hs]
    unfold sconst
    split
    · next h1 =>
      split
      · next h2 =>
        split
        · next h3 => exact ⟨fun _ => ⟨h1, h2, h3.1, h3.2⟩, fun _ => rfl⟩
        · next h3 =>
          exact ⟨fun h => absurd h (by decide), fun h => absurd ⟨h.2.2.1, h.2.2.2⟩ h3⟩
      · next h2 => exact ⟨fun h => absurd h (by decide), fun h => absurd h.2.1 h2⟩
    · next h1 => exact ⟨fun h => absurd h (by decide), fun h => absurd h.1 h1⟩
  have hbc : bconst C n = 1 ↔
      (n.op = .OCONST ∧ C.typefd n.etype = false ∧ bval n.vconst = 1) := by
    rw [hb]
    unfold bconst
    split
    · next h1 =>
      split
      · next h2 =>
        split
        · next h3 => exact ⟨fun _ => ⟨h1, h2, h3.1, h3.2⟩, fun _ => rfl⟩
        · next h3 =>
          exact ⟨fun h => absurd h (by decide), fun h => absurd ⟨h.2.2.1, h.2.2.2⟩ h3⟩
      · next h2 => exact ⟨fun h => absurd h (by decide), fun h => absurd h.2.1 h2⟩
    · next h1 => exact ⟨fun h => absurd h (by decide), fun h => absurd h.1 h1⟩
  refine ⟨hs v, ?_, hb v, ?_, by rw [hsc, hs], ?_, ?_, by rw [hbc, hb], hbc, ?_, ?_, ?_, ?_, ?_⟩
  · unfold sval
    split
    · exact Or.inl rfl
    · exact Or.inr rfl
  · unfold bval
    split
    · exact Or.inl rfl
    · exact Or.inr rfl
  · intro hr
    have e : i32 n.vconst = n.vconst := by
      unfold i32
      omega
    rw [e]
    exact hsc
  · unfold sconst
    split_ifs <;> first | exact Or.inl rfl | exact Or.inr rfl
  · unfold bconst
    split_ifs <;> first | exact Or.inl rfl | exact Or.inr rfl
  · intro h
    have := (hs v).1 h
    omega
  · intro h
    have := (hb v).1 h
    omega
  · intro h
    have := (hs _).1 (hsc.1 h).2.2
    omega
  · intro h
    have := (hb _).1 (hbc.1 h).2.2
    omega

/-- Runs for C33 at the ends of the ranges: -32766 and 32765 are accepted by
`sval` and -32767 and 32766 are not; 0 and 255 are accepted by `bval` and -1
and 256 are not; `sconst` and `bconst` refuse a constant of type `double` and a
node that is not a constant; a `vconst` of 2^32 is refused by `sconst`, and as
the `long` argument of `sval` it is 0. -/
theorem immediate_runs :
    sval (-32766) = 1 ∧ sval 32765 = 1 ∧ sval (-32767) = 0 ∧ sval 32766 = 0 ∧
    bval 0 = 1 ∧ bval 255 = 1 ∧ bval (-1) = 0 ∧ bval 256 = 0 ∧
    sconst okCc { op := .OCONST, reg := 0, etype := .TLONG, lineno := 1, rest := 0,
                  vconst := 255 } = 1 ∧
    bconst okCc { op := .OCONST, reg := 0, etype := .TLONG, lineno := 1, rest := 0,
                  vconst := 256 } = 0 ∧
    sconst okCc { op := .OCONST, reg := 0, etype := .TDOUBLE, lineno := 1, rest := 0,
                  vconst := 5 } = 0 ∧
    bconst okCc { longVar with vconst := 5 } = 0 ∧
    sconst okCc { op := .OCONST, reg := 0, etype := .TVLONG, lineno := 1, rest := 0,
                  vconst := 2 ^ 32 } = 0 ∧
    sval (i32 (2 ^ 32)) = 1 := by
  decide

end SevenC

namespace Fossil

/-! ## Claim on `fsEpochLow`: how an accepted call ends -/

theorem superPutWrite_at (env : Env) (b : Block) (k fuel : Nat) (w : World)
    (h : WritesAt env b w.trace k) (hk : k < fuel) :
    superPutWrite env b fuel w =
      .done () { w with trace := w.trace ++ retries b k ++ [.blockWrite b] } := by
  obtain ⟨k2, _, hfail, hend⟩ := superPutWrite_retries env b fuel w
  rcases hend with ⟨he, _⟩ | ⟨_, hok, hd⟩
  · have := hfail k (by omega)
    rw [h.2] at this
    exact absurd this (by simp)
  · have hk2 : k2 = k := by
      rcases Nat.lt_trichotomy k2 k with hlt | heq | hgt
      · have := h.1 k2 hlt
        rw [hok] at this
        exact absurd this (by simp)
      · exact heq
      · have := hfail k hgt
        rw [h.2] at this
        exact absurd this (by simp)
    subst hk2
    exact hd

theorem superPutWrite_dead (env : Env) (b : Block) (fuel : Nat) (w : World)
    (h : ∀ i, env.blockWrite (w.trace ++ retries b i) b = false) :
    superPutWrite env b fuel w = .hang { w with trace := w.trace ++ retries b fuel } := by
  obtain ⟨k2, _, _, hend⟩ := superPutWrite_retries env b fuel w
  rcases hend with ⟨_, hh⟩ | ⟨_, hok, _⟩
  · exact hh
  · rw [h k2] at hok
    exact absurd hok (by simp)

theorem superPutWait_at (env : Env) (b : Block) : ∀ (m fuel : Nat) (w : World),
    StaysWriting env b w.trace m → m < fuel →
    ((env.iostate (w.trace ++ List.replicate m (.vtSleep b)) b = BioClean ∨
        env.iostate (w.trace ++ List.replicate m (.vtSleep b)) b = BioDirty) →
      superPutWait env b fuel w =
        .done () { w with trace := w.trace ++ List.replicate m (.vtSleep b) }) ∧
    (env.iostate (w.trace ++ List.replicate m (.vtSleep b)) b ≠ BioClean →
      env.iostate (w.trace ++ List.replicate m (.vtSleep b)) b ≠ BioDirty →
      env.iostate (w.trace ++ List.replicate m (.vtSleep b)) b ≠ BioWriting →
      superPutWait env b fuel w =
        .abort { w with trace := w.trace ++ List.replicate m (.vtSleep b) }) := by
  intro m
  induction m with
  | zero =>
    intro fuel w _ hf
    obtain ⟨f, rfl⟩ : ∃ f, fuel = f + 1 := ⟨fuel - 1, by omega⟩
    simp only [List.replicate_zero, List.append_nil]
    constructor
    · intro hst
      unfold superPutWait
      simp only
      rw [if_neg (by
        intro hc
        rcases hst with h | h
        · exact hc.1 h
        · exact hc.2 h)]
    · intro h1 h2 h3
      unfold superPutWait
      simp only
      rw [if_pos ⟨h1, h2⟩, if_neg h3]
  | succ n ih =>
    intro fuel w hs hf
    obtain ⟨f, rfl⟩ : ∃ f, fuel = f + 1 := ⟨fuel - 1, by omega⟩
    have h0 : env.iostate w.trace b = BioWriting := by
      have := hs 0 (Nat.succ_pos n)
      simpa using this
    have htr : ∀ j, (w.log (.vtSleep b)).trace ++ List.replicate j (.vtSleep b) =
        w.trace ++ List.replicate (j + 1) (.vtSleep b) := by
      intro j
      simp [World.log, List.replicate_succ]
    have hs2 : StaysWriting env b (w.log (.vtSleep b)).trace n := by
      intro j hj
      rw [htr j]
      exact hs (j + 1) (by omega)
    have hstep : superPutWait env b (f + 1) w = superPutWait env b f (w.log (.vtSleep b)) := by
      rw [superPutWait]
      simp only [h0]
      rw [if_pos ⟨by decide, by decide⟩, if_pos trivial]
    obtain ⟨i1, i2⟩ := ih f (w.log (.vtSleep b)) hs2 (by omega)
    rw [htr n] at i1 i2
    have hw : ({ w.log (.vtSleep b) with
        trace := w.trace ++ List.replicate (n + 1) (.vtSleep b) } : World) =
        { w with trace := w.trace ++ List.replicate (n + 1) (.vtSleep b) } := rfl
    rw [hw] at i1 i2
    rw [hstep]
    exact ⟨i1, i2⟩

theorem superPutWait_busy (env : Env) (b : Block) : ∀ (fuel : Nat) (w : World),
    (∀ j, env.iostate (w.trace ++ List.replicate j (.vtSleep b)) b = BioWriting) →
    superPutWait env b fuel w =
      .hang { w with trace := w.trace ++ List.replicate fuel (.vtSleep b) } := by
  intro fuel
  induction fuel with
  | zero =>
    intro w _
    simp [superPutWait]
  | succ f ih =>
    intro w hs
    have h0 : env.iostate w.trace b = BioWriting := by
      have := hs 0
      simpa using this
    have htr : ∀ j, (w.log (.vtSleep b)).trace ++ List.replicate j (.vtSleep b) =
        w.trace ++ List.replicate (j + 1) (.vtSleep b) := by
      intro j
      simp [World.log, List.replicate_succ]
    rw [superPutWait]
    simp only [h0]
    rw [if_pos ⟨by decide, by decide⟩, if_pos trivial, ih (w.log (.vtSleep b)) (fun j => by
      rw [htr j]
      exact hs (j + 1)), htr f]
    rfl

theorem fsEpochLow_put (env : Env) (fuel : Nat) (w : World) (low : Nat) (bs : Block)
    (hlow : low ≤ w.fs.ehi)
    (hcl : env.cacheLocal (w.trace ++ [.vtLock .elk]) PartSuper 0 env.OReadWrite = some bs)
    (hun : env.superUnpack
      (w.trace ++ [.vtLock .elk, .cacheLocal PartSuper 0 env.OReadWrite]) bs = true) :
    fsEpochLow env fuel w low =
      match superPutWrite env bs fuel (lowWorld env w low bs) with
      | .done _ w1 =>
        match superPutWait env bs fuel w1 with
        | .done _ w2 => .done 1 ((w2.log (.blockPut bs)).log (.vtUnlock .elk))
        | .hang w2 => .hang w2
        | .abort w2 => .abort w2
      | .hang w1 => .hang w1
      | .abort w1 => .abort w1 := by
  have hsg := superGet_ok env (w.log (.vtLock .elk)) bs (by simpa using hcl)
    (by simpa using hun)
  unfold fsEpochLow
  simp only [World.log_fs, gt_iff_lt, not_lt.mpr hlow, if_false, hsg, World.log_super]
  unfold superPut
  simp only [one_ne_zero, ne_eq, not_false_eq_true, if_true]
  rw [lowWorld_eq]
  cases superPutWrite env bs fuel (lowWorld env w low bs) with
  | done u w1 =>
    simp only
    cases superPutWait env bs fuel w1 <;> rfl
  | hang w1 => rfl
  | abort w1 => rfl

theorem fsEpochLow_done (env : Env) (w : World) (low : Nat) (bs : Block) (k m fuel : Nat)
    (hlow : low ≤ w.fs.ehi)
    (hcl : env.cacheLocal (w.trace ++ [.vtLock .elk]) PartSuper 0 env.OReadWrite = some bs)
    (hun : env.superUnpack
      (w.trace ++ [.vtLock .elk, .cacheLocal PartSuper 0 env.OReadWrite]) bs = true)
    (hk : k < fuel) (hm : m < fuel)
    (hw : WritesAt env bs (lowWorld env w low bs).trace k)
    (hs : StaysWriting env bs (lowWritten env w low bs k) m)
    (hst : env.iostate (lowWritten env w low bs k ++ List.replicate m (.vtSleep bs)) bs
        = BioClean ∨
      env.iostate (lowWritten env w low bs k ++ List.replicate m (.vtSleep bs)) bs
        = BioDirty) :
    fsEpochLow env fuel w low =
      .done 1 { lowWorld env w low bs with
        trace := lowWritten env w low bs k ++ List.replicate m (.vtSleep bs) ++
          [.blockPut bs, .vtUnlock .elk] } := by
  rw [fsEpochLow_put env fuel w low bs hlow hcl hun,
    superPutWrite_at env bs k fuel _ hw hk]
  simp only
  rw [((superPutWait_at env bs m fuel _ hs hm).1 hst)]
  simp [World.log, lowWritten]

theorem fsEpochLow_dead (env : Env) (w : World) (low : Nat) (bs : Block) (fuel : Nat)
    (hlow : low ≤ w.fs.ehi)
    (hcl : env.cacheLocal (w.trace ++ [.vtLock .elk]) PartSuper 0 env.OReadWrite = some bs)
    (hun : env.superUnpack
      (w.trace ++ [.vtLock .elk, .cacheLocal PartSuper 0 env.OReadWrite]) bs = true)
    (hw : ∀ i, env.blockWrite ((lowWorld env w low bs).trace ++ retries bs i) bs = false) :
    fsEpochLow env fuel w low =
      .hang { lowWorld env w low bs with
        trace := (lowWorld env w low bs).trace ++ retries bs fuel } := by
  rw [fsEpochLow_put env fuel w low bs hlow hcl hun, superPutWrite_dead env bs fuel _ hw]

theorem fsEpochLow_busy (env : Env) (w : World) (low : Nat) (bs : Block) (k fuel : Nat)
    (hlow : low ≤ w.fs.ehi)
    (hcl : env.cacheLocal (w.trace ++ [.vtLock .elk]) PartSuper 0 env.OReadWrite = some bs)
    (hun : env.superUnpack
      (w.trace ++ [.vtLock .elk, .cacheLocal PartSuper 0 env.OReadWrite]) bs = true)
    (hk : k < fuel)
    (hw : WritesAt env bs (lowWorld env w low bs).trace k)
    (hs : ∀ j, env.iostate (lowWritten env w low bs k ++ List.replicate j (.vtSleep bs)) bs
      = BioWriting) :
    fsEpochLow env fuel w low =
      .hang { lowWorld env w low bs with
        trace := lowWritten env w low bs k ++ List.replicate fuel (.vtSleep bs) } := by
  rw [fsEpochLow_put env fuel w low bs hlow hcl hun,
    superPutWrite_at env bs k fuel _ hw hk]
  simp only
  rw [superPutWait_busy env bs fuel _ hs]
  rfl

theorem fsEpochLow_assert (env : Env) (w : World) (low : Nat) (bs : Block) (k m fuel : Nat)
    (hlow : low ≤ w.fs.ehi)
    (hcl : env.cacheLocal (w.trace ++ [.vtLock .elk]) PartSuper 0 env.OReadWrite = some bs)
    (hun : env.superUnpack
      (w.trace ++ [.vtLock .elk, .cacheLocal PartSuper 0 env.OReadWrite]) bs = true)
    (hk : k < fuel) (hm : m < fuel)
    (hw : WritesAt env bs (lowWorld env w low bs).trace k)
    (hs : StaysWriting env bs (lowWritten env w low bs k) m)
    (h1 : env.iostate (lowWritten env w low bs k ++ List.replicate m (.vtSleep bs)) bs
      ≠ BioClean)
    (h2 : env.iostate (lowWritten env w low bs k ++ List.replicate m (.vtSleep bs)) bs
      ≠ BioDirty)
    (h3 : env.iostate (lowWritten env w low bs k ++ List.replicate m (.vtSleep bs)) bs
      ≠ BioWriting) :
    fsEpochLow env fuel w low =
      .abort { lowWorld env w low bs with
        trace := lowWritten env w low bs k ++ List.replicate m (.vtSleep bs) } := by
  rw [fsEpochLow_put env fuel w low bs hlow hcl hun,
    superPutWrite_at env bs k fuel _ hw hk]
  simp only
  rw [((superPutWait_at env bs m fuel _ hs hm).2 h1 h2 h3)]
  rfl

/-- C7 (amended): for `low <= fs->ehi`, when `superGet` succeeds (its
`cacheLocal` returns `bs` and its `superUnpack` succeeds), `fsEpochLow(fs, low)`
sets `fs->elo` and the `epochLow` of the super-block to `low`, packs that
record into `bs` and starts the forced write of `superPut`, leaves every other
field of `Fs` (so `fs->ehi`) and of the super-block unchanged, and never
returns 0, whatever the fuel.  How it ends is decided by the disk.  When
`blockWrite(bs)` succeeds after `k` failed rounds and `bs` is then `BioClean`
or `BioDirty` after `m` rounds in the state `BioWriting`, the call returns 1
for every fuel above `k` and `m`, its calls being those rounds, `blockPut(bs)`
and `vtUnlock(fs->elk)`.  When every `blockWrite(bs)` fails, or `bs` stays
`BioWriting`, the call is still in its loop whatever the fuel; and when `bs`
reaches a state that is none of the three, the `assert` stops the process.
In these cases it does not return, and `elk` stays locked. -/
theorem fsEpochLow_outcome (env : Env) (w : World) (low : Nat) (bs : Block)
    (hlow : low ≤ w.fs.ehi)
    (hcl : env.cacheLocal (w.trace ++ [.vtLock .elk]) PartSuper 0 env.OReadWrite = some bs)
    (hun : env.superUnpack
      (w.trace ++ [.vtLock .elk, .cacheLocal PartSuper 0 env.OReadWrite]) bs = true) :
    (∀ fuel,
      ((fsEpochLow env fuel w low).ret = some 1 ∨ (fsEpochLow env fuel w low).ret = none) ∧
      (fsEpochLow env fuel w low).world.fs = { w.fs with elo := low } ∧
      (fsEpochLow env fuel w low).world.super = { w.super with epochLow := low } ∧
      ∃ rest, (fsEpochLow env fuel w low).world.trace =
          w.trace ++ [.vtLock .elk, .cacheLocal PartSuper 0 env.OReadWrite, .superUnpack bs,
            .superPack { w.super with epochLow := low } bs, .blockDirty bs] ++ rest ∧
        ∀ e ∈ rest, e.isWriteIO = true ∨ e = .vtUnlock .elk) ∧
    (∀ k m fuel, k < fuel → m < fuel →
      WritesAt env bs (lowWorld env w low bs).trace k →
      StaysWriting env bs (lowWritten env w low bs k) m →
      (env.iostate (lowWritten env w low bs k ++ List.replicate m (.vtSleep bs)) bs
          = BioClean ∨
        env.iostate (lowWritten env w low bs k ++ List.replicate m (.vtSleep bs)) bs
          = BioDirty) →
      fsEpochLow env fuel w low =
        .done 1 { lowWorld env w low bs with
          trace := lowWritten env w low bs k ++ List.replicate m (.vtSleep bs) ++
            [.blockPut bs, .vtUnlock .elk] }) ∧
    ((∀ i, env.blockWrite ((lowWorld env w low bs).trace ++ retries bs i) bs = false) →
      ∀ fuel, fsEpochLow env fuel w low =
        .hang { lowWorld env w low bs with
          trace := (lowWorld env w low bs).trace ++ retries bs fuel }) ∧
    (∀ k fuel, k < fuel →
      WritesAt env bs (lowWorld env w low bs).trace k →
      (∀ j, env.iostate (lowWritten env w low bs k ++ List.replicate j (.vtSleep bs)) bs
        = BioWriting) →
      fsEpochLow env fuel w low =
        .hang { lowWorld env w low bs with
          trace := lowWritten env w low bs k ++ List.replicate fuel (.vtSleep bs) }) ∧
    (∀ k m fuel, k < fuel → m < fuel →
      WritesAt env bs (lowWorld env w low bs).trace k →
      StaysWriting env bs (lowWritten env w low bs k) m →
      env.iostate (lowWritten env w low bs k ++ List.replicate m (.vtSleep bs)) bs
        ≠ BioClean →
      env.iostate (lowWritten env w low bs k ++ List.replicate m (.vtSleep bs)) bs
        ≠ BioDirty →
      env.iostate (lowWritten env w low bs k ++ List.replicate m (.vtSleep bs)) bs
        ≠ BioWriting →
      fsEpochLow env fuel w low =
        .abort { lowWorld env w low bs with
          trace := lowWritten env w low bs k ++ List.replicate m (.vtSleep bs) }) :=
  ⟨(fsEpochLow_sets env w low bs hlow hcl hun).1,
    fun k m fuel hk hm hw hs hst => fsEpochLow_done env w low bs k m fuel hlow hcl hun hk hm
      hw hs hst,
    fun hw fuel => fsEpochLow_dead env w low bs fuel hlow hcl hun hw,
    fun k fuel hk hw hs => fsEpochLow_busy env w low bs k fuel hlow hcl hun hk hw hs,
    fun k m fuel hk hm hw hs h1 h2 h3 => fsEpochLow_assert env w low bs k m fuel hlow hcl hun
      hk hm hw hs h1 h2 h3⟩

/-- Witness for C7: on a disk that fails the first `blockWrite` and leaves the
block `BioWriting` for one round, `fsEpochLow(fs, 3)` on `okWorld`
(`fs->ehi = 5`) returns 1 after one retry and one `vtSleep`, with `fs->elo` and
the packed `epochLow` equal to 3. -/
theorem fsEpochLow_outcome_witness :
    fsEpochLow slowEnv 2 okWorld 3 =
        .done 1 { lowWorld slowEnv okWorld 3 okBlock with
          trace := lowWritten slowEnv okWorld 3 okBlock 1 ++
            List.replicate 1 (.vtSleep okBlock) ++ [.blockPut okBlock, .vtUnlock .elk] } ∧
      (fsEpochLow slowEnv 2 okWorld 3).ret = some 1 ∧
      (fsEpochLow slowEnv 2 okWorld 3).world.fs = { okWorld.fs with elo := 3 } ∧
      (fsEpochLow slowEnv 2 okWorld 3).world.super = { okSuper with epochLow := 3 } ∧
      (fsEpochLow slowEnv 2 okWorld 3).world.trace =
        [.vtLock .elk, .cacheLocal PartSuper 0 1, .superUnpack okBlock,
          .superPack { okSuper with epochLow := 3 } okBlock, .blockDirty okBlock,
          .blockWrite okBlock, .sleep 0, .blockWrite okBlock, .vtSleep okBlock,
          .blockPut okBlock, .vtUnlock .elk] :=
  ⟨(fsEpochLow_outcome slowEnv okWorld 3 okBlock (by decide) (by rfl) (by rfl)).2.1 1 1 2
      (by decide) (by decide) (by unfold WritesAt; decide) (by unfold StaysWriting; decide)
      (Or.inl (by decide)),
    by decide, by decide, by decide, by decide⟩

/-- C7, counterexample: in `okWorld` (`fs->ehi = 5`) the call
`fsEpochLow(fs, 3)` has `low <= fs->ehi` and its `superGet` succeeds, yet on a
disk that refuses every `blockWrite` it is still in the loop of `superPut`
whatever the fuel, and with a super-block in the state `BioReadError` after
the write the `assert` of `superPut` stops it: it does not return 1. -/
theorem fsEpochLow_never_returns :
    3 ≤ okWorld.fs.ehi ∧
    (superGet deadDiskEnv (okWorld.log (.vtLock .elk))).1 = some (okBlock, okSuper) ∧
    (∀ fuel, fsEpochLow deadDiskEnv fuel okWorld 3 =
      .hang { lowWorld deadDiskEnv okWorld 3 okBlock with
        trace := (lowWorld deadDiskEnv okWorld 3 okBlock).trace ++ retries okBlock fuel }) ∧
    (∀ fuel, (fsEpochLow deadDiskEnv fuel okWorld 3).ret = none) ∧
    (superGet ioErrorEnv (okWorld.log (.vtLock .elk))).1 = some (okBlock, okSuper) ∧
    (∀ fuel, 0 < fuel → fsEpochLow ioErrorEnv fuel okWorld 3 =
      .abort { lowWorld ioErrorEnv okWorld 3 okBlock with
        trace := lowWritten ioErrorEnv okWorld 3 okBlock 0 }) ∧
    (fsEpochLow ioErrorEnv 1 okWorld 3).ret = none ∧
    (fsEpochLow ioErrorEnv 1 okWorld 3).world.trace =
      [.vtLock .elk, .cacheLocal PartSuper 0 1, .superUnpack okBlock,
        .superPack { okSuper with epochLow := 3 } okBlock, .blockDirty okBlock,
        .blockWrite okBlock] := by
  have hdead : ∀ fuel, fsEpochLow deadDiskEnv fuel okWorld 3 =
      .hang { lowWorld deadDiskEnv okWorld 3 okBlock with
        trace := (lowWorld deadDiskEnv okWorld 3 okBlock).trace ++ retries okBlock fuel } :=
    fun fuel => fsEpochLow_dead deadDiskEnv okWorld 3 okBlock fuel (by decide) (by rfl)
      (by rfl) (fun _ => rfl)
  refine ⟨by decide, by decide, hdead, fun fuel => by rw [hdead fuel]; rfl, by decide, ?_,
    by decide, by decide⟩
  intro fuel hf
  have h := fsEpochLow_assert ioErrorEnv okWorld 3 okBlock 0 0 fuel (by decide) (by rfl)
    (by rfl) hf hf ⟨fun i hi => absurd hi (Nat.not_lt_zero i), rfl⟩
    (fun j hj => absurd hj (Nat.not_lt_zero j)) (by decide) (by decide) (by decide)
  simpa using h

end Fossil
